import Mathlib

/-!
# Inventory selection widget (`inventory_ui.cpp`): shallow embedding

The definitions below follow `src/src/inventory_ui.cpp` function by function.
Vectors are lists, `size_t` values are natural numbers (with an explicit
`% 2 ^ 64` where the source relies on unsigned wrap-around), pointers to
categories are optional values (`none` is `nullptr`), and loops that the source
does not bound carry an explicit fuel argument and return `none` when the fuel
runs out.
-/

namespace InventoryUI

/-! ## Constants (lines 24-37) -/

/-- The minimal gap between two cells. -/
def min_cell_gap : Int := 2

/-- The gap between two cells when screen space is limited. -/
def normal_cell_gap : Nat := 4

/-- The minimal gap between the first cell and denial. -/
def min_denial_gap : Nat := 2

/-- Number of values of a `size_t` (64-bit unsigned). -/
def size_t_range : Nat := 2 ^ 64

/-! ## Data model -/

/-- Modelled from the spec: the external `item_category` with identifier,
displayed name and rank used for ordering.  A `const item_category *` is
modelled as `Option item_category`; two pointers are equal when they are both
null or point to equal categories. -/
structure item_category where
  id : String
  name : String
  sort_rank : Int
deriving DecidableEq, Repr

/-- Modelled from the spec: the external item behind an `item_location`, with
the fields that `inventory_ui.cpp` reads.  `id` stands for the identity
(address) of the item. -/
structure item where
  id : Nat
  category : item_category
  tname : String := ""
  invlet : Int := 0
  count_by_charges : Bool := false
  charges : Int := 0
deriving DecidableEq, Repr

/-- Modelled from the spec: an `item_location`, the opaque handle to an
external item; `none` is `item_location::nowhere`. -/
abbrev item_location := Option item

/-- Modelled from the spec: the enumeration `scroll_direction` of the missing
header; `int( dir )` is `1` forwards and `-1` backwards. -/
inductive scroll_direction where
  | FORWARD
  | BACKWARD
deriving DecidableEq, Repr

/-- The value `int( dir )`. -/
def scroll_direction.toInt : scroll_direction → Int
  | .FORWARD => 1
  | .BACKWARD => -1

/-- The value of `int( dir )` after conversion to `size_t` in an unsigned sum. -/
def scroll_direction.to_size_t : scroll_direction → Nat
  | .FORWARD => 1
  | .BACKWARD => size_t_range - 1

/-- Modelled from the spec: the enumeration `navigation_mode` of the missing
header, with the two states ITEM and CATEGORY. -/
inductive navigation_mode where
  | ITEM
  | CATEGORY
deriving DecidableEq, Repr

/-- Modelled from the spec: the class `inventory_entry` of the missing header,
one row of a column, with the members that `inventory_ui.cpp` reads and
writes.  `custom_invlet = none` stands for the `LONG_MIN` sentinel.  The
default value is the entry built by `inventory_entry()`. -/
structure inventory_entry where
  location : item_location := none
  stack_size : Nat := 0
  custom_category : Option item_category := none
  enabled : Bool := true
  chosen_count : Nat := 0
  custom_invlet : Option Int := none
deriving DecidableEq, Repr

/-- The entry built by `inventory_entry( custom_category )`: no location,
stack size zero. -/
def category_entry (cat : Option item_category) : inventory_entry :=
  { custom_category := cat }

/-- The entry built by `inventory_entry()`. -/
def null_entry : inventory_entry := {}

/-- Source lines 112-117: `inventory_entry::get_category_ptr`. -/
def inventory_entry.get_category_ptr (e : inventory_entry) : Option item_category :=
  match e.custom_category with
  | some c => some c
  | none =>
    match e.location with
    | some it => some it.category
    | none => none

/-- Modelled from the spec: `inventory_entry::is_item` of the missing header;
an entry is an item entry when it has a backing reference. -/
def inventory_entry.is_item (e : inventory_entry) : Bool :=
  e.location.isSome

/-- Modelled from the spec: `inventory_entry::is_null` of the missing header;
the blank entry is the one without a category. -/
def inventory_entry.is_null (e : inventory_entry) : Bool :=
  e.get_category_ptr.isNone

/-- Modelled from the spec: `inventory_entry::is_category` of the missing
header; a header row is neither an item nor blank. -/
def inventory_entry.is_category (e : inventory_entry) : Bool :=
  !e.is_item && !e.is_null

/-- Modelled from the spec: `inventory_entry::is_selectable` of the missing
header; exactly the enabled item entries are selectable. -/
def inventory_entry.is_selectable (e : inventory_entry) : Bool :=
  e.is_item && e.enabled

/-- Source lines 52-54: `inventory_entry::operator==`. -/
def inventory_entry.equals (a b : inventory_entry) : Bool :=
  decide (a.get_category_ptr = b.get_category_ptr) && decide (a.location = b.location)

/-- Source lines 86-92: `inventory_entry::get_available_count`, converted to
`size_t` (negative charges wrap). -/
def inventory_entry.get_available_count (e : inventory_entry) : Nat :=
  match e.location with
  | some it =>
    if e.stack_size = 1 then
      (if it.count_by_charges then (it.charges % (size_t_range : Int)).toNat else 1)
    else e.stack_size
  | none => e.stack_size

/-- Source lines 94-99: `inventory_entry::get_invlet`. -/
def inventory_entry.get_invlet (e : inventory_entry) : Int :=
  match e.custom_invlet with
  | some k => k
  | none =>
    match e.location with
    | some it => it.invlet
    | none => 0

/-- Modelled from the spec: the struct `cell_t` of the missing header, the
width bookkeeping of one cell of a column (required and rendered width). -/
structure cell_t where
  real_width : Nat := 0
  current_width : Nat := 0
deriving DecidableEq, Repr

/-- Modelled from the spec: `cell_t::visible` of the missing header. -/
def cell_t.visible (c : cell_t) : Bool :=
  decide (0 < c.current_width)

/-- Modelled from the spec: `cell_t::gap` of the missing header, the signed
difference between rendered and required width. -/
def cell_t.gap (c : cell_t) : Int :=
  (c.current_width : Int) - (c.real_width : Int)

/-- Modelled from the spec: one display field of a preset
(`inventory_selector_preset::cell_t` of the missing header), built by
`append_cell` (line 222) from a text function, a title and a stub. -/
structure preset_cell where
  func : inventory_entry → String
  title : String := ""
  stub : String := ""

/-- Modelled from the spec: the part of `inventory_selector_preset` used by a
column, namely its cells and the overridable `get_denial` and `sort_compare`. -/
structure inventory_selector_preset where
  cells : List preset_cell
  get_denial : item_location → String
  sort_compare : item_location → item_location → Bool

/-- Modelled from the spec: the class `inventory_column` of the missing
header, with the members that `inventory_ui.cpp` reads and writes. -/
structure inventory_column where
  entries : List inventory_entry := []
  cells : List cell_t := []
  mode : navigation_mode := navigation_mode.ITEM
  active : Bool := false
  multiselect : Bool := false
  paging_is_valid : Bool := false
  visibility : Bool := true
  selected_index : Nat := 0
  page_offset : Nat := 0
  entries_per_page : Nat := size_t_range - 1
  reserved_width : Nat := 0
deriving DecidableEq, Repr

/-- External collaborators of the column code that are not part of
`inventory_ui.cpp`: text measurement, colour-tag replacement, the
`ITEM_SYMBOLS` option, the virtual `allows_selecting` of the column class and
the library routine `std::sort`. -/
structure externals where
  utf8_width : String → Nat
  replace_colors : String → String
  item_symbols : Bool
  allows_selecting : inventory_column → Bool
  std_sort : (inventory_entry → inventory_entry → Bool) → List inventory_entry →
    List inventory_entry

/-! ## Preset queries (lines 171-201) -/

/-- Source lines 171-187: `inventory_selector_preset::get_cell_text`. -/
def get_cell_text (X : externals) (P : inventory_selector_preset) (entry : inventory_entry)
    (cell_index : Nat) : String :=
  match P.cells.get? cell_index with
  | none => "it\x27s a bug!"
  | some cell =>
    if entry.is_null then ""
    else if entry.is_item then X.replace_colors (cell.func entry)
    else if cell_index ≠ 0 then X.replace_colors cell.title
    else
      match entry.get_category_ptr with
      | some cat => cat.name
      | none => ""

/-- Source lines 189-192: `inventory_selector_preset::get_cell_width`. -/
def get_cell_width (X : externals) (P : inventory_selector_preset) (entry : inventory_entry)
    (cell_index : Nat) : Nat :=
  X.utf8_width (get_cell_text X P entry cell_index)

/-- Source lines 194-201: `inventory_selector_preset::is_stub_cell`. -/
def is_stub_cell (X : externals) (P : inventory_selector_preset) (entry : inventory_entry)
    (cell_index : Nat) : Bool :=
  if !entry.is_item then false
  else
    let text := get_cell_text X P entry cell_index
    decide (text = "") || decide (some text = (P.cells.get? cell_index).map preset_cell.stub)

/-! ## Column queries -/

/-- Row `index` of a list of entries (`entries[index]`); outside the list the
source has no defined value and the model returns the null entry. -/
def entry_at (entries : List inventory_entry) (index : Nat) : inventory_entry :=
  entries.getD index null_entry

/-- Source lines 119-124: `inventory_column::activatable`. -/
def activatable (c : inventory_column) : Bool :=
  c.entries.any inventory_entry.is_selectable

/-- Source lines 295-300: `inventory_column::get_cells_width`. -/
def get_cells_width (c : inventory_column) : Nat :=
  c.cells.foldl (fun lhs cell => lhs + cell.current_width) 0

/-- Source lines 136-139: `inventory_column::get_width`. -/
def get_width (c : inventory_column) : Nat :=
  max (get_cells_width c) c.reserved_width

/-- Source lines 141-143: `inventory_column::get_height`. -/
def get_height (c : inventory_column) : Nat :=
  min c.entries.length c.entries_per_page

/-- Source lines 548-561: `inventory_column::get_entry_indent`. -/
def get_entry_indent (X : externals) (c : inventory_column) (entry : inventory_entry) : Nat :=
  if !entry.is_item then 0
  else
    2 + (if X.item_symbols then 2 else 0)
      + (if X.allows_selecting c && c.multiselect then 2 else 0)

/-- Source lines 284-293: `inventory_column::get_entry_cell_width`. -/
def get_entry_cell_width (X : externals) (P : inventory_selector_preset) (c : inventory_column)
    (entry : inventory_entry) (cell_index : Nat) : Nat :=
  get_cell_width X P entry cell_index
    + (if cell_index = 0 then get_entry_indent X c entry else 0)

/-- Source lines 302-305: `inventory_column::get_entry_denial`. -/
def get_entry_denial (P : inventory_selector_preset) (entry : inventory_entry) : String :=
  if entry.is_item then P.get_denial entry.location else ""

/-- Source lines 392-394: `inventory_column::page_of( size_t )`.  The source
divides by `entries_per_page`, which `set_height` keeps non-zero. -/
def page_of (c : inventory_column) (index : Nat) : Nat :=
  index / c.entries_per_page

/-- Source lines 396-398: `inventory_column::page_of( const inventory_entry & )`,
the page of the first row equal to `entry` (`std::find` yields the end of the
list when there is none). -/
def page_of_entry (c : inventory_column) (entry : inventory_entry) : Nat :=
  page_of c (c.entries.findIdx (fun e => e.equals entry))

/-- Modelled from the spec: `inventory_column::page_index` of the missing
header, the page that contains the page offset. -/
def page_index (c : inventory_column) : Nat :=
  page_of c c.page_offset

/-- Source lines 412-418: `inventory_column::get_selected`. -/
def get_selected (c : inventory_column) : inventory_entry :=
  if c.entries.length ≤ c.selected_index || !(entry_at c.entries c.selected_index).is_item then
    null_entry
  else entry_at c.entries c.selected_index

/-- Source lines 405-410: `inventory_column::is_selected_by_category`. -/
def is_selected_by_category (c : inventory_column) (entry : inventory_entry) : Bool :=
  entry.is_item && decide (c.mode = navigation_mode.CATEGORY)
    && decide (entry.get_category_ptr = (get_selected c).get_category_ptr)
    && decide (page_of_entry c entry = page_index c)

/-! ## Cell widths (lines 355-379) -/

/-- The loop of `expand_to_fit` (lines 363-373) over the cells from index `i`
on; only cells with index below `num` are touched. -/
def expand_cells (X : externals) (P : inventory_selector_preset) (c : inventory_column)
    (entry : inventory_entry) (num : Nat) : Nat → List cell_t → List cell_t
  | _, [] => []
  | i, cell :: rest =>
    (if i < num then
      let real_width := max cell.real_width (get_entry_cell_width X P c entry i)
      let cell1 : cell_t := { cell with real_width := real_width }
      if cell1.visible || (entry.is_item && !is_stub_cell X P entry i) then
        let cell_gap := if 0 < i then normal_cell_gap else 0
        { cell1 with current_width := max cell1.current_width (cell_gap + cell1.real_width) }
      else cell1
    else cell) :: expand_cells X P c entry num (i + 1) rest

/-- Source lines 355-379: `inventory_column::expand_to_fit`. -/
def expand_to_fit (X : externals) (P : inventory_selector_preset) (c : inventory_column)
    (entry : inventory_entry) : inventory_column :=
  if entry.is_null then c
  else
    let denial := get_entry_denial P entry
    let num := if denial = "" then c.cells.length else 1
    let c1 := { c with cells := expand_cells X P c entry num 0 c.cells }
    if denial ≠ "" then
      let needed := get_entry_cell_width X P c1 entry 0 + min_denial_gap + X.utf8_width denial
      { c1 with reserved_width := max needed c1.reserved_width }
    else c1

/-! ## Navigation (lines 225-264) -/

/-- The `do ... while` loop of `next_selectable_index` (lines 244-250); one unit
of fuel per iteration. -/
def next_selectable_loop (entries : List inventory_entry) (index : Nat)
    (dir : scroll_direction) : Nat → Nat → Option Nat
  | 0, _ => none
  | fuel + 1, new_index =>
    let stepped := (new_index + dir.to_size_t + entries.length) % size_t_range % entries.length
    if stepped ≠ index ∧ !(entry_at entries stepped).is_selectable then
      next_selectable_loop entries index dir fuel stepped
    else some stepped

/-- Source lines 237-253: `inventory_column::next_selectable_index`. -/
def next_selectable_index (fuel : Nat) (entries : List inventory_entry) (index : Nat)
    (dir : scroll_direction) : Option Nat :=
  if entries.isEmpty then some index
  else next_selectable_loop entries index dir fuel index

/-- Source lines 225-235: `inventory_column::select`. -/
def select (fuel : Nat) (c : inventory_column) (new_index : Nat) (dir : scroll_direction) :
    Option inventory_column :=
  if new_index < c.entries.length then
    let target :=
      if !(entry_at c.entries new_index).is_selectable then
        next_selectable_index fuel c.entries new_index dir
      else some new_index
    target.map (fun idx =>
      { c with selected_index := idx, page_offset := idx - idx % c.entries_per_page })
  else some c

/-- The `do ... while` loop of `move_selection` (lines 259-261); `fuel` bounds
the iterations of this loop, `inner` those of each `next_selectable_index`. -/
def move_selection_loop (inner : Nat) (c : inventory_column) (dir : scroll_direction) :
    Nat → Nat → Option Nat
  | 0, _ => none
  | fuel + 1, index =>
    match next_selectable_index inner c.entries index dir with
    | none => none
    | some next =>
      if next ≠ c.selected_index ∧ is_selected_by_category c (entry_at c.entries next) then
        move_selection_loop inner c dir fuel next
      else some next

/-- Source lines 255-264: `inventory_column::move_selection`. -/
def move_selection (fuel : Nat) (c : inventory_column) (dir : scroll_direction) :
    Option inventory_column :=
  match move_selection_loop fuel c dir fuel c.selected_index with
  | none => none
  | some index => select fuel c index dir

/-! ## Pagination (lines 486-528) -/

/-- The comparison passed to `std::sort` in `prepare_paging` (lines 503-508). -/
def paging_compare (P : inventory_selector_preset) (lhs rhs : inventory_entry) : Bool :=
  if lhs.is_selectable ≠ rhs.is_selectable then lhs.is_selectable
  else P.sort_compare lhs.location rhs.location

/-- Inner scan of the sorting loop (lines 499-509): `run` is the range from
`from` up to `to`, whose rows share the category `from_cat` of `from`; the
remaining list starts at `to`.  The scan extends the run while the category
stays the same, then sorts it and starts the next run. -/
def sort_categories_scan (X : externals) (P : inventory_selector_preset)
    (from_cat : Option item_category) (run : List inventory_entry) :
    List inventory_entry → List inventory_entry
  | [] => X.std_sort (paging_compare P) run
  | e :: rest =>
    if from_cat = e.get_category_ptr then
      sort_categories_scan X P from_cat (run ++ [e]) rest
    else
      X.std_sort (paging_compare P) run ++ sort_categories_scan X P e.get_category_ptr [e] rest

/-- Source lines 497-510: sort every maximal run of rows of one category. -/
def sort_categories (X : externals) (P : inventory_selector_preset) :
    List inventory_entry → List inventory_entry
  | [] => []
  | e :: rest => sort_categories_scan X P e.get_category_ptr [e] rest

/-- The result of `entries.insert( entries.begin() + i, insertion )`. -/
def insert_at (entries : List inventory_entry) (i : Nat) (insertion : inventory_entry) :
    List inventory_entry :=
  entries.take i ++ insertion :: entries.drop i

/-- Source lines 512-523: the loop that recovers the category rows; one unit of
fuel per iteration (including the final test of the loop condition).  The
source computes `i % entries_per_page`, so a zero page size is outside the
model. -/
def recover_categories (X : externals) (P : inventory_selector_preset) :
    Nat → inventory_column → Option item_category → Nat → Option inventory_column
  | 0, _, _, _ => none
  | fuel + 1, c, current_category, i =>
    if i < c.entries.length then
      if (entry_at c.entries i).get_category_ptr = current_category
          ∧ i % c.entries_per_page ≠ 0 then
        recover_categories X P fuel c current_category (i + 1)
      else
        let category := (entry_at c.entries i).get_category_ptr
        let insertion :=
          if i % c.entries_per_page = c.entries_per_page - 1 then null_entry
          else category_entry category
        let c1 := { c with entries := insert_at c.entries i insertion }
        recover_categories X P fuel (expand_to_fit X P c1 insertion) category (i + 1)
    else some c

/-- Source lines 486-528: `inventory_column::prepare_paging`. -/
def prepare_paging (X : externals) (P : inventory_selector_preset) (fuel : Nat)
    (c : inventory_column) : Option inventory_column :=
  if c.paging_is_valid then some c
  else
    let items := c.entries.filter inventory_entry.is_item
    let sorted := sort_categories X P items
    match recover_categories X P fuel { c with entries := sorted } none 0 with
    | none => none
    | some c1 => select fuel { c1 with paging_is_valid := true } 0 scroll_direction.FORWARD

/-! ## Page-wise navigation (lines 266-282) -/

/-- The `do ... while` loop of `move_selection_page` (lines 270-279); `fuel`
bounds the iterations of this loop, `inner` those of each
`next_selectable_index`.  The result is the value of `index` after the loop. -/
def move_selection_page_loop (inner : Nat) (c : inventory_column) (dir : scroll_direction) :
    Nat → Nat → Option Nat
  | 0, _ => none
  | fuel + 1, index =>
    match next_selectable_index inner c.entries index dir with
    | none => none
    | some next_index =>
      let flipped := decide (next_index = c.selected_index)
        || (decide (c.selected_index < next_index) != decide (0 < dir.toInt))
      if flipped && decide (page_of c next_index = page_index c) then some index
      else
        match next_selectable_index inner c.entries next_index dir with
        | none => none
        | some following =>
          if page_of c following = page_index c then
            move_selection_page_loop inner c dir fuel next_index
          else some next_index

/-- Source lines 266-282: `inventory_column::move_selection_page`. -/
def move_selection_page (fuel : Nat) (c : inventory_column) (dir : scroll_direction) :
    Option inventory_column :=
  match move_selection_page_loop fuel c dir fuel c.selected_index with
  | none => none
  | some index => select fuel c index dir

/-! ## Width negotiation (lines 307-342 and 381-390) -/

/-- Source lines 381-390: `inventory_column::reset_width`. -/
def reset_width (X : externals) (P : inventory_selector_preset) (c : inventory_column) :
    inventory_column :=
  let cleared : inventory_column :=
    { c with cells := c.cells.map (fun _ => ({} : cell_t)), reserved_width := 0 }
  c.entries.foldl (fun acc elem => expand_to_fit X P acc elem) cleared

/-- The comparison `cmp_for_expansion` of lines 315-317. -/
def cmp_for_expansion (lhs rhs : cell_t) : Bool :=
  lhs.visible && decide (lhs.gap < rhs.gap)

/-- The comparison `cmp_for_shrinking` of lines 319-328. -/
def cmp_for_shrinking (lhs rhs : cell_t) : Bool :=
  if !lhs.visible then false
  else if rhs.gap ≤ min_cell_gap then decide (lhs.current_width < rhs.current_width)
  else decide (lhs.gap < rhs.gap)

/-- The scan of `std::min_element` after its first element: `best` at index
`best_index` is the smallest cell so far, the cell at index `i` comes next and
replaces it when it compares less. -/
def min_element_scan (comp : cell_t → cell_t → Bool) :
    Nat → cell_t → Nat → List cell_t → Nat
  | best_index, _, _, [] => best_index
  | best_index, best, i, x :: rest =>
    if comp x best then min_element_scan comp i x (i + 1) rest
    else min_element_scan comp best_index best (i + 1) rest

/-- The library routine `std::min_element` as the linear scan of the standard
library implementations: the index of the chosen cell, `none` for the end
iterator of an empty range. -/
def min_element (comp : cell_t → cell_t → Bool) : List cell_t → Option Nat
  | [] => none
  | x :: rest => some (min_element_scan comp 0 x 1 rest)

/-- The scan of `std::max_element` after its first element: the cell at index
`i` replaces `best` when `best` compares less than it. -/
def max_element_scan (comp : cell_t → cell_t → Bool) :
    Nat → cell_t → Nat → List cell_t → Nat
  | best_index, _, _, [] => best_index
  | best_index, best, i, x :: rest =>
    if comp best x then max_element_scan comp i x (i + 1) rest
    else max_element_scan comp best_index best (i + 1) rest

/-- The library routine `std::max_element` as the linear scan of the standard
library implementations. -/
def max_element (comp : cell_t → cell_t → Bool) : List cell_t → Option Nat
  | [] => none
  | x :: rest => some (max_element_scan comp 0 x 1 rest)

/-- The `while` loop of `set_width` (lines 312-340); one unit of fuel per
iteration of the body.  A visible cell has a positive width, so the decrement
does not wrap. -/
def set_width_loop : Nat → List cell_t → Int → Option (List cell_t)
  | 0, cells, width_gap => if width_gap = 0 then some cells else none
  | fuel + 1, cells, width_gap =>
    if width_gap = 0 then some cells
    else
      let chosen :=
        if width_gap < 0 then min_element cmp_for_expansion cells
        else max_element cmp_for_shrinking cells
      match chosen with
      | none => some cells
      | some i =>
        let cell := cells.getD i {}
        if !cell.visible then some cells
        else
          let resized : cell_t :=
            if width_gap < 0 then { cell with current_width := cell.current_width + 1 }
            else { cell with current_width := cell.current_width - 1 }
          set_width_loop fuel (cells.set i resized)
            (if width_gap < 0 then width_gap + 1 else width_gap - 1)

/-- The initial value `int width_gap = get_width() - width` of line 310: the
difference of two `size_t` values converted to a 32-bit `int`. -/
def initial_width_gap (current width : Nat) : Int :=
  Int.bmod ((current : Int) - (width : Int)) (2 ^ 32)

/-- Source lines 307-342: `inventory_column::set_width`. -/
def set_width (X : externals) (P : inventory_selector_preset) (fuel : Nat)
    (c : inventory_column) (width : Nat) : Option inventory_column :=
  let c1 := reset_width X P c
  (set_width_loop fuel c1.cells (initial_width_gap (get_width c1) width)).map
    (fun cells => { c1 with cells := cells, reserved_width := width })

/-! ## Adding and removing rows (lines 456-473 and 530-539) -/

/-- The predicate of `std::find_if` in `add_entry` (lines 463-469). -/
def add_entry_matches (entry cur : inventory_entry) : Bool :=
  decide (cur.get_category_ptr = entry.get_category_ptr)
    || (match cur.get_category_ptr, entry.get_category_ptr with
        | some cur_cat, some new_cat => decide (cur_cat.sort_rank ≤ new_cat.sort_rank)
        | _, _ => false)

/-- The index of `iter.base()` in `add_entry` (line 470): one past the last row
that satisfies the predicate, the front of the list when there is none. -/
def add_entry_index (entries : List inventory_entry) (entry : inventory_entry) : Nat :=
  entries.length - entries.reverse.findIdx (add_entry_matches entry)

/-- Source lines 456-473: `inventory_column::add_entry`. -/
def add_entry (X : externals) (P : inventory_selector_preset) (c : inventory_column)
    (entry : inventory_entry) : inventory_column :=
  if c.entries.any (fun e => e.equals entry) then c
  else
    let inserted : inventory_column :=
      { c with entries := insert_at c.entries (add_entry_index c.entries entry) entry }
    { expand_to_fit X P inserted entry with paging_is_valid := false }

/-- Source lines 530-539: `inventory_column::remove_entry`. -/
def remove_entry (c : inventory_column) (entry : inventory_entry) : inventory_column :=
  let i := c.entries.findIdx (fun e => e.equals entry)
  if i < c.entries.length then
    { c with entries := c.entries.eraseIdx i, paging_is_valid := false }
  else c

/-! ## The selection column (lines 689-727) -/

/-- Modelled from the spec: the class `selection_column` of the missing header,
a column together with its fixed pseudo-category `selected_cat` (line 691). -/
structure selection_column where
  base : inventory_column
  selected_cat : item_category

/-- Source lines 693-700: `selection_column::prepare_paging`. -/
def selection_column.prepare_paging (X : externals) (P : inventory_selector_preset)
    (fuel : Nat) (sc : selection_column) : Option selection_column :=
  match InventoryUI.prepare_paging X P fuel sc.base with
  | none => none
  | some paged_base =>
    if paged_base.entries.isEmpty then
      let header := category_entry (some sc.selected_cat)
      let extended : inventory_column :=
        { paged_base with entries := paged_base.entries ++ [header] }
      some { sc with base := expand_to_fit X P extended header }
    else some { sc with base := paged_base }

/-- The first part of `selection_column::on_change` (lines 704-717): the column
after the mirrored row was added, updated or removed. -/
def selection_column.mirror (X : externals) (P : inventory_selector_preset)
    (sc : selection_column) (my_entry : inventory_entry) : inventory_column :=
  let i := sc.base.entries.findIdx (fun e => e.equals my_entry)
  if my_entry.chosen_count ≠ 0 then
    if i < sc.base.entries.length then
      let row := entry_at sc.base.entries i
      let updated : inventory_column :=
        { sc.base with
          entries := sc.base.entries.set i { row with chosen_count := my_entry.chosen_count } }
      expand_to_fit X P updated my_entry
    else add_entry X P sc.base my_entry
  else remove_entry sc.base my_entry

/-- Source line 704: `inventory_entry my_entry( entry, selected_cat.get() )`, the
copy of `entry` whose custom category is the pseudo-category of the column. -/
def mirror_entry (sc : selection_column) (entry : inventory_entry) : inventory_entry :=
  { entry with custom_category := some sc.selected_cat }

/-- Source lines 702-727: `selection_column::on_change`. -/
def selection_column.on_change (X : externals) (P : inventory_selector_preset) (fuel : Nat)
    (sc : selection_column) (entry : inventory_entry) : Option selection_column :=
  let my_entry : inventory_entry := mirror_entry sc entry
  let mirrored : selection_column := { sc with base := selection_column.mirror X P sc my_entry }
  match selection_column.prepare_paging X P fuel mirrored with
  | none => none
  | some repaged =>
    let i := repaged.base.entries.findIdx (fun e => e.equals my_entry)
    let selected :=
      if i < repaged.base.entries.length then select fuel repaged.base i scroll_direction.FORWARD
      else
        select fuel repaged.base
          (if repaged.base.entries.isEmpty then 0 else repaged.base.entries.length - 1)
          scroll_direction.BACKWARD
    selected.map (fun b => { repaged with base := b })

/-! ## Further column operations -/

/-- Modelled from the spec: `inventory_column::empty` of the missing header. -/
def inventory_column.empty (c : inventory_column) : Bool :=
  c.entries.isEmpty

/-- Modelled from the spec: `inventory_column::visible` of the missing header;
a column is shown when it holds rows and its visibility flag is set. -/
def inventory_column.visible (c : inventory_column) : Bool :=
  !c.empty && c.visibility

/-- Modelled from the spec: `inventory_column::set_mode` of the missing
header. -/
def inventory_column.set_mode (c : inventory_column) (mode : navigation_mode) :
    inventory_column :=
  { c with mode := mode }

/-- Modelled from the spec: `inventory_column::set_visibility` of the missing
header. -/
def inventory_column.set_visibility (c : inventory_column) (visibility : Bool) :
    inventory_column :=
  { c with visibility := visibility }

/-- Modelled from the spec: `inventory_column::on_activate` of the missing
header, which marks the column as the active one. -/
def inventory_column.on_activate (c : inventory_column) : inventory_column :=
  { c with active := true }

/-- Modelled from the spec: `inventory_column::on_deactivate` of the missing
header. -/
def inventory_column.on_deactivate (c : inventory_column) : inventory_column :=
  { c with active := false }

/-- Source lines 344-353: `inventory_column::set_height`. -/
def set_height (c : inventory_column) (height : Nat) : inventory_column :=
  if c.entries_per_page ≠ height then
    if height = 0 then c
    else { c with entries_per_page := height, paging_is_valid := false }
  else c

/-- Source lines 400-403: `inventory_column::is_selected`. -/
def is_selected (c : inventory_column) (entry : inventory_entry) : Bool :=
  entry.equals (get_selected c) || (c.multiselect && is_selected_by_category c entry)

/-- Source lines 126-134: `inventory_column::find_by_invlet`; the pointer to a
row is its index. -/
def find_by_invlet (c : inventory_column) (invlet : Int) : Option Nat :=
  let i := c.entries.findIdx (fun elem => elem.is_item && decide (elem.get_invlet = invlet))
  if i < c.entries.length then some i else none

/-- Source lines 420-433: `inventory_column::get_all_selected`; the pointers to
the rows are their indices. -/
def get_all_selected (X : externals) (c : inventory_column) : List Nat :=
  if X.allows_selecting c then
    (List.range c.entries.length).filter (fun i => is_selected c (entry_at c.entries i))
  else []

/-- Source lines 435-454: `inventory_column::on_input`, for the action of the
input. -/
def inventory_column.on_input (fuel : Nat) (c : inventory_column) (action : String) :
    Option inventory_column :=
  if c.empty || !c.active then some c
  else if action = "DOWN" then move_selection fuel c scroll_direction.FORWARD
  else if action = "UP" then move_selection fuel c scroll_direction.BACKWARD
  else if action = "NEXT_TAB" then move_selection_page fuel c scroll_direction.FORWARD
  else if action = "PREV_TAB" then move_selection_page fuel c scroll_direction.BACKWARD
  else if action = "HOME" then select fuel c 0 scroll_direction.FORWARD
  else if action = "END" then select fuel c (c.entries.length - 1) scroll_direction.BACKWARD
  else some c

/-- Source lines 541-546: `inventory_column::clear`. -/
def clear (X : externals) (P : inventory_selector_preset) (fuel : Nat) (c : inventory_column) :
    Option inventory_column :=
  prepare_paging X P fuel { c with entries := [], paging_is_valid := false }

/-- Source lines 475-484: `inventory_column::move_entries_to`; the result is the
emptied column and the destination. -/
def move_entries_to (X : externals) (P : inventory_selector_preset) (fuel : Nat)
    (c dest : inventory_column) : Option (inventory_column × inventory_column) :=
  let filled := c.entries.foldl
    (fun d elem => if elem.is_item then add_entry X P d elem else d) dest
  match prepare_paging X P fuel filled with
  | none => none
  | some paged =>
    match clear X P fuel c with
    | none => none
    | some cleared => some (cleared, paged)

/-! ## Shortcut keys of a column (lines 563-573) -/

/-- The test `p.has_item( *elem.location )` of line 568; `has_item` is the
query of the player, an external collaborator. -/
def possessed (has_item : item → Bool) (elem : inventory_entry) : Bool :=
  match elem.location with
  | some it => has_item it
  | none => false

/-- The loop of lines 566-571 over the rows from `elem` on, with the value of
`cur_invlet` when it reaches them; the result is the rows and the final
`cur_invlet`.  The null key `'\0'` is `0`; `long` values are integers. -/
def reassign_custom_invlets_loop (has_item : item → Bool) (max_invlet : Int) :
    List inventory_entry → Int → List inventory_entry × Int
  | [], cur_invlet => ([], cur_invlet)
  | elem :: rest, cur_invlet =>
    if elem.is_selectable && !possessed has_item elem then
      if cur_invlet ≤ max_invlet then
        let r := reassign_custom_invlets_loop has_item max_invlet rest (cur_invlet + 1)
        ({ elem with custom_invlet := some cur_invlet } :: r.1, r.2)
      else
        let r := reassign_custom_invlets_loop has_item max_invlet rest cur_invlet
        ({ elem with custom_invlet := some 0 } :: r.1, r.2)
    else
      let r := reassign_custom_invlets_loop has_item max_invlet rest cur_invlet
      (elem :: r.1, r.2)

/-- Source lines 563-573: `inventory_column::reassign_custom_invlets`; the
result is the column and the returned key. -/
def reassign_custom_invlets (has_item : item → Bool) (c : inventory_column)
    (min_invlet max_invlet : Int) : inventory_column × Int :=
  let r := reassign_custom_invlets_loop has_item max_invlet c.entries min_invlet
  ({ c with entries := r.1 }, r.2)
/-! ## The selector (lines 751-786, 884-929 and 1258-1368) -/

/-- The gap of line 33, `min_column_gap`. -/
def min_column_gap : Int := 2

/-- The gap of line 35, `normal_column_gap`. -/
def normal_column_gap : Int := 8

/-- Modelled from the spec: a `tripoint`, the coordinate of an origin. -/
structure tripoint where
  x : Int
  y : Int
  z : Int
deriving DecidableEq, Repr

/-- The columns that a selector can hold in its vector `columns` of pointers:
its members `own_inv_column`, `map_column` and `own_gear_column`, and the
`selection_col` of an `inventory_multiselector`. -/
inductive column_id where
  | OWN_INV
  | MAP
  | OWN_GEAR
  | SELECTION
deriving DecidableEq, Repr

/-- A pointer to a row (`inventory_entry *`): the column that holds the row
and the index of the row in it. -/
structure entry_ptr where
  column : column_id
  index : Nat
deriving DecidableEq, Repr

/-- External collaborators of the selector code: those of its own columns
(`X`, with the preset `P` of the selector) and of the selection column (`SX`,
with the static `selection_preset` as `SP`), the query `has_item` of the
player, the distance `rl_dist( u.pos(), pos )` and the text
`direction_suffix( u.pos(), pos )` of an origin, the virtual `activatable` of
the selection column, whose override is in the missing header, the size
`TERMX` by `TERMY` of the terminal, and the texts of the footer (lines
1168-1175) for a mode when there are choices and when there are none. -/
structure selector_env where
  X : externals
  P : inventory_selector_preset
  SX : externals
  SP : inventory_selector_preset
  has_item : item → Bool
  rl_dist : tripoint → Int
  direction_suffix : tripoint → String
  selection_activatable : selection_column → Bool
  TERMX : Int
  TERMY : Int
  footer : navigation_mode → String
  no_choices_footer : String

/-- Modelled from the spec: the class `inventory_selector` of the missing
header with the members that `inventory_ui.cpp` reads and writes.  The vector
`columns` of pointers is a list of `column_id`; `dummy` is the static column
that `get_column` returns for an index outside the vector; `multiselector`
tells whether the object is an `inventory_multiselector`, for the virtual call
of `rearrange_columns`; `stats` is the result of `get_stats()` (lines 996-1057),
texts about the player; `win_width` and `win_height` are the size of the window
`w_inv`. -/
structure inventory_selector where
  own_inv_column : inventory_column := {}
  own_gear_column : inventory_column := {}
  map_column : inventory_column := {}
  selection_col : selection_column
  dummy : inventory_column := {}
  columns : List column_id := []
  active_column_index : Nat := 0
  mode : navigation_mode := navigation_mode.ITEM
  categories : List item_category := []
  items : List item_location := []
  layout_is_valid : Bool := false
  multiselector : Bool := false
  title : String := ""
  hint : String := ""
  display_stats : Bool := false
  stats : List String := []
  border : Int := 0
  win_width : Int := 0
  win_height : Int := 0

/-- The column behind a pointer of `columns`. -/
def get_col (s : inventory_selector) : column_id → inventory_column
  | .OWN_INV => s.own_inv_column
  | .MAP => s.map_column
  | .OWN_GEAR => s.own_gear_column
  | .SELECTION => s.selection_col.base

/-- The selector after an assignment to the column behind a pointer. -/
def set_col (s : inventory_selector) (id : column_id) (c : inventory_column) :
    inventory_selector :=
  match id with
  | .OWN_INV => { s with own_inv_column := c }
  | .MAP => { s with map_column := c }
  | .OWN_GEAR => { s with own_gear_column := c }
  | .SELECTION => { s with selection_col := { s.selection_col with base := c } }

/-- The row behind a pointer. -/
def entry_of (s : inventory_selector) (p : entry_ptr) : inventory_entry :=
  entry_at (get_col s p.column).entries p.index

/-- The selector after an assignment to the row behind a pointer. -/
def set_entry (s : inventory_selector) (p : entry_ptr) (e : inventory_entry) :
    inventory_selector :=
  set_col s p.column
    { get_col s p.column with entries := (get_col s p.column).entries.set p.index e }

/-- Source lines 1277-1284: `inventory_selector::get_column`. -/
def get_column (s : inventory_selector) (index : Nat) : inventory_column :=
  match s.columns.get? index with
  | some id => get_col s id
  | none => s.dummy

/-- The selector after an assignment to the column that `get_column( index )`
refers to. -/
def set_column (s : inventory_selector) (index : Nat) (c : inventory_column) :
    inventory_selector :=
  match s.columns.get? index with
  | some id => set_col s id c
  | none => { s with dummy := c }

/-- Modelled from the spec: `inventory_selector::get_active_column` of the
missing header, the column at `active_column_index`. -/
def get_active_column (s : inventory_selector) : inventory_column :=
  get_column s s.active_column_index

/-- The virtual call `get_column( index ).activatable()`: lines 119-124 for the
columns of the selector, the override of the missing header for the selection
column. -/
def column_activatable (env : selector_env) (s : inventory_selector) (index : Nat) : Bool :=
  match s.columns.get? index with
  | some .SELECTION => env.selection_activatable s.selection_col
  | some id => activatable (get_col s id)
  | none => activatable s.dummy

/-- Source lines 1266-1275: `inventory_selector::get_visible_columns`. -/
def get_visible_columns (s : inventory_selector) : List column_id :=
  s.columns.filter (fun id => (get_col s id).visible)

/-- Source lines 1295-1301: `inventory_selector::get_columns_width`.  The sum
is accumulated in an `int` (the initial value `0` of `std::accumulate`) and
returned as `size_t`. -/
def get_columns_width (s : inventory_selector) (columns : List column_id) : Nat :=
  ((columns.foldl
      (fun (lhs : Int) id =>
        Int.bmod ((lhs % (size_t_range : Int)) + (get_width (get_col s id) : Int)) (2 ^ 32))
      0) % (size_t_range : Int)).toNat

/-- The local `free_width` of `get_columns_occupancy_ratio` (lines 1306-1307),
an `int`. -/
def free_width (s : inventory_selector) (client_width : Nat) : Int :=
  Int.bmod
    ((client_width : Int) - (get_columns_width s (get_visible_columns s) : Int)
      - min_column_gap * max (Int.bmod ((get_visible_columns s).length : Int) (2 ^ 32) - 1) 0)
    (2 ^ 32)

/-- Source lines 1311-1313: `inventory_selector::are_columns_centered`, the
test `1.0 - double( free_width ) / client_width >= 0.65` of the occupancy
ratio of lines 1303-1309, with the arithmetic of `double` taken as exact: for a
non-zero width it holds when `free_width / client_width <= 7 / 20`, for the
width zero (a division by zero) when `free_width` is negative. -/
def are_columns_centered (s : inventory_selector) (client_width : Nat) : Bool :=
  if client_width = 0 then decide (free_width s client_width < 0)
  else decide (20 * free_width s client_width ≤ 7 * (client_width : Int))

/-- Source lines 1315-1317: `inventory_selector::is_overflown`, the test
`1.0 - double( free_width ) / client_width > 1.0` of the occupancy ratio, with
the arithmetic of `double` taken as exact: it holds when `free_width` is
negative. -/
def is_overflown (s : inventory_selector) (client_width : Nat) : Bool :=
  decide (free_width s client_width < 0)

/-- The value `get_navigation_data( m ).next_mode` of lines 1362-1368. -/
def next_mode : navigation_mode → navigation_mode
  | .ITEM => .CATEGORY
  | .CATEGORY => .ITEM

/-- Source lines 1341-1347: `inventory_selector::toggle_navigation_mode`. -/
def toggle_navigation_mode (s : inventory_selector) : inventory_selector :=
  s.columns.foldl (fun t elem => set_col t elem ((get_col t elem).set_mode (next_mode s.mode)))
    { s with mode := next_mode s.mode }

/-- Source lines 1349-1358: `inventory_selector::append_column`. -/
def append_column (s : inventory_selector) (column : column_id) : inventory_selector :=
  let s1 := set_col s column ((get_col s column).set_mode s.mode)
  let s2 := if s1.columns.isEmpty then set_col s1 column (get_col s1 column).on_activate else s1
  { s2 with columns := s2.columns ++ [column] }

/-- Source lines 1286-1293: `inventory_selector::set_active_column`. -/
def set_active_column (env : selector_env) (s : inventory_selector) (index : Nat) :
    inventory_selector :=
  if index < s.columns.length && index != s.active_column_index
      && column_activatable env s index then
    let s1 := set_column s s.active_column_index (get_active_column s).on_deactivate
    let s2 := { s1 with active_column_index := index }
    set_column s2 index (get_active_column s2).on_activate
  else s

/-- The step of the loop of `toggle_active_column` (lines 1328-1335). -/
def toggle_active_column_step (s : inventory_selector) (dir : scroll_direction)
    (index : Nat) : Nat :=
  match dir with
  | .FORWARD => if index + 1 < s.columns.length then index + 1 else 0
  | .BACKWARD => if 0 < index then index - 1 else s.columns.length - 1

/-- The `do ... while` loop of `toggle_active_column` (lines 1327-1336), one
unit of fuel per iteration; the result is the final `index`. -/
def toggle_active_column_loop (env : selector_env) (s : inventory_selector)
    (dir : scroll_direction) : Nat → Nat → Option Nat
  | 0, _ => none
  | fuel + 1, index =>
    let next := toggle_active_column_step s dir index
    if next != s.active_column_index && !column_activatable env s next then
      toggle_active_column_loop env s dir fuel next
    else some next

/-- Source lines 1319-1339: `inventory_selector::toggle_active_column`. -/
def toggle_active_column (env : selector_env) (fuel : Nat) (s : inventory_selector)
    (dir : scroll_direction) : Option inventory_selector :=
  if s.columns.isEmpty then some s
  else
    (toggle_active_column_loop env s dir fuel s.active_column_index).map
      (fun index => set_active_column env s index)

/-- Modelled from the spec: `inventory_selector::refresh_active_column` of the
missing header: when the active column can no longer be activated (the comments
of lines 1254 and 1263) the next column that can is made the active one. -/
def refresh_active_column (env : selector_env) (fuel : Nat) (s : inventory_selector) :
    Option inventory_selector :=
  if !column_activatable env s s.active_column_index then
    toggle_active_column env fuel s scroll_direction.FORWARD
  else some s

/-- The text `string_format( "%s_%s", a, b )` of line 764. -/
def format_id (a b : String) : String :=
  a ++ "_" ++ b

/-- The text `string_format( "%s %s", a, b )` of line 771. -/
def format_name (a b : String) : String :=
  a ++ " " ++ b

/-- The local `find_cat_by_id` of lines 753-758. -/
def find_cat_by_id (categories : List item_category) (id : String) : Option item_category :=
  categories.find? (fun cat => decide (cat.id = id))

/-- Source lines 751-786: `inventory_selector::naturalize_category`; the result
is the category behind the returned pointer and the selector. -/
def naturalize_category (env : selector_env) (s : inventory_selector)
    (category : item_category) (pos : tripoint) : item_category × inventory_selector :=
  let dist := env.rl_dist pos
  if dist ≠ 0 then
    let suffix := env.direction_suffix pos
    let id := format_id category.id suffix
    match find_cat_by_id s.categories id with
    | some existing => (existing, s)
    | none =>
      let new_category : item_category :=
        { id := id, name := format_name category.name suffix,
          sort_rank := category.sort_rank + dist }
      (new_category, { s with categories := s.categories ++ [new_category] })
  else
    match find_cat_by_id s.categories category.id with
    | some existing => (existing, s)
    | none => (category, { s with categories := s.categories ++ [category] })

/-- Source lines 884-893: `inventory_selector::find_entry_by_invlet`. -/
def find_entry_by_invlet (s : inventory_selector) (invlet : Int) : Option entry_ptr :=
  s.columns.findSome? (fun elem =>
    (find_by_invlet (get_col s elem) invlet).map (fun i => ({ column := elem, index := i } :
      entry_ptr)))
/-- The collaborators of the column behind a pointer. -/
def col_externals (env : selector_env) : column_id → externals
  | .SELECTION => env.SX
  | _ => env.X

/-- The preset of the column behind a pointer. -/
def col_preset (env : selector_env) : column_id → inventory_selector_preset
  | .SELECTION => env.SP
  | _ => env.P

/-- The virtual call `elem->prepare_paging()` on the column behind a pointer:
lines 486-528, and lines 693-700 for the selection column. -/
def column_prepare_paging (env : selector_env) (fuel : Nat) (s : inventory_selector)
    (elem : column_id) : Option inventory_selector :=
  match elem with
  | .SELECTION =>
    (selection_column.prepare_paging env.SX env.SP fuel s.selection_col).map
      (fun sc => { s with selection_col := sc })
  | _ => (prepare_paging env.X env.P fuel (get_col s elem)).map (fun c => set_col s elem c)

/-- The virtual call `elem->on_change( entry )` on the column behind a pointer:
lines 702-727 for the selection column; modelled from the spec for the other
columns, which do not react (the empty `inventory_column::on_change` of the
missing header). -/
def column_on_change (env : selector_env) (fuel : Nat) (s : inventory_selector)
    (entry : inventory_entry) (elem : column_id) : Option inventory_selector :=
  match elem with
  | .SELECTION =>
    (selection_column.on_change env.SX env.SP fuel s.selection_col entry).map
      (fun sc => { s with selection_col := sc })
  | _ => some s

/-- A loop `for( auto &elem : columns )` whose body may not return. -/
def for_each_column (body : inventory_selector → column_id → Option inventory_selector) :
    List column_id → inventory_selector → Option inventory_selector
  | [], s => some s
  | elem :: rest, s =>
    match body s elem with
    | none => none
    | some t => for_each_column body rest t

/-- Source lines 895-904: `inventory_selector::rearrange_columns`. -/
def rearrange_columns (env : selector_env) (fuel : Nat) (s : inventory_selector)
    (client_width : Nat) : Option inventory_selector :=
  let first :=
    if !s.own_gear_column.empty && is_overflown s client_width then
      (move_entries_to env.X env.P fuel s.own_gear_column s.own_inv_column).map
        (fun r => { s with own_gear_column := r.1, own_inv_column := r.2 })
    else some s
  match first with
  | none => none
  | some s1 =>
    if !s1.map_column.empty && is_overflown s1 client_width then
      (move_entries_to env.X env.P fuel s1.map_column s1.own_inv_column).map
        (fun r => { s1 with map_column := r.1, own_inv_column := r.2 })
    else some s1

/-- Source lines 1403-1407: `inventory_multiselector::rearrange_columns`. -/
def multiselector_rearrange_columns (env : selector_env) (fuel : Nat)
    (s : inventory_selector) (client_width : Nat) : Option inventory_selector :=
  let shown : inventory_selector :=
    { s with selection_col :=
        { s.selection_col with
          base := s.selection_col.base.set_visibility (!is_overflown s client_width) } }
  rearrange_columns env fuel shown client_width

/-- The loop of lines 909-912 of `prepare_layout`. -/
def prepare_columns (env : selector_env) (fuel : Nat) (s : inventory_selector)
    (client_height : Nat) : Option inventory_selector :=
  for_each_column
    (fun t elem =>
      column_prepare_paging env fuel (set_col t elem (set_height (get_col t elem) client_height))
        elem)
    s.columns s

/-- The loop of lines 923-926 of `prepare_layout` from the column `elem` on,
with the value of `custom_invlet` when it reaches them. -/
def assign_custom_invlets (env : selector_env) (fuel : Nat) :
    List column_id → inventory_selector → Int → Option inventory_selector
  | [], s, _ => some s
  | elem :: rest, s, custom_invlet =>
    match column_prepare_paging env fuel s elem with
    | none => none
    | some t =>
      let r := reassign_custom_invlets env.has_item (get_col t elem) custom_invlet 57
      assign_custom_invlets env fuel rest (set_col t elem r.1) r.2

/-- Source lines 906-929: `inventory_selector::prepare_layout`; the keys `'0'`
and `'9'` are 48 and 57. -/
def prepare_layout (env : selector_env) (fuel : Nat) (s : inventory_selector)
    (client_width client_height : Nat) : Option inventory_selector :=
  match prepare_columns env fuel s client_height with
  | none => none
  | some s1 =>
    let rearranged :=
      if s1.multiselector then multiselector_rearrange_columns env fuel s1 client_width
      else rearrange_columns env fuel s1 client_width
    match rearranged with
    | none => none
    | some s2 =>
      let widened :=
        match get_visible_columns s2 with
        | [only] =>
          if are_columns_centered s2 client_width then
            (set_width (col_externals env only) (col_preset env only) fuel (get_col s2 only)
              client_width).map (fun c => set_col s2 only c)
          else some s2
        | _ => some s2
      match widened with
      | none => none
      | some s3 =>
        match assign_custom_invlets env fuel s3.columns s3 48 with
        | none => none
        | some s4 => refresh_active_column env fuel s4

/-- The addition of an `int` to a `size_t`. -/
def size_t_add (x : Nat) (d : Int) : Nat :=
  (((x : Int) + d) % (size_t_range : Int)).toNat

/-- The loop of lines 1132-1149 of `draw_columns` from the column `elem` on,
with the value of `x` when it reaches them: the positions at which the columns
are drawn. -/
def draw_columns_loop (s : inventory_selector) (gap gap_rounding_error : Int) :
    List column_id → Nat → List Nat
  | [], _ => []
  | [_], x => [size_t_add x gap_rounding_error]
  | elem :: next :: rest, x =>
    x :: draw_columns_loop s gap gap_rounding_error (next :: rest)
      (size_t_add x ((get_width (get_col s elem) : Int) % (size_t_range : Int) + gap))

/-- The local `free_space` of `draw_columns` (line 1122), an `int`. -/
def draw_free_space (s : inventory_selector) (screen_width : Int) : Int :=
  Int.bmod (screen_width - (get_columns_width s (get_visible_columns s) : Int)) (2 ^ 32)

/-- The local `gap` of `draw_columns` (lines 1123-1124), an `int`. -/
def draw_gap (s : inventory_selector) (screen_width : Int) : Int :=
  let columns := get_visible_columns s
  let centered := are_columns_centered s (screen_width % (size_t_range : Int)).toNat
  let free_space := draw_free_space s screen_width
  let max_gap :=
    if 1 < columns.length then Int.tdiv free_space (Int.bmod (columns.length : Int) (2 ^ 32) - 1)
    else free_space
  if centered then max_gap else min max_gap normal_column_gap

/-- The local `gap_rounding_error` of `draw_columns` (lines 1125-1126), an
`int` taken from a remainder of `size_t` values. -/
def draw_gap_rounding_error (s : inventory_selector) (screen_width : Int) : Int :=
  let columns := get_visible_columns s
  let centered := are_columns_centered s (screen_width % (size_t_range : Int)).toNat
  let free_space := draw_free_space s screen_width
  if centered && decide (1 < columns.length) then
    Int.bmod
      (((free_space % (size_t_range : Int)).toNat % (columns.length - 1) : Nat) : Int) (2 ^ 32)
  else 0

/-- Source lines 1115-1155: `inventory_selector::draw_columns`, reduced to the
positions `x` at which it draws the visible columns, in their order; `maxx` is
the width `getmaxx( w )` of the window. -/
def draw_columns (s : inventory_selector) (maxx : Int) : List Nat :=
  let screen_width := Int.bmod (maxx - 2 * (s.border + 1)) (2 ^ 32)
  draw_columns_loop s (draw_gap s screen_width) (draw_gap_rounding_error s screen_width)
    (get_visible_columns s) ((s.border + 1) % (size_t_range : Int)).toNat
/-! ## The window of the selector (lines 931-979 and 1059-1113) -/

/-- The distance of line 25, `max_win_snap_distance`. -/
def max_win_snap_distance : Nat := 4

/-- Source lines 1220-1225: `inventory_selector::has_available_choices`. -/
def has_available_choices (env : selector_env) (s : inventory_selector) : Bool :=
  s.items.any (fun loc => decide (env.P.get_denial loc = ""))

/-- The text `get_footer( m ).first` of lines 1166-1177. -/
def get_footer (env : selector_env) (s : inventory_selector) (m : navigation_mode) : String :=
  if has_available_choices env s then env.footer m else env.no_choices_footer

/-- Source lines 952-955: `inventory_selector::get_header_height`. -/
def get_header_height (s : inventory_selector) : Nat :=
  if s.display_stats || decide (s.hint ≠ "") then 2 else 1

/-- Source lines 957-966: `inventory_selector::get_header_min_width`. -/
def get_header_min_width (env : selector_env) (s : inventory_selector) : Nat :=
  let titles_width := max (env.X.utf8_width s.title) (env.X.utf8_width s.hint)
  let stats_width := s.stats.foldl (fun w elem => max (env.X.utf8_width elem) w) 0
  titles_width + stats_width + (if stats_width ≠ 0 then 3 else 0)

/-- Source lines 968-979: `inventory_selector::get_footer_min_width`; the loop
over the modes visits the mode of the selector and the other one. -/
def get_footer_min_width (env : selector_env) (s : inventory_selector) : Nat :=
  max (env.X.utf8_width (get_footer env s (next_mode s.mode)))
    (max (env.X.utf8_width (get_footer env s s.mode)) 0)

/-- Source lines 931-938: `inventory_selector::get_layout_width`. -/
def get_layout_width (env : selector_env) (s : inventory_selector) : Nat :=
  let min_hud_width := max (get_header_min_width env s) (get_footer_min_width env s)
  let visible_columns := get_visible_columns s
  let gaps : Nat :=
    if 1 < visible_columns.length then
      ((min_column_gap % (size_t_range : Int)).toNat * (visible_columns.length - 1))
        % size_t_range
    else 0
  max ((get_columns_width s visible_columns + gaps) % size_t_range) min_hud_width

/-- Source lines 940-950: `inventory_selector::get_layout_height`; the height
of the highest visible column, found by `std::max_element`, or 1. -/
def get_layout_height (s : inventory_selector) : Nat :=
  match get_visible_columns s with
  | [] => 1
  | first :: rest =>
    let iter := rest.foldl
      (fun best elem =>
        if get_height (get_col s best) < get_height (get_col s elem) then elem else best)
      first
    get_height (get_col s iter)

/-- Source lines 1059-1069: `inventory_selector::resize_window`, reduced to the
border and the size of the new window. -/
def resize_window (env : selector_env) (s : inventory_selector) (width height : Int) :
    inventory_selector :=
  let border : Int := if width < env.TERMX ∨ height < env.TERMY then 1 else 0
  let w := width + (if width + 2 * border ≤ env.TERMX then 2 * border else 0)
  let h := height + (if height + 2 * border ≤ env.TERMY then 2 * border else 0)
  { s with border := border, win_width := w, win_height := h }

/-- The local `snap` of `update` (lines 1095-1097). -/
def snap (cur_dim max_dim : Nat) : Nat :=
  if max_dim ≤ (cur_dim + 2 * max_win_snap_distance) % size_t_range then max_dim else cur_dim

/-- The conversion of an `int` to `size_t`. -/
def to_size_t (i : Int) : Nat :=
  (i % (size_t_range : Int)).toNat

/-- The conversion of a `size_t` to `int`. -/
def to_int (n : Nat) : Int :=
  Int.bmod (n : Int) (2 ^ 32)

/-- Source lines 1088-1113: `inventory_selector::update`; drawing
(`refresh_window`) leaves the selector as it is. -/
def update (env : selector_env) (fuel : Nat) (s : inventory_selector) :
    Option inventory_selector :=
  if s.layout_is_valid then some s
  else
    let nc_width : Nat := 2
    let nc_height : Nat := get_header_height s + 3
    match prepare_layout env fuel s (to_size_t env.TERMX) (to_size_t env.TERMY) with
    | none => none
    | some s1 =>
      let s2 := resize_window env s1
        (to_int (snap ((get_layout_width env s1 + nc_width) % size_t_range)
          (to_size_t env.TERMX)))
        (to_int (snap ((get_layout_height s1 + nc_height) % size_t_range)
          (to_size_t env.TERMY)))
      match prepare_layout env fuel s2
          (to_size_t (s2.win_width - (nc_width : Int) - 2 * s2.border))
          (to_size_t (s2.win_height - (nc_height : Int) - 2 * s2.border)) with
      | none => none
      | some s3 => some { s3 with layout_is_valid := true }

/-! ## Input and change notification (lines 1227-1264) -/

/-- The part of an `inventory_input` that comes from the input context: the
action and the raw key. -/
structure raw_input where
  action : String
  ch : Int
deriving DecidableEq, Repr

/-- Source lines 45-50: the struct `inventory_input`. -/
structure inventory_input where
  action : String
  ch : Int
  entry : Option entry_ptr
deriving DecidableEq, Repr

/-- Source lines 1227-1240: `inventory_selector::get_input`, for the action and
key that the input context delivers. -/
def get_input (s : inventory_selector) (raw : raw_input) : inventory_input :=
  let found := find_entry_by_invlet s raw.ch
  let entry :=
    match found with
    | some p => if !(entry_of s p).is_selectable then none else some p
    | none => none
  { action := raw.action, ch := raw.ch, entry := entry }

/-- The virtual call `elem->on_input( input )` on the column behind a pointer;
lines 435-454. -/
def column_on_input (fuel : Nat) (s : inventory_selector) (input : inventory_input)
    (elem : column_id) : Option inventory_selector :=
  ((get_col s elem).on_input fuel input.action).map (fun c => set_col s elem c)

/-- Source lines 1242-1256: `inventory_selector::on_input`. -/
def on_input (env : selector_env) (fuel : Nat) (s : inventory_selector)
    (input : inventory_input) : Option inventory_selector :=
  if input.action = "CATEGORY_SELECTION" then some (toggle_navigation_mode s)
  else if input.action = "LEFT" then toggle_active_column env fuel s scroll_direction.BACKWARD
  else if input.action = "RIGHT" then toggle_active_column env fuel s scroll_direction.FORWARD
  else
    match for_each_column (fun t elem => column_on_input fuel t input elem) s.columns s with
    | none => none
    | some t => refresh_active_column env fuel t

/-- Source lines 1258-1264: `inventory_selector::on_change`. -/
def on_change (env : selector_env) (fuel : Nat) (s : inventory_selector)
    (entry : inventory_entry) : Option inventory_selector :=
  match for_each_column (fun t elem => column_on_change env fuel t entry elem) s.columns s with
  | none => none
  | some t => refresh_active_column env fuel t

/-! ## The compare selector (lines 1416-1469) -/

/-- Modelled from the spec: the class `inventory_compare_selector` of the
missing header, a multiselector with the vector `compared` of pointers to the
marked rows. -/
structure inventory_compare_selector where
  base : inventory_selector
  compared : List entry_ptr := []

/-- Source lines 1456-1469: `inventory_compare_selector::toggle_entry`. -/
def toggle_entry (env : selector_env) (fuel : Nat) (cs : inventory_compare_selector)
    (entry : entry_ptr) : Option inventory_compare_selector :=
  let chosen_count : Nat := if entry ∈ cs.compared then 0 else 1
  let s1 := set_entry cs.base entry { entry_of cs.base entry with chosen_count := chosen_count }
  let compared :=
    if chosen_count ≠ 0 then cs.compared ++ [entry] else cs.compared.erase entry
  (on_change env fuel s1 (entry_of s1 entry)).map
    (fun t => { base := t, compared := compared })

/-- The pointers `get_active_column().get_all_selected()` of line 1429; the
static column that stands in for an active index outside `columns` has no
rows. -/
def active_selection (env : selector_env) (s : inventory_selector) : List entry_ptr :=
  match s.columns.get? s.active_column_index with
  | some elem =>
    (get_all_selected (col_externals env elem) (get_col s elem)).map
      (fun i => ({ column := elem, index := i } : entry_ptr))
  | none => []

/-- The loop of lines 1431-1438 over the pointers from `elem` on; `size` is
`selection.size()`. -/
def toggle_selection (env : selector_env) (fuel : Nat) (size : Nat) :
    List entry_ptr → inventory_compare_selector → Option inventory_compare_selector
  | [], cs => some cs
  | elem :: rest, cs =>
    if (entry_of cs.base elem).chosen_count = 0 ∨ size = 1 then
      match toggle_entry env fuel cs elem with
      | none => none
      | some cs1 =>
        if cs1.compared.length = 2 then some cs1
        else toggle_selection env fuel size rest cs1
    else toggle_selection env fuel size rest cs

/-- The reaction of lines 1426-1446 of `execute` to one input; `none` in the
second place when the driver goes on, the returned pair when it quits. -/
def compare_react (env : selector_env) (fuel : Nat) (cs : inventory_compare_selector)
    (input : inventory_input) :
    Option (inventory_compare_selector × Option (item_location × item_location)) :=
  match input.entry with
  | some entry => (toggle_entry env fuel cs entry).map (fun r => (r, none))
  | none =>
    if input.action = "RIGHT" then
      let selection := active_selection env cs.base
      (toggle_selection env fuel selection.length selection cs).map (fun r => (r, none))
    else if input.action = "CONFIRM" then some (cs, none)
    else if input.action = "QUIT" then some (cs, some (none, none))
    else (on_input env fuel cs.base input).map (fun t => ({ cs with base := t }, none))

/-- Source lines 1419-1454: `inventory_compare_selector::execute`, run on the
inputs that the input context delivers one after the other.  The result is the
selector together with the returned pair, or with `none` when the inputs end
before the driver returns.  The test `compared.size() == 2` of line 1448 holds
when `compared` is a front and a back pointer. -/
def compare_execute (env : selector_env) (fuel : Nat) :
    inventory_compare_selector → List raw_input →
    Option (inventory_compare_selector × Option (item_location × item_location))
  | cs, [] => (update env fuel cs.base).map (fun t => ({ cs with base := t }, none))
  | cs, raw :: rest =>
    match update env fuel cs.base with
    | none => none
    | some t =>
      let cs0 : inventory_compare_selector := { cs with base := t }
      match compare_react env fuel cs0 (get_input cs0.base raw) with
      | none => none
      | some (cs1, some res) => some (cs1, some res)
      | some (cs1, none) =>
        match cs1.compared with
        | [front, back] =>
          let res : item_location × item_location :=
            ((entry_of cs1.base back).location, (entry_of cs1.base front).location)
          (toggle_entry env fuel cs1 back).map (fun cs2 => (cs2, some res))
        | _ => compare_execute env fuel cs1 rest

/-! ## The drop selector (lines 1471-1535) -/

/-- Modelled from the spec: the class `inventory_drop_selector` of the missing
header, a multiselector with the map `dropping` from items to quantities, kept
as a list of pairs with at most one pair for an item. -/
structure inventory_drop_selector where
  base : inventory_selector
  dropping : List (item_location × Int) := []

/-- The result of `dropping.find( it )`: the quantity recorded for the item. -/
def dropping_find (dropping : List (item_location × Int)) (it : item_location) : Option Int :=
  (dropping.find? (fun d => decide (d.1 = it))).map (fun d => d.2)

/-- The map after `dropping.erase( iter )` for the pair of the item. -/
def dropping_erase (dropping : List (item_location × Int)) (it : item_location) :
    List (item_location × Int) :=
  dropping.filter (fun d => !decide (d.1 = it))

/-- The map after `dropping[it] = count`. -/
def dropping_assign (dropping : List (item_location × Int)) (it : item_location)
    (count : Int) : List (item_location × Int) :=
  if (dropping.any (fun d => decide (d.1 = it))) then
    dropping.map (fun d => if d.1 = it then (it, count) else d)
  else dropping ++ [(it, count)]

/-- Source lines 1519-1535: `inventory_drop_selector::set_drop_count`. -/
def set_drop_count (env : selector_env) (fuel : Nat) (ds : inventory_drop_selector)
    (entry : entry_ptr) (count : Nat) : Option inventory_drop_selector :=
  let cur := entry_of ds.base entry
  let it := cur.location
  let updated : inventory_entry × List (item_location × Int) :=
    if count = 0 ∧ (dropping_find ds.dropping it).isSome then
      ({ cur with chosen_count := 0 }, dropping_erase ds.dropping it)
    else
      let chosen_count :=
        if count = 0 then cur.get_available_count else min count cur.get_available_count
      ({ cur with chosen_count := chosen_count },
        dropping_assign ds.dropping it (to_int chosen_count))
  let s1 := set_entry ds.base entry updated.1
  (on_change env fuel s1 (entry_of s1 entry)).map
    (fun t => { base := t, dropping := updated.2 })

/-! ## The drop driver (lines 1475-1517) -/

/-- The constant `INT_MAX` of a 32-bit `int`. -/
def INT_MAX : Int := 2147483647

/-- Lines 1484-1486 of `inventory_drop_selector::execute`: the pending count
after the digit key `ch` (a `long`), with the arithmetic of `int`; `'0'` is
48. -/
def drop_count_digit (count ch : Int) : Int :=
  let capped := min count (Int.tdiv INT_MAX 10 - 10)
  let scaled := Int.bmod (capped * 10) (2 ^ 32)
  Int.bmod (scaled + (ch - 48)) (2 ^ 32)

/-- The loop of lines 1491-1493 over the pointers from `elem` on. -/
def drop_selection (env : selector_env) (fuel : Nat) (count : Nat) :
    List entry_ptr → inventory_drop_selector → Option inventory_drop_selector
  | [], ds => some ds
  | elem :: rest, ds =>
    match set_drop_count env fuel ds elem count with
    | none => none
    | some ds1 => drop_selection env fuel count rest ds1

/-- How the loop of the drop driver goes on after an input: with the next
input, with the end of the loop (line 1501), or with the return of line
1503. -/
inductive drop_outcome where
  | CONTINUE
  | BREAK
  | QUIT
deriving DecidableEq, Repr

/-- The reaction of lines 1483-1507 of `execute` to one input: the selector,
the pending count and how the loop goes on. -/
def drop_react (env : selector_env) (fuel : Nat) (ds : inventory_drop_selector)
    (count : Int) (input : inventory_input) :
    Option (inventory_drop_selector × Int × drop_outcome) :=
  if 48 ≤ input.ch ∧ input.ch ≤ 57 then
    some (ds, drop_count_digit count input.ch, drop_outcome.CONTINUE)
  else
    match input.entry with
    | some entry =>
      (set_drop_count env fuel ds entry (to_size_t count)).map
        (fun r => (r, 0, drop_outcome.CONTINUE))
    | none =>
      if input.action = "RIGHT" then
        (drop_selection env fuel (to_size_t count) (active_selection env ds.base) ds).map
          (fun r => (r, 0, drop_outcome.CONTINUE))
      else if input.action = "CONFIRM" then
        if ds.dropping.isEmpty then some (ds, count, drop_outcome.CONTINUE)
        else some (ds, count, drop_outcome.BREAK)
      else if input.action = "QUIT" then some (ds, count, drop_outcome.QUIT)
      else
        (on_input env fuel ds.base input).map
          (fun t => (inventory_drop_selector.mk t ds.dropping, 0, drop_outcome.CONTINUE))

/-- The loop of lines 1478-1508 of `execute`, run on the inputs that the input
context delivers one after the other, from the pending count `count`.  The
result is the selector, the pending count and the returned list, reduced to
the pairs of `dropping` before `get_item_position` (the empty list for
`QUIT`), or `none` for the list when the inputs end before the driver
returns. -/
def drop_loop (env : selector_env) (fuel : Nat) :
    inventory_drop_selector → Int → List raw_input →
    Option (inventory_drop_selector × Int × Option (List (item_location × Int)))
  | ds, count, [] =>
    (update env fuel ds.base).map
      (fun t => (inventory_drop_selector.mk t ds.dropping, count, none))
  | ds, count, raw :: rest =>
    match update env fuel ds.base with
    | none => none
    | some t =>
      match drop_react env fuel (inventory_drop_selector.mk t ds.dropping) count
          (get_input t raw) with
      | none => none
      | some (ds1, count1, drop_outcome.CONTINUE) => drop_loop env fuel ds1 count1 rest
      | some (ds1, count1, drop_outcome.BREAK) => some (ds1, count1, some ds1.dropping)
      | some (ds1, count1, drop_outcome.QUIT) => some (ds1, count1, some [])

/-- Source lines 1475-1517: `inventory_drop_selector::execute`; the pending
count starts at 0. -/
def drop_execute (env : selector_env) (fuel : Nat) (ds : inventory_drop_selector)
    (inputs : List raw_input) :
    Option (inventory_drop_selector × Int × Option (List (item_location × Int))) :=
  drop_loop env fuel ds 0 inputs

/-! ## Vitamins (`vitamin.cpp`, lines 13-45 and 125-181) -/

/-- Modelled from the spec: an `efftype_id`; `none` is `NULL_ID`. -/
abbrev efftype_id := Option String

/-- Modelled from the spec: the class `vitamin` of the missing header
`vitamin.h`, with the fields that `load_vitamin` (lines 47-87) fills: the
least and the greatest level, the consumption rate, and the thresholds of
deficiency and excess with their effects and intensities. -/
structure vitamin where
  id : String := ""
  min : Int := 0
  max : Int := 0
  rate : Int := 0
  deficiency : List (Int × (efftype_id × Int)) := []
  excess : List (Int × (efftype_id × Int)) := []
deriving DecidableEq, Repr

/-- Source lines 31-45: `vitamin::effect`. -/
def vitamin.effect (v : vitamin) (level : Int) : efftype_id × Int :=
  match v.deficiency.find? (fun e => decide (level ≤ e.1)) with
  | some e => e.2
  | none =>
    match v.excess.find? (fun e => decide (level ≥ e.1)) with
    | some e => e.2
    | none => (none, 1)

/-- Modelled from the spec: the static `null_vitamin` of line 25, built by the
default constructor of the missing header. -/
def null_vitamin : vitamin := {}

/-- Source lines 20-29: `string_id<vitamin>::obj`, the lookup in the map
`vitamins_all`. -/
def vitamin_obj (vitamins_all : List vitamin) (id : String) : vitamin :=
  match vitamins_all.find? (fun v => decide (v.id = id)) with
  | some v => v
  | none => null_vitamin

/-- A call of the external `add_effect` that `vitamin_mod` makes (lines
158-159), with the body part `num_bp` and not permanent. -/
structure effect_call where
  id : String
  dur : Int
  intensity : Int
deriving DecidableEq, Repr

/-- Modelled from the spec: the parts of a `player` that `vitamin.cpp` reads
and writes: the map `vitamin_levels`, for every mutation of the player the map
`vitamin_rates` of its `mutation_branch`, and the calls of `add_effect` in
their order. -/
structure player where
  vitamin_levels : List (String × Int) := []
  mutations : List (List (String × Int)) := []
  effects : List effect_call := []
deriving DecidableEq, Repr

/-- External collaborators of the vitamin code: the map `vitamins_all` as it
was loaded, the value of `MINUTES( 1 )`, and `get_effect_dur` as a function of
the effects of the player. -/
structure vitamin_env where
  vitamins_all : List vitamin
  minutes_1 : Int
  get_effect_dur : List effect_call → String → Int

/-- The result of `vitamin_levels.find( vit )`: the level of the vitamin. -/
def levels_find (levels : List (String × Int)) (vit : String) : Option Int :=
  (levels.find? (fun l => decide (l.1 = vit))).map (fun l => l.2)

/-- The map after the assignment `it->second = level` for the vitamin. -/
def levels_assign (levels : List (String × Int)) (vit : String) (level : Int) :
    List (String × Int) :=
  levels.map (fun l => if l.1 = vit then (vit, level) else l)

/-- Source lines 125-138: `player::vitamin_rate`, an `int`. -/
def vitamin_rate (env : vitamin_env) (p : player) (vit : String) : Int :=
  p.mutations.foldl
    (fun res rates =>
      match levels_find rates vit with
      | some r => Int.bmod (res + r) (2 ^ 32)
      | none => res)
    (vitamin_obj env.vitamins_all vit).rate

/-- The new level of lines 148-154 of `vitamin_mod`, an `int`. -/
def vitamin_mod_level (v : vitamin) (level qty : Int) (capped : Bool) : Int :=
  if 0 < qty then min (Int.bmod (level + qty) (2 ^ 32)) (if capped then 0 else v.max)
  else if qty < 0 then max (Int.bmod (level + qty) (2 ^ 32)) v.min
  else level

/-- Source lines 140-164: `player::vitamin_mod`; the result is the player and
the returned level. -/
def vitamin_mod (env : vitamin_env) (p : player) (vit : String) (qty : Int) (capped : Bool) :
    player × Int :=
  match levels_find p.vitamin_levels vit with
  | none => (p, 0)
  | some level =>
    let v := vitamin_obj env.vitamins_all vit
    let level1 := vitamin_mod_level v level qty capped
    let p1 : player := { p with vitamin_levels := levels_assign p.vitamin_levels vit level1 }
    let eff := v.effect level1
    match eff.1 with
    | some id =>
      let dur := Int.bmod
        (Int.bmod
          (Int.bmod ((vitamin_rate env p1 vit).natAbs * env.minutes_1) (2 ^ 32)
            - env.get_effect_dur p1.effects id) (2 ^ 32) + 1) (2 ^ 32)
      ({ p1 with effects := p1.effects ++ [{ id := id, dur := dur, intensity := eff.2 }] },
        level1)
    | none => (p1, level1)

/-- Source lines 166-170: `player::vitamin_get`. -/
def vitamin_get (p : player) (vit : String) : Int :=
  match levels_find p.vitamin_levels vit with
  | some level => level
  | none => 0

/-- Source lines 172-181: `player::vitamin_set`; the result is the player and
the returned flag. -/
def vitamin_set (env : vitamin_env) (p : player) (vit : String) (qty : Int) : player × Bool :=
  match levels_find p.vitamin_levels vit with
  | none => (p, false)
  | some level => ((vitamin_mod env p vit (Int.bmod (qty - level) (2 ^ 32)) false).1, true)

/-! ## A concrete instance of the external collaborators -/

/-- Insertion of one row into a list ordered by `comp` (after the rows that do
not come after it). -/
def ordered_insert (comp : inventory_entry → inventory_entry → Bool) (e : inventory_entry) :
    List inventory_entry → List inventory_entry
  | [] => [e]
  | x :: rest => if comp e x then e :: x :: rest else x :: ordered_insert comp e rest

/-- Insertion sort, one admissible behaviour of `std::sort`. -/
def insertion_sort (comp : inventory_entry → inventory_entry → Bool) :
    List inventory_entry → List inventory_entry
  | [] => []
  | e :: rest => ordered_insert comp e (insertion_sort comp rest)

/-- Text width of plain text without colour tags or wide glyphs: the number of
characters. -/
def plain_externals : externals where
  utf8_width := String.length
  replace_colors := id
  item_symbols := false
  allows_selecting := activatable
  std_sort := insertion_sort

/-- Source lines 163-169: `inventory_selector_preset::get_caption`, with the
display name of an item taken to be its `tname`. -/
def get_caption (entry : inventory_entry) : String :=
  let name := match entry.location with
    | some it => it.tname
    | none => ""
  if 1 < entry.stack_size then toString entry.stack_size ++ " " ++ name else name

/-- The test `lhs.compare( rhs ) < 0` of `std::string` on the characters of two
texts: lexicographic order by character code. -/
def text_less : List Char → List Char → Bool
  | [], [] => false
  | [], _ :: _ => true
  | _ :: _, [] => false
  | a :: as, b :: bs =>
    if a.toNat < b.toNat then true
    else if b.toNat < a.toNat then false
    else text_less as bs

/-- The base preset: one caption cell (lines 145-151), no denial, and the
alphabetic `sort_compare` of lines 153-156. -/
def default_preset : inventory_selector_preset where
  cells := [{ func := get_caption }]
  get_denial := fun _ => ""
  sort_compare := fun lhs rhs =>
    match lhs, rhs with
    | some a, some b => text_less a.tname.data b.tname.data
    | _, _ => false

/-! ## Specification vocabulary -/

/-- The requirement `std::sort` puts on its comparison, for the rows of the
sorted range: a strict weak ordering. -/
def strict_weak_on (comp : inventory_entry → inventory_entry → Bool)
    (l : List inventory_entry) : Prop :=
  (∀ a ∈ l, comp a a = false) ∧
  (∀ a ∈ l, ∀ b ∈ l, ∀ c ∈ l, comp a b = true → comp b c = true → comp a c = true) ∧
  (∀ a ∈ l, ∀ b ∈ l, ∀ c ∈ l, comp a c = true → comp a b = true ∨ comp b c = true)

/-- The contract of `std::sort`: when the comparison is a strict weak ordering
on the range, the result is a rearrangement of the range in which no row is
ordered before an earlier row. -/
def std_sort_contract
    (sort : (inventory_entry → inventory_entry → Bool) → List inventory_entry →
      List inventory_entry) : Prop :=
  ∀ comp l, strict_weak_on comp l →
    (sort comp l).Perm l ∧ (sort comp l).Pairwise (fun a b => comp b a = false)

/-- The requirement on a preset: `sort_compare` is a strict weak ordering of
the items. -/
def sort_compare_valid (P : inventory_selector_preset) : Prop :=
  (∀ a : item, P.sort_compare (some a) (some a) = false) ∧
  (∀ a b c : item, P.sort_compare (some a) (some b) = true →
    P.sort_compare (some b) (some c) = true → P.sort_compare (some a) (some c) = true) ∧
  (∀ a b c : item, P.sort_compare (some a) (some c) = true →
    P.sort_compare (some a) (some b) = true ∨ P.sort_compare (some b) (some c) = true)

/-- Row reached from `index` after `k` steps in direction `dir` on a cyclic
list of `n` rows (`k` at most `n`). -/
def cyclic_pos (n index : Nat) (dir : scroll_direction) (k : Nat) : Nat :=
  match dir with
  | .FORWARD => (index + k) % n
  | .BACKWARD => (index + (n - k)) % n

/-- Closed form of the rows that the loop of lines 512-523 produces from the
rows `rest` that it has not visited yet, when row `rest[0]` sits at index `i`
and the page size is at least two: a row is kept, or preceded by a header, or
by a blank and a header.  Used to state and prove facts about the loop. -/
def reflow (epp : Nat) : Nat → Option item_category → List inventory_entry →
    List inventory_entry
  | _, _, [] => []
  | i, current_category, e :: rest =>
    if e.get_category_ptr = current_category ∧ i % epp ≠ 0 then
      e :: reflow epp (i + 1) current_category rest
    else if i % epp = epp - 1 then
      null_entry :: category_entry e.get_category_ptr :: e ::
        reflow epp (i + 3) e.get_category_ptr rest
    else
      category_entry e.get_category_ptr :: e :: reflow epp (i + 2) e.get_category_ptr rest

/-- The fields of a column other than its rows, cells and reserved width are
the same in `c` and `d`. -/
def same_frame (c d : inventory_column) : Prop :=
  d.mode = c.mode ∧ d.active = c.active ∧ d.multiselect = c.multiselect ∧
  d.paging_is_valid = c.paging_is_valid ∧ d.visibility = c.visibility ∧
  d.selected_index = c.selected_index ∧ d.page_offset = c.page_offset ∧
  d.entries_per_page = c.entries_per_page

/-- The column `r` is the paginated form of `c`: its rows are the sorted item
rows of `c` with the recovered headers and blanks, paging is valid, and the
cursor is on the first selectable row, if there is one. -/
def paged (X : externals) (P : inventory_selector_preset) (c r : inventory_column) : Prop :=
  r.entries = reflow c.entries_per_page 0 none
    (sort_categories X P (c.entries.filter inventory_entry.is_item)) ∧
  r.paging_is_valid = true ∧ r.entries_per_page = c.entries_per_page ∧ r.mode = c.mode ∧
  ((∃ e ∈ r.entries, e.is_selectable = true) →
    r.selected_index < r.entries.length ∧
    (entry_at r.entries r.selected_index).is_selectable = true ∧
    ∀ j, j < r.selected_index → (entry_at r.entries j).is_selectable = false) ∧
  (r.entries ≠ [] → r.page_offset = r.selected_index - r.selected_index % r.entries_per_page)

/-- The rows shown on page `page` of a column: the rows from index
`page * entries_per_page` on, at most `entries_per_page` of them (the range
drawn by `inventory_column::draw`, lines 589-590, for that page offset). -/
def page_rows (c : inventory_column) (page : Nat) : List inventory_entry :=
  (c.entries.drop (page * c.entries_per_page)).take c.entries_per_page

/-- The sum of the rendered widths of a list of cells, the value that
`get_cells_width` accumulates. -/
def cells_sum (cells : List cell_t) : Nat :=
  (cells.map cell_t.current_width).sum

/-- The number of visible cells after the first one. -/
def visible_others (cells : List cell_t) : Nat :=
  (cells.tail.filter cell_t.visible).length

/-- The sum of the minimum per-field widths of the visible cells from index `i`
on: the required width of the cell, plus the minimal gap `min_cell_gap` of 2
for every cell after the first. -/
def min_cells_width : Nat → List cell_t → Nat
  | _, [] => 0
  | i, cell :: rest =>
    (if cell.visible then (if 0 < i then 2 else 0) + cell.real_width else 0)
      + min_cells_width (i + 1) rest

/-- The row `t` lies strictly beyond the row `s` in direction `dir`: after it
going forward, before it going backward. -/
def beyond (dir : scroll_direction) (s t : Nat) : Bool :=
  match dir with
  | .FORWARD => decide (s < t)
  | .BACKWARD => decide (t < s)

/-- The value of `flipped` at line 272 for the candidate `next_index`. -/
def flipped (c : inventory_column) (dir : scroll_direction) (next_index : Nat) : Bool :=
  decide (next_index = c.selected_index)
    || (decide (c.selected_index < next_index) != decide (0 < dir.toInt))

/-- The row reached from the cursor after `k` steps in direction `dir`. -/
def cursor_step (c : inventory_column) (dir : scroll_direction) (k : Nat) : Nat :=
  cyclic_pos c.entries.length c.selected_index dir k

/-- The `k` steps from the cursor in direction `dir` pass the end of the list
(its last row going forward, its first row going backward). -/
def wrapped (c : inventory_column) (dir : scroll_direction) (k : Nat) : Bool :=
  match dir with
  | .FORWARD => decide (c.entries.length ≤ c.selected_index + k)
  | .BACKWARD => decide (c.selected_index < k)

/-- The row `k` steps from the cursor is reached without passing the end of the
list and lies on the current page. -/
def good_step (c : inventory_column) (dir : scroll_direction) (k : Nat) : Prop :=
  wrapped c dir k = false ∧ page_of c (cursor_step c dir k) = page_index c

/-- The rows that `reassign_custom_invlets` gives a key: the selectable rows
whose item the player does not possess (the test of line 568). -/
def eligible (has_item : item → Bool) (elem : inventory_entry) : Bool :=
  elem.is_selectable && !possessed has_item elem

/-- The key of the `j`-th eligible row (`j` from 0) for the keys from
`min_invlet` to `max_invlet`: the key `min_invlet + j` while that is at most
`max_invlet`, the null key 0 afterwards. -/
def invlet_for (min_invlet max_invlet : Int) (j : Nat) : Int :=
  if min_invlet + (j : Int) ≤ max_invlet then min_invlet + (j : Int) else 0

/-- The number of eligible rows before row `i`. -/
def eligible_before (has_item : item → Bool) (entries : List inventory_entry) (i : Nat) : Nat :=
  ((entries.take i).filter (eligible has_item)).length

/-- The sum of the widths of the columns behind a list of pointers. -/
def columns_width_sum (s : inventory_selector) (l : List column_id) : Nat :=
  (l.map (fun id => get_width (get_col s id))).sum

/-- The first statement of `rearrange_columns` (lines 897-899): the rows of the
column of worn items are moved when the layout overflows. -/
def move_own_gear (env : selector_env) (fuel : Nat) (s : inventory_selector)
    (client_width : Nat) : Option inventory_selector :=
  if !s.own_gear_column.empty && is_overflown s client_width then
    (move_entries_to env.X env.P fuel s.own_gear_column s.own_inv_column).map
      (fun r => { s with own_gear_column := r.1, own_inv_column := r.2 })
  else some s

/-- The second statement of `rearrange_columns` (lines 901-903): the rows of
the column of the items around are moved when the layout overflows. -/
def move_map (env : selector_env) (fuel : Nat) (s : inventory_selector)
    (client_width : Nat) : Option inventory_selector :=
  if !s.map_column.empty && is_overflown s client_width then
    (move_entries_to env.X env.P fuel s.map_column s.own_inv_column).map
      (fun r => { s with map_column := r.1, own_inv_column := r.2 })
  else some s

/-- The column `dest` after the loop of lines 477-481 of `move_entries_to` over
the rows `l`. -/
def add_items (X : externals) (P : inventory_selector_preset) (l : List inventory_entry)
    (dest : inventory_column) : inventory_column :=
  l.foldl (fun d elem => if elem.is_item then add_entry X P d elem else d) dest

/-- The selector `t` has the rows of the selector `s`: the same pointers in
`columns`, the same rows and page size in every column, the same
pseudo-category of the selection column and the same layout flag. -/
def same_rows (s t : inventory_selector) : Prop :=
  t.columns = s.columns ∧ t.layout_is_valid = s.layout_is_valid ∧
  t.selection_col.selected_cat = s.selection_col.selected_cat ∧
  ∀ id, (get_col t id).entries = (get_col s id).entries ∧
    (get_col t id).entries_per_page = (get_col s id).entries_per_page

/-- No two rows of the selection column are equal: at most one row equals any
item entry. -/
def unique_rows (sc : selection_column) : Prop :=
  ∀ my : inventory_entry, my.is_item = true →
    (sc.base.entries.filter (fun y => y.equals my)).length ≤ 1

/-- The pending count after the digit keys `keys`, from the count `count`, by
the formula `min( count, INT_MAX / 10 - 10 ) * 10 + digit` over the
integers. -/
def pending_count (count : Int) (keys : List raw_input) : Int :=
  keys.foldl (fun c raw => min c (INT_MAX / 10 - 10) * 10 + (raw.ch - 48)) count

/-- The item row `k` of the list `l` is governed by a header on its page of
`epp` rows: going back from the row, the first row that is not an item is a
category row `h` on the same page with the category of the row, and the rows
after it up to `k` are items of that category. -/
def governed (epp : Nat) (l : List inventory_entry) (k : Nat) : Prop :=
  ∃ h, h < k ∧ h / epp = k / epp ∧ (entry_at l h).is_category = true ∧
    (entry_at l h).get_category_ptr = (entry_at l k).get_category_ptr ∧
    ∀ j, h < j → j ≤ k →
      (entry_at l j).is_item = true ∧
      (entry_at l j).get_category_ptr = (entry_at l k).get_category_ptr

/-- The sort rank of the category of a row; 0 for a row without category. -/
def entry_rank (e : inventory_entry) : Int :=
  match e.get_category_ptr with
  | some cat => cat.sort_rank
  | none => 0

/-- The rows of one category are contiguous in the list `l`: between two rows
of the same category there are only rows of that category. -/
def contiguous (l : List inventory_entry) : Prop :=
  ∀ A x M y B, l = A ++ x :: (M ++ y :: B) → x.get_category_ptr = y.get_category_ptr →
    ∀ z ∈ M, z.get_category_ptr = x.get_category_ptr

/-- The cell at index `i` is hidden or exactly as wide as its content:
`current_width` is 0, or it is `real_width` plus the gap, which is 0 for the
first cell and `normal_cell_gap` for the later cells. -/
def cell_fits (i : Nat) (cell : cell_t) : Prop :=
  cell.current_width = 0 ∨
  cell.current_width = (if 0 < i then normal_cell_gap else 0) + cell.real_width

/-- The entry counts for the required width of the cell at index `i`: it is not
blank and, for a cell after the first, it has no denial. -/
def counts_for (P : inventory_selector_preset) (e : inventory_entry) (i : Nat) : Bool :=
  !e.is_null && (decide (get_entry_denial P e = "") || decide (i = 0))

/-- The cells of the column `d` after `expand_to_fit` for the entries `seen`,
all made on a column with the rows and flags of `c`: every cell fits, and its
required width is the greatest width of an entry of `seen` that counts for it
(0 when there is none). -/
def widths_hold (X : externals) (P : inventory_selector_preset) (c d : inventory_column)
    (seen : List inventory_entry) : Prop :=
  same_frame c d ∧ d.entries = c.entries ∧ d.cells.length = c.cells.length ∧
  ∀ k, k < c.cells.length →
    cell_fits k (d.cells.getD k {}) ∧
    (∀ e ∈ seen, counts_for P e k = true →
      get_entry_cell_width X P c e k ≤ (d.cells.getD k {}).real_width) ∧
    ((d.cells.getD k {}).real_width = 0 ∨
      ∃ e ∈ seen, counts_for P e k = true ∧
        (d.cells.getD k {}).real_width = get_entry_cell_width X P c e k)

/-! ## Sample data -/

/-- A first sample category. -/
def sample_cat1 : item_category := { id := "cat1", name := "CAT 1", sort_rank := 0 }

/-- A second sample category. -/
def sample_cat2 : item_category := { id := "cat2", name := "CAT 2", sort_rank := 1 }

/-- An enabled item entry for item number `n` named `name` of category `cat`. -/
def sample_item (n : Nat) (name : String) (cat : item_category) : inventory_entry :=
  { location := some { id := n, category := cat, tname := name }, stack_size := 1 }

/-- The rows `A(cat1), B(cat1), C(cat2), D(cat2), E(cat2)`. -/
def sample_entries : List inventory_entry :=
  [sample_item 1 "A" sample_cat1, sample_item 2 "B" sample_cat1, sample_item 3 "C" sample_cat2,
    sample_item 4 "D" sample_cat2, sample_item 5 "E" sample_cat2]

/-- A column with page size 3 holding the sample rows, not yet paginated. -/
def sample_column : inventory_column :=
  { entries := sample_entries, cells := [{}], entries_per_page := 3 }

/-- The sample column after pagination with the base preset. -/
def sample_paged : inventory_column :=
  { entries :=
      [category_entry (some sample_cat1), sample_item 1 "A" sample_cat1,
        sample_item 2 "B" sample_cat1, category_entry (some sample_cat2),
        sample_item 3 "C" sample_cat2, sample_item 4 "D" sample_cat2,
        category_entry (some sample_cat2), sample_item 5 "E" sample_cat2],
    cells := [{ real_width := 5 }], entries_per_page := 3, paging_is_valid := true,
    selected_index := 1 }

/-- Four rows of one category in CATEGORY mode, page size 3, not yet
paginated. -/
def sample_category_column : inventory_column :=
  { entries :=
      [sample_item 1 "A" sample_cat1, sample_item 2 "B" sample_cat1,
        sample_item 3 "C" sample_cat1, sample_item 4 "D" sample_cat1],
    cells := [{}], entries_per_page := 3, mode := navigation_mode.CATEGORY }

/-- The column `sample_category_column` after pagination: two pages, both of
the one category, cursor on row 1. -/
def sample_category_paged : inventory_column :=
  { entries :=
      [category_entry (some sample_cat1), sample_item 1 "A" sample_cat1,
        sample_item 2 "B" sample_cat1, category_entry (some sample_cat1),
        sample_item 3 "C" sample_cat1, sample_item 4 "D" sample_cat1],
    cells := [{ real_width := 5 }], entries_per_page := 3, paging_is_valid := true,
    selected_index := 1, mode := navigation_mode.CATEGORY }

/-- A preset with a caption cell and a second cell showing a fixed text; the
item number 2 is rejected with a reason. -/
def sample_two_cell_preset : inventory_selector_preset where
  cells := [{ func := get_caption }, { func := fun _ => "1.5", title := "WEIGHT" }]
  get_denial := fun loc =>
    match loc with
    | some it => if it.id = 2 then "too heavy" else ""
    | none => ""
  sort_compare := default_preset.sort_compare

/-- A column with two cells whose widths were negotiated for the sample rows. -/
def sample_two_cell_column : inventory_column :=
  { entries := sample_entries,
    cells := [{ real_width := 3, current_width := 3 }, { real_width := 3, current_width := 7 }],
    entries_per_page := 3 }

/-- A preset whose caption cell is empty for every item while its second cell
shows a text. -/
def sample_stub_preset : inventory_selector_preset where
  cells := [{ func := fun _ => "" }, { func := fun _ => "abc", title := "TEXT" }]
  get_denial := fun _ => ""
  sort_compare := default_preset.sort_compare

/-- A column of one item row with two cells. -/
def sample_stub_column : inventory_column :=
  { entries := [sample_item 1 "A" sample_cat1], cells := [{}, {}], entries_per_page := 3 }

/-- The fixed pseudo-category of the sample selection column (sort rank 0, as
built at line 691). -/
def sample_selected_cat : item_category := { id := "SELECTED", name := "SELECTED", sort_rank := 0 }

/-- A selection column without rows, page size 3, not yet paginated. -/
def sample_selection_empty : selection_column :=
  { base := { entries := [], cells := [{}], entries_per_page := 3 },
    selected_cat := sample_selected_cat }

/-- The row that mirrors item number `n` in the sample selection column with
the chosen count `count`. -/
def sample_mirror (n : Nat) (name : String) (count : Nat) : inventory_entry :=
  { sample_item n name sample_cat1 with
    custom_category := some sample_selected_cat, chosen_count := count }

/-- A paginated selection column that mirrors item 1 with chosen count 2. -/
def sample_selection : selection_column :=
  { base :=
      { entries := [category_entry (some sample_selected_cat), sample_mirror 1 "A" 2],
        cells := [{ real_width := 8, current_width := 8 }], entries_per_page := 3,
        paging_is_valid := true, selected_index := 1 },
    selected_cat := sample_selected_cat }

/-- Sample collaborators of a selector: plain text measurement, the base preset
for all columns, a player who possesses the items numbered below 3, the
distance of an origin as its larger coordinate distance, the suffix `N` for
every origin, a selection column that cannot be activated, and a terminal of
80 by 24 cells. -/
def sample_env : selector_env where
  X := plain_externals
  P := default_preset
  SX := plain_externals
  SP := default_preset
  has_item := fun it => decide (it.id < 3)
  rl_dist := fun pos => max pos.x.natAbs pos.y.natAbs
  direction_suffix := fun _ => "N"
  selection_activatable := fun _ => false
  TERMX := 80
  TERMY := 24
  footer := fun _ => "mode"
  no_choices_footer := "none"

/-- A multiselector after its constructors: the four columns appended, the
paginated sample column as the column of own items, the other columns without
rows, the layout valid. -/
def sample_selector : inventory_selector :=
  { own_inv_column := { sample_paged with active := true },
    selection_col := { sample_selection_empty with
      base := { entries := [category_entry (some sample_selected_cat)], cells := [{}],
                entries_per_page := 3, paging_is_valid := true } },
    columns := [column_id.OWN_INV, column_id.MAP, column_id.OWN_GEAR, column_id.SELECTION],
    layout_is_valid := true,
    multiselector := true }

/-- A selector with three columns that show rows, of the widths 10, 4 and 8,
and a border of one cell. -/
def sample_drawn : inventory_selector :=
  { own_inv_column := sample_two_cell_column,
    map_column :=
      { entries := sample_entries, cells := [{ real_width := 4, current_width := 4 }],
        entries_per_page := 3 },
    selection_col := sample_selection,
    columns := [column_id.OWN_INV, column_id.MAP, column_id.OWN_GEAR, column_id.SELECTION],
    border := 1,
    layout_is_valid := true,
    multiselector := true }

/-- The selector `sample_drawn` with a row of a worn item, number 7, in the
column of worn items, of the width 3. -/
def sample_crowded : inventory_selector :=
  { sample_drawn with
    own_gear_column :=
      { entries := [category_entry (some sample_cat1), sample_item 7 "G" sample_cat1],
        cells := [{ real_width := 3, current_width := 3 }], entries_per_page := 3,
        paging_is_valid := true, selected_index := 1 } }

/-- The compare selector over the sample selector with nothing marked. -/
def sample_compare : inventory_compare_selector :=
  { base := sample_selector, compared := [] }

/-- The pointer to the row of item 1 in the column of own items of the sample
selector. -/
def sample_ptr_a : entry_ptr := { column := column_id.OWN_INV, index := 1 }

/-- The pointer to the row of item 2 in the column of own items of the sample
selector. -/
def sample_ptr_b : entry_ptr := { column := column_id.OWN_INV, index := 2 }

/-- An enabled item entry for item number `n` named `name` of the first sample
category with the shortcut key `key`. -/
def sample_keyed_item (n : Nat) (name : String) (key : Int) : inventory_entry :=
  { sample_item n name sample_cat1 with custom_invlet := some key }

/-- A compare selector with nothing marked whose column of own items holds the
rows `X`, `Y` and `Z` of the items 1, 2 and 3 with the keys `a`, `b` and `c`
(97, 98 and 99); the layout is valid. -/
def sample_keyed_compare : inventory_compare_selector :=
  { base :=
      { sample_selector with
        own_inv_column :=
          { entries :=
              [category_entry (some sample_cat1), sample_keyed_item 1 "A" 97,
                sample_keyed_item 2 "B" 98, sample_keyed_item 3 "C" 99],
            cells := [{ real_width := 5 }], entries_per_page := 5, paging_is_valid := true,
            selected_index := 1, active := true } },
    compared := [] }

/-- A drop selector with nothing to drop whose column of own items holds a
stack of five of item 1 and one of item 2. -/
def sample_drop : inventory_drop_selector :=
  { base :=
      { sample_selector with
        own_inv_column :=
          { entries :=
              [category_entry (some sample_cat1),
                { sample_item 1 "A" sample_cat1 with stack_size := 5 },
                sample_item 2 "B" sample_cat1],
            cells := [{ real_width := 5 }], entries_per_page := 5, paging_is_valid := true,
            selected_index := 1, active := true } },
    dropping := [] }

/-- An item that is counted by charges and has 50 of them. -/
def sample_charged_item : item :=
  { id := 8, category := sample_cat1, tname := "H", count_by_charges := true, charges := 50 }

/-- A stack of two of the item that is counted by charges. -/
def sample_charged_stack : inventory_entry :=
  { location := some sample_charged_item, stack_size := 2 }

/-- The sample drop selector after three of item 1 were chosen: the row of the
item has the chosen count 3, the selection column mirrors it, and `dropping`
records the quantity 3 for the item. -/
def sample_drop_marked : inventory_drop_selector :=
  { base :=
      { sample_drop.base with
        own_inv_column :=
          { sample_drop.base.own_inv_column with
            entries :=
              [category_entry (some sample_cat1),
                { sample_item 1 "A" sample_cat1 with stack_size := 5, chosen_count := 3 },
                sample_item 2 "B" sample_cat1] },
        selection_col :=
          { base :=
              { entries :=
                  [category_entry (some sample_selected_cat),
                    { sample_item 1 "A" sample_cat1 with
                      stack_size := 5, custom_category := some sample_selected_cat,
                      chosen_count := 3 }],
                cells := [{ real_width := 8, current_width := 8 }], entries_per_page := 3,
                paging_is_valid := true, selected_index := 1 },
            selected_cat := sample_selected_cat } },
    dropping := [(some { id := 1, category := sample_cat1, tname := "A" }, 3)] }

/-- Sample collaborators of the vitamin code: one vitamin with levels from -100
to 50 and a deficiency effect at -50 and below. -/
def sample_vitamin_env : vitamin_env where
  vitamins_all :=
    [{ id := "vitC", min := -100, max := 50, rate := 60,
       deficiency := [(-50, (some "scurvy", 1))] }]
  minutes_1 := 10
  get_effect_dur := fun _ _ => 0

/-- A player who tracks the sample vitamin at the level 5. -/
def sample_player : player :=
  { vitamin_levels := [("vitC", 5)] }

/-! # Theorems -/

/-! ## Navigation: arithmetic of the cyclic step -/

theorem cyclic_pos_forward (n x k : Nat) (hx : x < n) (hk : k ≤ n) :
    cyclic_pos n x scroll_direction.FORWARD k = if x + k < n then x + k else x + k - n := by
  show (x + k) % n = _
  split
  · exact Nat.mod_eq_of_lt (by assumption)
  · rw [Nat.mod_eq_sub_mod (by omega)]
    exact Nat.mod_eq_of_lt (by omega)

theorem cyclic_pos_backward (n x k : Nat) (hx : x < n) (hk : k ≤ n) :
    cyclic_pos n x scroll_direction.BACKWARD k = if k ≤ x then x - k else x + n - k := by
  show (x + (n - k)) % n = _
  split
  · rw [Nat.mod_eq_sub_mod (by omega)]
    have h : x + (n - k) - n = x - k := by omega
    rw [h]
    exact Nat.mod_eq_of_lt (by omega)
  · have h : x + (n - k) = x + n - k := by omega
    rw [h]
    exact Nat.mod_eq_of_lt (by omega)

theorem step_eq_cyclic_pos (n x : Nat) (dir : scroll_direction) (hx : x < n)
    (hn : n < 2 ^ 63) :
    (x + dir.to_size_t + n) % size_t_range % n = cyclic_pos n x dir 1 := by
  cases dir with
  | FORWARD =>
    rw [cyclic_pos_forward n x 1 hx (by omega)]
    have h1 : (x + scroll_direction.FORWARD.to_size_t + n) % size_t_range = x + 1 + n := by
      simp only [scroll_direction.to_size_t, size_t_range]
      exact Nat.mod_eq_of_lt (by omega)
    rw [h1, Nat.add_mod_right]
    split
    · exact Nat.mod_eq_of_lt (by assumption)
    · have h2 : x + 1 = n := by omega
      rw [h2, Nat.mod_self]; omega
  | BACKWARD =>
    rw [cyclic_pos_backward n x 1 hx (by omega)]
    have h1 : (x + scroll_direction.BACKWARD.to_size_t + n) % size_t_range = x + n - 1 := by
      simp only [scroll_direction.to_size_t, size_t_range]
      have h3 : x + (2 ^ 64 - 1) + n = (x + n - 1) + 2 ^ 64 := by omega
      rw [h3, Nat.add_mod_right]
      exact Nat.mod_eq_of_lt (by omega)
    rw [h1]
    split
    · have h2 : x + n - 1 = (x - 1) + n := by omega
      rw [h2, Nat.add_mod_right]
      exact Nat.mod_eq_of_lt (by omega)
    · exact Nat.mod_eq_of_lt (by omega)

theorem step_lt (n x : Nat) (dir : scroll_direction) (hn : 0 < n) :
    (x + dir.to_size_t + n) % size_t_range % n < n :=
  Nat.mod_lt _ hn

theorem cyclic_pos_lt (n x : Nat) (dir : scroll_direction) (k : Nat) (hn : 0 < n) :
    cyclic_pos n x dir k < n := by
  cases dir <;> exact Nat.mod_lt _ hn

theorem cyclic_pos_zero (n x : Nat) (dir : scroll_direction) (hx : x < n) :
    cyclic_pos n x dir 0 = x := by
  cases dir
  · rw [cyclic_pos_forward n x 0 hx (by omega)]; simp [hx]
  · rw [cyclic_pos_backward n x 0 hx (by omega)]; simp

theorem cyclic_pos_full (n x : Nat) (dir : scroll_direction) (hx : x < n) :
    cyclic_pos n x dir n = x := by
  cases dir
  · rw [cyclic_pos_forward n x n hx (by omega)]; split <;> omega
  · rw [cyclic_pos_backward n x n hx (by omega)]; split <;> omega

theorem cyclic_pos_ne (n x : Nat) (dir : scroll_direction) (k : Nat) (hx : x < n)
    (hk0 : 0 < k) (hk : k < n) : cyclic_pos n x dir k ≠ x := by
  cases dir
  · rw [cyclic_pos_forward n x k hx (by omega)]; split <;> omega
  · rw [cyclic_pos_backward n x k hx (by omega)]; split <;> omega

theorem cyclic_pos_succ (n x : Nat) (dir : scroll_direction) (j : Nat) (hx : x < n)
    (hj : j < n) :
    cyclic_pos n (cyclic_pos n x dir j) dir 1 = cyclic_pos n x dir (j + 1) := by
  have hlt := cyclic_pos_lt n x dir j (by omega)
  cases dir
  · rw [cyclic_pos_forward n _ 1 hlt (by omega), cyclic_pos_forward n x j hx (by omega),
      cyclic_pos_forward n x (j + 1) hx (by omega)]
    split <;> split <;> split <;> omega
  · rw [cyclic_pos_backward n _ 1 hlt (by omega), cyclic_pos_backward n x j hx (by omega),
      cyclic_pos_backward n x (j + 1) hx (by omega)]
    split <;> split <;> split <;> omega

theorem cyclic_pos_surj (n x s : Nat) (dir : scroll_direction) (hx : x < n) (hs : s < n) :
    ∃ k, 1 ≤ k ∧ k ≤ n ∧ cyclic_pos n x dir k = s := by
  cases dir
  · by_cases h : x < s
    · refine ⟨s - x, by omega, by omega, ?_⟩
      rw [cyclic_pos_forward n x _ hx (by omega)]; split <;> omega
    · refine ⟨s + n - x, by omega, by omega, ?_⟩
      rw [cyclic_pos_forward n x _ hx (by omega)]; split <;> omega
  · by_cases h : s < x
    · refine ⟨x - s, by omega, by omega, ?_⟩
      rw [cyclic_pos_backward n x _ hx (by omega)]; split <;> omega
    · refine ⟨x + n - s, by omega, by omega, ?_⟩
      rw [cyclic_pos_backward n x _ hx (by omega)]; split <;> omega


/-! ## Navigation: the loop of `next_selectable_index` -/

theorem next_selectable_loop_mono (entries : List inventory_entry) (index : Nat)
    (dir : scroll_direction) (fuel : Nat) :
    ∀ (x r extra : Nat), next_selectable_loop entries index dir fuel x = some r →
      next_selectable_loop entries index dir (fuel + extra) x = some r := by
  induction fuel with
  | zero => intro x r extra h; simp [next_selectable_loop] at h
  | succ f ih =>
    intro x r extra h
    have e : f + 1 + extra = (f + extra) + 1 := by omega
    rw [e]
    simp only [next_selectable_loop] at h ⊢
    split
    · rename_i hc
      rw [if_pos hc] at h
      exact ih _ _ _ h
    · rename_i hc
      rw [if_neg hc] at h
      exact h

/-- Walking from row `cyclic_pos n base dir j`, the loop stops at the first row
that is selectable or is the start index. -/
theorem next_selectable_loop_walk (entries : List inventory_entry) (index base : Nat)
    (dir : scroll_direction) (hn : entries.length < 2 ^ 63) (hb : base < entries.length)
    (k : Nat) :
    ∀ (j fuel : Nat), j + k + 1 ≤ entries.length → k < fuel →
      (∀ i, j < i → i ≤ j + k →
        (entry_at entries (cyclic_pos entries.length base dir i)).is_selectable = false ∧
        cyclic_pos entries.length base dir i ≠ index) →
      ((entry_at entries (cyclic_pos entries.length base dir (j + k + 1))).is_selectable = true ∨
        cyclic_pos entries.length base dir (j + k + 1) = index) →
      next_selectable_loop entries index dir fuel (cyclic_pos entries.length base dir j)
        = some (cyclic_pos entries.length base dir (j + k + 1)) := by
  induction k with
  | zero =>
    intro j fuel hj hf _ hstop
    obtain ⟨f, rfl⟩ : ∃ f, fuel = f + 1 := ⟨fuel - 1, by omega⟩
    simp only [next_selectable_loop]
    rw [step_eq_cyclic_pos _ _ dir (cyclic_pos_lt _ _ _ _ (by omega)) hn,
      cyclic_pos_succ _ _ dir j hb (by omega)]
    rw [if_neg]
    intro hc
    rcases hstop with h | h
    · simp [h] at hc
    · exact hc.1 h
  | succ k ih =>
    intro j fuel hj hf hskip hstop
    obtain ⟨f, rfl⟩ : ∃ f, fuel = f + 1 := ⟨fuel - 1, by omega⟩
    simp only [next_selectable_loop]
    rw [step_eq_cyclic_pos _ _ dir (cyclic_pos_lt _ _ _ _ (by omega)) hn,
      cyclic_pos_succ _ _ dir j hb (by omega)]
    have h1 := hskip (j + 1) (by omega) (by omega)
    rw [if_pos ⟨h1.2, by simp [h1.1]⟩]
    have e : j + (k + 1) + 1 = (j + 1) + k + 1 := by omega
    rw [e]
    apply ih (j + 1) f (by omega) (by omega)
    · intro i hi1 hi2
      exact hskip i (by omega) (by omega)
    · rw [← e]; exact hstop


theorem entry_at_of_lt (entries : List inventory_entry) (i : Nat) (h : i < entries.length) :
    entry_at entries i = entries[i] := by
  simp [entry_at, List.getD_eq_getElem?_getD, List.getElem?_eq_getElem h]

theorem exists_selectable_index (entries : List inventory_entry)
    (hsel : ∃ e ∈ entries, e.is_selectable = true) :
    ∃ s, s < entries.length ∧ (entry_at entries s).is_selectable = true := by
  obtain ⟨e, he, hs⟩ := hsel
  obtain ⟨s, hlt, rfl⟩ := List.getElem_of_mem he
  exact ⟨s, hlt, by rw [entry_at_of_lt _ _ hlt]; exact hs⟩

theorem entry_at_mem (entries : List inventory_entry) (i : Nat) (h : i < entries.length) :
    entry_at entries i ∈ entries := by
  rw [entry_at_of_lt _ _ h]; exact List.getElem_mem _

/-- From a row `base` inside the list, the loop returns the row `k` steps away
when that is the first selectable row on the way and the start index is not
met before. -/
theorem next_selectable_loop_found (entries : List inventory_entry) (index base : Nat)
    (dir : scroll_direction) (hn : entries.length < 2 ^ 63) (hb : base < entries.length)
    (k : Nat) (hk1 : 1 ≤ k) (hkn : k ≤ entries.length)
    (hstop : (entry_at entries (cyclic_pos entries.length base dir k)).is_selectable = true ∨
      cyclic_pos entries.length base dir k = index)
    (hskip : ∀ j, 1 ≤ j → j < k →
      (entry_at entries (cyclic_pos entries.length base dir j)).is_selectable = false ∧
      cyclic_pos entries.length base dir j ≠ index)
    (fuel : Nat) (hf : k ≤ fuel) :
    next_selectable_loop entries index dir fuel base
      = some (cyclic_pos entries.length base dir k) := by
  have h := next_selectable_loop_walk entries index base dir hn hb (k - 1) 0 fuel
    (by omega) (by omega) (fun i h1 h2 => hskip i (by omega) (by omega))
    (by have e : 0 + (k - 1) + 1 = k := by omega
        rw [e]; exact hstop)
  have e : 0 + (k - 1) + 1 = k := by omega
  rw [cyclic_pos_zero _ _ _ hb, e] at h
  exact h

/-- Among the rows reached in one to `n` steps there is a first selectable
one, when any row is selectable. -/
theorem exists_first_selectable (entries : List inventory_entry) (base : Nat)
    (dir : scroll_direction) (hb : base < entries.length)
    (hsel : ∃ e ∈ entries, e.is_selectable = true) :
    ∃ k, 1 ≤ k ∧ k ≤ entries.length ∧
      (entry_at entries (cyclic_pos entries.length base dir k)).is_selectable = true ∧
      ∀ j, 1 ≤ j → j < k →
        (entry_at entries (cyclic_pos entries.length base dir j)).is_selectable = false := by
  obtain ⟨s, hs, hss⟩ := exists_selectable_index entries hsel
  obtain ⟨k0, hk1, hk2, hk3⟩ := cyclic_pos_surj entries.length base s dir hb hs
  have hex : ∃ k, 1 ≤ k ∧
      (entry_at entries (cyclic_pos entries.length base dir k)).is_selectable = true :=
    ⟨k0, hk1, by rw [hk3]; exact hss⟩
  refine ⟨Nat.find hex, (Nat.find_spec hex).1, ?_, (Nat.find_spec hex).2, ?_⟩
  · exact le_trans (Nat.find_min' hex ⟨hk1, by rw [hk3]; exact hss⟩) hk2
  · intro j hj1 hj2
    have := Nat.find_min hex hj2
    simp only [not_and] at this
    simpa using this hj1


/-! ## Navigation: `next_selectable_index` -/

theorem next_selectable_index_nil (fuel index : Nat) (dir : scroll_direction) :
    next_selectable_index fuel [] index dir = some index := by
  simp [next_selectable_index]

theorem next_selectable_index_cons (fuel index : Nat) (dir : scroll_direction)
    (entries : List inventory_entry) (h : 0 < entries.length) :
    next_selectable_index fuel entries index dir
      = next_selectable_loop entries index dir fuel index := by
  cases entries with
  | nil => simp at h
  | cons e rest => simp [next_selectable_index]

/-- In range, with a selectable row: the first selectable row on the way is
returned. -/
theorem next_selectable_index_first (entries : List inventory_entry) (index : Nat)
    (dir : scroll_direction) (hn : entries.length < 2 ^ 63) (hi : index < entries.length)
    (hsel : ∃ e ∈ entries, e.is_selectable = true) :
    ∃ k, 1 ≤ k ∧ k ≤ entries.length ∧
      (entry_at entries (cyclic_pos entries.length index dir k)).is_selectable = true ∧
      (∀ j, 1 ≤ j → j < k →
        (entry_at entries (cyclic_pos entries.length index dir j)).is_selectable = false) ∧
      ∀ fuel, entries.length ≤ fuel →
        next_selectable_index fuel entries index dir
          = some (cyclic_pos entries.length index dir k) := by
  obtain ⟨k, hk1, hk2, hk3, hk4⟩ := exists_first_selectable entries index dir hi hsel
  refine ⟨k, hk1, hk2, hk3, hk4, ?_⟩
  intro fuel hf
  rw [next_selectable_index_cons _ _ _ _ (by omega)]
  exact next_selectable_loop_found entries index index dir hn hi k hk1 hk2 (Or.inl hk3)
    (fun j h1 h2 => ⟨hk4 j h1 h2, cyclic_pos_ne _ _ _ _ hi (by omega) (by omega)⟩)
    fuel (by omega)

/-- In range, without any selectable row: the start index is returned. -/
theorem next_selectable_index_none (entries : List inventory_entry) (index : Nat)
    (dir : scroll_direction) (hn : entries.length < 2 ^ 63) (hi : index < entries.length)
    (hsel : ∀ e ∈ entries, e.is_selectable = false) (fuel : Nat)
    (hf : entries.length ≤ fuel) :
    next_selectable_index fuel entries index dir = some index := by
  rw [next_selectable_index_cons _ _ _ _ (by omega)]
  have h := next_selectable_loop_found entries index index dir hn hi entries.length
    (by omega) (by omega) (Or.inr (cyclic_pos_full _ _ _ hi))
    (fun j h1 h2 => ⟨hsel _ (entry_at_mem _ _ (cyclic_pos_lt _ _ _ _ (by omega))),
      cyclic_pos_ne _ _ _ _ hi (by omega) (by omega)⟩)
    fuel hf
  rw [cyclic_pos_full _ _ _ hi] at h
  exact h

/-- Out of range, with a selectable row: the result is the first selectable
row met from the row that the first step of the loop lands on. -/
theorem next_selectable_index_outside (entries : List inventory_entry) (index : Nat)
    (dir : scroll_direction) (hn : entries.length < 2 ^ 63) (hi : entries.length ≤ index)
    (hsel : ∃ e ∈ entries, e.is_selectable = true) :
    ∃ k, k < entries.length ∧
      (entry_at entries (cyclic_pos entries.length
        ((index + dir.to_size_t + entries.length) % size_t_range % entries.length)
        dir k)).is_selectable = true ∧
      (∀ j, j < k → (entry_at entries (cyclic_pos entries.length
        ((index + dir.to_size_t + entries.length) % size_t_range % entries.length)
        dir j)).is_selectable = false) ∧
      ∀ fuel, entries.length ≤ fuel →
        next_selectable_index fuel entries index dir
          = some (cyclic_pos entries.length
              ((index + dir.to_size_t + entries.length) % size_t_range % entries.length)
              dir k) := by
  obtain ⟨s, hs, _⟩ := exists_selectable_index entries hsel
  have hpos : 0 < entries.length := by omega
  have hx0 := step_lt entries.length index dir hpos
  by_cases h0 : (entry_at entries
      ((index + dir.to_size_t + entries.length) % size_t_range % entries.length)).is_selectable
      = true
  · refine ⟨0, hpos, by rw [cyclic_pos_zero _ _ _ hx0]; exact h0, fun j hj => by omega, ?_⟩
    intro fuel hf
    rw [next_selectable_index_cons _ _ _ _ hpos, cyclic_pos_zero _ _ _ hx0]
    obtain ⟨f, rfl⟩ : ∃ f, fuel = f + 1 := ⟨fuel - 1, by omega⟩
    simp only [next_selectable_loop]
    rw [if_neg]
    intro hc
    simp [h0] at hc
  · obtain ⟨k, hk1, hk2, hk3, hk4⟩ := exists_first_selectable entries _ dir hx0 hsel
    have hkn : k ≠ entries.length := by
      intro hk
      rw [hk, cyclic_pos_full _ _ _ hx0] at hk3
      exact h0 hk3
    refine ⟨k, by omega, hk3, ?_, ?_⟩
    · intro j hj
      rcases Nat.eq_zero_or_pos j with h | h
      · rw [h, cyclic_pos_zero _ _ _ hx0]; simpa using h0
      · exact hk4 j h hj
    · intro fuel hf
      rw [next_selectable_index_cons _ _ _ _ hpos]
      obtain ⟨f, rfl⟩ : ∃ f, fuel = f + 1 := ⟨fuel - 1, by omega⟩
      simp only [next_selectable_loop]
      have hne : (index + dir.to_size_t + entries.length) % size_t_range % entries.length
          ≠ index := by omega
      rw [if_pos ⟨hne, by simpa using h0⟩]
      exact next_selectable_loop_found entries index _ dir hn hx0 k hk1 hk2 (Or.inl hk3)
        (fun j h1 h2 => ⟨hk4 j h1 h2, by
          have := cyclic_pos_lt entries.length
            ((index + dir.to_size_t + entries.length) % size_t_range % entries.length)
            dir j hpos
          omega⟩)
        f (by omega)

/-- With a selectable row in the list, `next_selectable_index` returns the
index of a selectable row from every start index. -/
theorem next_selectable_index_reaches (entries : List inventory_entry) (index : Nat)
    (dir : scroll_direction) (hn : entries.length < 2 ^ 63)
    (hsel : ∃ e ∈ entries, e.is_selectable = true) :
    ∃ r, r < entries.length ∧ (entry_at entries r).is_selectable = true ∧
      ∀ fuel, entries.length ≤ fuel →
        next_selectable_index fuel entries index dir = some r := by
  by_cases hi : index < entries.length
  · obtain ⟨k, _, _, hk3, _, hk5⟩ := next_selectable_index_first entries index dir hn hi hsel
    exact ⟨_, cyclic_pos_lt _ _ dir k (by omega), hk3, hk5⟩
  · obtain ⟨k, _, hk3, _, hk5⟩ :=
      next_selectable_index_outside entries index dir hn (by omega) hsel
    exact ⟨_, cyclic_pos_lt _ _ dir k (by omega), hk3, hk5⟩

/-- C7: for every entry list with at least one selectable row (so the list is
not empty), every start index and both directions, `next_selectable_index`
terminates (any fuel of at least the number of rows gives the result) and
returns the index of a selectable row.  The list is shorter than `2 ^ 63`, as
every `std::vector` of entries is. -/
theorem next_selectable_index_total (entries : List inventory_entry) (index : Nat)
    (dir : scroll_direction) (hn : entries.length < 2 ^ 63)
    (hsel : ∃ e ∈ entries, e.is_selectable = true) :
    ∃ r, r < entries.length ∧ (entry_at entries r).is_selectable = true ∧
      ∀ fuel, entries.length ≤ fuel →
        next_selectable_index fuel entries index dir = some r :=
  next_selectable_index_reaches entries index dir hn hsel

/-- Witness for C7 on the paginated sample column, backwards from its header
row 0. -/
theorem next_selectable_index_total_witness :
    sample_paged.entries.length < 2 ^ 63 ∧
    (∃ e ∈ sample_paged.entries, e.is_selectable = true) ∧
    ∃ r, r < sample_paged.entries.length ∧
      (entry_at sample_paged.entries r).is_selectable = true ∧
      ∀ fuel, sample_paged.entries.length ≤ fuel →
        next_selectable_index fuel sample_paged.entries 0 scroll_direction.BACKWARD = some r :=
  ⟨by decide, by decide,
    next_selectable_index_total sample_paged.entries 0 scroll_direction.BACKWARD
      (by decide) (by decide)⟩

/-- C8: `next_selectable_index( index, dir )` returns `index` when the entry
list is empty, and when the list is not empty, `index` is in range and no row
is selectable; when some row is selectable it returns the first selectable row
met when stepping from `index` in direction `dir` with wrap-around: for
`index` in range the row `k` steps away for the least `k` from 1 to the number
of rows whose row is selectable, and for `index` out of range the first
selectable row met from the row that the first wrapped step lands on. -/
theorem next_selectable_index_spec (entries : List inventory_entry) (index : Nat)
    (dir : scroll_direction) (hn : entries.length < 2 ^ 63) :
    (entries = [] → ∀ fuel, next_selectable_index fuel entries index dir = some index) ∧
    (index < entries.length → (∀ e ∈ entries, e.is_selectable = false) →
      ∀ fuel, entries.length ≤ fuel →
        next_selectable_index fuel entries index dir = some index) ∧
    (index < entries.length → (∃ e ∈ entries, e.is_selectable = true) →
      ∃ k, 1 ≤ k ∧ k ≤ entries.length ∧
        (entry_at entries (cyclic_pos entries.length index dir k)).is_selectable = true ∧
        (∀ j, 1 ≤ j → j < k →
          (entry_at entries (cyclic_pos entries.length index dir j)).is_selectable = false) ∧
        ∀ fuel, entries.length ≤ fuel →
          next_selectable_index fuel entries index dir
            = some (cyclic_pos entries.length index dir k)) ∧
    (entries.length ≤ index → (∃ e ∈ entries, e.is_selectable = true) →
      ∃ k, k < entries.length ∧
        (entry_at entries (cyclic_pos entries.length
          ((index + dir.to_size_t + entries.length) % size_t_range % entries.length)
          dir k)).is_selectable = true ∧
        (∀ j, j < k → (entry_at entries (cyclic_pos entries.length
          ((index + dir.to_size_t + entries.length) % size_t_range % entries.length)
          dir j)).is_selectable = false) ∧
        ∀ fuel, entries.length ≤ fuel →
          next_selectable_index fuel entries index dir
            = some (cyclic_pos entries.length
                ((index + dir.to_size_t + entries.length) % size_t_range % entries.length)
                dir k)) := by
  refine ⟨?_, ?_, ?_, ?_⟩
  · intro he fuel
    rw [he]; exact next_selectable_index_nil fuel index dir
  · intro hi hsel fuel hf
    exact next_selectable_index_none entries index dir hn hi hsel fuel hf
  · intro hi hsel
    exact next_selectable_index_first entries index dir hn hi hsel
  · intro hi hsel
    exact next_selectable_index_outside entries index dir hn hi hsel

/-- Witness for C8 on the paginated sample column, forwards from row 2. -/
theorem next_selectable_index_spec_witness :
    sample_paged.entries.length < 2 ^ 63 ∧
    (2 < sample_paged.entries.length ∧ (∃ e ∈ sample_paged.entries, e.is_selectable = true) ∧
      ∃ k, 1 ≤ k ∧ k ≤ sample_paged.entries.length ∧
        (entry_at sample_paged.entries
          (cyclic_pos sample_paged.entries.length 2 scroll_direction.FORWARD k)).is_selectable
          = true ∧
        (∀ j, 1 ≤ j → j < k →
          (entry_at sample_paged.entries
            (cyclic_pos sample_paged.entries.length 2 scroll_direction.FORWARD j)).is_selectable
            = false) ∧
        ∀ fuel, sample_paged.entries.length ≤ fuel →
          next_selectable_index fuel sample_paged.entries 2 scroll_direction.FORWARD
            = some (cyclic_pos sample_paged.entries.length 2 scroll_direction.FORWARD k)) :=
  ⟨by decide, by decide, by decide,
    (next_selectable_index_spec sample_paged.entries 2 scroll_direction.FORWARD
      (by decide)).2.2.1 (by decide) (by decide)⟩

theorem sample_next_forward :
    next_selectable_index 8 sample_paged.entries 2 scroll_direction.FORWARD = some 4 := by
  decide

theorem sample_next_backward :
    next_selectable_index 8 sample_paged.entries 1 scroll_direction.BACKWARD = some 7 := by
  decide

/-! ## Navigation: `select` and `move_selection` -/

theorem cyclic_pos_add (n x : Nat) (dir : scroll_direction) (j k : Nat) (hx : x < n)
    (hjk : j + k ≤ n) :
    cyclic_pos n (cyclic_pos n x dir j) dir k = cyclic_pos n x dir (j + k) := by
  have hlt := cyclic_pos_lt n x dir j (by omega)
  cases dir
  · rw [cyclic_pos_forward n _ k hlt (by omega), cyclic_pos_forward n x j hx (by omega),
      cyclic_pos_forward n x (j + k) hx (by omega)]
    split <;> split <;> split <;> omega
  · rw [cyclic_pos_backward n _ k hlt (by omega), cyclic_pos_backward n x j hx (by omega),
      cyclic_pos_backward n x (j + k) hx (by omega)]
    split <;> split <;> split <;> omega

theorem select_selectable (fuel : Nat) (c : inventory_column) (r : Nat) (dir : scroll_direction)
    (hr : r < c.entries.length) (hs : (entry_at c.entries r).is_selectable = true) :
    select fuel c r dir
      = some { c with selected_index := r, page_offset := r - r % c.entries_per_page } := by
  simp [select, hr, hs]

theorem move_selection_loop_item (inner fuel : Nat) (c : inventory_column)
    (dir : scroll_direction) (index r : Nat) (hmode : c.mode = navigation_mode.ITEM)
    (h : next_selectable_index inner c.entries index dir = some r) :
    move_selection_loop inner c dir (fuel + 1) index = some r := by
  simp [move_selection_loop, h, is_selected_by_category, hmode]

/-- In ITEM mode `move_selection` moves the cursor to the row returned by
`next_selectable_index` for the old cursor. -/
theorem move_selection_item_mode (c : inventory_column) (dir : scroll_direction)
    (hmode : c.mode = navigation_mode.ITEM) (hn : c.entries.length < 2 ^ 63)
    (hsel : ∃ e ∈ c.entries, e.is_selectable = true) :
    ∃ r, r < c.entries.length ∧ (entry_at c.entries r).is_selectable = true ∧
      ∀ fuel, c.entries.length ≤ fuel →
        next_selectable_index fuel c.entries c.selected_index dir = some r ∧
        move_selection fuel c dir
          = some { c with selected_index := r, page_offset := r - r % c.entries_per_page } := by
  obtain ⟨r, hr, hs, hf⟩ := next_selectable_index_reaches c.entries c.selected_index dir hn hsel
  refine ⟨r, hr, hs, ?_⟩
  intro fuel hfuel
  refine ⟨hf fuel hfuel, ?_⟩
  obtain ⟨f, rfl⟩ : ∃ f, fuel = f + 1 := ⟨fuel - 1, by omega⟩
  unfold move_selection
  rw [move_selection_loop_item (f + 1) f c dir _ r hmode (hf _ hfuel)]
  exact select_selectable _ c r dir hr hs

/-- C10: in ITEM mode, for every column with at least one selectable row,
`move_selection( dir )` terminates and sets `selected_index` to the value of
`next_selectable_index( selected_index, dir )`, a selectable row: it stops at
the first next selectable row.  The rows and every other field but the page
offset stay as they were; the page offset follows the cursor. -/
theorem move_selection_item (c : inventory_column) (dir : scroll_direction)
    (hmode : c.mode = navigation_mode.ITEM) (hn : c.entries.length < 2 ^ 63)
    (hsel : ∃ e ∈ c.entries, e.is_selectable = true) :
    ∃ r, r < c.entries.length ∧ (entry_at c.entries r).is_selectable = true ∧
      ∀ fuel, c.entries.length ≤ fuel →
        next_selectable_index fuel c.entries c.selected_index dir = some r ∧
        move_selection fuel c dir
          = some { c with selected_index := r, page_offset := r - r % c.entries_per_page } :=
  move_selection_item_mode c dir hmode hn hsel

/-- Witness for C10 on the paginated sample column (ITEM mode, cursor on row
1), moving forwards. -/
theorem move_selection_item_witness :
    sample_paged.mode = navigation_mode.ITEM ∧ sample_paged.entries.length < 2 ^ 63 ∧
    (∃ e ∈ sample_paged.entries, e.is_selectable = true) ∧
    ∃ r, r < sample_paged.entries.length ∧
      (entry_at sample_paged.entries r).is_selectable = true ∧
      ∀ fuel, sample_paged.entries.length ≤ fuel →
        next_selectable_index fuel sample_paged.entries sample_paged.selected_index
          scroll_direction.FORWARD = some r ∧
        move_selection fuel sample_paged scroll_direction.FORWARD
          = some { sample_paged with
              selected_index := r, page_offset := r - r % sample_paged.entries_per_page } :=
  ⟨by decide, by decide, by decide,
    move_selection_item sample_paged scroll_direction.FORWARD (by decide) (by decide)
      (by decide)⟩

theorem sample_move_forward :
    move_selection 8 sample_paged scroll_direction.FORWARD
      = some { sample_paged with selected_index := 2 } := by
  decide

/-- In CATEGORY mode the loop of `move_selection`, started `j` steps away from
the selectable cursor row, stops `t` steps away from it, where `t` is the first
step count whose row is selectable and is the cursor row itself or is not
selected by category. -/
theorem move_selection_loop_walk (c : inventory_column) (dir : scroll_direction)
    (hn : c.entries.length < 2 ^ 63) (hs : c.selected_index < c.entries.length)
    (t : Nat) (ht1 : 1 ≤ t) (htn : t ≤ c.entries.length)
    (hsel : (entry_at c.entries
      (cyclic_pos c.entries.length c.selected_index dir t)).is_selectable = true)
    (hstop : t = c.entries.length ∨ is_selected_by_category c (entry_at c.entries
      (cyclic_pos c.entries.length c.selected_index dir t)) = false)
    (hskip : ∀ i, 1 ≤ i → i < t →
      (entry_at c.entries
        (cyclic_pos c.entries.length c.selected_index dir i)).is_selectable = true →
      is_selected_by_category c (entry_at c.entries
        (cyclic_pos c.entries.length c.selected_index dir i)) = true)
    (inner : Nat) (hinner : c.entries.length ≤ inner) (m : Nat) :
    ∀ (j fuel : Nat), t - j ≤ m → j < t → m ≤ fuel →
      move_selection_loop inner c dir fuel
          (cyclic_pos c.entries.length c.selected_index dir j)
        = some (cyclic_pos c.entries.length c.selected_index dir t) := by
  induction m with
  | zero => intro j fuel h1 h2 _; omega
  | succ m ih =>
    intro j fuel h1 h2 h3
    obtain ⟨f, rfl⟩ : ∃ f, fuel = f + 1 := ⟨fuel - 1, by omega⟩
    have hpj := cyclic_pos_lt c.entries.length c.selected_index dir j (by omega)
    have hex : ∃ e ∈ c.entries, e.is_selectable = true :=
      ⟨_, entry_at_mem _ _ (cyclic_pos_lt _ c.selected_index dir t (by omega)), hsel⟩
    obtain ⟨k, hk1, hk2, hk3, hk4, hk5⟩ :=
      next_selectable_index_first c.entries _ dir hn hpj hex
    have hkt : k ≤ t - j := by
      by_contra hlt
      have h := hk4 (t - j) (by omega) (by omega)
      rw [cyclic_pos_add _ _ dir j (t - j) hs (by omega)] at h
      have e : j + (t - j) = t := by omega
      rw [e, hsel] at h
      exact absurd h (by simp)
    have hadd := cyclic_pos_add c.entries.length c.selected_index dir j k hs (by omega)
    rw [hadd] at hk3
    simp only [move_selection_loop]
    rw [hk5 inner hinner, hadd]
    simp only
    by_cases hjk : j + k = t
    · rw [hjk]
      rw [if_neg]
      intro hc
      rcases hstop with h | h
      · rw [h, cyclic_pos_full _ _ _ hs] at hc
        exact hc.1 rfl
      · rw [h] at hc
        exact absurd hc.2 (by simp)
    · have hq := hskip (j + k) (by omega) (by omega) hk3
      rw [if_pos ⟨cyclic_pos_ne _ _ dir (j + k) hs (by omega) (by omega), hq⟩]
      exact ih (j + k) f (by omega) (by omega) (by omega)

/-- There is a first step count, from 1 to the number of rows, whose row is
selectable and is the cursor row itself or is not selected by category. -/
theorem exists_first_stop (c : inventory_column) (dir : scroll_direction)
    (hs : c.selected_index < c.entries.length)
    (hsel : (entry_at c.entries c.selected_index).is_selectable = true) :
    ∃ t, 1 ≤ t ∧ t ≤ c.entries.length ∧
      (entry_at c.entries
        (cyclic_pos c.entries.length c.selected_index dir t)).is_selectable = true ∧
      (t = c.entries.length ∨ is_selected_by_category c (entry_at c.entries
        (cyclic_pos c.entries.length c.selected_index dir t)) = false) ∧
      ∀ i, 1 ≤ i → i < t →
        (entry_at c.entries
          (cyclic_pos c.entries.length c.selected_index dir i)).is_selectable = true →
        is_selected_by_category c (entry_at c.entries
          (cyclic_pos c.entries.length c.selected_index dir i)) = true := by
  have hex : ∃ t, 1 ≤ t ∧
      (entry_at c.entries
        (cyclic_pos c.entries.length c.selected_index dir t)).is_selectable = true ∧
      (t = c.entries.length ∨ is_selected_by_category c (entry_at c.entries
        (cyclic_pos c.entries.length c.selected_index dir t)) = false) :=
    ⟨c.entries.length, by omega, by rw [cyclic_pos_full _ _ _ hs]; exact hsel, Or.inl rfl⟩
  have hspec := Nat.find_spec hex
  refine ⟨Nat.find hex, hspec.1, ?_, hspec.2.1, hspec.2.2, ?_⟩
  · exact Nat.find_min' hex
      ⟨by omega, by rw [cyclic_pos_full _ _ _ hs]; exact hsel, Or.inl rfl⟩
  · intro i hi1 hi2 hi3
    have hmin := Nat.find_min hex hi2
    by_contra hq
    exact hmin ⟨hi1, hi3, Or.inr (by simpa using hq)⟩

theorem is_selectable_is_item (e : inventory_entry) (h : e.is_selectable = true) :
    e.is_item = true := by
  simp [inventory_entry.is_selectable] at h
  exact h.1

theorem get_selected_of_item (c : inventory_column) (hs : c.selected_index < c.entries.length)
    (hitem : (entry_at c.entries c.selected_index).is_item = true) :
    get_selected c = entry_at c.entries c.selected_index := by
  unfold get_selected
  rw [if_neg]
  simp [hitem]
  omega

theorem is_selected_by_category_iff (c : inventory_column) (e : inventory_entry)
    (hmode : c.mode = navigation_mode.CATEGORY) (hs : c.selected_index < c.entries.length)
    (hsel : (entry_at c.entries c.selected_index).is_selectable = true)
    (he : e.is_selectable = true) :
    is_selected_by_category c e = true ↔
      (e.get_category_ptr = (entry_at c.entries c.selected_index).get_category_ptr ∧
        page_of_entry c e = page_index c) := by
  unfold is_selected_by_category
  rw [get_selected_of_item c hs (is_selectable_is_item _ hsel)]
  simp [is_selectable_is_item _ he, hmode]

/-- In CATEGORY mode with the cursor on a selectable row, `move_selection`
stops on a selectable row that is the cursor row or is not selected by
category. -/
theorem move_selection_category_mode (c : inventory_column) (dir : scroll_direction)
    (hmode : c.mode = navigation_mode.CATEGORY) (hn : c.entries.length < 2 ^ 63)
    (hs : c.selected_index < c.entries.length)
    (hsel : (entry_at c.entries c.selected_index).is_selectable = true) :
    ∃ r, r < c.entries.length ∧ (entry_at c.entries r).is_selectable = true ∧
      (r = c.selected_index ∨
        (entry_at c.entries r).get_category_ptr
          ≠ (entry_at c.entries c.selected_index).get_category_ptr ∨
        page_of_entry c (entry_at c.entries r) ≠ page_index c) ∧
      (r = c.selected_index → ∀ i, i < c.entries.length → i ≠ c.selected_index →
        (entry_at c.entries i).is_selectable = true →
        (entry_at c.entries i).get_category_ptr
          = (entry_at c.entries c.selected_index).get_category_ptr ∧
        page_of_entry c (entry_at c.entries i) = page_index c) ∧
      ∀ fuel, c.entries.length ≤ fuel →
        move_selection fuel c dir
          = some { c with selected_index := r, page_offset := r - r % c.entries_per_page } := by
  obtain ⟨t, ht1, htn, htsel, htstop, htskip⟩ := exists_first_stop c dir hs hsel
  have hr := cyclic_pos_lt c.entries.length c.selected_index dir t (by omega)
  refine ⟨_, hr, htsel, ?_, ?_, ?_⟩
  · rcases htstop with h | h
    · left; rw [h]; exact cyclic_pos_full _ _ _ hs
    · right
      have hiff := is_selected_by_category_iff c _ hmode hs hsel htsel
      by_contra hcon
      simp only [not_or, not_not] at hcon
      rw [hiff.mpr hcon] at h
      exact absurd h (by simp)
  · intro hrs i hi hne hisel
    have htN : t = c.entries.length := by
      by_contra hlt
      exact cyclic_pos_ne _ _ dir t hs (by omega) (by omega) hrs
    obtain ⟨j, hj1, hj2, hj3⟩ := cyclic_pos_surj c.entries.length c.selected_index i dir hs hi
    have hjN : j ≠ c.entries.length := by
      intro h
      rw [h, cyclic_pos_full _ _ _ hs] at hj3
      exact hne hj3.symm
    have hq := htskip j hj1 (by omega) (by rw [hj3]; exact hisel)
    rw [hj3] at hq
    exact (is_selected_by_category_iff c _ hmode hs hsel hisel).mp hq
  · intro fuel hf
    unfold move_selection
    have hw := move_selection_loop_walk c dir hn hs t ht1 htn htsel htstop htskip fuel hf t
      0 fuel (by omega) (by omega) (by omega)
    rw [cyclic_pos_zero _ _ _ hs] at hw
    rw [hw]
    exact select_selectable _ c _ dir hr htsel

/-- C9 (as amended): in CATEGORY mode, for every column whose cursor is on a
selectable item row, `move_selection( dir )` terminates and leaves the cursor
on a selectable row that is the start row, or has a category different from
the start row, or is (by its first equal row) on a page other than the current
page; it is back on the start row only when every other selectable row of the
column shares the category of the start row and is on the current page. -/
theorem move_selection_category (c : inventory_column) (dir : scroll_direction)
    (hmode : c.mode = navigation_mode.CATEGORY) (hn : c.entries.length < 2 ^ 63)
    (hs : c.selected_index < c.entries.length)
    (hsel : (entry_at c.entries c.selected_index).is_selectable = true) :
    ∃ r, r < c.entries.length ∧ (entry_at c.entries r).is_selectable = true ∧
      (r = c.selected_index ∨
        (entry_at c.entries r).get_category_ptr
          ≠ (entry_at c.entries c.selected_index).get_category_ptr ∨
        page_of_entry c (entry_at c.entries r) ≠ page_index c) ∧
      (r = c.selected_index → ∀ i, i < c.entries.length → i ≠ c.selected_index →
        (entry_at c.entries i).is_selectable = true →
        (entry_at c.entries i).get_category_ptr
          = (entry_at c.entries c.selected_index).get_category_ptr ∧
        page_of_entry c (entry_at c.entries i) = page_index c) ∧
      ∀ fuel, c.entries.length ≤ fuel →
        move_selection fuel c dir
          = some { c with selected_index := r, page_offset := r - r % c.entries_per_page } :=
  move_selection_category_mode c dir hmode hn hs hsel

/-- Witness for the amended C9 on the paginated one-category sample column. -/
theorem move_selection_category_witness :
    sample_category_paged.mode = navigation_mode.CATEGORY ∧
    sample_category_paged.entries.length < 2 ^ 63 ∧
    sample_category_paged.selected_index < sample_category_paged.entries.length ∧
    (entry_at sample_category_paged.entries
      sample_category_paged.selected_index).is_selectable = true ∧
    ∃ r, r < sample_category_paged.entries.length ∧
      (entry_at sample_category_paged.entries r).is_selectable = true ∧
      (r = sample_category_paged.selected_index ∨
        (entry_at sample_category_paged.entries r).get_category_ptr
          ≠ (entry_at sample_category_paged.entries
              sample_category_paged.selected_index).get_category_ptr ∨
        page_of_entry sample_category_paged (entry_at sample_category_paged.entries r)
          ≠ page_index sample_category_paged) ∧
      (r = sample_category_paged.selected_index →
        ∀ i, i < sample_category_paged.entries.length →
        i ≠ sample_category_paged.selected_index →
        (entry_at sample_category_paged.entries i).is_selectable = true →
        (entry_at sample_category_paged.entries i).get_category_ptr
          = (entry_at sample_category_paged.entries
              sample_category_paged.selected_index).get_category_ptr ∧
        page_of_entry sample_category_paged (entry_at sample_category_paged.entries i)
          = page_index sample_category_paged) ∧
      ∀ fuel, sample_category_paged.entries.length ≤ fuel →
        move_selection fuel sample_category_paged scroll_direction.FORWARD
          = some { sample_category_paged with
              selected_index := r,
              page_offset := r - r % sample_category_paged.entries_per_page } :=
  ⟨by decide, by decide, by decide, by decide,
    move_selection_category sample_category_paged scroll_direction.FORWARD (by decide)
      (by decide) (by decide) (by decide)⟩

/-- Counterexample to C9 as stated: the one-category sample column paginates
into two pages of the same category with the cursor on row 1 (item A);
`move_selection( FORWARD )` in CATEGORY mode moves the cursor to row 4 (item C
on the second page), which is not the start row and has the start row's
category, although the page holds one category only. -/
theorem move_selection_category_counterexample :
    prepare_paging plain_externals default_preset 7 sample_category_column
      = some sample_category_paged ∧
    move_selection 6 sample_category_paged scroll_direction.FORWARD
      = some { sample_category_paged with selected_index := 4, page_offset := 3 } ∧
    (4 : Nat) ≠ sample_category_paged.selected_index ∧
    (entry_at sample_category_paged.entries 4).get_category_ptr
      = (entry_at sample_category_paged.entries
          sample_category_paged.selected_index).get_category_ptr ∧
    (∀ e ∈ sample_category_paged.entries, e.get_category_ptr = some sample_cat1) := by
  decide

/-! ## Pagination: the loop that recovers the category rows -/

theorem expand_to_fit_entries (X : externals) (P : inventory_selector_preset)
    (c : inventory_column) (e : inventory_entry) :
    (expand_to_fit X P c e).entries = c.entries := by
  unfold expand_to_fit
  split
  · rfl
  · simp only
    split <;> rfl

theorem expand_to_fit_frame (X : externals) (P : inventory_selector_preset)
    (c : inventory_column) (e : inventory_entry) :
    same_frame c (expand_to_fit X P c e) := by
  unfold expand_to_fit same_frame
  split
  · simp
  · simp only
    split <;> simp

theorem same_frame_refl (c : inventory_column) : same_frame c c := by
  simp [same_frame]

theorem same_frame_trans (a b c : inventory_column) (h1 : same_frame a b)
    (h2 : same_frame b c) : same_frame a c := by
  unfold same_frame at *
  obtain ⟨a1, a2, a3, a4, a5, a6, a7, a8⟩ := h1
  obtain ⟨b1, b2, b3, b4, b5, b6, b7, b8⟩ := h2
  exact ⟨b1.trans a1, b2.trans a2, b3.trans a3, b4.trans a4, b5.trans a5, b6.trans a6,
    b7.trans a7, b8.trans a8⟩

theorem entry_at_append (pre rest : List inventory_entry) (e : inventory_entry) :
    entry_at (pre ++ e :: rest) pre.length = e := by
  unfold entry_at
  rw [List.getD_eq_getElem?_getD, List.getElem?_append_right (le_refl _)]
  simp

theorem insert_at_append (pre rest : List inventory_entry) (x : inventory_entry) :
    insert_at (pre ++ rest) pre.length x = pre ++ x :: rest := by
  simp [insert_at]

theorem recover_categories_continue (X : externals) (P : inventory_selector_preset)
    (fuel : Nat) (c : inventory_column) (cur : Option item_category) (i : Nat)
    (hi : i < c.entries.length)
    (hc : (entry_at c.entries i).get_category_ptr = cur ∧ i % c.entries_per_page ≠ 0) :
    recover_categories X P (fuel + 1) c cur i = recover_categories X P fuel c cur (i + 1) := by
  simp only [recover_categories]
  rw [if_pos hi, if_pos hc]

theorem recover_categories_insert (X : externals) (P : inventory_selector_preset)
    (fuel : Nat) (c : inventory_column) (cur : Option item_category) (i : Nat)
    (hi : i < c.entries.length)
    (hc : ¬((entry_at c.entries i).get_category_ptr = cur ∧ i % c.entries_per_page ≠ 0))
    (ins : inventory_entry)
    (hins : ins = if i % c.entries_per_page = c.entries_per_page - 1 then null_entry
      else category_entry (entry_at c.entries i).get_category_ptr) :
    recover_categories X P (fuel + 1) c cur i
      = recover_categories X P fuel
          (expand_to_fit X P { c with entries := insert_at c.entries i ins } ins)
          (entry_at c.entries i).get_category_ptr (i + 1) := by
  simp only [recover_categories]
  rw [if_pos hi, if_neg hc, hins]

theorem recover_categories_done (X : externals) (P : inventory_selector_preset)
    (fuel : Nat) (c : inventory_column) (cur : Option item_category) (i : Nat)
    (hi : ¬ i < c.entries.length) :
    recover_categories X P (fuel + 1) c cur i = some c := by
  simp only [recover_categories]
  rw [if_neg hi]

theorem recover_categories_mono (X : externals) (P : inventory_selector_preset) (fuel : Nat) :
    ∀ (c : inventory_column) (cur : Option item_category) (i extra : Nat)
      (r : inventory_column), recover_categories X P fuel c cur i = some r →
      recover_categories X P (fuel + extra) c cur i = some r := by
  induction fuel with
  | zero => intro c cur i extra r h; simp [recover_categories] at h
  | succ f ih =>
    intro c cur i extra r h
    have e : f + 1 + extra = (f + extra) + 1 := by omega
    rw [e]
    by_cases hi : i < c.entries.length
    · by_cases hc : (entry_at c.entries i).get_category_ptr = cur ∧ i % c.entries_per_page ≠ 0
      · rw [recover_categories_continue X P _ c cur i hi hc] at h ⊢
        exact ih _ _ _ _ _ h
      · rw [recover_categories_insert X P _ c cur i hi hc _ rfl] at h ⊢
        exact ih _ _ _ _ _ h
    · rw [recover_categories_done X P _ c cur i hi] at h ⊢
      exact h

theorem mod_succ_of_last (i n : Nat) (hn : 2 ≤ n) (h : i % n = n - 1) :
    (i + 1) % n = 0 := by
  rw [Nat.add_mod, h, Nat.mod_eq_of_lt (show 1 < n by omega)]
  have e : n - 1 + 1 = n := by omega
  rw [e, Nat.mod_self]

theorem mod_succ_of_not_last (i n : Nat) (hn : 2 ≤ n) (h : i % n ≠ n - 1) :
    (i + 1) % n = i % n + 1 := by
  have hlt : i % n < n := Nat.mod_lt _ (by omega)
  rw [Nat.add_mod, Nat.mod_eq_of_lt (show 1 < n by omega)]
  exact Nat.mod_eq_of_lt (by omega)

/-- With page size one the loop never finishes once a row is left to visit. -/
theorem recover_categories_diverges (X : externals) (P : inventory_selector_preset)
    (fuel : Nat) :
    ∀ (c : inventory_column) (cur : Option item_category) (i : Nat),
      c.entries_per_page = 1 → i < c.entries.length →
      recover_categories X P fuel c cur i = none := by
  induction fuel with
  | zero => intro c cur i _ _; simp [recover_categories]
  | succ f ih =>
    intro c cur i hepp hi
    have hc : ¬((entry_at c.entries i).get_category_ptr = cur ∧ i % c.entries_per_page ≠ 0) := by
      rw [hepp]; simp [Nat.mod_one]
    rw [recover_categories_insert X P _ c cur i hi hc _ rfl]
    apply ih
    · rw [(expand_to_fit_frame X P _ _).2.2.2.2.2.2.2]; exact hepp
    · rw [expand_to_fit_entries]
      simp only [insert_at, List.length_append, List.length_cons, List.length_take,
        List.length_drop]
      omega

theorem recover_step_continue (X : externals) (P : inventory_selector_preset)
    (fuel : Nat) (c : inventory_column) (cur : Option item_category) (i : Nat)
    (pre rest : List inventory_entry) (e : inventory_entry)
    (hent : c.entries = pre ++ e :: rest) (hlen : pre.length = i)
    (hc : e.get_category_ptr = cur ∧ i % c.entries_per_page ≠ 0) :
    recover_categories X P (fuel + 1) c cur i = recover_categories X P fuel c cur (i + 1) := by
  have hi : i < c.entries.length := by rw [hent, ← hlen]; simp
  have he : entry_at c.entries i = e := by rw [hent, ← hlen]; exact entry_at_append _ _ _
  exact recover_categories_continue X P fuel c cur i hi (by rw [he]; exact hc)

theorem recover_step_insert (X : externals) (P : inventory_selector_preset)
    (fuel : Nat) (c : inventory_column) (cur : Option item_category) (i : Nat)
    (pre rest : List inventory_entry) (e : inventory_entry)
    (hent : c.entries = pre ++ e :: rest) (hlen : pre.length = i)
    (hc : ¬(e.get_category_ptr = cur ∧ i % c.entries_per_page ≠ 0))
    (ins : inventory_entry)
    (hins : ins = if i % c.entries_per_page = c.entries_per_page - 1 then null_entry
      else category_entry e.get_category_ptr) :
    ∃ c1, c1.entries = pre ++ ins :: e :: rest ∧ same_frame c c1 ∧
      recover_categories X P (fuel + 1) c cur i
        = recover_categories X P fuel c1 e.get_category_ptr (i + 1) := by
  have hi : i < c.entries.length := by rw [hent, ← hlen]; simp
  have he : entry_at c.entries i = e := by rw [hent, ← hlen]; exact entry_at_append _ _ _
  refine ⟨expand_to_fit X P { c with entries := insert_at c.entries i ins } ins, ?_, ?_, ?_⟩
  · rw [expand_to_fit_entries]
    simp only
    rw [hent, ← hlen]
    exact insert_at_append _ _ _
  · exact expand_to_fit_frame X P { c with entries := insert_at c.entries i ins } ins
  · rw [recover_categories_insert X P fuel c cur i hi (by rw [he]; exact hc) ins
      (by rw [he]; exact hins), he]

/-- For a page size of at least two the loop finishes and yields the rows
described by `reflow`; only rows, cells and reserved width change. -/
theorem recover_categories_reflow (X : externals) (P : inventory_selector_preset)
    (rest : List inventory_entry) :
    ∀ (pre : List inventory_entry) (c : inventory_column) (cur : Option item_category)
      (i fuel : Nat), c.entries = pre ++ rest → pre.length = i → 2 ≤ c.entries_per_page →
      3 * rest.length + 1 ≤ fuel →
      ∃ r, recover_categories X P fuel c cur i = some r ∧
        r.entries = pre ++ reflow c.entries_per_page i cur rest ∧ same_frame c r := by
  induction rest with
  | nil =>
    intro pre c cur i fuel hent hlen _ hf
    obtain ⟨f, rfl⟩ : ∃ f, fuel = f + 1 := ⟨fuel - 1, by omega⟩
    refine ⟨c, recover_categories_done X P f c cur i ?_, ?_, same_frame_refl c⟩
    · rw [hent, ← hlen]; simp
    · simp [reflow, hent]
  | cons e rest ih =>
    intro pre c cur i fuel hent hlen hepp hf
    simp only [List.length_cons] at hf
    by_cases hc : e.get_category_ptr = cur ∧ i % c.entries_per_page ≠ 0
    · obtain ⟨f, rfl⟩ : ∃ f, fuel = f + 1 := ⟨fuel - 1, by omega⟩
      rw [recover_step_continue X P f c cur i pre rest e hent hlen hc]
      obtain ⟨r, hr1, hr2, hr3⟩ := ih (pre ++ [e]) c cur (i + 1) f (by simp [hent])
        (by simp [hlen]) hepp (by omega)
      refine ⟨r, hr1, ?_, hr3⟩
      rw [hr2, reflow, if_pos hc]
      simp
    · by_cases hlast : i % c.entries_per_page = c.entries_per_page - 1
      · obtain ⟨f, rfl⟩ : ∃ f, fuel = f + 3 := ⟨fuel - 3, by omega⟩
        obtain ⟨c1, h1e, h1f, h1r⟩ := recover_step_insert X P (f + 2) c cur i pre rest e hent
          hlen hc null_entry (by rw [if_pos hlast])
        have hepp1 : c1.entries_per_page = c.entries_per_page := h1f.2.2.2.2.2.2.2
        have hm1 : (i + 1) % c.entries_per_page = 0 := mod_succ_of_last i _ hepp hlast
        have hm2 : (i + 1 + 1) % c.entries_per_page = 1 := by
          rw [mod_succ_of_not_last (i + 1) _ hepp (by omega), hm1]
        obtain ⟨c2, h2e, h2f, h2r⟩ := recover_step_insert X P (f + 1) c1 e.get_category_ptr
          (i + 1) (pre ++ [null_entry]) rest e (by simp [h1e]) (by simp [hlen])
          (by rw [hepp1, hm1]; simp) (category_entry e.get_category_ptr)
          (by rw [hepp1, hm1, if_neg (by omega)])
        have hepp2 : c2.entries_per_page = c.entries_per_page := by
          rw [h2f.2.2.2.2.2.2.2, hepp1]
        have h3r := recover_step_continue X P f c2 e.get_category_ptr (i + 1 + 1)
          (pre ++ [null_entry, category_entry e.get_category_ptr]) rest e (by simp [h2e])
          (by simp [hlen]) ⟨rfl, by rw [hepp2, hm2]; omega⟩
        obtain ⟨r, hr1, hr2, hr3⟩ := ih
          (pre ++ [null_entry, category_entry e.get_category_ptr, e]) c2 e.get_category_ptr
          (i + 1 + 1 + 1) f (by simp [h2e]) (by simp [hlen]) (by omega) (by omega)
        refine ⟨r, ?_, ?_, same_frame_trans _ _ _ (same_frame_trans _ _ _ h1f h2f) hr3⟩
        · rw [show f + 3 = (f + 2) + 1 from rfl, h1r, h2r, h3r, hr1]
        · rw [hr2, hepp2, reflow, if_neg hc, if_pos hlast,
            show i + 1 + 1 + 1 = i + 3 from rfl]
          simp
      · obtain ⟨f, rfl⟩ : ∃ f, fuel = f + 2 := ⟨fuel - 2, by omega⟩
        obtain ⟨c1, h1e, h1f, h1r⟩ := recover_step_insert X P (f + 1) c cur i pre rest e hent
          hlen hc (category_entry e.get_category_ptr) (by rw [if_neg hlast])
        have hepp1 : c1.entries_per_page = c.entries_per_page := h1f.2.2.2.2.2.2.2
        have hm1 : (i + 1) % c.entries_per_page = i % c.entries_per_page + 1 :=
          mod_succ_of_not_last i _ hepp hlast
        have h2r := recover_step_continue X P f c1 e.get_category_ptr (i + 1)
          (pre ++ [category_entry e.get_category_ptr]) rest e (by simp [h1e])
          (by simp [hlen]) ⟨rfl, by rw [hepp1, hm1]; omega⟩
        obtain ⟨r, hr1, hr2, hr3⟩ := ih
          (pre ++ [category_entry e.get_category_ptr, e]) c1 e.get_category_ptr
          (i + 1 + 1) f (by simp [h1e]) (by simp [hlen]) (by omega) (by omega)
        refine ⟨r, ?_, ?_, same_frame_trans _ _ _ h1f hr3⟩
        · rw [show f + 2 = (f + 1) + 1 from rfl, h1r, h2r, hr1]
        · rw [hr2, hepp1, reflow, if_neg hc, if_neg hlast,
            show i + 1 + 1 = i + 2 from rfl]
          simp

/-! ## Pagination: properties of the recovered rows -/

theorem null_entry_is_item : null_entry.is_item = false := by decide

theorem null_entry_is_category : null_entry.is_category = false := by decide

theorem category_entry_is_item (cat : Option item_category) :
    (category_entry cat).is_item = false := by
  simp [category_entry, inventory_entry.is_item]

theorem category_entry_is_category (cat : item_category) :
    (category_entry (some cat)).is_category = true := by
  simp [category_entry, inventory_entry.is_category, inventory_entry.is_item,
    inventory_entry.is_null, inventory_entry.get_category_ptr]

theorem category_entry_category (cat : Option item_category) :
    (category_entry cat).get_category_ptr = cat := by
  cases cat <;> simp [category_entry, inventory_entry.get_category_ptr]

theorem item_category_some (e : inventory_entry) (h : e.is_item = true) :
    ∃ cat, e.get_category_ptr = some cat := by
  unfold inventory_entry.is_item at h
  unfold inventory_entry.get_category_ptr
  cases hc : e.custom_category with
  | some c => exact ⟨c, rfl⟩
  | none =>
    cases hl : e.location with
    | some it => exact ⟨it.category, rfl⟩
    | none => rw [hl] at h; simp at h

theorem item_not_category (e : inventory_entry) (h : e.is_item = true) :
    e.is_category = false := by
  simp [inventory_entry.is_category, h]

theorem entry_at_zero (x : inventory_entry) (t : List inventory_entry) :
    entry_at (x :: t) 0 = x := rfl

theorem entry_at_succ (x : inventory_entry) (t : List inventory_entry) (k : Nat) :
    entry_at (x :: t) (k + 1) = entry_at t k := rfl

/-- For a page size of at least two, no row that `reflow` puts on the last slot
of a page is a header and every row on a first slot is a header. -/
theorem reflow_slots (epp : Nat) (hepp : 2 ≤ epp) (rest : List inventory_entry) :
    ∀ (i : Nat) (cur : Option item_category), (∀ e ∈ rest, e.is_item = true) →
      ∀ k, k < (reflow epp i cur rest).length →
        ((i + k) % epp = epp - 1 → (entry_at (reflow epp i cur rest) k).is_category = false) ∧
        ((i + k) % epp = 0 → (entry_at (reflow epp i cur rest) k).is_category = true) := by
  induction rest with
  | nil => intro i cur _ k hk; simp [reflow] at hk
  | cons e rest ih =>
    intro i cur hitems k hk
    have he : e.is_item = true := hitems e (by simp)
    have hrest : ∀ x ∈ rest, x.is_item = true := fun x hx => hitems x (by simp [hx])
    obtain ⟨cat, hcat⟩ := item_category_some e he
    rw [reflow] at hk ⊢
    by_cases hc : e.get_category_ptr = cur ∧ i % epp ≠ 0
    · rw [if_pos hc] at hk ⊢
      rcases k with _ | k
      · rw [entry_at_zero]
        exact ⟨fun _ => item_not_category e he, fun h => absurd h hc.2⟩
      · rw [entry_at_succ]
        have e1 : i + (k + 1) = (i + 1) + k := by omega
        rw [e1]
        exact ih (i + 1) cur hrest k (by simpa using hk)
    · rw [if_neg hc] at hk ⊢
      by_cases hlast : i % epp = epp - 1
      · rw [if_pos hlast] at hk ⊢
        have hm1 : (i + 1) % epp = 0 := mod_succ_of_last i _ hepp hlast
        have hm2 : (i + 1 + 1) % epp = 1 := by
          rw [mod_succ_of_not_last (i + 1) _ hepp (by omega), hm1]
        rcases k with _ | _ | _ | k
        · rw [entry_at_zero]
          exact ⟨fun _ => null_entry_is_category, fun h => by simp at h; omega⟩
        · rw [entry_at_succ, entry_at_zero, hcat]
          exact ⟨fun h => by simp at h; omega, fun _ => category_entry_is_category cat⟩
        · rw [entry_at_succ, entry_at_succ, entry_at_zero]
          exact ⟨fun _ => item_not_category e he, fun h => by
            have e2 : i + (0 + 1 + 1) = i + 1 + 1 := by omega
            rw [e2] at h; omega⟩
        · rw [entry_at_succ, entry_at_succ, entry_at_succ]
          have e1 : i + (k + 1 + 1 + 1) = (i + 3) + k := by omega
          rw [e1]
          exact ih (i + 3) _ hrest k (by simpa using hk)
      · rw [if_neg hlast] at hk ⊢
        have hm1 : (i + 1) % epp = i % epp + 1 := mod_succ_of_not_last i _ hepp hlast
        rcases k with _ | _ | k
        · rw [entry_at_zero, hcat]
          exact ⟨fun h => absurd (by simpa using h) hlast,
            fun _ => category_entry_is_category cat⟩
        · rw [entry_at_succ, entry_at_zero]
          exact ⟨fun _ => item_not_category e he, fun h => by
            have e2 : i + (0 + 1) = i + 1 := by omega
            rw [e2] at h; omega⟩
        · rw [entry_at_succ, entry_at_succ]
          have e1 : i + (k + 1 + 1) = (i + 2) + k := by omega
          rw [e1]
          exact ih (i + 2) _ hrest k (by simpa using hk)

/-- The item rows of `reflow` are the given rows, in the given order. -/
theorem reflow_filter (epp : Nat) (rest : List inventory_entry) :
    ∀ (i : Nat) (cur : Option item_category), (∀ e ∈ rest, e.is_item = true) →
      (reflow epp i cur rest).filter inventory_entry.is_item = rest := by
  induction rest with
  | nil => intro i cur _; simp [reflow]
  | cons e rest ih =>
    intro i cur hitems
    have he : e.is_item = true := hitems e (by simp)
    have hrest : ∀ x ∈ rest, x.is_item = true := fun x hx => hitems x (by simp [hx])
    rw [reflow]
    split
    · simp [he, ih _ _ hrest]
    · split
      · simp [he, ih _ _ hrest, null_entry_is_item, category_entry_is_item]
      · simp [he, ih _ _ hrest, category_entry_is_item]

/-- Every row of `reflow` is a given row, the blank row, or the header of the
category of a given row. -/
theorem reflow_rows (epp : Nat) (rest : List inventory_entry) :
    ∀ (i : Nat) (cur : Option item_category), ∀ x ∈ reflow epp i cur rest,
      x ∈ rest ∨ x = null_entry ∨ ∃ e ∈ rest, x = category_entry e.get_category_ptr := by
  induction rest with
  | nil => intro i cur x hx; simp [reflow] at hx
  | cons e rest ih =>
    intro i cur x hx
    have lift : (x ∈ rest ∨ x = null_entry ∨ ∃ e1 ∈ rest, x = category_entry e1.get_category_ptr) →
        (x ∈ e :: rest ∨ x = null_entry ∨
          ∃ e1 ∈ e :: rest, x = category_entry e1.get_category_ptr) := by
      rintro (h | h | ⟨e1, h1, h2⟩)
      · exact Or.inl (by simp [h])
      · exact Or.inr (Or.inl h)
      · exact Or.inr (Or.inr ⟨e1, by simp [h1], h2⟩)
    rw [reflow] at hx
    split at hx
    · rcases List.mem_cons.mp hx with h | h
      · exact Or.inl (by simp [h])
      · exact lift (ih _ _ x h)
    · split at hx
      · simp only [List.mem_cons] at hx
        rcases hx with h | h | h | h
        · exact Or.inr (Or.inl h)
        · exact Or.inr (Or.inr ⟨e, by simp, h⟩)
        · exact Or.inl (by simp [h])
        · exact lift (ih _ _ x h)
      · simp only [List.mem_cons] at hx
        rcases hx with h | h | h
        · exact Or.inr (Or.inr ⟨e, by simp, h⟩)
        · exact Or.inl (by simp [h])
        · exact lift (ih _ _ x h)

theorem reflow_length (epp : Nat) (rest : List inventory_entry) :
    ∀ (i : Nat) (cur : Option item_category),
      (reflow epp i cur rest).length ≤ 3 * rest.length := by
  induction rest with
  | nil => intro i cur; simp [reflow]
  | cons e rest ih =>
    intro i cur
    rw [reflow]
    split
    · have := ih (i + 1) cur
      simp only [List.length_cons]; omega
    · split
      · have := ih (i + 3) e.get_category_ptr
        simp only [List.length_cons]; omega
      · have := ih (i + 2) e.get_category_ptr
        simp only [List.length_cons]; omega

/-! ## Pagination: sorting within categories -/

theorem paging_compare_items (P : inventory_selector_preset) (a b : inventory_entry)
    (ia ib : item) (ha : a.location = some ia) (hb : b.location = some ib) :
    paging_compare P a b
      = if a.enabled ≠ b.enabled then a.enabled else P.sort_compare (some ia) (some ib) := by
  simp [paging_compare, inventory_entry.is_selectable, inventory_entry.is_item, ha, hb]

theorem item_location_some (e : inventory_entry) (h : e.is_item = true) :
    ∃ it, e.location = some it := by
  unfold inventory_entry.is_item at h
  cases hl : e.location with
  | some it => exact ⟨it, rfl⟩
  | none => rw [hl] at h; simp at h

/-- The comparison used for sorting is a strict weak ordering of item rows
when `sort_compare` is one of items. -/
theorem paging_compare_strict_weak (P : inventory_selector_preset)
    (hv : sort_compare_valid P) (l : List inventory_entry)
    (hl : ∀ e ∈ l, e.is_item = true) : strict_weak_on (paging_compare P) l := by
  obtain ⟨hirr, htrans, hneg⟩ := hv
  refine ⟨?_, ?_, ?_⟩
  · intro a ha
    obtain ⟨ia, hia⟩ := item_location_some a (hl a ha)
    rw [paging_compare_items P a a ia ia hia hia]
    simp [hirr]
  · intro a ha b hb c hc
    obtain ⟨ia, hia⟩ := item_location_some a (hl a ha)
    obtain ⟨ib, hib⟩ := item_location_some b (hl b hb)
    obtain ⟨ic, hic⟩ := item_location_some c (hl c hc)
    rw [paging_compare_items P a b ia ib hia hib, paging_compare_items P b c ib ic hib hic,
      paging_compare_items P a c ia ic hia hic]
    have ht := htrans ia ib ic
    cases a.enabled <;> cases b.enabled <;> cases c.enabled <;> simp <;> exact ht
  · intro a ha b hb c hc
    obtain ⟨ia, hia⟩ := item_location_some a (hl a ha)
    obtain ⟨ib, hib⟩ := item_location_some b (hl b hb)
    obtain ⟨ic, hic⟩ := item_location_some c (hl c hc)
    rw [paging_compare_items P a b ia ib hia hib, paging_compare_items P b c ib ic hib hic,
      paging_compare_items P a c ia ic hia hic]
    have ht := hneg ia ib ic
    cases a.enabled <;> cases b.enabled <;> cases c.enabled <;> simp <;> exact ht

theorem map_eq_of_perm_const {β : Type} (f : inventory_entry → β) (v : β)
    (l1 l2 : List inventory_entry) (hp : l1.Perm l2) (hc : ∀ x ∈ l2, f x = v) :
    l1.map f = l2.map f := by
  have h1 : l1.map f = List.replicate l1.length v := by
    rw [List.eq_replicate_iff]
    refine ⟨by simp, ?_⟩
    intro b hb
    obtain ⟨x, hx, rfl⟩ := List.mem_map.mp hb
    exact hc x (hp.subset hx)
  have h2 : l2.map f = List.replicate l2.length v := by
    rw [List.eq_replicate_iff]
    refine ⟨by simp, ?_⟩
    intro b hb
    obtain ⟨x, hx, rfl⟩ := List.mem_map.mp hb
    exact hc x hx
  rw [h1, h2, hp.length_eq]

theorem sort_categories_scan_perm (X : externals) (P : inventory_selector_preset)
    (hsort : std_sort_contract X.std_sort) (hv : sort_compare_valid P)
    (rest : List inventory_entry) :
    ∀ (run : List inventory_entry) (fc : Option item_category),
      (∀ x ∈ run ++ rest, x.is_item = true) →
      (sort_categories_scan X P fc run rest).Perm (run ++ rest) := by
  induction rest with
  | nil =>
    intro run fc hitems
    simp only [sort_categories_scan, List.append_nil]
    exact (hsort _ run (paging_compare_strict_weak P hv run
      (fun e he => hitems e (by simp [he])))).1
  | cons e rest ih =>
    intro run fc hitems
    simp only [sort_categories_scan]
    split
    · have h := ih (run ++ [e]) fc (by simpa using hitems)
      simpa using h
    · have h1 := (hsort _ run (paging_compare_strict_weak P hv run
        (fun x hx => hitems x (by simp [hx])))).1
      have h2 := ih [e] e.get_category_ptr (fun x hx => hitems x (by
        simp only [List.mem_append, List.mem_cons, List.mem_singleton, List.not_mem_nil,
          or_false] at hx ⊢
        tauto))
      exact List.Perm.append h1 (by simpa using h2)

theorem sort_categories_scan_categories (X : externals) (P : inventory_selector_preset)
    (hsort : std_sort_contract X.std_sort) (hv : sort_compare_valid P)
    (rest : List inventory_entry) :
    ∀ (run : List inventory_entry) (fc : Option item_category),
      (∀ x ∈ run ++ rest, x.is_item = true) → (∀ x ∈ run, x.get_category_ptr = fc) →
      (sort_categories_scan X P fc run rest).map inventory_entry.get_category_ptr
        = (run ++ rest).map inventory_entry.get_category_ptr := by
  induction rest with
  | nil =>
    intro run fc hitems hrun
    simp only [sort_categories_scan, List.append_nil]
    exact map_eq_of_perm_const _ fc _ _ (hsort _ run (paging_compare_strict_weak P hv run
      (fun e he => hitems e (by simp [he])))).1 hrun
  | cons e rest ih =>
    intro run fc hitems hrun
    simp only [sort_categories_scan]
    split
    · rename_i hfc
      have h := ih (run ++ [e]) fc (by simpa using hitems) (by
        intro x hx
        rcases List.mem_append.mp hx with h | h
        · exact hrun x h
        · simp only [List.mem_singleton] at h
          rw [h]; exact hfc.symm)
      simpa using h
    · have h1 := map_eq_of_perm_const inventory_entry.get_category_ptr fc _ _
        (hsort _ run (paging_compare_strict_weak P hv run
          (fun x hx => hitems x (by simp [hx])))).1 hrun
      have h2 := ih [e] e.get_category_ptr (fun x hx => hitems x (by
        simp only [List.mem_append, List.mem_cons, List.mem_singleton, List.not_mem_nil,
          or_false] at hx ⊢
        tauto)) (by simp)
      rw [List.map_append, List.map_append, h1, h2]
      simp

theorem pairwise_of_infix (r : inventory_entry → inventory_entry → Prop)
    (l pre mid post : List inventory_entry) (h : l = pre ++ mid ++ post)
    (hp : l.Pairwise r) : mid.Pairwise r := by
  rw [h] at hp
  exact (List.pairwise_append.mp (List.pairwise_append.mp hp).1).2.1

/-- In the result of the sorting scan every block of consecutive rows of one
category is ordered by the comparison. -/
theorem sort_categories_scan_blocks (X : externals) (P : inventory_selector_preset)
    (hsort : std_sort_contract X.std_sort) (hv : sort_compare_valid P)
    (rest : List inventory_entry) :
    ∀ (run : List inventory_entry) (fc : Option item_category),
      (∀ x ∈ run ++ rest, x.is_item = true) → run ≠ [] →
      (∀ x ∈ run, x.get_category_ptr = fc) →
      ∀ pre mid post, sort_categories_scan X P fc run rest = pre ++ mid ++ post →
        (∀ x ∈ mid, ∀ y ∈ mid, x.get_category_ptr = y.get_category_ptr) →
        mid.Pairwise (fun a b => paging_compare P b a = false) := by
  induction rest with
  | nil =>
    intro run fc hitems _ _ pre mid post hdec _
    simp only [sort_categories_scan] at hdec
    exact pairwise_of_infix _ _ pre mid post hdec
      (hsort _ run (paging_compare_strict_weak P hv run
        (fun e he => hitems e (by simp [he])))).2
  | cons e rest ih =>
    intro run fc hitems hne hrun pre mid post hdec huni
    simp only [sort_categories_scan] at hdec
    split at hdec
    · rename_i hfc
      exact ih (run ++ [e]) fc (by simpa using hitems) (by simp) (by
        intro x hx
        rcases List.mem_append.mp hx with h | h
        · exact hrun x h
        · simp only [List.mem_singleton] at h
          rw [h]; exact hfc.symm) pre mid post hdec huni
    · rename_i hfc
      have hrunitems : ∀ x ∈ run, x.is_item = true := fun x hx => hitems x (by simp [hx])
      have htailitems : ∀ x ∈ [e] ++ rest, x.is_item = true := fun x hx => hitems x (by
        simp only [List.mem_append, List.mem_cons, List.mem_singleton, List.not_mem_nil,
          or_false] at hx ⊢
        tauto)
      have hS := hsort _ run (paging_compare_strict_weak P hv run hrunitems)
      have hScat : ∀ x ∈ X.std_sort (paging_compare P) run, x.get_category_ptr = fc :=
        fun x hx => hrun x (hS.1.subset hx)
      have hTcat := sort_categories_scan_categories X P hsort hv rest [e] e.get_category_ptr
        htailitems (by simp)
      have ihT := ih [e] e.get_category_ptr htailitems (by simp) (by simp)
      rw [List.append_assoc] at hdec
      rcases List.append_eq_append_iff.mp hdec with ⟨a1, hpre, hT⟩ | ⟨c1, hSeq, hmp⟩
      · exact ihT a1 mid post (by rw [hT, List.append_assoc]) huni
      · rcases List.append_eq_append_iff.mp hmp with ⟨a2, hc1, _⟩ | ⟨c2, hmid, hT⟩
        · exact pairwise_of_infix _ _ pre mid a2 (by rw [hSeq, hc1, List.append_assoc]) hS.2
        · cases c1 with
          | nil =>
            simp only [List.nil_append] at hmid
            exact ihT [] mid post (by rw [hT, hmid]; simp) huni
          | cons x c1 =>
            cases c2 with
            | nil =>
              simp only [List.append_nil] at hmid
              exact pairwise_of_infix _ _ pre mid [] (by rw [hSeq, hmid]; simp) hS.2
            | cons y c2 =>
              exfalso
              have hx : x.get_category_ptr = fc := hScat x (by rw [hSeq]; simp)
              have hy : y.get_category_ptr = e.get_category_ptr := by
                rw [hT] at hTcat
                simp only [List.cons_append, List.map_cons, List.singleton_append] at hTcat
                exact (List.cons.inj hTcat).1
              have hxy := huni x (by rw [hmid]; simp) y (by rw [hmid]; simp)
              exact hfc (by rw [← hx, hxy, hy])

theorem sort_categories_perm (X : externals) (P : inventory_selector_preset)
    (hsort : std_sort_contract X.std_sort) (hv : sort_compare_valid P)
    (l : List inventory_entry) (hl : ∀ e ∈ l, e.is_item = true) :
    (sort_categories X P l).Perm l := by
  cases l with
  | nil => simp [sort_categories]
  | cons e rest =>
    exact sort_categories_scan_perm X P hsort hv rest [e] e.get_category_ptr
      (by simpa using hl)

theorem sort_categories_categories (X : externals) (P : inventory_selector_preset)
    (hsort : std_sort_contract X.std_sort) (hv : sort_compare_valid P)
    (l : List inventory_entry) (hl : ∀ e ∈ l, e.is_item = true) :
    (sort_categories X P l).map inventory_entry.get_category_ptr
      = l.map inventory_entry.get_category_ptr := by
  cases l with
  | nil => simp [sort_categories]
  | cons e rest =>
    exact sort_categories_scan_categories X P hsort hv rest [e] e.get_category_ptr
      (by simpa using hl) (by simp)

theorem sort_categories_blocks (X : externals) (P : inventory_selector_preset)
    (hsort : std_sort_contract X.std_sort) (hv : sort_compare_valid P)
    (l : List inventory_entry) (hl : ∀ e ∈ l, e.is_item = true)
    (pre mid post : List inventory_entry)
    (hdec : sort_categories X P l = pre ++ mid ++ post)
    (huni : ∀ x ∈ mid, ∀ y ∈ mid, x.get_category_ptr = y.get_category_ptr) :
    mid.Pairwise (fun a b => paging_compare P b a = false) := by
  cases l with
  | nil =>
    simp only [sort_categories] at hdec
    have h : mid = [] := by
      have := congrArg List.length hdec
      simp only [List.length_nil, List.length_append] at this
      exact List.eq_nil_of_length_eq_zero (by omega)
    rw [h]; exact List.Pairwise.nil
  | cons e rest =>
    exact sort_categories_scan_blocks X P hsort hv rest [e] e.get_category_ptr
      (by simpa using hl) (by simp) (by simp) pre mid post hdec huni

theorem filter_items (l : List inventory_entry) :
    ∀ e ∈ l.filter inventory_entry.is_item, e.is_item = true := by
  intro e he
  exact (List.mem_filter.mp he).2

theorem sorted_items (X : externals) (P : inventory_selector_preset)
    (hsort : std_sort_contract X.std_sort) (hv : sort_compare_valid P)
    (l : List inventory_entry) :
    ∀ e ∈ sort_categories X P (l.filter inventory_entry.is_item), e.is_item = true := by
  intro e he
  exact filter_items l e ((sort_categories_perm X P hsort hv _ (filter_items l)).subset he)

/-! ## Pagination: `prepare_paging` -/

theorem next_selectable_index_mono (fuel extra : Nat) (entries : List inventory_entry)
    (index r : Nat) (dir : scroll_direction)
    (h : next_selectable_index fuel entries index dir = some r) :
    next_selectable_index (fuel + extra) entries index dir = some r := by
  unfold next_selectable_index at h ⊢
  split
  · rename_i he; rw [if_pos he] at h; exact h
  · rename_i he; rw [if_neg he] at h
    exact next_selectable_loop_mono entries index dir fuel _ _ extra h

theorem select_mono (fuel extra : Nat) (c r : inventory_column) (i : Nat)
    (dir : scroll_direction) (h : select fuel c i dir = some r) :
    select (fuel + extra) c i dir = some r := by
  unfold select at h ⊢
  by_cases hi : i < c.entries.length
  · rw [if_pos hi] at h ⊢
    by_cases hs : (entry_at c.entries i).is_selectable = true
    · simp only [hs, Bool.not_true, Bool.false_eq_true, if_false] at h ⊢
      exact h
    · simp only [hs, Bool.not_false, if_true] at h ⊢
      cases hn : next_selectable_index fuel c.entries i dir with
      | none => rw [hn] at h; simp at h
      | some k =>
        rw [hn] at h
        rw [next_selectable_index_mono fuel extra _ _ _ _ hn]
        exact h
  · rw [if_neg hi] at h ⊢
    exact h

theorem prepare_paging_mono (X : externals) (P : inventory_selector_preset)
    (fuel extra : Nat) (c r : inventory_column) (h : prepare_paging X P fuel c = some r) :
    prepare_paging X P (fuel + extra) c = some r := by
  unfold prepare_paging at h ⊢
  by_cases hv : c.paging_is_valid = true
  · rw [if_pos hv] at h ⊢; exact h
  · rw [if_neg hv] at h ⊢
    simp only at h ⊢
    cases hr : recover_categories X P fuel
        { c with entries := sort_categories X P (c.entries.filter inventory_entry.is_item) }
        none 0 with
    | none => rw [hr] at h; simp at h
    | some c1 =>
      rw [hr] at h
      rw [recover_categories_mono X P fuel _ _ _ extra _ hr]
      exact select_mono fuel extra _ _ _ _ h

theorem category_not_selectable (e : inventory_entry) (h : e.is_category = true) :
    e.is_selectable = false := by
  simp only [inventory_entry.is_category, Bool.and_eq_true, Bool.not_eq_true'] at h
  simp [inventory_entry.is_selectable, h.1]

/-- Selecting row 0 forwards in a list whose row 0 is not selectable puts the
cursor on the first selectable row, or on row 0 when there is none. -/
theorem select_first (c : inventory_column) (hn : c.entries.length < 2 ^ 63)
    (hpos : 0 < c.entries.length)
    (h0 : (entry_at c.entries 0).is_selectable = false) (fuel : Nat)
    (hf : c.entries.length ≤ fuel) :
    ∃ k, select fuel c 0 scroll_direction.FORWARD
        = some { c with selected_index := k, page_offset := k - k % c.entries_per_page } ∧
      ((∃ e ∈ c.entries, e.is_selectable = true) →
        k < c.entries.length ∧ (entry_at c.entries k).is_selectable = true ∧
        ∀ j, j < k → (entry_at c.entries j).is_selectable = false) := by
  by_cases hsel : ∃ e ∈ c.entries, e.is_selectable = true
  · obtain ⟨k, hk1, hk2, hk3, hk4, hk5⟩ :=
      next_selectable_index_first c.entries 0 scroll_direction.FORWARD hn hpos hsel
    have hkn : k ≠ c.entries.length := by
      intro h
      rw [h, cyclic_pos_full _ _ _ hpos, h0] at hk3
      exact absurd hk3 (by simp)
    have hpk : ∀ j, j ≤ k → cyclic_pos c.entries.length 0 scroll_direction.FORWARD j = j := by
      intro j hj
      rw [cyclic_pos_forward _ _ _ hpos (by omega)]
      rw [if_pos (by omega)]; omega
    rw [hpk k (le_refl _)] at hk3
    refine ⟨k, ?_, fun _ => ⟨by omega, hk3, ?_⟩⟩
    · unfold select
      rw [if_pos hpos]
      simp only [h0, Bool.not_false, if_true]
      rw [hk5 fuel hf, hpk k (le_refl _)]
      rfl
    · intro j hj
      rcases Nat.eq_zero_or_pos j with h | h
      · rw [h]; exact h0
      · have := hk4 j h hj
        rw [hpk j (by omega)] at this
        exact this
  · refine ⟨0, ?_, fun h => absurd h hsel⟩
    unfold select
    rw [if_pos hpos]
    simp only [h0, Bool.not_false, if_true]
    rw [next_selectable_index_none c.entries 0 scroll_direction.FORWARD hn hpos
      (by
        intro e he
        by_contra hc
        exact hsel ⟨e, he, by simpa using hc⟩) fuel hf]
    rfl

/-- For a page size of at least two `prepare_paging` returns the paginated
column for every fuel of at least three times the number of rows plus one. -/
theorem prepare_paging_total (X : externals) (P : inventory_selector_preset)
    (c : inventory_column) (hsort : std_sort_contract X.std_sort)
    (hv : sort_compare_valid P) (hinv : c.paging_is_valid = false)
    (hepp : 2 ≤ c.entries_per_page) (hsize : c.entries.length < 2 ^ 61) (fuel : Nat)
    (hf : 3 * c.entries.length + 1 ≤ fuel) :
    ∃ r, prepare_paging X P fuel c = some r ∧ paged X P c r := by
  have hitems := sorted_items X P hsort hv c.entries
  have hlen : (sort_categories X P (c.entries.filter inventory_entry.is_item)).length
      ≤ c.entries.length := by
    rw [(sort_categories_perm X P hsort hv _ (filter_items c.entries)).length_eq]
    exact List.length_filter_le _ _
  obtain ⟨c1, hc1, hc1e, hc1f⟩ := recover_categories_reflow X P
    (sort_categories X P (c.entries.filter inventory_entry.is_item)) []
    { c with entries := sort_categories X P (c.entries.filter inventory_entry.is_item) }
    none 0 fuel rfl rfl hepp (by omega)
  simp only [List.nil_append] at hc1e
  obtain ⟨f1, f2, f3, f4, f5, f6, f7, f8⟩ := hc1f
  simp only at f1 f8
  have hL := reflow_length c.entries_per_page
    (sort_categories X P (c.entries.filter inventory_entry.is_item)) 0 none
  unfold prepare_paging
  rw [if_neg (by simp [hinv])]
  simp only
  rw [hc1]
  simp only
  by_cases hnil : c1.entries = []
  · refine ⟨{ c1 with paging_is_valid := true }, ?_, ?_, rfl, f8, f1, ?_, ?_⟩
    · unfold select
      rw [if_neg (by simp [hnil])]
    · exact hc1e
    · intro h; simp [hnil] at h
    · intro h; exact absurd hnil h
  · have hpos : 0 < c1.entries.length := List.length_pos.mpr hnil
    have h0 : (entry_at c1.entries 0).is_selectable = false := by
      apply category_not_selectable
      rw [hc1e]
      exact (reflow_slots c.entries_per_page hepp _ 0 none hitems 0
        (by rw [← hc1e]; exact hpos)).2 (by simp)
    obtain ⟨k, hk1, hk2⟩ := select_first { c1 with paging_is_valid := true }
      (by simp only; rw [hc1e]; omega) hpos h0 fuel (by simp only; rw [hc1e]; omega)
    refine ⟨_, hk1, hc1e, rfl, f8, f1, hk2, fun _ => rfl⟩

/-- For a page size of at least two there is one column that `prepare_paging`
returns for every sufficient fuel, and it is the paginated column. -/
theorem prepare_paging_result (X : externals) (P : inventory_selector_preset)
    (c : inventory_column) (hsort : std_sort_contract X.std_sort)
    (hv : sort_compare_valid P) (hinv : c.paging_is_valid = false)
    (hepp : 2 ≤ c.entries_per_page) (hsize : c.entries.length < 2 ^ 61) :
    ∃ r, (∀ fuel, 3 * c.entries.length + 1 ≤ fuel → prepare_paging X P fuel c = some r) ∧
      paged X P c r := by
  obtain ⟨r, hr, hp⟩ := prepare_paging_total X P c hsort hv hinv hepp hsize
    (3 * c.entries.length + 1) (le_refl _)
  refine ⟨r, ?_, hp⟩
  intro fuel hf
  have e : fuel = (3 * c.entries.length + 1) + (fuel - (3 * c.entries.length + 1)) := by omega
  rw [e]
  exact prepare_paging_mono X P _ _ c r hr

/-- Whenever `prepare_paging` returns on a column with invalid paging and a
non-zero page size, the result is the paginated column. -/
theorem prepare_paging_returns (X : externals) (P : inventory_selector_preset)
    (c r : inventory_column) (hsort : std_sort_contract X.std_sort)
    (hv : sort_compare_valid P) (hinv : c.paging_is_valid = false)
    (hepp : 1 ≤ c.entries_per_page) (hsize : c.entries.length < 2 ^ 61) (fuel : Nat)
    (h : prepare_paging X P fuel c = some r) : paged X P c r := by
  by_cases h2 : 2 ≤ c.entries_per_page
  · obtain ⟨r0, hr0, hp⟩ := prepare_paging_result X P c hsort hv hinv h2 hsize
    have e1 := prepare_paging_mono X P fuel (3 * c.entries.length + 1) c r h
    have e2 := hr0 (fuel + (3 * c.entries.length + 1)) (by omega)
    rw [e1] at e2
    rw [Option.some.inj e2]
    exact hp
  · have h1 : c.entries_per_page = 1 := by omega
    unfold prepare_paging at h
    rw [if_neg (by simp [hinv])] at h
    simp only at h
    by_cases hnil : sort_categories X P (c.entries.filter inventory_entry.is_item) = []
    · rw [hnil] at h
      cases fuel with
      | zero => simp [recover_categories] at h
      | succ f =>
        rw [recover_categories_done X P f _ none 0 (by simp)] at h
        simp only at h
        unfold select at h
        rw [if_neg (by simp)] at h
        have hr := (Option.some.inj h).symm
        rw [hr]
        refine ⟨by simp [hnil, reflow], rfl, rfl, rfl, ?_, ?_⟩
        · intro hs; simp at hs
        · intro hs; simp at hs
    · have hd := recover_categories_diverges X P fuel
        { c with entries := sort_categories X P (c.entries.filter inventory_entry.is_item) }
        none 0 h1 (List.length_pos.mpr hnil)
      rw [hd] at h
      simp at h

/-! ## The sample collaborators meet their contracts -/

theorem ordered_insert_perm (comp : inventory_entry → inventory_entry → Bool)
    (e : inventory_entry) (l : List inventory_entry) :
    (ordered_insert comp e l).Perm (e :: l) := by
  induction l with
  | nil => simp [ordered_insert]
  | cons x rest ih =>
    simp only [ordered_insert]
    split
    · exact List.Perm.refl _
    · exact (List.Perm.cons x ih).trans (List.Perm.swap e x rest)

theorem insertion_sort_perm (comp : inventory_entry → inventory_entry → Bool)
    (l : List inventory_entry) : (insertion_sort comp l).Perm l := by
  induction l with
  | nil => simp [insertion_sort]
  | cons e rest ih =>
    simp only [insertion_sort]
    exact (ordered_insert_perm comp e _).trans (List.Perm.cons e ih)

theorem ordered_insert_pairwise (comp : inventory_entry → inventory_entry → Bool)
    (e : inventory_entry) (l all : List inventory_entry) (hw : strict_weak_on comp all)
    (he : e ∈ all) (hl : ∀ x ∈ l, x ∈ all)
    (hp : l.Pairwise (fun a b => comp b a = false)) :
    (ordered_insert comp e l).Pairwise (fun a b => comp b a = false) := by
  obtain ⟨hirr, htrans, _⟩ := hw
  induction l with
  | nil => simp [ordered_insert]
  | cons x rest ih =>
    have hx : x ∈ all := hl x (by simp)
    have hrest : ∀ y ∈ rest, y ∈ all := fun y hy => hl y (by simp [hy])
    rw [List.pairwise_cons] at hp
    simp only [ordered_insert]
    split
    · rename_i hc
      rw [List.pairwise_cons, List.pairwise_cons]
      refine ⟨?_, hp.1, hp.2⟩
      intro y hy
      by_contra hcon
      have hye : comp y e = true := by simpa using hcon
      rcases List.mem_cons.mp hy with h | h
      · rw [h] at hye
        have := htrans e he x hx e he hc hye
        rw [hirr e he] at this
        exact absurd this (by simp)
      · have hyx := htrans y (hrest y h) e he x hx hye hc
        rw [hp.1 y h] at hyx
        exact absurd hyx (by simp)
    · rename_i hc
      rw [List.pairwise_cons]
      refine ⟨?_, ih hrest hp.2⟩
      intro z hz
      rcases List.mem_cons.mp ((ordered_insert_perm comp e rest).subset hz) with h | h
      · rw [h]; simpa using hc
      · exact hp.1 z h

theorem insertion_sort_pairwise (comp : inventory_entry → inventory_entry → Bool)
    (l all : List inventory_entry) (hw : strict_weak_on comp all) (hl : ∀ x ∈ l, x ∈ all) :
    (insertion_sort comp l).Pairwise (fun a b => comp b a = false) := by
  induction l with
  | nil => simp [insertion_sort]
  | cons e rest ih =>
    simp only [insertion_sort]
    exact ordered_insert_pairwise comp e _ all hw (hl e (by simp))
      (fun x hx => hl x (by simp [(insertion_sort_perm comp rest).subset hx]))
      (ih (fun x hx => hl x (by simp [hx])))

/-- Insertion sort meets the contract of `std::sort`. -/
theorem insertion_sort_contract : std_sort_contract insertion_sort := by
  intro comp l hw
  exact ⟨insertion_sort_perm comp l, insertion_sort_pairwise comp l l hw (fun _ h => h)⟩

theorem text_less_irrefl (a : List Char) : text_less a a = false := by
  induction a with
  | nil => rfl
  | cons x xs ih => simp [text_less, ih]

theorem text_less_trans (a : List Char) :
    ∀ b c : List Char, text_less a b = true → text_less b c = true →
      text_less a c = true := by
  induction a with
  | nil =>
    intro b c hab hbc
    cases b with
    | nil => simp [text_less] at hab
    | cons y ys =>
      cases c with
      | nil => simp [text_less] at hbc
      | cons z zs => simp [text_less]
  | cons x xs ih =>
    intro b c hab hbc
    cases b with
    | nil => simp [text_less] at hab
    | cons y ys =>
      cases c with
      | nil => simp [text_less] at hbc
      | cons z zs =>
        simp only [text_less] at hab hbc ⊢
        split at hab
        · split at hbc
          · rw [if_pos (by omega)]
          · split at hbc
            · simp at hbc
            · rw [if_pos (by omega)]
        · split at hab
          · simp at hab
          · split at hbc
            · rw [if_pos (by omega)]
            · split at hbc
              · simp at hbc
              · rw [if_neg (by omega), if_neg (by omega)]
                exact ih ys zs hab hbc

theorem text_less_neg_trans (a : List Char) :
    ∀ b c : List Char, text_less a c = true →
      text_less a b = true ∨ text_less b c = true := by
  induction a with
  | nil =>
    intro b c hac
    cases c with
    | nil => simp [text_less] at hac
    | cons z zs =>
      cases b with
      | nil => right; simp [text_less]
      | cons y ys => left; simp [text_less]
  | cons x xs ih =>
    intro b c hac
    cases c with
    | nil => simp [text_less] at hac
    | cons z zs =>
      cases b with
      | nil => right; simp [text_less]
      | cons y ys =>
        simp only [text_less] at hac ⊢
        by_cases h1 : x.toNat < y.toNat
        · left; rw [if_pos h1]
        · by_cases h2 : y.toNat < z.toNat
          · right; rw [if_pos h2]
          · rw [if_neg h1, if_neg h2]
            split at hac
            · omega
            · split at hac
              · simp at hac
              · rw [if_neg (by omega), if_neg (by omega)]
                simpa using ih ys zs hac

/-- The alphabetic `sort_compare` of the base preset is a strict weak
ordering. -/
theorem default_preset_valid : sort_compare_valid default_preset := by
  refine ⟨?_, ?_, ?_⟩
  · intro a; exact text_less_irrefl _
  · intro a b c; exact text_less_trans _ _ _
  · intro a b c; exact text_less_neg_trans _ _ _

/-! ## Pagination: the claims -/

/-- C1: for every page size of at least two and every column with invalid
paging (whatever rows it holds; only its item rows are kept), `prepare_paging`
returns, and in the result no row on the last slot of a page (an index `i`
with `i % page_size = page_size - 1`) is a category header.  `std::sort` is
any routine meeting its contract and `sort_compare` a strict weak ordering. -/
theorem prepare_paging_no_orphan_header (X : externals) (P : inventory_selector_preset)
    (c : inventory_column) (hsort : std_sort_contract X.std_sort)
    (hv : sort_compare_valid P) (hinv : c.paging_is_valid = false)
    (hepp : 2 ≤ c.entries_per_page) (hsize : c.entries.length < 2 ^ 61) :
    ∃ r, (∀ fuel, 3 * c.entries.length + 1 ≤ fuel → prepare_paging X P fuel c = some r) ∧
      ∀ i, i < r.entries.length → i % c.entries_per_page = c.entries_per_page - 1 →
        (entry_at r.entries i).is_category = false := by
  obtain ⟨r, hr, hp⟩ := prepare_paging_result X P c hsort hv hinv hepp hsize
  refine ⟨r, hr, ?_⟩
  intro i hi hslot
  have h := reflow_slots c.entries_per_page hepp _ 0 none
    (sorted_items X P hsort hv c.entries) i (by rw [← hp.1]; exact hi)
  rw [← hp.1, Nat.zero_add] at h
  exact h.1 hslot

/-- Witness for C1 on the sample column (page size 3). -/
theorem prepare_paging_no_orphan_header_witness :
    std_sort_contract plain_externals.std_sort ∧ sort_compare_valid default_preset ∧
    sample_column.paging_is_valid = false ∧ 2 ≤ sample_column.entries_per_page ∧
    sample_column.entries.length < 2 ^ 61 ∧
    ∃ r, (∀ fuel, 3 * sample_column.entries.length + 1 ≤ fuel →
        prepare_paging plain_externals default_preset fuel sample_column = some r) ∧
      ∀ i, i < r.entries.length →
        i % sample_column.entries_per_page = sample_column.entries_per_page - 1 →
        (entry_at r.entries i).is_category = false :=
  ⟨insertion_sort_contract, default_preset_valid, by decide, by decide, by decide,
    prepare_paging_no_orphan_header plain_externals default_preset sample_column
      insertion_sort_contract default_preset_valid (by decide) (by decide) (by decide)⟩

/-- C2 (as amended): the column with page size 3 holding the item rows
`A(cat1), B(cat1), C(cat2), D(cat2), E(cat2)` paginates to page 1 =
`[header(cat1), A, B]`, page 2 = `[header(cat2), C, D]` and page 3 =
`[header(cat2), E]`: the third page starts with a header as well. -/
theorem prepare_paging_scenario :
    ∃ r, (∀ fuel, 9 ≤ fuel →
        prepare_paging plain_externals default_preset fuel sample_column = some r) ∧
      page_rows r 0 = [category_entry (some sample_cat1), sample_item 1 "A" sample_cat1,
        sample_item 2 "B" sample_cat1] ∧
      page_rows r 1 = [category_entry (some sample_cat2), sample_item 3 "C" sample_cat2,
        sample_item 4 "D" sample_cat2] ∧
      page_rows r 2 = [category_entry (some sample_cat2), sample_item 5 "E" sample_cat2] ∧
      page_rows r 3 = [] := by
  refine ⟨sample_paged, ?_, by decide, by decide, by decide, by decide⟩
  intro fuel hf
  have h : prepare_paging plain_externals default_preset 9 sample_column = some sample_paged := by
    decide
  have e : fuel = 9 + (fuel - 9) := by omega
  rw [e]
  exact prepare_paging_mono _ _ 9 _ _ _ h

/-- Counterexample to C2 as stated: the third page of the paginated sample
column is `[header(cat2), E]`, not `[E]`. -/
theorem prepare_paging_scenario_counterexample :
    prepare_paging plain_externals default_preset 9 sample_column = some sample_paged ∧
    page_rows sample_paged 2
      = [category_entry (some sample_cat2), sample_item 5 "E" sample_cat2] ∧
    page_rows sample_paged 2 ≠ [sample_item 5 "E" sample_cat2] := by
  decide

/-- C3: for every page size of at least two and every column with invalid
paging, `prepare_paging` returns, and in the result the first row of every
page (every index that is a multiple of the page size) is a category header;
the result has such a row as soon as the column holds an item row. -/
theorem prepare_paging_page_starts_with_header (X : externals)
    (P : inventory_selector_preset) (c : inventory_column)
    (hsort : std_sort_contract X.std_sort) (hv : sort_compare_valid P)
    (hinv : c.paging_is_valid = false) (hepp : 2 ≤ c.entries_per_page)
    (hsize : c.entries.length < 2 ^ 61) :
    ∃ r, (∀ fuel, 3 * c.entries.length + 1 ≤ fuel → prepare_paging X P fuel c = some r) ∧
      (∀ i, i < r.entries.length → i % c.entries_per_page = 0 →
        (entry_at r.entries i).is_category = true) ∧
      ((∃ e ∈ c.entries, e.is_item = true) → 0 < r.entries.length) := by
  obtain ⟨r, hr, hp⟩ := prepare_paging_result X P c hsort hv hinv hepp hsize
  have hitems := sorted_items X P hsort hv c.entries
  refine ⟨r, hr, ?_, ?_⟩
  · intro i hi hslot
    have h := reflow_slots c.entries_per_page hepp _ 0 none hitems i (by rw [← hp.1]; exact hi)
    rw [← hp.1, Nat.zero_add] at h
    exact h.2 hslot
  · rintro ⟨e, he, hitem⟩
    have h1 : e ∈ c.entries.filter inventory_entry.is_item := List.mem_filter.mpr ⟨he, hitem⟩
    have h2 := (sort_categories_perm X P hsort hv _ (filter_items c.entries)).symm.subset h1
    have h3 := reflow_filter c.entries_per_page _ 0 none hitems
    rw [← hp.1] at h3
    rw [← h3] at h2
    exact List.length_pos_of_mem (List.mem_filter.mp h2).1

/-- Witness for C3 on the sample column (page size 3). -/
theorem prepare_paging_page_starts_with_header_witness :
    std_sort_contract plain_externals.std_sort ∧ sort_compare_valid default_preset ∧
    sample_column.paging_is_valid = false ∧ 2 ≤ sample_column.entries_per_page ∧
    sample_column.entries.length < 2 ^ 61 ∧
    ∃ r, (∀ fuel, 3 * sample_column.entries.length + 1 ≤ fuel →
        prepare_paging plain_externals default_preset fuel sample_column = some r) ∧
      (∀ i, i < r.entries.length → i % sample_column.entries_per_page = 0 →
        (entry_at r.entries i).is_category = true) ∧
      ((∃ e ∈ sample_column.entries, e.is_item = true) → 0 < r.entries.length) :=
  ⟨insertion_sort_contract, default_preset_valid, by decide, by decide, by decide,
    prepare_paging_page_starts_with_header plain_externals default_preset sample_column
      insertion_sort_contract default_preset_valid (by decide) (by decide) (by decide)⟩

/-- C4: for every column with invalid paging and page size of at least two,
`prepare_paging` returns and keeps exactly the item entries: the item rows of
the result are a permutation of the item rows before the call, every other
row of the result is the blank row or a category header, and the sequence of
categories read off the item rows is the same before and after. -/
theorem prepare_paging_keeps_items (X : externals) (P : inventory_selector_preset)
    (c : inventory_column) (hsort : std_sort_contract X.std_sort)
    (hv : sort_compare_valid P) (hinv : c.paging_is_valid = false)
    (hepp : 2 ≤ c.entries_per_page) (hsize : c.entries.length < 2 ^ 61) :
    ∃ r, (∀ fuel, 3 * c.entries.length + 1 ≤ fuel → prepare_paging X P fuel c = some r) ∧
      (r.entries.filter inventory_entry.is_item).Perm
        (c.entries.filter inventory_entry.is_item) ∧
      (∀ x ∈ r.entries, x.is_item = false →
        x = null_entry ∨ ∃ cat, x = category_entry (some cat)) ∧
      (r.entries.filter inventory_entry.is_item).map inventory_entry.get_category_ptr
        = (c.entries.filter inventory_entry.is_item).map inventory_entry.get_category_ptr := by
  obtain ⟨r, hr, hp⟩ := prepare_paging_result X P c hsort hv hinv hepp hsize
  have hitems := sorted_items X P hsort hv c.entries
  have hf := reflow_filter c.entries_per_page _ 0 none hitems
  rw [← hp.1] at hf
  refine ⟨r, hr, ?_, ?_, ?_⟩
  · rw [hf]
    exact sort_categories_perm X P hsort hv _ (filter_items c.entries)
  · intro x hx hnot
    rw [hp.1] at hx
    rcases reflow_rows c.entries_per_page _ 0 none x hx with h | h | ⟨e, he, hxe⟩
    · rw [hitems x h] at hnot
      exact absurd hnot (by simp)
    · exact Or.inl h
    · obtain ⟨cat, hcat⟩ := item_category_some e (hitems e he)
      exact Or.inr ⟨cat, by rw [hxe, hcat]⟩
  · rw [hf]
    exact sort_categories_categories X P hsort hv _ (filter_items c.entries)

/-- Witness for C4 on the sample column (page size 3). -/
theorem prepare_paging_keeps_items_witness :
    std_sort_contract plain_externals.std_sort ∧ sort_compare_valid default_preset ∧
    sample_column.paging_is_valid = false ∧ 2 ≤ sample_column.entries_per_page ∧
    sample_column.entries.length < 2 ^ 61 ∧
    ∃ r, (∀ fuel, 3 * sample_column.entries.length + 1 ≤ fuel →
        prepare_paging plain_externals default_preset fuel sample_column = some r) ∧
      (r.entries.filter inventory_entry.is_item).Perm
        (sample_column.entries.filter inventory_entry.is_item) ∧
      (∀ x ∈ r.entries, x.is_item = false →
        x = null_entry ∨ ∃ cat, x = category_entry (some cat)) ∧
      (r.entries.filter inventory_entry.is_item).map inventory_entry.get_category_ptr
        = (sample_column.entries.filter inventory_entry.is_item).map
            inventory_entry.get_category_ptr :=
  ⟨insertion_sort_contract, default_preset_valid, by decide, by decide, by decide,
    prepare_paging_keeps_items plain_externals default_preset sample_column
      insertion_sort_contract default_preset_valid (by decide) (by decide) (by decide)⟩

theorem paging_compare_false (P : inventory_selector_preset) (a b : inventory_entry)
    (h : paging_compare P b a = false) :
    ¬(a.is_selectable = false ∧ b.is_selectable = true) ∧
    (a.is_selectable = b.is_selectable → P.sort_compare b.location a.location = false) := by
  unfold paging_compare at h
  constructor
  · rintro ⟨ha, hb⟩
    rw [if_pos (by rw [ha, hb]; simp), hb] at h
    exact absurd h (by simp)
  · intro heq
    rw [if_neg (by rw [heq]; simp)] at h
    exact h

/-- C5: after a call of `prepare_paging` that repaginates (paging was invalid,
page size not zero), within every run of consecutive item rows that share one
category (headers and blanks left out) no selectable item comes after a
non-selectable one, and among items of equal selectability no item sorts
strictly before an earlier one under the `sort_compare` of the preset.  The
call returns whenever the page size is at least two. -/
theorem prepare_paging_sorted (X : externals) (P : inventory_selector_preset)
    (c : inventory_column) (hsort : std_sort_contract X.std_sort)
    (hv : sort_compare_valid P) (hinv : c.paging_is_valid = false)
    (hepp : 1 ≤ c.entries_per_page) (hsize : c.entries.length < 2 ^ 61) :
    (2 ≤ c.entries_per_page →
      ∃ r, ∀ fuel, 3 * c.entries.length + 1 ≤ fuel → prepare_paging X P fuel c = some r) ∧
    ∀ fuel r, prepare_paging X P fuel c = some r →
      ∀ pre mid post, r.entries.filter inventory_entry.is_item = pre ++ mid ++ post →
        (∀ x ∈ mid, ∀ y ∈ mid, x.get_category_ptr = y.get_category_ptr) →
        mid.Pairwise (fun a b =>
          ¬(a.is_selectable = false ∧ b.is_selectable = true) ∧
          (a.is_selectable = b.is_selectable →
            P.sort_compare b.location a.location = false)) := by
  constructor
  · intro h2
    obtain ⟨r, hr, _⟩ := prepare_paging_result X P c hsort hv hinv h2 hsize
    exact ⟨r, hr⟩
  · intro fuel r hr pre mid post hdec huni
    have hp := prepare_paging_returns X P c r hsort hv hinv hepp hsize fuel hr
    have hf := reflow_filter c.entries_per_page _ 0 none (sorted_items X P hsort hv c.entries)
    rw [← hp.1, hdec] at hf
    have hb := sort_categories_blocks X P hsort hv _ (filter_items c.entries) pre mid post
      hf.symm huni
    exact hb.imp (fun h => paging_compare_false P _ _ h)

/-- Witness for C5 on the sample column (page size 3). -/
theorem prepare_paging_sorted_witness :
    std_sort_contract plain_externals.std_sort ∧ sort_compare_valid default_preset ∧
    sample_column.paging_is_valid = false ∧ 1 ≤ sample_column.entries_per_page ∧
    sample_column.entries.length < 2 ^ 61 ∧
    ((2 ≤ sample_column.entries_per_page →
      ∃ r, ∀ fuel, 3 * sample_column.entries.length + 1 ≤ fuel →
        prepare_paging plain_externals default_preset fuel sample_column = some r) ∧
    ∀ fuel r, prepare_paging plain_externals default_preset fuel sample_column = some r →
      ∀ pre mid post, r.entries.filter inventory_entry.is_item = pre ++ mid ++ post →
        (∀ x ∈ mid, ∀ y ∈ mid, x.get_category_ptr = y.get_category_ptr) →
        mid.Pairwise (fun a b =>
          ¬(a.is_selectable = false ∧ b.is_selectable = true) ∧
          (a.is_selectable = b.is_selectable →
            default_preset.sort_compare b.location a.location = false))) :=
  ⟨insertion_sort_contract, default_preset_valid, by decide, by decide, by decide,
    prepare_paging_sorted plain_externals default_preset sample_column
      insertion_sort_contract default_preset_valid (by decide) (by decide) (by decide)⟩

/-- C6: for every column with invalid paging (page size not zero) that
contains at least one selectable item, whenever `prepare_paging` returns - and
it does for every page size of at least two - the paging flag is valid and
`selected_index` is the smallest index of a selectable row; a second call of
`prepare_paging` on the result returns the result unchanged (rows, cursor and
page offset included). -/
theorem prepare_paging_cursor (X : externals) (P : inventory_selector_preset)
    (c : inventory_column) (hsort : std_sort_contract X.std_sort)
    (hv : sort_compare_valid P) (hinv : c.paging_is_valid = false)
    (hepp : 1 ≤ c.entries_per_page) (hsize : c.entries.length < 2 ^ 61)
    (hsel : ∃ e ∈ c.entries, e.is_selectable = true) :
    (2 ≤ c.entries_per_page →
      ∃ r, ∀ fuel, 3 * c.entries.length + 1 ≤ fuel → prepare_paging X P fuel c = some r) ∧
    ∀ fuel r, prepare_paging X P fuel c = some r →
      r.paging_is_valid = true ∧ r.selected_index < r.entries.length ∧
      (entry_at r.entries r.selected_index).is_selectable = true ∧
      (∀ j, j < r.selected_index → (entry_at r.entries j).is_selectable = false) ∧
      ∀ fuel2, prepare_paging X P fuel2 r = some r := by
  constructor
  · intro h2
    obtain ⟨r, hr, _⟩ := prepare_paging_result X P c hsort hv hinv h2 hsize
    exact ⟨r, hr⟩
  · intro fuel r hr
    have hp := prepare_paging_returns X P c r hsort hv hinv hepp hsize fuel hr
    have hitems := sorted_items X P hsort hv c.entries
    have hf := reflow_filter c.entries_per_page _ 0 none hitems
    rw [← hp.1] at hf
    obtain ⟨e, he, hes⟩ := hsel
    have h1 : e ∈ c.entries.filter inventory_entry.is_item :=
      List.mem_filter.mpr ⟨he, is_selectable_is_item e hes⟩
    have h2 := (sort_categories_perm X P hsort hv _ (filter_items c.entries)).symm.subset h1
    rw [← hf] at h2
    have hcur := hp.2.2.2.2.1 ⟨e, (List.mem_filter.mp h2).1, hes⟩
    refine ⟨hp.2.1, hcur.1, hcur.2.1, hcur.2.2, ?_⟩
    intro fuel2
    unfold prepare_paging
    rw [if_pos hp.2.1]

/-- Witness for C6 on the sample column (page size 3). -/
theorem prepare_paging_cursor_witness :
    std_sort_contract plain_externals.std_sort ∧ sort_compare_valid default_preset ∧
    sample_column.paging_is_valid = false ∧ 1 ≤ sample_column.entries_per_page ∧
    sample_column.entries.length < 2 ^ 61 ∧
    (∃ e ∈ sample_column.entries, e.is_selectable = true) ∧
    ((2 ≤ sample_column.entries_per_page →
      ∃ r, ∀ fuel, 3 * sample_column.entries.length + 1 ≤ fuel →
        prepare_paging plain_externals default_preset fuel sample_column = some r) ∧
    ∀ fuel r, prepare_paging plain_externals default_preset fuel sample_column = some r →
      r.paging_is_valid = true ∧ r.selected_index < r.entries.length ∧
      (entry_at r.entries r.selected_index).is_selectable = true ∧
      (∀ j, j < r.selected_index → (entry_at r.entries j).is_selectable = false) ∧
      ∀ fuel2, prepare_paging plain_externals default_preset fuel2 r = some r) :=
  ⟨insertion_sort_contract, default_preset_valid, by decide, by decide, by decide, by decide,
    prepare_paging_cursor plain_externals default_preset sample_column
      insertion_sort_contract default_preset_valid (by decide) (by decide) (by decide)
      (by decide)⟩

/-- With page size one and an item row in the column, `prepare_paging` does
not return, whatever the fuel. -/
theorem prepare_paging_page_size_one :
    ∀ fuel, prepare_paging plain_externals default_preset fuel
      { sample_column with entries_per_page := 1 } = none := by
  intro fuel
  unfold prepare_paging
  rw [if_neg (by decide)]
  simp only
  rw [recover_categories_diverges plain_externals default_preset fuel _ none 0 rfl (by decide)]

/-! ## Navigation: `select` -/

/-- For a start index inside the list `next_selectable_index` returns a row of
the list for every fuel of at least the number of rows. -/
theorem next_selectable_index_in_range (entries : List inventory_entry) (index : Nat)
    (dir : scroll_direction) (hn : entries.length < 2 ^ 63) (hi : index < entries.length) :
    ∃ r, r < entries.length ∧
      ∀ fuel, entries.length ≤ fuel → next_selectable_index fuel entries index dir = some r := by
  by_cases hsel : ∃ e ∈ entries, e.is_selectable = true
  · obtain ⟨k, _, _, _, _, hk⟩ := next_selectable_index_first entries index dir hn hi hsel
    exact ⟨_, cyclic_pos_lt _ _ dir k (by omega), hk⟩
  · refine ⟨index, hi, fun fuel hf => ?_⟩
    exact next_selectable_index_none entries index dir hn hi
      (by
        intro e he
        by_contra hc
        exact hsel ⟨e, he, by simpa using hc⟩) fuel hf

theorem select_not_selectable (fuel : Nat) (c : inventory_column) (i k : Nat)
    (dir : scroll_direction) (hi : i < c.entries.length)
    (hs : (entry_at c.entries i).is_selectable = false)
    (hk : next_selectable_index fuel c.entries i dir = some k) :
    select fuel c i dir
      = some { c with selected_index := k, page_offset := k - k % c.entries_per_page } := by
  simp [select, hi, hs, hk]

theorem select_outside (fuel : Nat) (c : inventory_column) (i : Nat) (dir : scroll_direction)
    (hi : c.entries.length ≤ i) : select fuel c i dir = some c := by
  unfold select
  rw [if_neg (by omega)]

/-- The effect of `select` on a row inside the list. -/
theorem select_inside (c : inventory_column) (new_index : Nat) (dir : scroll_direction)
    (hn : c.entries.length < 2 ^ 63) (hi : new_index < c.entries.length) :
    ∃ k, k < c.entries.length ∧
      (∀ fuel, c.entries.length ≤ fuel →
        select fuel c new_index dir
          = some { c with selected_index := k, page_offset := k - k % c.entries_per_page }) ∧
      ((entry_at c.entries new_index).is_selectable = true → k = new_index) ∧
      ((entry_at c.entries new_index).is_selectable = false →
        ∀ fuel, c.entries.length ≤ fuel →
          next_selectable_index fuel c.entries new_index dir = some k) := by
  by_cases hs : (entry_at c.entries new_index).is_selectable = true
  · refine ⟨new_index, hi, fun fuel _ => select_selectable fuel c new_index dir hi hs,
      fun _ => rfl, fun h => ?_⟩
    rw [hs] at h
    exact absurd h (by simp)
  · have hs2 : (entry_at c.entries new_index).is_selectable = false := by simpa using hs
    obtain ⟨k, hk, hf⟩ := next_selectable_index_in_range c.entries new_index dir hn hi
    exact ⟨k, hk, fun fuel h => select_not_selectable fuel c new_index k dir hi hs2 (hf fuel h),
      fun h => absurd h hs, fun _ => hf⟩

/-- C12: for every column with page size of at least one and every
`new_index < entries.size()`, `select( new_index, dir )` returns (for every
fuel of at least the number of rows) with the page offset equal to
`selected_index - selected_index % page_size`, a multiple of the page size with
`page_offset <= selected_index < page_offset + page_size`, and with
`selected_index` equal to `new_index` if that row is selectable and to
`next_selectable_index( new_index, dir )` otherwise; nothing else changes.  For
`new_index >= entries.size()` the column is returned unchanged. -/
theorem select_spec (c : inventory_column) (new_index : Nat) (dir : scroll_direction)
    (hn : c.entries.length < 2 ^ 63) (hepp : 1 ≤ c.entries_per_page) :
    (new_index < c.entries.length →
      ∃ r, (∀ fuel, c.entries.length ≤ fuel → select fuel c new_index dir = some r) ∧
        r = { c with selected_index := r.selected_index, page_offset := r.page_offset } ∧
        r.page_offset = r.selected_index - r.selected_index % c.entries_per_page ∧
        c.entries_per_page ∣ r.page_offset ∧
        r.page_offset ≤ r.selected_index ∧
        r.selected_index < r.page_offset + c.entries_per_page ∧
        ((entry_at c.entries new_index).is_selectable = true →
          r.selected_index = new_index) ∧
        ((entry_at c.entries new_index).is_selectable = false →
          ∀ fuel, c.entries.length ≤ fuel →
            next_selectable_index fuel c.entries new_index dir = some r.selected_index)) ∧
    (c.entries.length ≤ new_index → ∀ fuel, select fuel c new_index dir = some c) := by
  constructor
  · intro hi
    obtain ⟨k, _, hk1, hk2, hk3⟩ := select_inside c new_index dir hn hi
    have hmod : k % c.entries_per_page < c.entries_per_page := Nat.mod_lt _ (by omega)
    have hle : k % c.entries_per_page ≤ k := Nat.mod_le _ _
    refine ⟨_, hk1, rfl, rfl, ?_, ?_, ?_, hk2, hk3⟩
    · exact Nat.dvd_sub_mod k
    · show k - k % c.entries_per_page ≤ k
      omega
    · show k < k - k % c.entries_per_page + c.entries_per_page
      omega
  · intro hi fuel
    exact select_outside fuel c new_index dir hi

/-- Witness for C12 on the paginated sample column: selecting the header row 3
forwards. -/
theorem select_spec_witness :
    sample_paged.entries.length < 2 ^ 63 ∧ 1 ≤ sample_paged.entries_per_page ∧
    3 < sample_paged.entries.length ∧
    ∃ r, (∀ fuel, sample_paged.entries.length ≤ fuel →
        select fuel sample_paged 3 scroll_direction.FORWARD = some r) ∧
      r = { sample_paged with selected_index := r.selected_index,
                              page_offset := r.page_offset } ∧
      r.page_offset = r.selected_index - r.selected_index % sample_paged.entries_per_page ∧
      sample_paged.entries_per_page ∣ r.page_offset ∧
      r.page_offset ≤ r.selected_index ∧
      r.selected_index < r.page_offset + sample_paged.entries_per_page ∧
      ((entry_at sample_paged.entries 3).is_selectable = true → r.selected_index = 3) ∧
      ((entry_at sample_paged.entries 3).is_selectable = false →
        ∀ fuel, sample_paged.entries.length ≤ fuel →
          next_selectable_index fuel sample_paged.entries 3 scroll_direction.FORWARD
            = some r.selected_index) :=
  ⟨by decide, by decide, by decide,
    (select_spec sample_paged 3 scroll_direction.FORWARD (by decide) (by decide)).1
      (by decide)⟩

theorem sample_select_header :
    select 8 sample_paged 3 scroll_direction.FORWARD
      = some { sample_paged with selected_index := 4, page_offset := 3 } := by
  decide

/-! ## Cell widths: `expand_to_fit` -/

theorem expand_cells_length (X : externals) (P : inventory_selector_preset)
    (c : inventory_column) (entry : inventory_entry) (num : Nat) (cells : List cell_t) :
    ∀ i, (expand_cells X P c entry num i cells).length = cells.length := by
  induction cells with
  | nil => intro i; simp [expand_cells]
  | cons x rest ih => intro i; simp [expand_cells, ih]

theorem getD_cons_zero_cell (x : cell_t) (rest : List cell_t) :
    (x :: rest).getD 0 {} = x := rfl

theorem getD_cons_succ_cell (x : cell_t) (rest : List cell_t) (k : Nat) :
    (x :: rest).getD (k + 1) {} = rest.getD k {} := rfl

/-- Cell `k` of the list after the loop of `expand_to_fit` started at index `i`:
untouched from index `num` on, otherwise widened for the entry. -/
theorem expand_cells_getD (X : externals) (P : inventory_selector_preset)
    (c : inventory_column) (entry : inventory_entry) (num : Nat) (cells : List cell_t) :
    ∀ i k, k < cells.length →
      (num ≤ i + k →
        (expand_cells X P c entry num i cells).getD k {} = cells.getD k {}) ∧
      (i + k < num →
        ((expand_cells X P c entry num i cells).getD k {}).real_width
          = max (cells.getD k {}).real_width (get_entry_cell_width X P c entry (i + k)) ∧
        (((cells.getD k {}).visible = true ∨
            (entry.is_item = true ∧ is_stub_cell X P entry (i + k) = false)) →
          ((expand_cells X P c entry num i cells).getD k {}).current_width
            = max (cells.getD k {}).current_width
                ((if 0 < i + k then normal_cell_gap else 0)
                  + max (cells.getD k {}).real_width
                      (get_entry_cell_width X P c entry (i + k)))) ∧
        (¬((cells.getD k {}).visible = true ∨
            (entry.is_item = true ∧ is_stub_cell X P entry (i + k) = false)) →
          ((expand_cells X P c entry num i cells).getD k {}).current_width
            = (cells.getD k {}).current_width)) := by
  induction cells with
  | nil => intro i k hk; simp at hk
  | cons x rest ih =>
    intro i k hk
    rcases k with _ | k
    · simp only [expand_cells, getD_cons_zero_cell, Nat.add_zero]
      constructor
      · intro h
        rw [if_neg (by omega)]
      · intro h
        rw [if_pos h]
        simp only [cell_t.visible]
        by_cases hv : (decide (0 < x.current_width) = true ∨
            (entry.is_item = true ∧ is_stub_cell X P entry i = false))
        · have hb : (decide (0 < x.current_width)
              || (entry.is_item && !is_stub_cell X P entry i)) = true := by
            rcases hv with h1 | ⟨h1, h2⟩
            · simp [h1]
            · simp [h1, h2]
          rw [if_pos hb]
          exact ⟨rfl, fun _ => rfl, fun hne => absurd hv hne⟩
        · have hb : ¬((decide (0 < x.current_width)
              || (entry.is_item && !is_stub_cell X P entry i)) = true) := by
            intro hb
            apply hv
            simp only [Bool.or_eq_true, Bool.and_eq_true, Bool.not_eq_true'] at hb
            exact hb
          rw [if_neg hb]
          exact ⟨rfl, fun h1 => absurd h1 hv, fun _ => rfl⟩
    · simp only [expand_cells, getD_cons_succ_cell]
      have e : i + (k + 1) = (i + 1) + k := by omega
      rw [e]
      exact ih (i + 1) k (by simpa using hk)

theorem expand_to_fit_null (X : externals) (P : inventory_selector_preset)
    (c : inventory_column) (entry : inventory_entry) (h : entry.is_null = true) :
    expand_to_fit X P c entry = c := by
  unfold expand_to_fit
  rw [if_pos h]

theorem expand_to_fit_no_denial (X : externals) (P : inventory_selector_preset)
    (c : inventory_column) (entry : inventory_entry) (hnull : entry.is_null = false)
    (hden : get_entry_denial P entry = "") :
    expand_to_fit X P c entry
      = { c with cells := expand_cells X P c entry c.cells.length 0 c.cells } := by
  unfold expand_to_fit
  rw [if_neg (by simp [hnull])]
  simp [hden]

theorem expand_to_fit_denial (X : externals) (P : inventory_selector_preset)
    (c : inventory_column) (entry : inventory_entry) (hnull : entry.is_null = false)
    (hden : get_entry_denial P entry ≠ "") :
    expand_to_fit X P c entry
      = { c with
          cells := expand_cells X P c entry 1 0 c.cells,
          reserved_width :=
            max (get_entry_cell_width X P
                  { c with cells := expand_cells X P c entry 1 0 c.cells } entry 0
                + min_denial_gap + X.utf8_width (get_entry_denial P entry))
              c.reserved_width } := by
  unfold expand_to_fit
  rw [if_neg (by simp [hnull])]
  simp [hden]

theorem expand_cells_mono (X : externals) (P : inventory_selector_preset)
    (c : inventory_column) (entry : inventory_entry) (num : Nat) (cells : List cell_t)
    (k : Nat) (hk : k < cells.length) :
    (cells.getD k {}).real_width ≤ ((expand_cells X P c entry num 0 cells).getD k {}).real_width ∧
    (cells.getD k {}).current_width
      ≤ ((expand_cells X P c entry num 0 cells).getD k {}).current_width := by
  have h := expand_cells_getD X P c entry num cells 0 k hk
  simp only [Nat.zero_add] at h
  by_cases hnum : k < num
  · obtain ⟨h1, h2, h3⟩ := h.2 hnum
    refine ⟨by rw [h1]; exact Nat.le_max_left _ _, ?_⟩
    by_cases hv : ((cells.getD k {}).visible = true ∨
        (entry.is_item = true ∧ is_stub_cell X P entry k = false))
    · rw [h2 hv]; exact Nat.le_max_left _ _
    · rw [h3 hv]
  · rw [h.1 (by omega)]
    exact ⟨le_refl _, le_refl _⟩

/-- No call of `expand_to_fit` lowers a width of a cell, and the number of cells
stays the same. -/
theorem expand_to_fit_mono (X : externals) (P : inventory_selector_preset)
    (c : inventory_column) (entry : inventory_entry) :
    (expand_to_fit X P c entry).cells.length = c.cells.length ∧
    ∀ k, k < c.cells.length →
      (c.cells.getD k {}).real_width
        ≤ ((expand_to_fit X P c entry).cells.getD k {}).real_width ∧
      (c.cells.getD k {}).current_width
        ≤ ((expand_to_fit X P c entry).cells.getD k {}).current_width := by
  by_cases hnull : entry.is_null = true
  · rw [expand_to_fit_null X P c entry hnull]
    exact ⟨rfl, fun k _ => ⟨le_refl _, le_refl _⟩⟩
  · have hnull2 : entry.is_null = false := by simpa using hnull
    by_cases hden : get_entry_denial P entry = ""
    · rw [expand_to_fit_no_denial X P c entry hnull2 hden]
      exact ⟨expand_cells_length X P c entry _ c.cells 0,
        fun k hk => expand_cells_mono X P c entry _ c.cells k hk⟩
    · rw [expand_to_fit_denial X P c entry hnull2 hden]
      exact ⟨expand_cells_length X P c entry _ c.cells 0,
        fun k hk => expand_cells_mono X P c entry _ c.cells k hk⟩

/-- C15: for every entry without a rejection reason, `expand_to_fit( entry )`
leaves a column unchanged when the entry is blank, and otherwise sets the
`real_width` of each cell to the maximum of its old value and the width of the
entry for that cell and, for each cell that is already visible or for which
the entry is an item with non-stub content, sets `current_width` to the maximum
of its old value and gap + `real_width`, the gap being 0 for cell 0 and 4 for
every later cell; the other cells keep their `current_width`, and rows and
reserved width stay as they were.  No `real_width` or `current_width` ever
decreases. -/
theorem expand_to_fit_spec (X : externals) (P : inventory_selector_preset)
    (c : inventory_column) (entry : inventory_entry)
    (hden : get_entry_denial P entry = "") :
    (entry.is_null = true → expand_to_fit X P c entry = c) ∧
    (entry.is_null = false →
      (expand_to_fit X P c entry).entries = c.entries ∧
      (expand_to_fit X P c entry).reserved_width = c.reserved_width ∧
      (expand_to_fit X P c entry).cells.length = c.cells.length ∧
      ∀ k, k < c.cells.length →
        ((expand_to_fit X P c entry).cells.getD k {}).real_width
          = max (c.cells.getD k {}).real_width (get_entry_cell_width X P c entry k) ∧
        (((c.cells.getD k {}).visible = true ∨
            (entry.is_item = true ∧ is_stub_cell X P entry k = false)) →
          ((expand_to_fit X P c entry).cells.getD k {}).current_width
            = max (c.cells.getD k {}).current_width
                ((if 0 < k then 4 else 0)
                  + ((expand_to_fit X P c entry).cells.getD k {}).real_width)) ∧
        (¬((c.cells.getD k {}).visible = true ∨
            (entry.is_item = true ∧ is_stub_cell X P entry k = false)) →
          ((expand_to_fit X P c entry).cells.getD k {}).current_width
            = (c.cells.getD k {}).current_width)) ∧
    (∀ k, k < c.cells.length →
      (c.cells.getD k {}).real_width
        ≤ ((expand_to_fit X P c entry).cells.getD k {}).real_width ∧
      (c.cells.getD k {}).current_width
        ≤ ((expand_to_fit X P c entry).cells.getD k {}).current_width) := by
  refine ⟨expand_to_fit_null X P c entry, ?_, (expand_to_fit_mono X P c entry).2⟩
  intro hnull
  rw [expand_to_fit_no_denial X P c entry hnull hden]
  refine ⟨rfl, rfl, expand_cells_length X P c entry _ c.cells 0, ?_⟩
  intro k hk
  have h := (expand_cells_getD X P c entry c.cells.length c.cells 0 k hk).2 (by omega)
  simp only [Nat.zero_add] at h
  obtain ⟨h1, h2, h3⟩ := h
  refine ⟨h1, ?_, h3⟩
  intro hv
  show ((expand_cells X P c entry c.cells.length 0 c.cells).getD k {}).current_width = _
  rw [h2 hv]
  show _ = max _ (_ + ((expand_cells X P c entry c.cells.length 0 c.cells).getD k {}).real_width)
  rw [h1]
  rfl

/-- Witness for C15: the header of the first sample category, which has no
rejection reason, on the two-cell sample column. -/
theorem expand_to_fit_spec_witness :
    get_entry_denial sample_two_cell_preset (category_entry (some sample_cat1)) = "" ∧
    (category_entry (some sample_cat1)).is_null = false ∧
    (expand_to_fit plain_externals sample_two_cell_preset sample_two_cell_column
      (category_entry (some sample_cat1))).cells
      = [{ real_width := 5, current_width := 5 }, { real_width := 6, current_width := 10 }] ∧
    (∀ k, k < sample_two_cell_column.cells.length →
      (sample_two_cell_column.cells.getD k {}).real_width
        ≤ ((expand_to_fit plain_externals sample_two_cell_preset sample_two_cell_column
            (category_entry (some sample_cat1))).cells.getD k {}).real_width ∧
      (sample_two_cell_column.cells.getD k {}).current_width
        ≤ ((expand_to_fit plain_externals sample_two_cell_preset sample_two_cell_column
            (category_entry (some sample_cat1))).cells.getD k {}).current_width) :=
  ⟨by decide, by decide, by decide,
    (expand_to_fit_spec plain_externals sample_two_cell_preset sample_two_cell_column
      (category_entry (some sample_cat1)) (by decide)).2.2⟩

theorem item_not_null (e : inventory_entry) (h : e.is_item = true) : e.is_null = false := by
  obtain ⟨cat, hcat⟩ := item_category_some e h
  simp [inventory_entry.is_null, hcat]

theorem get_cells_width_le_get_width (c : inventory_column) :
    c.reserved_width ≤ get_width c := by
  unfold get_width
  exact Nat.le_max_right _ _

/-- C16: for every item entry with a non-empty rejection reason,
`expand_to_fit( entry )` leaves every cell other than cell 0 unchanged and
raises `reserved_width` to the maximum of its old value and the width of the
entry for cell 0 plus 2 plus the display width of the reason, so that
`get_width()` afterwards is at least that sum. -/
theorem expand_to_fit_denial_spec (X : externals) (P : inventory_selector_preset)
    (c : inventory_column) (entry : inventory_entry) (hitem : entry.is_item = true)
    (hden : P.get_denial entry.location ≠ "") :
    (expand_to_fit X P c entry).entries = c.entries ∧
    (expand_to_fit X P c entry).cells.length = c.cells.length ∧
    (∀ k, 1 ≤ k → k < c.cells.length →
      (expand_to_fit X P c entry).cells.getD k {} = c.cells.getD k {}) ∧
    (expand_to_fit X P c entry).reserved_width
      = max c.reserved_width
          (get_entry_cell_width X P { c with cells := (expand_to_fit X P c entry).cells } entry 0
            + 2 + X.utf8_width (P.get_denial entry.location)) ∧
    get_entry_cell_width X P { c with cells := (expand_to_fit X P c entry).cells } entry 0
        + 2 + X.utf8_width (P.get_denial entry.location)
      ≤ get_width (expand_to_fit X P c entry) := by
  have hden2 : get_entry_denial P entry = P.get_denial entry.location := by
    simp [get_entry_denial, hitem]
  have hr := expand_to_fit_denial X P c entry (item_not_null entry hitem)
    (by rw [hden2]; exact hden)
  have hres : (expand_to_fit X P c entry).reserved_width
      = max c.reserved_width
          (get_entry_cell_width X P { c with cells := (expand_to_fit X P c entry).cells } entry 0
            + 2 + X.utf8_width (P.get_denial entry.location)) := by
    rw [hr, ← hden2]
    simp only [min_denial_gap]
    exact Nat.max_comm _ _
  refine ⟨expand_to_fit_entries X P c entry, (expand_to_fit_mono X P c entry).1, ?_, hres, ?_⟩
  · intro k hk1 hk
    rw [hr]
    exact (expand_cells_getD X P c entry 1 c.cells 0 k hk).1 (by omega)
  · calc get_entry_cell_width X P { c with cells := (expand_to_fit X P c entry).cells } entry 0
          + 2 + X.utf8_width (P.get_denial entry.location)
        ≤ (expand_to_fit X P c entry).reserved_width := by rw [hres]; exact Nat.le_max_right _ _
      _ ≤ get_width (expand_to_fit X P c entry) := get_cells_width_le_get_width _

/-- Witness for C16: the rejected sample item number 2 on the two-cell sample
column. -/
theorem expand_to_fit_denial_spec_witness :
    (sample_item 2 "B" sample_cat1).is_item = true ∧
    sample_two_cell_preset.get_denial (sample_item 2 "B" sample_cat1).location ≠ "" ∧
    (expand_to_fit plain_externals sample_two_cell_preset sample_two_cell_column
      (sample_item 2 "B" sample_cat1)).reserved_width = 14 ∧
    (expand_to_fit plain_externals sample_two_cell_preset sample_two_cell_column
      (sample_item 2 "B" sample_cat1)).cells = sample_two_cell_column.cells ∧
    (∀ k, 1 ≤ k → k < sample_two_cell_column.cells.length →
      (expand_to_fit plain_externals sample_two_cell_preset sample_two_cell_column
        (sample_item 2 "B" sample_cat1)).cells.getD k {}
        = sample_two_cell_column.cells.getD k {}) :=
  ⟨by decide, by decide, by decide, by decide,
    (expand_to_fit_denial_spec plain_externals sample_two_cell_preset sample_two_cell_column
      (sample_item 2 "B" sample_cat1) (by decide) (by decide)).2.2.1⟩

/-! ## Adding and removing rows -/

/-- The first row satisfying a test splits the list, or no row satisfies it. -/
theorem findIdx_split (p : inventory_entry → Bool) (l : List inventory_entry) :
    ((∀ e ∈ l, p e = false) ∧ l.findIdx p = l.length) ∨
    ∃ pre x post, l = pre ++ x :: post ∧ p x = true ∧ (∀ y ∈ pre, p y = false) ∧
      l.findIdx p = pre.length := by
  induction l with
  | nil => left; simp
  | cons a rest ih =>
    by_cases ha : p a = true
    · right
      exact ⟨[], a, rest, rfl, ha, by simp, by simp [List.findIdx_cons, ha]⟩
    · have ha2 : p a = false := by simpa using ha
      rcases ih with ⟨h1, h2⟩ | ⟨pre, x, post, h1, h2, h3, h4⟩
      · left
        refine ⟨?_, by simp [List.findIdx_cons, ha2, h2]⟩
        intro e he
        rcases List.mem_cons.mp he with h | h
        · rw [h]; exact ha2
        · exact h1 e h
      · right
        refine ⟨a :: pre, x, post, by rw [h1]; rfl, h2, ?_, by simp [List.findIdx_cons, ha2, h4]⟩
        intro y hy
        rcases List.mem_cons.mp hy with h | h
        · rw [h]; exact ha2
        · exact h3 y h

theorem eraseIdx_split (pre post : List inventory_entry) (x : inventory_entry) :
    (pre ++ x :: post).eraseIdx pre.length = pre ++ post := by
  induction pre with
  | nil => rfl
  | cons a rest ih => simp [List.eraseIdx, ih]

theorem any_equals_false (entries : List inventory_entry) (entry : inventory_entry)
    (h : ∀ e ∈ entries, e.equals entry = false) :
    entries.any (fun e => e.equals entry) = false := by
  rw [List.any_eq_false]
  intro e he
  simp [h e he]

theorem any_equals_true (entries : List inventory_entry) (entry : inventory_entry)
    (h : ∃ e ∈ entries, e.equals entry = true) :
    entries.any (fun e => e.equals entry) = true := by
  rw [List.any_eq_true]
  exact h

theorem add_entry_duplicate (X : externals) (P : inventory_selector_preset)
    (c : inventory_column) (entry : inventory_entry)
    (h : ∃ e ∈ c.entries, e.equals entry = true) : add_entry X P c entry = c := by
  unfold add_entry
  rw [if_pos (any_equals_true _ _ h)]

theorem add_entry_new (X : externals) (P : inventory_selector_preset)
    (c : inventory_column) (entry : inventory_entry)
    (h : ∀ e ∈ c.entries, e.equals entry = false) :
    (add_entry X P c entry).entries
      = insert_at c.entries (add_entry_index c.entries entry) entry ∧
    (add_entry X P c entry).paging_is_valid = false ∧
    (add_entry X P c entry).cells
      = (expand_to_fit X P
          { c with entries := insert_at c.entries (add_entry_index c.entries entry) entry }
          entry).cells := by
  unfold add_entry
  rw [if_neg (by rw [any_equals_false _ _ h]; simp)]
  exact ⟨expand_to_fit_entries X P _ entry, rfl, rfl⟩

/-- C17: `add_entry` with an entry equal (same category and same backing
reference) to a row of the column returns the column unchanged: rows, cell
widths and paging flag are as before.  With an entry equal to no row the list
grows by exactly that entry, inserted between two parts of the old list, and
paging becomes invalid. -/
theorem add_entry_spec (X : externals) (P : inventory_selector_preset)
    (c : inventory_column) (entry : inventory_entry) :
    ((∃ e ∈ c.entries, e.equals entry = true) → add_entry X P c entry = c) ∧
    ((∀ e ∈ c.entries, e.equals entry = false) →
      (∃ pre post, c.entries = pre ++ post ∧
        (add_entry X P c entry).entries = pre ++ entry :: post) ∧
      (add_entry X P c entry).entries.length = c.entries.length + 1 ∧
      (add_entry X P c entry).paging_is_valid = false) := by
  refine ⟨add_entry_duplicate X P c entry, ?_⟩
  intro h
  obtain ⟨h1, h2, _⟩ := add_entry_new X P c entry h
  refine ⟨⟨c.entries.take (add_entry_index c.entries entry),
    c.entries.drop (add_entry_index c.entries entry), (List.take_append_drop _ _).symm, h1⟩,
    ?_, h2⟩
  rw [h1]
  simp only [insert_at, List.length_append, List.length_cons, List.length_take,
    List.length_drop]
  omega

/-- Witness for C17 on the sample column: a duplicate of row `A` and a new row
`Z` of the first category. -/
theorem add_entry_spec_witness :
    add_entry plain_externals default_preset sample_column (sample_item 1 "A" sample_cat1)
      = sample_column ∧
    (add_entry plain_externals default_preset sample_column
      (sample_item 9 "Z" sample_cat1)).entries
      = [sample_item 1 "A" sample_cat1, sample_item 2 "B" sample_cat1,
          sample_item 9 "Z" sample_cat1, sample_item 3 "C" sample_cat2,
          sample_item 4 "D" sample_cat2, sample_item 5 "E" sample_cat2] ∧
    (add_entry plain_externals default_preset sample_column
      (sample_item 9 "Z" sample_cat1)).paging_is_valid = false :=
  ⟨(add_entry_spec plain_externals default_preset sample_column
      (sample_item 1 "A" sample_cat1)).1 (by decide),
    by decide, by decide⟩

theorem remove_entry_absent (c : inventory_column) (entry : inventory_entry)
    (h : ∀ e ∈ c.entries, e.equals entry = false) : remove_entry c entry = c := by
  unfold remove_entry
  rcases findIdx_split (fun e => e.equals entry) c.entries with ⟨_, h2⟩ | ⟨pre, x, post, h1, h2, _, _⟩
  · simp only
    rw [h2, if_neg (by omega)]
  · have := h x (by rw [h1]; simp)
    rw [h2] at this
    exact absurd this (by simp)

theorem remove_entry_present (c : inventory_column) (entry : inventory_entry)
    (h : ∃ e ∈ c.entries, e.equals entry = true) :
    ∃ pre x post, c.entries = pre ++ x :: post ∧ x.equals entry = true ∧
      (∀ y ∈ pre, y.equals entry = false) ∧
      remove_entry c entry = { c with entries := pre ++ post, paging_is_valid := false } := by
  unfold remove_entry
  rcases findIdx_split (fun e => e.equals entry) c.entries with ⟨h1, _⟩ | ⟨pre, x, post, h1, h2, h3, h4⟩
  · obtain ⟨e, he, hee⟩ := h
    rw [h1 e he] at hee
    exact absurd hee (by simp)
  · refine ⟨pre, x, post, h1, h2, h3, ?_⟩
    simp only
    rw [h4, if_pos (by rw [h1]; simp)]
    have e1 : c.entries.eraseIdx pre.length = pre ++ post := by
      rw [h1]; exact eraseIdx_split pre post x
    rw [e1]

/-- C18: `remove_entry` with an entry equal to no row of the column returns the
column unchanged (rows and paging flag as before); with an entry equal to a
row it removes exactly the first row equal to it, keeps all other rows in
their order, and marks paging invalid. -/
theorem remove_entry_spec (c : inventory_column) (entry : inventory_entry) :
    ((∀ e ∈ c.entries, e.equals entry = false) → remove_entry c entry = c) ∧
    ((∃ e ∈ c.entries, e.equals entry = true) →
      ∃ pre x post, c.entries = pre ++ x :: post ∧ x.equals entry = true ∧
        (∀ y ∈ pre, y.equals entry = false) ∧
        remove_entry c entry
          = { c with entries := pre ++ post, paging_is_valid := false }) :=
  ⟨remove_entry_absent c entry, remove_entry_present c entry⟩

/-- Witness for C18 on the paginated sample column: removing row `C`, and
removing a row that is not there. -/
theorem remove_entry_spec_witness :
    (remove_entry sample_paged (sample_item 3 "C" sample_cat2)
      = { sample_paged with
          entries :=
            [category_entry (some sample_cat1), sample_item 1 "A" sample_cat1,
              sample_item 2 "B" sample_cat1, category_entry (some sample_cat2),
              sample_item 4 "D" sample_cat2, category_entry (some sample_cat2),
              sample_item 5 "E" sample_cat2],
          paging_is_valid := false }) ∧
    remove_entry sample_paged (sample_item 9 "Z" sample_cat1) = sample_paged :=
  ⟨by decide,
    (remove_entry_spec sample_paged (sample_item 9 "Z" sample_cat1)).1 (by decide)⟩

/-! ## Width negotiation: `set_width` -/

theorem set_width_loop_zero (fuel : Nat) (cells : List cell_t) :
    set_width_loop fuel cells 0 = some cells := by
  cases fuel <;> simp [set_width_loop]

/-- The loop of `set_width` ends within as many iterations as the absolute
value of the initial width gap. -/
theorem set_width_loop_terminates (fuel : Nat) :
    ∀ (cells : List cell_t) (width_gap : Int), width_gap.natAbs ≤ fuel →
      ∃ r, set_width_loop fuel cells width_gap = some r := by
  induction fuel with
  | zero =>
    intro cells width_gap h
    have h0 : width_gap = 0 := by omega
    exact ⟨cells, by rw [h0]; exact set_width_loop_zero 0 cells⟩
  | succ f ih =>
    intro cells width_gap h
    by_cases h0 : width_gap = 0
    · exact ⟨cells, by rw [h0]; exact set_width_loop_zero _ cells⟩
    · simp only [set_width_loop, if_neg h0]
      split
      · exact ⟨cells, rfl⟩
      · split
        · exact ⟨cells, rfl⟩
        · apply ih
          split <;> omega

theorem set_width_loop_mono (fuel : Nat) :
    ∀ (cells r : List cell_t) (width_gap : Int) (extra : Nat),
      set_width_loop fuel cells width_gap = some r →
      set_width_loop (fuel + extra) cells width_gap = some r := by
  induction fuel with
  | zero =>
    intro cells r width_gap extra h
    by_cases h0 : width_gap = 0
    · rw [h0] at h ⊢
      rw [set_width_loop_zero] at h ⊢
      exact h
    · simp [set_width_loop, h0] at h
  | succ f ih =>
    intro cells r width_gap extra h
    have e : f + 1 + extra = (f + extra) + 1 := by omega
    rw [e]
    by_cases h0 : width_gap = 0
    · rw [h0] at h ⊢
      rw [set_width_loop_zero] at h ⊢
      exact h
    · simp only [set_width_loop, if_neg h0] at h ⊢
      split
      · rename_i hc
        rw [hc] at h
        exact h
      · rename_i i hc
        rw [hc] at h
        simp only at h ⊢
        split
        · rename_i hv
          rw [if_pos hv] at h
          exact h
        · rename_i hv
          rw [if_neg hv] at h
          exact ih _ _ _ _ h

theorem initial_width_gap_natAbs_le (current width : Nat) :
    (initial_width_gap current width).natAbs ≤ ((current : Int) - (width : Int)).natAbs := by
  unfold initial_width_gap Int.bmod
  simp only
  split <;> omega

theorem initial_width_gap_small (current width : Nat) (hc : current < 2 ^ 31)
    (hw : width < 2 ^ 31) :
    initial_width_gap current width = (current : Int) - (width : Int) := by
  unfold initial_width_gap Int.bmod
  simp only
  split <;> omega

/-- The call `set_width( width )` returns one column for every fuel of at least
the distance between the width after `reset_width` and the target. -/
theorem set_width_returns (X : externals) (P : inventory_selector_preset)
    (c : inventory_column) (width : Nat) :
    ∃ r, ∀ fuel,
      ((get_width (reset_width X P c) : Int) - (width : Int)).natAbs ≤ fuel →
      set_width X P fuel c width = some r := by
  have hb := initial_width_gap_natAbs_le (get_width (reset_width X P c)) width
  obtain ⟨cells, hcells⟩ := set_width_loop_terminates
    ((get_width (reset_width X P c) : Int) - (width : Int)).natAbs
    (reset_width X P c).cells (initial_width_gap (get_width (reset_width X P c)) width) hb
  refine ⟨{ reset_width X P c with cells := cells, reserved_width := width }, ?_⟩
  intro fuel hf
  unfold set_width
  simp only
  have e : fuel = ((get_width (reset_width X P c) : Int) - (width : Int)).natAbs
      + (fuel - ((get_width (reset_width X P c) : Int) - (width : Int)).natAbs) := by omega
  rw [e, set_width_loop_mono _ _ _ _ _ hcells]
  rfl

/-- C13: for every column state and every target width, `set_width( target )`
terminates: the adjustment loop, which spends one unit of fuel per iteration,
ends with any fuel of at least `|get_width() after reset - target|`, so it
runs at most that many iterations. -/
theorem set_width_terminates (X : externals) (P : inventory_selector_preset)
    (c : inventory_column) (width : Nat) :
    ∃ r, ∀ fuel,
      ((get_width (reset_width X P c) : Int) - (width : Int)).natAbs ≤ fuel →
      set_width X P fuel c width = some r :=
  set_width_returns X P c width

/-- Witness for C13: the paginated sample column, whose width after
`reset_width` is 5, is set to width 3 by two iterations. -/
theorem set_width_terminates_witness :
    ((get_width (reset_width plain_externals default_preset sample_paged) : Int)
      - ((3 : Nat) : Int)).natAbs = 2 ∧
    set_width plain_externals default_preset 2 sample_paged 3
      = some { sample_paged with
          cells := [{ real_width := 5, current_width := 3 }], reserved_width := 3 } ∧
    ∃ r, ∀ fuel,
      ((get_width (reset_width plain_externals default_preset sample_paged) : Int)
        - ((3 : Nat) : Int)).natAbs ≤ fuel →
      set_width plain_externals default_preset fuel sample_paged 3 = some r :=
  ⟨by decide, by decide, set_width_terminates plain_externals default_preset sample_paged 3⟩

/-! ## Width negotiation: the choice of a cell -/

theorem get_cells_width_eq (c : inventory_column) : get_cells_width c = cells_sum c.cells := by
  unfold get_cells_width cells_sum
  have h : ∀ (l : List cell_t) (a : Nat),
      l.foldl (fun lhs cell => lhs + cell.current_width) a
        = a + (l.map cell_t.current_width).sum := by
    intro l
    induction l with
    | nil => intro a; simp
    | cons x rest ih => intro a; simp [ih]; omega
  rw [h]; omega

theorem cells_sum_cons (x : cell_t) (rest : List cell_t) :
    cells_sum (x :: rest) = x.current_width + cells_sum rest := by
  simp [cells_sum]

theorem visible_iff (x : cell_t) : x.visible = true ↔ 0 < x.current_width := by
  simp [cell_t.visible]

theorem getD_visible_lt (cells : List cell_t) (i : Nat)
    (h : (cells.getD i {}).visible = true) : i < cells.length := by
  by_contra hlt
  rw [List.getD_eq_default _ _ (by omega)] at h
  simp [cell_t.visible] at h

/-- Replacing cell `i` changes the sum by the difference of the rendered
widths. -/
theorem cells_sum_set (cells : List cell_t) :
    ∀ (i : Nat) (y : cell_t), i < cells.length →
      cells_sum (cells.set i y) + (cells.getD i {}).current_width
        = cells_sum cells + y.current_width := by
  induction cells with
  | nil => intro i y h; simp at h
  | cons x rest ih =>
    intro i y h
    rcases i with _ | i
    · simp only [List.set_cons_zero, cells_sum_cons, getD_cons_zero_cell]
      omega
    · simp only [List.set_cons_succ, cells_sum_cons, getD_cons_succ_cell]
      have := ih i y (by simpa using h)
      omega

theorem filter_visible_set (cells : List cell_t) :
    ∀ (i : Nat) (y : cell_t), i < cells.length → (cells.getD i {}).visible = true →
      y.visible = true →
      ((cells.set i y).filter cell_t.visible).length
        = (cells.filter cell_t.visible).length := by
  induction cells with
  | nil => intro i y h; simp at h
  | cons x rest ih =>
    intro i y h hv hy
    rcases i with _ | i
    · simp only [List.set_cons_zero, getD_cons_zero_cell] at hv ⊢
      simp [List.filter_cons, hy, hv]
    · simp only [List.set_cons_succ, getD_cons_succ_cell] at hv ⊢
      have := ih i y (by simpa using h) hv hy
      by_cases hx : x.visible = true
      · simp only [List.filter_cons, hx, if_true, List.length_cons, this]
      · simp only [List.filter_cons, hx, Bool.false_eq_true, if_false, this]

theorem cmp_for_shrinking_invisible (lhs rhs : cell_t) (h : lhs.visible = false) :
    cmp_for_shrinking lhs rhs = false := by
  simp [cmp_for_shrinking, h]

/-- A cell that replaces a visible candidate in the scan for shrinking is at
least two wide. -/
theorem cmp_for_shrinking_wide (lhs rhs : cell_t) (hv : lhs.visible = true)
    (h : cmp_for_shrinking lhs rhs = true) : 2 ≤ rhs.current_width := by
  have hl := (visible_iff lhs).mp hv
  unfold cmp_for_shrinking at h
  rw [if_neg (by simp [hv])] at h
  split at h
  · have := of_decide_eq_true h
    omega
  · rename_i hg
    unfold cell_t.gap min_cell_gap at hg
    omega

/-- A candidate of width one that is kept against a cell is at least as wide as
that cell. -/
theorem cmp_for_shrinking_kept (lhs rhs : cell_t) (hw : lhs.current_width = 1)
    (h : cmp_for_shrinking lhs rhs = false) : rhs.current_width ≤ 1 := by
  unfold cmp_for_shrinking at h
  rw [if_neg (by simp [cell_t.visible, hw])] at h
  split at h
  · have := of_decide_eq_false h
    omega
  · rename_i hg
    have := of_decide_eq_false h
    unfold cell_t.gap at hg this
    unfold min_cell_gap at hg
    omega

theorem max_element_scan_invisible (rest : List cell_t) :
    ∀ (best_index : Nat) (best : cell_t) (i : Nat), best.visible = false →
      max_element_scan cmp_for_shrinking best_index best i rest = best_index := by
  induction rest with
  | nil => intro bi b i _; rfl
  | cons x rest ih =>
    intro bi b i hb
    simp only [max_element_scan]
    rw [cmp_for_shrinking_invisible b x hb]
    exact ih bi b (i + 1) hb

/-- The scan for shrinking from a visible candidate keeps it, against cells
that all compare not greater, or ends on a later cell at least two wide. -/
theorem max_element_scan_visible (rest : List cell_t) :
    ∀ (best_index : Nat) (best : cell_t) (i : Nat), best.visible = true →
      (max_element_scan cmp_for_shrinking best_index best i rest = best_index ∧
        ∀ x ∈ rest, cmp_for_shrinking best x = false) ∨
      ∃ k, max_element_scan cmp_for_shrinking best_index best i rest = i + k ∧
        k < rest.length ∧ 2 ≤ (rest.getD k {}).current_width := by
  induction rest with
  | nil => intro bi b i _; left; exact ⟨rfl, by simp⟩
  | cons x rest ih =>
    intro bi b i hb
    simp only [max_element_scan]
    by_cases hc : cmp_for_shrinking b x = true
    · rw [if_pos hc]
      have hx2 := cmp_for_shrinking_wide b x hb hc
      have hxv : x.visible = true := (visible_iff x).mpr (by omega)
      rcases ih i x (i + 1) hxv with ⟨h1, _⟩ | ⟨k, h1, h2, h3⟩
      · right
        exact ⟨0, by rw [h1]; rfl, by simp, by simpa using hx2⟩
      · right
        exact ⟨k + 1, by rw [h1]; omega, by simpa using h2, by simpa using h3⟩
    · rw [if_neg hc]
      have hc2 : cmp_for_shrinking b x = false := by simpa using hc
      rcases ih bi b (i + 1) hb with ⟨h1, h2⟩ | ⟨k, h1, h2, h3⟩
      · left
        refine ⟨h1, ?_⟩
        intro y hy
        rcases List.mem_cons.mp hy with h | h
        · rw [h]; exact hc2
        · exact h2 y h
      · right
        exact ⟨k + 1, by rw [h1]; omega, by simpa using h2, by simpa using h3⟩

theorem cells_sum_le_of_narrow (rest : List cell_t)
    (h : ∀ x ∈ rest, x.current_width ≤ 1) :
    cells_sum rest ≤ (rest.filter cell_t.visible).length := by
  induction rest with
  | nil => simp [cells_sum]
  | cons x rest ih =>
    have hx := h x (by simp)
    have hr := ih (fun y hy => h y (by simp [hy]))
    rw [cells_sum_cons]
    by_cases hv : x.visible = true
    · simp only [List.filter_cons, hv, if_true, List.length_cons]
      omega
    · have h0 : x.current_width = 0 := by
        have : ¬ 0 < x.current_width := fun hp => hv ((visible_iff x).mpr hp)
        omega
      simp only [List.filter_cons, hv]
      simp only [Bool.false_eq_true, if_false]
      omega

/-! ## Width negotiation: the adjustment loop -/

theorem set_width_loop_shrink_step (fuel : Nat) (cells : List cell_t) (width_gap : Int)
    (i : Nat) (hg : 0 < width_gap) (hi : max_element cmp_for_shrinking cells = some i)
    (hv : (cells.getD i {}).visible = true) :
    set_width_loop (fuel + 1) cells width_gap
      = set_width_loop fuel
          (cells.set i { real_width := (cells.getD i {}).real_width,
                         current_width := (cells.getD i {}).current_width - 1 })
          (width_gap - 1) := by
  simp only [set_width_loop]
  rw [if_neg (by omega), if_neg (by omega), hi]
  simp only [hv, Bool.not_true, Bool.false_eq_true, if_false]
  rw [if_neg (by omega), if_neg (by omega)]

theorem set_width_loop_shrink_stop (fuel : Nat) (cells : List cell_t) (width_gap : Int)
    (i : Nat) (hg : 0 < width_gap) (hi : max_element cmp_for_shrinking cells = some i)
    (hv : (cells.getD i {}).visible = false) :
    set_width_loop (fuel + 1) cells width_gap = some cells := by
  simp only [set_width_loop]
  rw [if_neg (by omega), if_neg (by omega), hi]
  simp only [hv, Bool.not_false, if_true]

theorem set_width_loop_grow_step (fuel : Nat) (cells : List cell_t) (width_gap : Int)
    (i : Nat) (hg : width_gap < 0) (hi : min_element cmp_for_expansion cells = some i)
    (hv : (cells.getD i {}).visible = true) :
    set_width_loop (fuel + 1) cells width_gap
      = set_width_loop fuel
          (cells.set i { real_width := (cells.getD i {}).real_width,
                         current_width := (cells.getD i {}).current_width + 1 })
          (width_gap + 1) := by
  simp only [set_width_loop]
  rw [if_neg (by omega), if_pos hg, hi]
  simp only [hv, Bool.not_true, Bool.false_eq_true, if_false]
  rw [if_pos hg, if_pos hg]

theorem set_width_loop_grow_stop (fuel : Nat) (cells : List cell_t) (width_gap : Int)
    (hg : width_gap < 0)
    (hi : min_element cmp_for_expansion cells = none ∨
      ∃ i, min_element cmp_for_expansion cells = some i ∧ (cells.getD i {}).visible = false) :
    set_width_loop (fuel + 1) cells width_gap = some cells := by
  simp only [set_width_loop]
  rw [if_neg (by omega), if_pos hg]
  rcases hi with h | ⟨i, h, hv⟩
  · rw [h]
  · rw [h]; simp only [hv, Bool.not_false, if_true]

/-- While growing, the loop adds at most the missing width to the cells. -/
theorem set_width_loop_grow (fuel : Nat) :
    ∀ (cells r : List cell_t) (width_gap : Int), width_gap ≤ 0 →
      set_width_loop fuel cells width_gap = some r →
      (cells_sum r : Int) ≤ (cells_sum cells : Int) - width_gap := by
  induction fuel with
  | zero =>
    intro cells r width_gap hg h
    by_cases h0 : width_gap = 0
    · rw [h0, set_width_loop_zero] at h
      rw [← Option.some.inj h, h0]; omega
    · simp [set_width_loop, h0] at h
  | succ f ih =>
    intro cells r width_gap hg h
    by_cases h0 : width_gap = 0
    · rw [h0, set_width_loop_zero] at h
      rw [← Option.some.inj h, h0]; omega
    · have hneg : width_gap < 0 := by omega
      cases hm : min_element cmp_for_expansion cells with
      | none =>
        rw [set_width_loop_grow_stop f cells width_gap hneg (Or.inl hm)] at h
        rw [← Option.some.inj h]; omega
      | some i =>
        by_cases hv : (cells.getD i {}).visible = true
        · rw [set_width_loop_grow_step f cells width_gap i hneg hm hv] at h
          have hlt := getD_visible_lt cells i hv
          have hs := cells_sum_set cells i
            { real_width := (cells.getD i {}).real_width,
              current_width := (cells.getD i {}).current_width + 1 } hlt
          have := ih _ r (width_gap + 1) (by omega) h
          simp only at hs
          omega
        · rw [set_width_loop_grow_stop f cells width_gap hneg
            (Or.inr ⟨i, hm, by simpa using hv⟩)] at h
          rw [← Option.some.inj h]; omega

/-- While shrinking from a list whose first cell is visible (or whose cells
are already narrower than the number of visible later cells), the loop either
removes the whole excess or stops with cells no wider than the number of
visible later cells. -/
theorem set_width_loop_shrink (fuel : Nat) :
    ∀ (cells r : List cell_t) (width_gap : Int), 0 ≤ width_gap →
      set_width_loop fuel cells width_gap = some r →
      ((cells.getD 0 {}).visible = true ∨ cells_sum cells ≤ visible_others cells) →
      ((cells_sum r : Int) ≤ (cells_sum cells : Int) - width_gap ∨
        cells_sum r ≤ visible_others cells) := by
  induction fuel with
  | zero =>
    intro cells r width_gap hg h _
    by_cases h0 : width_gap = 0
    · rw [h0, set_width_loop_zero] at h
      rw [← Option.some.inj h, h0]; left; omega
    · simp [set_width_loop, h0] at h
  | succ f ih =>
    intro cells r width_gap hg h hinv
    by_cases h0 : width_gap = 0
    · rw [h0, set_width_loop_zero] at h
      rw [← Option.some.inj h, h0]; left; omega
    · have hpos : 0 < width_gap := by omega
      cases cells with
      | nil =>
        simp only [set_width_loop, if_neg h0, if_neg (show ¬ width_gap < 0 by omega),
          max_element] at h
        rw [← Option.some.inj h]
        right; simp [cells_sum]
      | cons x rest =>
        have hm : max_element cmp_for_shrinking (x :: rest)
            = some (max_element_scan cmp_for_shrinking 0 x 1 rest) := rfl
        by_cases hx : x.visible = true
        · rcases max_element_scan_visible rest 0 x 1 hx with ⟨h1, h2⟩ | ⟨k, h1, h2, h3⟩
          · rw [h1] at hm
            rw [set_width_loop_shrink_step f (x :: rest) width_gap 0 hpos hm
              (by simpa using hx)] at h
            simp only [List.set_cons_zero, getD_cons_zero_cell] at h
            have hxw := (visible_iff x).mp hx
            have hres := ih _ r (width_gap - 1) (by omega) h (by
              by_cases hx1 : x.current_width = 1
              · right
                have hn : ∀ y ∈ rest, y.current_width ≤ 1 :=
                  fun y hy => cmp_for_shrinking_kept x y hx1 (h2 y hy)
                have := cells_sum_le_of_narrow rest hn
                simp only [cells_sum_cons, visible_others, List.tail_cons, hx1]
                omega
              · left
                simp only [getD_cons_zero_cell, cell_t.visible]
                simp only [decide_eq_true_eq]
                omega)
            simp only [cells_sum_cons, visible_others, List.tail_cons] at hres ⊢
            omega
          · rw [h1] at hm
            have hcell : (x :: rest).getD (1 + k) {} = rest.getD k {} := by
              rw [Nat.add_comm]; rfl
            have hkv : (rest.getD k {}).visible = true := (visible_iff _).mpr (by omega)
            rw [set_width_loop_shrink_step f (x :: rest) width_gap (1 + k) hpos hm
              (by rw [hcell]; exact hkv)] at h
            rw [hcell] at h
            have hset : (x :: rest).set (1 + k)
                { real_width := (rest.getD k {}).real_width,
                  current_width := (rest.getD k {}).current_width - 1 }
                = x :: rest.set k
                    { real_width := (rest.getD k {}).real_width,
                      current_width := (rest.getD k {}).current_width - 1 } := by
              rw [Nat.add_comm]; rfl
            rw [hset] at h
            have hres := ih _ r (width_gap - 1) (by omega) h (by
              left; simpa using hx)
            have hs := cells_sum_set rest k
              { real_width := (rest.getD k {}).real_width,
                current_width := (rest.getD k {}).current_width - 1 } h2
            have hf := filter_visible_set rest k
              { real_width := (rest.getD k {}).real_width,
                current_width := (rest.getD k {}).current_width - 1 } h2 hkv
              ((visible_iff _).mpr (by simp only; omega))
            simp only [cells_sum_cons, visible_others, List.tail_cons] at hres ⊢
            simp only at hs
            rw [hf] at hres
            omega
        · have hx2 : x.visible = false := by simpa using hx
          rw [max_element_scan_invisible rest 0 x 1 hx2] at hm
          rw [set_width_loop_shrink_stop f (x :: rest) width_gap 0 hpos hm
            (by simpa using hx2)] at h
          rw [← Option.some.inj h]
          right
          rcases hinv with h1 | h1
          · rw [getD_cons_zero_cell, hx2] at h1
            exact absurd h1 (by simp)
          · exact h1

theorem filter_visible_le_min_cells_width (cells : List cell_t) :
    ∀ i, (cells.filter cell_t.visible).length ≤ min_cells_width (i + 1) cells := by
  induction cells with
  | nil => intro i; simp [min_cells_width]
  | cons x rest ih =>
    intro i
    have := ih (i + 1)
    by_cases hx : x.visible = true
    · simp only [List.filter_cons, hx, if_true, List.length_cons, min_cells_width,
        Nat.succ_pos, if_true]
      omega
    · simp only [List.filter_cons, hx, if_false, min_cells_width]
      simp only [Bool.false_eq_true, if_false]
      omega

theorem visible_others_le_min_cells_width (cells : List cell_t) :
    visible_others cells ≤ min_cells_width 0 cells := by
  cases cells with
  | nil => simp [visible_others, min_cells_width]
  | cons x rest =>
    have := filter_visible_le_min_cells_width rest 0
    simp only [visible_others, List.tail_cons, min_cells_width]
    omega

/-- The width of a column whose cells sum to at most its reserved width is the
reserved width. -/
theorem get_width_of_cells_le (c : inventory_column)
    (h : cells_sum c.cells ≤ c.reserved_width) : get_width c = c.reserved_width := by
  unfold get_width
  rw [get_cells_width_eq]
  exact Nat.max_eq_right h

/-- The call `set_width( width )` returns a column of exactly the target width
when the target is not below the width after `reset_width`, or when the first
cell is visible after `reset_width` and the target is at least the sum of the
minimum widths of the visible cells. -/
theorem set_width_exact (X : externals) (P : inventory_selector_preset)
    (c : inventory_column) (width : Nat)
    (hc : get_width (reset_width X P c) < 2 ^ 31) (hw : width < 2 ^ 31)
    (h : get_width (reset_width X P c) ≤ width ∨
      (((reset_width X P c).cells.getD 0 {}).visible = true ∧
        min_cells_width 0 (reset_width X P c).cells ≤ width)) :
    ∃ r, (∀ fuel,
        ((get_width (reset_width X P c) : Int) - (width : Int)).natAbs ≤ fuel →
        set_width X P fuel c width = some r) ∧ get_width r = width := by
  obtain ⟨r, hr⟩ := set_width_returns X P c width
  refine ⟨r, hr, ?_⟩
  have h1 := hr _ (Nat.le_refl _)
  unfold set_width at h1
  simp only at h1
  rw [initial_width_gap_small _ _ hc hw] at h1
  cases hl : set_width_loop ((get_width (reset_width X P c) : Int) - (width : Int)).natAbs
      (reset_width X P c).cells ((get_width (reset_width X P c) : Int) - (width : Int)) with
  | none => rw [hl] at h1; simp at h1
  | some cells =>
    rw [hl] at h1
    simp only [Option.map_some', Option.some.injEq] at h1
    have hsum : cells_sum (reset_width X P c).cells ≤ get_width (reset_width X P c) := by
      unfold get_width
      rw [get_cells_width_eq]
      exact Nat.le_max_left _ _
    have hle : cells_sum cells ≤ width := by
      by_cases hgrow : get_width (reset_width X P c) ≤ width
      · have := set_width_loop_grow _ _ _ _ (by omega) hl
        omega
      · rcases h with h | ⟨hv, hmin⟩
        · exact absurd h hgrow
        · have hvo := visible_others_le_min_cells_width (reset_width X P c).cells
          rcases set_width_loop_shrink _ _ _ _ (by omega) hl (Or.inl hv) with h2 | h2
          · omega
          · omega
    rw [← h1]
    exact get_width_of_cells_le _ hle

/-- C14 (as amended): for every column whose width after `reset_width` and
target are below 2^31, if the target is not below the width after
`reset_width`, or if cell 0 is visible after `reset_width` and the target is at
least the sum of the minimum per-field widths of the visible cells, then
`set_width( target )` returns and `get_width()` is exactly the target. -/
theorem set_width_exact_target (X : externals) (P : inventory_selector_preset)
    (c : inventory_column) (width : Nat)
    (hc : get_width (reset_width X P c) < 2 ^ 31) (hw : width < 2 ^ 31)
    (h : get_width (reset_width X P c) ≤ width ∨
      (((reset_width X P c).cells.getD 0 {}).visible = true ∧
        min_cells_width 0 (reset_width X P c).cells ≤ width)) :
    ∃ r, (∀ fuel,
        ((get_width (reset_width X P c) : Int) - (width : Int)).natAbs ≤ fuel →
        set_width X P fuel c width = some r) ∧ get_width r = width :=
  set_width_exact X P c width hc hw h

/-- Witness for C14: the two-cell sample column has width 14 after
`reset_width`, its first cell is visible and its minimum widths sum to 8; it is
set to width 12 by two iterations. -/
theorem set_width_exact_target_witness :
    get_width (reset_width plain_externals sample_two_cell_preset sample_two_cell_column) = 14 ∧
    ((reset_width plain_externals sample_two_cell_preset sample_two_cell_column).cells.getD
      0 {}).visible = true ∧
    min_cells_width 0
      (reset_width plain_externals sample_two_cell_preset sample_two_cell_column).cells = 8 ∧
    (set_width plain_externals sample_two_cell_preset 2 sample_two_cell_column 12).map get_width
      = some 12 ∧
    ∃ r, (∀ fuel,
        ((get_width (reset_width plain_externals sample_two_cell_preset
          sample_two_cell_column) : Int) - ((12 : Nat) : Int)).natAbs ≤ fuel →
        set_width plain_externals sample_two_cell_preset fuel sample_two_cell_column 12
          = some r) ∧ get_width r = 12 :=
  ⟨by decide, by decide, by decide, by decide,
    set_width_exact_target plain_externals sample_two_cell_preset sample_two_cell_column 12
      (by decide) (by decide) (Or.inr ⟨by decide, by decide⟩)⟩

/-- Counterexample to C14 as stated: in the one-row column whose first cell is a
stub, the second cell is visible after `reset_width`, the width is 7 and the
minimum per-field widths sum to 5; `set_width( 6 )` stops at the invisible
first cell and leaves `get_width()` at 7. -/
theorem set_width_exact_target_counterexample :
    (reset_width plain_externals sample_stub_preset sample_stub_column).cells
      = [{ real_width := 2, current_width := 0 }, { real_width := 3, current_width := 7 }] ∧
    ((reset_width plain_externals sample_stub_preset sample_stub_column).cells.any
      cell_t.visible) = true ∧
    min_cells_width 0 (reset_width plain_externals sample_stub_preset sample_stub_column).cells
      = 5 ∧
    (∀ fuel, 1 ≤ fuel →
      (set_width plain_externals sample_stub_preset fuel sample_stub_column 6).map get_width
        = some 7) := by
  refine ⟨by decide, by decide, by decide, ?_⟩
  intro fuel hf
  have h1 : set_width plain_externals sample_stub_preset 1 sample_stub_column 6
      = some { sample_stub_column with
          cells := [{ real_width := 2, current_width := 0 },
            { real_width := 3, current_width := 7 }], reserved_width := 6 } := by decide
  obtain ⟨r, hr⟩ := set_width_returns plain_externals sample_stub_preset sample_stub_column 6
  have h2 := hr 1 (by decide)
  rw [hr fuel (le_trans (by decide) hf), ← h2, h1]
  decide

/-! ## The selection column: `prepare_paging` -/

/-- The call `selection_column::prepare_paging` returns one column for every
fuel of at least three times the number of rows plus one, when paging is valid
or the page size is at least two. -/
theorem selection_prepare_paging_total (X : externals) (P : inventory_selector_preset)
    (sc : selection_column) (hsort : std_sort_contract X.std_sort)
    (hv : sort_compare_valid P) (hsize : sc.base.entries.length < 2 ^ 61)
    (h : sc.base.paging_is_valid = true ∨ 2 ≤ sc.base.entries_per_page) :
    ∃ r, ∀ fuel, 3 * sc.base.entries.length + 1 ≤ fuel →
      selection_column.prepare_paging X P fuel sc = some r := by
  · by_cases hval : sc.base.paging_is_valid = true
    · have hp : ∀ fuel, InventoryUI.prepare_paging X P fuel sc.base = some sc.base := by
        intro fuel
        unfold InventoryUI.prepare_paging
        rw [if_pos hval]
      cases hr : selection_column.prepare_paging X P 0 sc with
      | none =>
        unfold selection_column.prepare_paging at hr
        rw [hp 0] at hr
        simp only at hr
        split at hr <;> simp at hr
      | some r =>
        refine ⟨r, fun fuel _ => ?_⟩
        unfold selection_column.prepare_paging at hr ⊢
        rw [hp 0] at hr
        rw [hp fuel]
        exact hr
    · have hval2 : sc.base.paging_is_valid = false := by simpa using hval
      have h2 : 2 ≤ sc.base.entries_per_page := by
        rcases h with h | h
        · exact absurd h hval
        · exact h
      obtain ⟨r0, hr0, _⟩ := prepare_paging_result X P sc.base hsort hv hval2 h2 hsize
      cases hr : selection_column.prepare_paging X P (3 * sc.base.entries.length + 1) sc with
      | none =>
        unfold selection_column.prepare_paging at hr
        rw [hr0 _ (Nat.le_refl _)] at hr
        simp only at hr
        split at hr <;> simp at hr
      | some r =>
        refine ⟨r, fun fuel hf => ?_⟩
        unfold selection_column.prepare_paging at hr ⊢
        rw [hr0 _ (Nat.le_refl _)] at hr
        rw [hr0 fuel hf]
        exact hr

/-- The rows after `selection_column::prepare_paging`: never empty, and the
lone header of the pseudo-category when no item row is present.  For a column
whose paging is valid the property of the rows is assumed of the rows before
the call, which the call leaves as they are. -/
theorem selection_prepare_paging_rows (X : externals) (P : inventory_selector_preset)
    (sc : selection_column) (hsort : std_sort_contract X.std_sort)
    (hv : sort_compare_valid P) (hepp : 1 ≤ sc.base.entries_per_page)
    (hsize : sc.base.entries.length < 2 ^ 61)
    (hinv : sc.base.paging_is_valid = true →
      (∀ e ∈ sc.base.entries, e.is_item = false) →
      sc.base.entries = [] ∨ sc.base.entries = [category_entry (some sc.selected_cat)]) :
    ((sc.base.paging_is_valid = true ∨ 2 ≤ sc.base.entries_per_page) →
      ∃ r, ∀ fuel, 3 * sc.base.entries.length + 1 ≤ fuel →
        selection_column.prepare_paging X P fuel sc = some r) ∧
    ∀ fuel r, selection_column.prepare_paging X P fuel sc = some r →
      r.base.entries ≠ [] ∧ r.selected_cat = sc.selected_cat ∧
      r.base.paging_is_valid = true ∧
      ((∀ e ∈ r.base.entries, e.is_item = false) →
        r.base.entries = [category_entry (some sc.selected_cat)]) := by
  refine ⟨selection_prepare_paging_total X P sc hsort hv hsize, ?_⟩
  · intro fuel r hr
    unfold selection_column.prepare_paging at hr
    cases hb : InventoryUI.prepare_paging X P fuel sc.base with
    | none => rw [hb] at hr; simp at hr
    | some paged_base =>
      rw [hb] at hr
      simp only at hr
      have hvalid : paged_base.paging_is_valid = true := by
        by_cases hval : sc.base.paging_is_valid = true
        · unfold InventoryUI.prepare_paging at hb
          rw [if_pos hval] at hb
          rw [← Option.some.inj hb]; exact hval
        · exact (prepare_paging_returns X P sc.base paged_base hsort hv (by simpa using hval)
            hepp hsize fuel hb).2.1
      by_cases hem : paged_base.entries.isEmpty = true
      · rw [if_pos hem] at hr
        have hnil : paged_base.entries = [] := by simpa using hem
        have hr2 := Option.some.inj hr
        have hent : r.base.entries = [category_entry (some sc.selected_cat)] := by
          rw [← hr2]
          simp only
          rw [expand_to_fit_entries, hnil]
          rfl
        refine ⟨by rw [hent]; simp, by rw [← hr2], ?_, fun _ => hent⟩
        rw [← hr2]
        simp only
        rw [(expand_to_fit_frame X P _ _).2.2.2.1]
        exact hvalid
      · rw [if_neg hem] at hr
        have hr2 := Option.some.inj hr
        have hne : paged_base.entries ≠ [] := by simpa using hem
        have hbase : r.base = paged_base := by rw [← hr2]
        refine ⟨by rw [hbase]; exact hne, by rw [← hr2], by rw [hbase]; exact hvalid, ?_⟩
        rw [hbase]
        intro hno
        by_cases hval : sc.base.paging_is_valid = true
        · unfold InventoryUI.prepare_paging at hb
          rw [if_pos hval] at hb
          have e := Option.some.inj hb
          rw [← e] at hno hne ⊢
          rcases hinv hval hno with h | h
          · exact absurd h hne
          · exact h
        · have hp := prepare_paging_returns X P sc.base paged_base hsort hv
            (by simpa using hval) hepp hsize fuel hb
          have hf := reflow_filter sc.base.entries_per_page _ 0 none
            (sorted_items X P hsort hv sc.base.entries)
          rw [← hp.1] at hf
          have h0 : paged_base.entries.filter inventory_entry.is_item = [] := by
            rw [List.filter_eq_nil_iff]
            intro e he
            rw [hno e he]; simp
          rw [h0] at hf
          have := hp.1
          rw [← hf] at this
          simp only [reflow] at this
          exact absurd this hne

/-- C19: after `selection_column::prepare_paging` the entry list of the
selection column is not empty, and if it holds no item row it is exactly one
category header row for the fixed pseudo-category `selected_cat`; the call
returns for every fuel of at least three times the number of rows plus one
when paging is valid or the page size is at least two.  For a column whose
paging is already valid the rows are those of before the call, for which the
property is assumed. -/
theorem selection_prepare_paging_never_empty (X : externals) (P : inventory_selector_preset)
    (sc : selection_column) (hsort : std_sort_contract X.std_sort)
    (hv : sort_compare_valid P) (hepp : 1 ≤ sc.base.entries_per_page)
    (hsize : sc.base.entries.length < 2 ^ 61)
    (hinv : sc.base.paging_is_valid = true →
      (∀ e ∈ sc.base.entries, e.is_item = false) →
      sc.base.entries = [] ∨ sc.base.entries = [category_entry (some sc.selected_cat)]) :
    ((sc.base.paging_is_valid = true ∨ 2 ≤ sc.base.entries_per_page) →
      ∃ r, ∀ fuel, 3 * sc.base.entries.length + 1 ≤ fuel →
        selection_column.prepare_paging X P fuel sc = some r) ∧
    ∀ fuel r, selection_column.prepare_paging X P fuel sc = some r →
      r.base.entries ≠ [] ∧ r.selected_cat = sc.selected_cat ∧
      r.base.paging_is_valid = true ∧
      ((∀ e ∈ r.base.entries, e.is_item = false) →
        r.base.entries = [category_entry (some sc.selected_cat)]) :=
  selection_prepare_paging_rows X P sc hsort hv hepp hsize hinv

/-- Witness for C19: the sample selection column without rows is paginated
into the lone header of its pseudo-category. -/
theorem selection_prepare_paging_never_empty_witness :
    std_sort_contract plain_externals.std_sort ∧ sort_compare_valid default_preset ∧
    1 ≤ sample_selection_empty.base.entries_per_page ∧
    sample_selection_empty.base.entries.length < 2 ^ 61 ∧
    sample_selection_empty.base.paging_is_valid = false ∧
    (selection_column.prepare_paging plain_externals default_preset 1
      sample_selection_empty).map (fun r => r.base.entries)
      = some [category_entry (some sample_selected_cat)] ∧
    ((sample_selection_empty.base.paging_is_valid = true ∨
        2 ≤ sample_selection_empty.base.entries_per_page) →
      ∃ r, ∀ fuel, 3 * sample_selection_empty.base.entries.length + 1 ≤ fuel →
        selection_column.prepare_paging plain_externals default_preset fuel
          sample_selection_empty = some r) ∧
    ∀ fuel r, selection_column.prepare_paging plain_externals default_preset fuel
        sample_selection_empty = some r →
      r.base.entries ≠ [] ∧ r.selected_cat = sample_selection_empty.selected_cat ∧
      r.base.paging_is_valid = true ∧
      ((∀ e ∈ r.base.entries, e.is_item = false) →
        r.base.entries = [category_entry (some sample_selection_empty.selected_cat)]) :=
  ⟨insertion_sort_contract, default_preset_valid, by decide, by decide, by decide, by decide,
    selection_prepare_paging_never_empty plain_externals default_preset sample_selection_empty
      insertion_sort_contract default_preset_valid (by decide) (by decide)
      (fun h => absurd h (by decide))⟩

/-! ## The selection column: `on_change` -/

theorem equals_self (a : inventory_entry) : a.equals a = true := by
  simp [inventory_entry.equals]

theorem equals_is_item (y my : inventory_entry) (hmy : my.is_item = true)
    (h : y.equals my = true) : y.is_item = true := by
  simp only [inventory_entry.equals, Bool.and_eq_true, decide_eq_true_eq] at h
  unfold inventory_entry.is_item at hmy ⊢
  rw [h.2]; exact hmy

theorem select_entries (fuel : Nat) (c r : inventory_column) (i : Nat) (dir : scroll_direction)
    (h : select fuel c i dir = some r) : r.entries = c.entries := by
  unfold select at h
  split at h
  · simp only at h
    split at h
    · cases hn : next_selectable_index fuel c.entries i dir with
      | none => rw [hn] at h; simp at h
      | some k => rw [hn] at h; simp at h; rw [← h]
    · simp at h; rw [← h]
  · rw [← Option.some.inj h]

theorem filter_append_nil (p : inventory_entry → Bool) (a b : List inventory_entry)
    (h : (a ++ b).filter p = []) : a.filter p = [] ∧ b.filter p = [] := by
  rw [List.filter_append] at h
  exact List.append_eq_nil.mp h

theorem filter_none (p : inventory_entry → Bool) (l : List inventory_entry)
    (h : ∀ y ∈ l, p y = false) : l.filter p = [] := by
  rw [List.filter_eq_nil_iff]
  intro y hy
  rw [h y hy]; simp

/-- When at most one row satisfies `p` and the row `x` after `pre` does, no
other row does. -/
theorem filter_unique (p : inventory_entry → Bool) (pre post : List inventory_entry)
    (x : inventory_entry) (hx : p x = true)
    (hone : ((pre ++ x :: post).filter p).length ≤ 1) :
    pre.filter p = [] ∧ post.filter p = [] := by
  rw [List.filter_append, List.filter_cons, if_pos hx] at hone
  simp only [List.length_append, List.length_cons] at hone
  constructor
  · exact List.length_eq_zero.mp (by omega)
  · exact List.length_eq_zero.mp (by omega)

theorem set_split (pre post : List inventory_entry) (x y : inventory_entry) :
    (pre ++ x :: post).set pre.length y = pre ++ y :: post := by
  induction pre with
  | nil => rfl
  | cons a rest ih => simp [List.set, ih]

theorem entry_at_split (pre post : List inventory_entry) (x : inventory_entry) :
    entry_at (pre ++ x :: post) pre.length = x := by
  induction pre with
  | nil => rfl
  | cons a rest ih => simpa [entry_at] using ih

/-- The rows after the first part of `on_change`: when at most one row equals
the mirrored entry beforehand, exactly one row with the new chosen count does
afterwards if the count is not zero, none if it is zero, and the other rows are
as before. -/
theorem mirror_rows (X : externals) (P : inventory_selector_preset) (sc : selection_column)
    (my : inventory_entry)
    (hone : (sc.base.entries.filter (fun y => y.equals my)).length ≤ 1) :
    (my.chosen_count ≠ 0 →
      ∃ x, (selection_column.mirror X P sc my).entries.filter (fun y => y.equals my) = [x] ∧
        x.chosen_count = my.chosen_count) ∧
    (my.chosen_count = 0 →
      (selection_column.mirror X P sc my).entries.filter (fun y => y.equals my) = []) ∧
    (selection_column.mirror X P sc my).entries.filter (fun y => !y.equals my)
      = sc.base.entries.filter (fun y => !y.equals my) ∧
    (selection_column.mirror X P sc my).entries_per_page = sc.base.entries_per_page ∧
    (selection_column.mirror X P sc my).entries.length ≤ sc.base.entries.length + 1 := by
  rcases findIdx_split (fun y => y.equals my) sc.base.entries with
    ⟨habs, hidx⟩ | ⟨pre, x, post, hsplit, hx, hpre, hidx⟩
  · -- no row equals the mirrored entry
    have hnone : sc.base.entries.filter (fun y => y.equals my) = [] := filter_none _ _ habs
    by_cases hc : my.chosen_count = 0
    · have hm : selection_column.mirror X P sc my = sc.base := by
        unfold selection_column.mirror
        simp only
        rw [if_neg (by simp [hc])]
        exact remove_entry_absent sc.base my habs
      rw [hm]
      exact ⟨fun h => absurd hc h, fun _ => hnone, rfl, rfl, by omega⟩
    · have hm : selection_column.mirror X P sc my = add_entry X P sc.base my := by
        unfold selection_column.mirror
        simp only
        rw [if_pos hc, hidx, if_neg (by omega)]
      obtain ⟨h1, _, _⟩ := add_entry_new X P sc.base my habs
      have hsplit := List.take_append_drop (add_entry_index sc.base.entries my) sc.base.entries
      have hn2 := hnone
      rw [← hsplit] at hn2
      obtain ⟨ht, hd⟩ := filter_append_nil _ _ _ hn2
      rw [hm, h1]
      refine ⟨fun _ => ⟨my, ?_, rfl⟩, fun h => absurd h hc, ?_, ?_, ?_⟩
      · simp only [insert_at, List.filter_append, List.filter_cons, equals_self, if_true]
        rw [ht, hd]; rfl
      · simp only [insert_at, List.filter_append, List.filter_cons, equals_self,
          Bool.not_true, Bool.false_eq_true, if_false]
        rw [← List.filter_append, hsplit]
      · unfold add_entry
        rw [if_neg (by rw [any_equals_false _ _ habs]; simp)]
        simp only
        exact (expand_to_fit_frame X P _ my).2.2.2.2.2.2.2
      · simp only [insert_at, List.length_append, List.length_cons, List.length_take,
          List.length_drop]
        omega
  · -- the row `x` after `pre` equals the mirrored entry
    have hx2 : x.equals my = true := hx
    have hone2 := hone
    rw [hsplit] at hone2
    obtain ⟨hfpre, hfpost⟩ := filter_unique (fun y => y.equals my) pre post x hx hone2
    by_cases hc : my.chosen_count = 0
    · have hm : selection_column.mirror X P sc my = remove_entry sc.base my := by
        unfold selection_column.mirror
        simp only
        rw [if_neg (by simp [hc])]
      obtain ⟨pre2, x2, post2, hs2, hx3, _, hrem⟩ :=
        remove_entry_present sc.base my ⟨x, by rw [hsplit]; simp, hx2⟩
      have hone3 := hone
      rw [hs2] at hone3
      obtain ⟨hfpre2, hfpost2⟩ := filter_unique (fun y => y.equals my) pre2 post2 x2 hx3 hone3
      rw [hm, hrem]
      refine ⟨fun h => absurd hc h, fun _ => ?_, ?_, rfl, ?_⟩
      · simp only [List.filter_append]
        rw [hfpre2, hfpost2]; rfl
      · simp only
        rw [hs2]
        simp only [List.filter_append, List.filter_cons, hx3, Bool.not_true,
          Bool.false_eq_true, if_false]
      · simp only
        rw [hs2]
        simp only [List.length_append, List.length_cons]
        omega
    · have hi : pre.length < sc.base.entries.length := by
        rw [hsplit]; simp
      have hm : (selection_column.mirror X P sc my).entries
            = pre ++ { x with chosen_count := my.chosen_count } :: post ∧
          (selection_column.mirror X P sc my).entries_per_page
            = sc.base.entries_per_page := by
        unfold selection_column.mirror
        simp only
        rw [if_pos hc, hidx, if_pos hi]
        refine ⟨?_, (expand_to_fit_frame X P _ my).2.2.2.2.2.2.2⟩
        rw [expand_to_fit_entries]
        simp only
        rw [hsplit, set_split, entry_at_split]
      rw [hm.1, hm.2]
      have hx4 : ({ x with chosen_count := my.chosen_count } : inventory_entry).equals my
          = true := hx2
      refine ⟨fun _ => ⟨{ x with chosen_count := my.chosen_count }, ?_, rfl⟩,
        fun h => absurd h hc, ?_, rfl, ?_⟩
      · simp only [List.filter_append, List.filter_cons, hx4, if_true]
        rw [hfpre, hfpost]; rfl
      · rw [hsplit]
        simp only [List.filter_append, List.filter_cons, hx4, hx2, Bool.not_true,
          Bool.false_eq_true, if_false]
      · rw [hsplit]
        simp only [List.length_append, List.length_cons]
        omega

theorem selection_prepare_paging_mono (X : externals) (P : inventory_selector_preset)
    (fuel extra : Nat) (sc r : selection_column)
    (h : selection_column.prepare_paging X P fuel sc = some r) :
    selection_column.prepare_paging X P (fuel + extra) sc = some r := by
  unfold selection_column.prepare_paging at h ⊢
  cases hb : InventoryUI.prepare_paging X P fuel sc.base with
  | none => rw [hb] at h; simp at h
  | some paged_base =>
    rw [hb] at h
    rw [prepare_paging_mono X P fuel extra sc.base paged_base hb]
    exact h

/-- The item rows after `selection_column::prepare_paging` are the item rows of
before, in some order; the pseudo-category and the page size are kept. -/
theorem selection_prepare_paging_items (X : externals) (P : inventory_selector_preset)
    (sc r : selection_column) (hsort : std_sort_contract X.std_sort)
    (hv : sort_compare_valid P) (hepp : 1 ≤ sc.base.entries_per_page)
    (hsize : sc.base.entries.length < 2 ^ 61) (fuel : Nat)
    (h : selection_column.prepare_paging X P fuel sc = some r) :
    (r.base.entries.filter inventory_entry.is_item).Perm
      (sc.base.entries.filter inventory_entry.is_item) ∧
    r.selected_cat = sc.selected_cat ∧
    r.base.entries.length ≤ 3 * sc.base.entries.length + 1 := by
  unfold selection_column.prepare_paging at h
  cases hb : InventoryUI.prepare_paging X P fuel sc.base with
  | none => rw [hb] at h; simp at h
  | some paged_base =>
    rw [hb] at h
    simp only at h
    have hbase : (paged_base.entries.filter inventory_entry.is_item).Perm
          (sc.base.entries.filter inventory_entry.is_item) ∧
        paged_base.entries.length ≤ 3 * sc.base.entries.length := by
      by_cases hval : sc.base.paging_is_valid = true
      · unfold InventoryUI.prepare_paging at hb
        rw [if_pos hval] at hb
        rw [← Option.some.inj hb]
        exact ⟨List.Perm.refl _, by omega⟩
      · have hp := prepare_paging_returns X P sc.base paged_base hsort hv
          (by simpa using hval) hepp hsize fuel hb
        have hf := reflow_filter sc.base.entries_per_page _ 0 none
          (sorted_items X P hsort hv sc.base.entries)
        rw [← hp.1] at hf
        have hperm := sort_categories_perm X P hsort hv _ (filter_items sc.base.entries)
        have hlen := reflow_length sc.base.entries_per_page
          (sort_categories X P (sc.base.entries.filter inventory_entry.is_item)) 0 none
        rw [← hp.1, hperm.length_eq] at hlen
        have := List.length_filter_le inventory_entry.is_item sc.base.entries
        rw [hf]
        exact ⟨hperm, by omega⟩
    by_cases hem : paged_base.entries.isEmpty = true
    · rw [if_pos hem] at h
      have hnil : paged_base.entries = [] := by simpa using hem
      have hr2 := Option.some.inj h
      have hent : r.base.entries = [category_entry (some sc.selected_cat)] := by
        rw [← hr2]
        simp only
        rw [expand_to_fit_entries, hnil]
        rfl
      refine ⟨?_, by rw [← hr2], by rw [hent]; simp⟩
      have h0 := hbase.1
      rw [hnil] at h0
      rw [hent]
      simpa [category_entry_is_item] using h0
    · rw [if_neg hem] at h
      have hr2 := Option.some.inj h
      have hb2 : r.base = paged_base := by rw [← hr2]
      rw [hb2]
      exact ⟨hbase.1, by rw [← hr2], by omega⟩

theorem filter_of_items (q : inventory_entry → Bool) (l : List inventory_entry)
    (hq : ∀ y, q y = true → y.is_item = true) :
    l.filter q = (l.filter inventory_entry.is_item).filter q := by
  rw [List.filter_filter]
  apply List.filter_congr
  intro y _
  by_cases h : q y = true
  · rw [h, hq y h]; rfl
  · have : q y = false := by simpa using h
    rw [this]; rfl

theorem on_change_mono (X : externals) (P : inventory_selector_preset) (fuel extra : Nat)
    (sc r : selection_column) (entry : inventory_entry)
    (h : selection_column.on_change X P fuel sc entry = some r) :
    selection_column.on_change X P (fuel + extra) sc entry = some r := by
  unfold selection_column.on_change at h ⊢
  simp only at h ⊢
  cases hp : selection_column.prepare_paging X P fuel
      (selection_column.mk (selection_column.mirror X P sc (mirror_entry sc entry)) sc.selected_cat) with
  | none => rw [hp] at h; simp at h
  | some repaged =>
    rw [hp] at h
    rw [selection_prepare_paging_mono X P fuel extra _ repaged hp]
    simp only at h ⊢
    split at h
    · rename_i hi
      rw [if_pos hi]
      cases hs : select fuel repaged.base
          (repaged.base.entries.findIdx (fun e =>
            e.equals (mirror_entry sc entry)))
          scroll_direction.FORWARD with
      | none => rw [hs] at h; simp at h
      | some b =>
        rw [hs] at h
        rw [select_mono fuel extra _ _ _ _ hs]
        exact h
    · rename_i hi
      rw [if_neg hi]
      cases hs : select fuel repaged.base
          (if repaged.base.entries.isEmpty then 0 else repaged.base.entries.length - 1)
          scroll_direction.BACKWARD with
      | none => rw [hs] at h; simp at h
      | some b =>
        rw [hs] at h
        rw [select_mono fuel extra _ _ _ _ hs]
        exact h

theorem select_returns (c : inventory_column) (i : Nat) (dir : scroll_direction)
    (hn : c.entries.length < 2 ^ 63) (fuel : Nat) (hf : c.entries.length ≤ fuel) :
    ∃ b, select fuel c i dir = some b := by
  by_cases hi : i < c.entries.length
  · obtain ⟨k, _, hk, _⟩ := select_inside c i dir hn hi
    exact ⟨_, hk fuel hf⟩
  · exact ⟨c, select_outside fuel c i dir (by omega)⟩

/-- The call `on_change( entry )` returns one column for every fuel of at least
three times the number of rows plus four, when the page size is at least two. -/
theorem on_change_total (X : externals) (P : inventory_selector_preset)
    (sc : selection_column) (entry : inventory_entry)
    (hsort : std_sort_contract X.std_sort) (hv : sort_compare_valid P)
    (hepp : 2 ≤ sc.base.entries_per_page) (hsize : sc.base.entries.length + 1 < 2 ^ 61)
    (hone : (sc.base.entries.filter (fun y =>
      y.equals (mirror_entry sc entry))).length ≤ 1) :
    ∃ r, ∀ fuel, 3 * sc.base.entries.length + 4 ≤ fuel →
      selection_column.on_change X P fuel sc entry = some r := by
  obtain ⟨_, _, _, hme, hml⟩ := mirror_rows X P sc
    (mirror_entry sc entry) hone
  obtain ⟨repaged, hrep⟩ := selection_prepare_paging_total X P
    (selection_column.mk (selection_column.mirror X P sc (mirror_entry sc entry)) sc.selected_cat)
    hsort hv (by simp only; omega) (Or.inr (by simp only; omega))
  simp only at hrep
  have hrep0 := hrep (3 * sc.base.entries.length + 4) (by omega)
  obtain ⟨_, _, hlen⟩ := selection_prepare_paging_items X P _ repaged hsort hv
    (by simp only; omega) (by simp only; omega) _ hrep0
  simp only at hlen
  have hex : ∃ r, selection_column.on_change X P (3 * sc.base.entries.length + 4) sc entry
      = some r := by
    unfold selection_column.on_change
    simp only
    rw [hrep0]
    simp only
    split
    · obtain ⟨b, hb⟩ := select_returns repaged.base
        (repaged.base.entries.findIdx (fun e =>
          e.equals (mirror_entry sc entry)))
        scroll_direction.FORWARD (by omega) (3 * sc.base.entries.length + 4) (by omega)
      rw [hb]
      exact ⟨_, rfl⟩
    · obtain ⟨b, hb⟩ := select_returns repaged.base
        (if repaged.base.entries.isEmpty then 0 else repaged.base.entries.length - 1)
        scroll_direction.BACKWARD (by omega) (3 * sc.base.entries.length + 4) (by omega)
      rw [hb]
      exact ⟨_, rfl⟩
  obtain ⟨r, hr⟩ := hex
  refine ⟨r, fun fuel hf => ?_⟩
  have e : fuel = (3 * sc.base.entries.length + 4) + (fuel - (3 * sc.base.entries.length + 4)) := by
    omega
  rw [e]
  exact on_change_mono X P _ _ sc r entry hr

/-- The rows after `on_change( entry )`, whenever it returns. -/
theorem on_change_rows (X : externals) (P : inventory_selector_preset)
    (sc : selection_column) (entry : inventory_entry)
    (hsort : std_sort_contract X.std_sort) (hv : sort_compare_valid P)
    (hitem : entry.is_item = true)
    (hepp : 1 ≤ sc.base.entries_per_page) (hsize : sc.base.entries.length + 1 < 2 ^ 61)
    (hone : (sc.base.entries.filter (fun y =>
      y.equals (mirror_entry sc entry))).length ≤ 1)
    (fuel : Nat) (r : selection_column)
    (h : selection_column.on_change X P fuel sc entry = some r) :
    r.selected_cat = sc.selected_cat ∧
    (entry.chosen_count ≠ 0 →
      ∃ x, r.base.entries.filter (fun y =>
          y.equals (mirror_entry sc entry)) = [x] ∧
        x.location = entry.location ∧ x.get_category_ptr = some sc.selected_cat ∧
        x.chosen_count = entry.chosen_count) ∧
    (entry.chosen_count = 0 →
      r.base.entries.filter (fun y =>
        y.equals (mirror_entry sc entry)) = []) ∧
    (r.base.entries.filter (fun y => y.is_item &&
        !y.equals (mirror_entry sc entry))).Perm
      (sc.base.entries.filter (fun y => y.is_item &&
        !y.equals (mirror_entry sc entry))) := by
  obtain ⟨m1, m2, m3, hme, hml⟩ := mirror_rows X P sc
    (mirror_entry sc entry) hone
  have hmy : (mirror_entry sc entry).is_item = true := hitem
  unfold selection_column.on_change at h
  simp only at h
  cases hp : selection_column.prepare_paging X P fuel
      (selection_column.mk (selection_column.mirror X P sc (mirror_entry sc entry)) sc.selected_cat) with
  | none => rw [hp] at h; simp at h
  | some repaged =>
    rw [hp] at h
    simp only at h
    obtain ⟨hperm, hcat, _⟩ := selection_prepare_paging_items X P _ repaged hsort hv
      (by simp only; omega) (by simp only; omega) fuel hp
    simp only at hperm hcat
    have hent : r.base.entries = repaged.base.entries ∧ r.selected_cat = repaged.selected_cat := by
      split at h
      · cases hs : select fuel repaged.base
            (repaged.base.entries.findIdx (fun e =>
              e.equals (mirror_entry sc entry)))
            scroll_direction.FORWARD with
        | none => rw [hs] at h; simp at h
        | some b =>
          rw [hs] at h
          simp only [Option.map_some', Option.some.injEq] at h
          rw [← h]
          exact ⟨select_entries _ _ _ _ _ hs, rfl⟩
      · cases hs : select fuel repaged.base
            (if repaged.base.entries.isEmpty then 0 else repaged.base.entries.length - 1)
            scroll_direction.BACKWARD with
        | none => rw [hs] at h; simp at h
        | some b =>
          rw [hs] at h
          simp only [Option.map_some', Option.some.injEq] at h
          rw [← h]
          exact ⟨select_entries _ _ _ _ _ hs, rfl⟩
    rw [hent.1, hent.2, hcat]
    have hq1 : ∀ y : inventory_entry,
        y.equals (mirror_entry sc entry) = true →
        y.is_item = true := fun y hy => equals_is_item y _ hmy hy
    have hq2 : ∀ y : inventory_entry,
        (y.is_item && !y.equals (mirror_entry sc entry)) = true →
        y.is_item = true := by
      intro y hy
      simp only [Bool.and_eq_true] at hy
      exact hy.1
    have hp1 : (repaged.base.entries.filter (fun y =>
          y.equals (mirror_entry sc entry))).Perm
        ((selection_column.mirror X P sc
          (mirror_entry sc entry)).entries.filter (fun y =>
          y.equals (mirror_entry sc entry))) := by
      rw [filter_of_items _ repaged.base.entries hq1, filter_of_items _
        (selection_column.mirror X P sc _).entries hq1]
      exact hperm.filter _
    have hp2 : (repaged.base.entries.filter (fun y => y.is_item &&
          !y.equals (mirror_entry sc entry))).Perm
        ((selection_column.mirror X P sc
          (mirror_entry sc entry)).entries.filter (fun y =>
          y.is_item && !y.equals (mirror_entry sc entry))) := by
      rw [filter_of_items _ repaged.base.entries hq2, filter_of_items _
        (selection_column.mirror X P sc _).entries hq2]
      exact hperm.filter _
    refine ⟨rfl, ?_, ?_, ?_⟩
    · intro hc
      obtain ⟨x, hx1, hx2⟩ := m1 hc
      rw [hx1] at hp1
      have hx3 := List.perm_singleton.mp hp1
      refine ⟨x, hx3, ?_, ?_, hx2⟩
      · have hmem : x ∈ repaged.base.entries.filter (fun y =>
            y.equals (mirror_entry sc entry)) := by
          rw [hx3]; simp
        have := (List.mem_filter.mp hmem).2
        simp only [inventory_entry.equals, Bool.and_eq_true, decide_eq_true_eq] at this
        exact this.2
      · have hmem : x ∈ repaged.base.entries.filter (fun y =>
            y.equals (mirror_entry sc entry)) := by
          rw [hx3]; simp
        have := (List.mem_filter.mp hmem).2
        simp only [inventory_entry.equals, Bool.and_eq_true, decide_eq_true_eq] at this
        rw [this.1]
        rfl
    · intro hc
      have := m2 hc
      rw [this] at hp1
      exact List.perm_nil.mp hp1
    · refine hp2.trans ?_
      have e1 : ∀ l : List inventory_entry,
          l.filter (fun y => y.is_item &&
            !y.equals (mirror_entry sc entry))
          = (l.filter (fun y =>
              !y.equals (mirror_entry sc entry))).filter
              inventory_entry.is_item := by
        intro l
        rw [List.filter_filter]
      rw [e1, e1, m3]

/-- C20: for every selection column in which at most one row mirrors the item
entry `e` (equals the copy of `e` tagged with the pseudo-category), whenever
`on_change( e )` returns: with `e.chosen_count > 0` exactly one row mirrors `e`
(same backing reference, pseudo-category as category) and its `chosen_count` is
that of `e`; with `e.chosen_count == 0` no row mirrors `e`; and the item rows
that do not mirror `e` are those of before the call, in some order.  The call
returns for every fuel of at least three times the number of rows plus four
when the page size is at least two. -/
theorem on_change_spec (X : externals) (P : inventory_selector_preset)
    (sc : selection_column) (entry : inventory_entry)
    (hsort : std_sort_contract X.std_sort) (hv : sort_compare_valid P)
    (hitem : entry.is_item = true)
    (hepp : 1 ≤ sc.base.entries_per_page) (hsize : sc.base.entries.length + 1 < 2 ^ 61)
    (hone : (sc.base.entries.filter (fun y => y.equals (mirror_entry sc entry))).length ≤ 1) :
    (2 ≤ sc.base.entries_per_page →
      ∃ r, ∀ fuel, 3 * sc.base.entries.length + 4 ≤ fuel →
        selection_column.on_change X P fuel sc entry = some r) ∧
    ∀ fuel r, selection_column.on_change X P fuel sc entry = some r →
      r.selected_cat = sc.selected_cat ∧
      (entry.chosen_count ≠ 0 →
        ∃ x, r.base.entries.filter (fun y => y.equals (mirror_entry sc entry)) = [x] ∧
          x.location = entry.location ∧ x.get_category_ptr = some sc.selected_cat ∧
          x.chosen_count = entry.chosen_count) ∧
      (entry.chosen_count = 0 →
        r.base.entries.filter (fun y => y.equals (mirror_entry sc entry)) = []) ∧
      (r.base.entries.filter (fun y => y.is_item && !y.equals (mirror_entry sc entry))).Perm
        (sc.base.entries.filter (fun y => y.is_item && !y.equals (mirror_entry sc entry))) :=
  ⟨fun h2 => on_change_total X P sc entry hsort hv h2 hsize hone,
    fun fuel r h => on_change_rows X P sc entry hsort hv hitem hepp hsize hone fuel r h⟩

/-- Witness for C20 on the sample selection column, which mirrors item 1 with
count 2: a change of item 2 to count 3 adds its row, a change of item 1 to
count 5 updates the row, and a change of item 1 to count 0 removes it. -/
theorem on_change_spec_witness :
    (selection_column.on_change plain_externals default_preset 10 sample_selection
        { sample_item 2 "B" sample_cat1 with chosen_count := 3 }).map (fun r => r.base.entries)
      = some [category_entry (some sample_selected_cat), sample_mirror 1 "A" 2,
          sample_mirror 2 "B" 3] ∧
    (selection_column.on_change plain_externals default_preset 10 sample_selection
        { sample_item 1 "A" sample_cat1 with chosen_count := 5 }).map (fun r => r.base.entries)
      = some [category_entry (some sample_selected_cat), sample_mirror 1 "A" 5] ∧
    (selection_column.on_change plain_externals default_preset 10 sample_selection
        (sample_item 1 "A" sample_cat1)).map (fun r => r.base.entries)
      = some [category_entry (some sample_selected_cat)] ∧
    ((2 ≤ sample_selection.base.entries_per_page →
      ∃ r, ∀ fuel, 3 * sample_selection.base.entries.length + 4 ≤ fuel →
        selection_column.on_change plain_externals default_preset fuel sample_selection
          { sample_item 2 "B" sample_cat1 with chosen_count := 3 } = some r) ∧
    ∀ fuel r, selection_column.on_change plain_externals default_preset fuel sample_selection
        { sample_item 2 "B" sample_cat1 with chosen_count := 3 } = some r →
      r.selected_cat = sample_selection.selected_cat ∧
      (({ sample_item 2 "B" sample_cat1 with chosen_count := 3 } : inventory_entry).chosen_count
          ≠ 0 →
        ∃ x, r.base.entries.filter (fun y => y.equals (mirror_entry sample_selection
            { sample_item 2 "B" sample_cat1 with chosen_count := 3 })) = [x] ∧
          x.location
            = ({ sample_item 2 "B" sample_cat1 with chosen_count := 3 } : inventory_entry).location ∧
          x.get_category_ptr = some sample_selection.selected_cat ∧
          x.chosen_count
            = ({ sample_item 2 "B" sample_cat1 with chosen_count := 3 } :
                inventory_entry).chosen_count) ∧
      (({ sample_item 2 "B" sample_cat1 with chosen_count := 3 } : inventory_entry).chosen_count
          = 0 →
        r.base.entries.filter (fun y => y.equals (mirror_entry sample_selection
          { sample_item 2 "B" sample_cat1 with chosen_count := 3 })) = []) ∧
      (r.base.entries.filter (fun y => y.is_item && !y.equals (mirror_entry sample_selection
          { sample_item 2 "B" sample_cat1 with chosen_count := 3 }))).Perm
        (sample_selection.base.entries.filter (fun y => y.is_item &&
          !y.equals (mirror_entry sample_selection
            { sample_item 2 "B" sample_cat1 with chosen_count := 3 })))) :=
  ⟨by decide, by decide, by decide,
    on_change_spec plain_externals default_preset sample_selection
      { sample_item 2 "B" sample_cat1 with chosen_count := 3 }
      insertion_sort_contract default_preset_valid (by decide) (by decide) (by decide)
      (by decide)⟩

/-! ## Page-wise navigation: `move_selection_page` -/

theorem flipped_forward (c : inventory_column) (x : Nat) :
    flipped c scroll_direction.FORWARD x = decide (x ≤ c.selected_index) := by
  unfold flipped scroll_direction.toInt
  by_cases h1 : x = c.selected_index <;> by_cases h2 : c.selected_index < x <;>
    first
    | (simp [h1, h2]; done)
    | (simp [h1, h2]; omega)

theorem flipped_backward (c : inventory_column) (x : Nat) :
    flipped c scroll_direction.BACKWARD x = decide (c.selected_index ≤ x) := by
  unfold flipped scroll_direction.toInt
  by_cases h1 : x = c.selected_index <;> by_cases h2 : c.selected_index < x <;>
    first
    | (simp [h1, h2]; done)
    | (simp [h1, h2]; omega)

theorem cursor_step_forward (c : inventory_column) (k : Nat)
    (hs : c.selected_index < c.entries.length) (hk : k ≤ c.entries.length) :
    cursor_step c scroll_direction.FORWARD k
      = if c.selected_index + k < c.entries.length then c.selected_index + k
        else c.selected_index + k - c.entries.length :=
  cyclic_pos_forward _ _ _ hs hk

theorem cursor_step_backward (c : inventory_column) (k : Nat)
    (hs : c.selected_index < c.entries.length) (hk : k ≤ c.entries.length) :
    cursor_step c scroll_direction.BACKWARD k
      = if k ≤ c.selected_index then c.selected_index - k
        else c.selected_index + c.entries.length - k :=
  cyclic_pos_backward _ _ _ hs hk

/-- After between one and `size` steps the candidate is flipped exactly when the
steps passed the end of the list. -/
theorem flipped_cursor_step (c : inventory_column) (dir : scroll_direction) (k : Nat)
    (hs : c.selected_index < c.entries.length) (hk1 : 1 ≤ k) (hk : k ≤ c.entries.length) :
    flipped c dir (cursor_step c dir k) = wrapped c dir k := by
  cases dir
  · rw [flipped_forward, cursor_step_forward c k hs hk]
    unfold wrapped
    simp only
    split <;> (apply decide_eq_decide.mpr; constructor <;> intro <;> omega)
  · rw [flipped_backward, cursor_step_backward c k hs hk]
    unfold wrapped
    simp only
    split <;> (apply decide_eq_decide.mpr; constructor <;> intro <;> omega)

theorem wrapped_full (c : inventory_column) (dir : scroll_direction)
    (hs : c.selected_index < c.entries.length) : wrapped c dir c.entries.length = true := by
  cases dir
  · simp [wrapped]
  · simp [wrapped]; omega

theorem wrapped_zero (c : inventory_column) (dir : scroll_direction)
    (hs : c.selected_index < c.entries.length) : wrapped c dir 0 = false := by
  cases dir
  · simp [wrapped]; omega
  · simp [wrapped]

theorem wrapped_mono (c : inventory_column) (dir : scroll_direction) (i j : Nat) (hij : i ≤ j)
    (h : wrapped c dir j = false) : wrapped c dir i = false := by
  cases dir <;> simp [wrapped] at h ⊢ <;> omega

theorem cursor_step_zero (c : inventory_column) (dir : scroll_direction)
    (hs : c.selected_index < c.entries.length) : cursor_step c dir 0 = c.selected_index :=
  cyclic_pos_zero _ _ _ hs

theorem cursor_step_full (c : inventory_column) (dir : scroll_direction)
    (hs : c.selected_index < c.entries.length) :
    cursor_step c dir c.entries.length = c.selected_index :=
  cyclic_pos_full _ _ _ hs

theorem cursor_step_lt (c : inventory_column) (dir : scroll_direction) (k : Nat)
    (hs : c.selected_index < c.entries.length) : cursor_step c dir k < c.entries.length :=
  cyclic_pos_lt _ _ _ _ (by omega)

/-- A division sandwich: a row between two rows of one page is on that page. -/
theorem page_between (e a b x : Nat) (hab : a / e = b / e) (h1 : a ≤ x) (h2 : x ≤ b) :
    x / e = a / e := by
  have h3 : a / e ≤ x / e := Nat.div_le_div_right h1
  have h4 : x / e ≤ b / e := Nat.div_le_div_right h2
  omega

/-- The good steps are closed downwards. -/
theorem good_step_mono (c : inventory_column) (dir : scroll_direction) (i j : Nat)
    (hs : c.selected_index < c.entries.length)
    (hpage : page_index c = page_of c c.selected_index) (hij : i ≤ j)
    (h : good_step c dir j) : good_step c dir i := by
  obtain ⟨hw, hp⟩ := h
  refine ⟨wrapped_mono c dir i j hij hw, ?_⟩
  rw [hpage] at hp ⊢
  unfold page_of at hp ⊢
  cases dir
  · have hj : c.selected_index + j < c.entries.length := by
      simp [wrapped] at hw; omega
    rw [cursor_step_forward c j hs (by omega), if_pos hj] at hp
    rw [cursor_step_forward c i hs (by omega), if_pos (by omega)]
    exact page_between _ _ _ _ hp.symm (by omega) (by omega)
  · have hj : j ≤ c.selected_index := by
      simp [wrapped] at hw; omega
    rw [cursor_step_backward c j hs (by omega), if_pos hj] at hp
    rw [cursor_step_backward c i hs (by omega), if_pos (by omega)]
    have := page_between c.entries_per_page _ _ (c.selected_index - i) hp (by omega) (by omega)
    omega

/-- From the row `i` steps from the cursor, `next_selectable_index` returns the
row of the next selectable step, which exists up to step `size` because the
cursor is selectable. -/
theorem next_selectable_step (c : inventory_column) (dir : scroll_direction)
    (hn : c.entries.length < 2 ^ 63) (hs : c.selected_index < c.entries.length)
    (hsel : (entry_at c.entries c.selected_index).is_selectable = true)
    (i : Nat) (hi : i < c.entries.length) :
    ∃ i2, i < i2 ∧ i2 ≤ c.entries.length ∧
      (entry_at c.entries (cursor_step c dir i2)).is_selectable = true ∧
      (∀ j, i < j → j < i2 → (entry_at c.entries (cursor_step c dir j)).is_selectable = false) ∧
      ∀ fuel, c.entries.length ≤ fuel →
        next_selectable_index fuel c.entries (cursor_step c dir i) dir
          = some (cursor_step c dir i2) := by
  have hlt := cursor_step_lt c dir i hs
  obtain ⟨k, hk1, hk2, hk3, hk4, hk5⟩ := next_selectable_index_first c.entries
    (cursor_step c dir i) dir hn hlt ⟨_, entry_at_mem _ _ hs, hsel⟩
  have hki : i + k ≤ c.entries.length := by
    by_contra hc
    have h1 := hk4 (c.entries.length - i) (by omega) (by omega)
    unfold cursor_step at h1
    rw [cyclic_pos_add _ _ _ _ _ hs (by omega)] at h1
    have e : i + (c.entries.length - i) = c.entries.length := by omega
    rw [e, cyclic_pos_full _ _ _ hs, hsel] at h1
    exact absurd h1 (by simp)
  refine ⟨i + k, by omega, hki, ?_, ?_, ?_⟩
  · unfold cursor_step at hk3 ⊢
    rw [cyclic_pos_add _ _ _ _ _ hs hki] at hk3
    exact hk3
  · intro j hj1 hj2
    have h1 := hk4 (j - i) (by omega) (by omega)
    unfold cursor_step at h1 ⊢
    rw [cyclic_pos_add _ _ _ _ _ hs (by omega)] at h1
    have e : i + (j - i) = j := by omega
    rw [e] at h1
    exact h1
  · intro fuel hf
    rw [hk5 fuel hf]
    unfold cursor_step
    rw [cyclic_pos_add _ _ _ _ _ hs hki]

theorem move_selection_page_loop_break (inner fuel : Nat) (c : inventory_column)
    (dir : scroll_direction) (index nx : Nat)
    (h1 : next_selectable_index inner c.entries index dir = some nx)
    (h2 : flipped c dir nx = true) (h3 : page_of c nx = page_index c) :
    move_selection_page_loop inner c dir (fuel + 1) index = some index := by
  unfold flipped at h2
  simp [move_selection_page_loop, h1, h2, h3]

theorem move_selection_page_loop_continue (inner fuel : Nat) (c : inventory_column)
    (dir : scroll_direction) (index nx nx2 : Nat)
    (h1 : next_selectable_index inner c.entries index dir = some nx)
    (h2 : flipped c dir nx = false ∨ page_of c nx ≠ page_index c)
    (h3 : next_selectable_index inner c.entries nx dir = some nx2)
    (h4 : page_of c nx2 = page_index c) :
    move_selection_page_loop inner c dir (fuel + 1) index
      = move_selection_page_loop inner c dir fuel nx := by
  unfold flipped at h2
  have hcond : ((decide (nx = c.selected_index)
      || (decide (c.selected_index < nx) != decide (0 < dir.toInt)))
      && decide (page_of c nx = page_index c)) = false := by
    rcases h2 with h | h
    · rw [h]; rfl
    · simp [h]
  simp only [move_selection_page_loop, h1, hcond, h3, h4, if_true, Bool.false_eq_true,
    if_false]

theorem move_selection_page_loop_exit (inner fuel : Nat) (c : inventory_column)
    (dir : scroll_direction) (index nx nx2 : Nat)
    (h1 : next_selectable_index inner c.entries index dir = some nx)
    (h2 : flipped c dir nx = false ∨ page_of c nx ≠ page_index c)
    (h3 : next_selectable_index inner c.entries nx dir = some nx2)
    (h4 : page_of c nx2 ≠ page_index c) :
    move_selection_page_loop inner c dir (fuel + 1) index = some nx := by
  unfold flipped at h2
  have hcond : ((decide (nx = c.selected_index)
      || (decide (c.selected_index < nx) != decide (0 < dir.toInt)))
      && decide (page_of c nx = page_index c)) = false := by
    rcases h2 with h | h
    · rw [h]; rfl
    · simp [h]
  simp only [move_selection_page_loop, h1, hcond, h3, h4, if_false, Bool.false_eq_true]

/-- The loop of `move_selection_page`, entered at a selectable good step `i`
when a selectable good step lies further on or the next selectable row is on
the current page: it returns the row of the last selectable good step. -/
theorem move_selection_page_loop_good (c : inventory_column) (dir : scroll_direction)
    (hn : c.entries.length < 2 ^ 63) (hs : c.selected_index < c.entries.length)
    (hsel : (entry_at c.entries c.selected_index).is_selectable = true)
    (hpage : page_index c = page_of c c.selected_index) (m : Nat) :
    ∀ i, c.entries.length - i ≤ m → i < c.entries.length → good_step c dir i →
      ((∃ j, i < j ∧ good_step c dir j ∧
          (entry_at c.entries (cursor_step c dir j)).is_selectable = true) ∨
        (∀ i2, i < i2 → i2 ≤ c.entries.length →
          (entry_at c.entries (cursor_step c dir i2)).is_selectable = true →
          (∀ j, i < j → j < i2 →
            (entry_at c.entries (cursor_step c dir j)).is_selectable = false) →
          page_of c (cursor_step c dir i2) = page_index c)) →
      ∃ t, i ≤ t ∧ t < c.entries.length ∧ good_step c dir t ∧
        (t = i ∨ (entry_at c.entries (cursor_step c dir t)).is_selectable = true) ∧
        (∀ j, t < j → j ≤ c.entries.length →
          (entry_at c.entries (cursor_step c dir j)).is_selectable = true →
          ¬ good_step c dir j) ∧
        ∀ fuel inner, m ≤ fuel → c.entries.length ≤ inner →
          move_selection_page_loop inner c dir fuel (cursor_step c dir i)
            = some (cursor_step c dir t) := by
  induction m with
  | zero => intro i h1 h2; omega
  | succ m ih =>
    intro i hm hi hgood hnext
    obtain ⟨i2, h21, h22, h23, h24, h25⟩ := next_selectable_step c dir hn hs hsel i hi
    have hlater : ∀ j, i < j → j ≤ c.entries.length →
        (entry_at c.entries (cursor_step c dir j)).is_selectable = true → i2 ≤ j := by
      intro j hj1 _ hj3
      by_contra hc
      rw [h24 j hj1 (by omega)] at hj3
      exact absurd hj3 (by simp)
    have hflip := flipped_cursor_step c dir i2 hs (by omega) h22
    by_cases hg2 : good_step c dir i2
    · -- the next selectable step is good: the loop moves on to it
      have hi2 : i2 < c.entries.length := by
        by_contra hc
        have e : i2 = c.entries.length := by omega
        have := hg2.1
        rw [e, wrapped_full c dir hs] at this
        exact absurd this (by simp)
      obtain ⟨i3, h31, h32, h33, h34, h35⟩ := next_selectable_step c dir hn hs hsel i2 hi2
      by_cases hp3 : page_of c (cursor_step c dir i3) = page_index c
      · obtain ⟨t, ht1, ht2, ht3, ht4, ht5, ht6⟩ := ih i2 (by omega) hi2 hg2 (Or.inr (by
          intro k hk1 hk2 hk3 hk4
          have e : k = i3 := by
            by_contra hne
            rcases Nat.lt_or_gt_of_ne hne with hlt | hgt
            · rw [h34 k hk1 hlt] at hk3
              exact absurd hk3 (by simp)
            · rw [hk4 i3 h31 hgt] at h33
              exact absurd h33 (by simp)
          rw [e]; exact hp3))
        refine ⟨t, by omega, ht2, ht3, Or.inr ?_, ht5, ?_⟩
        · rcases ht4 with h | h
          · rw [h]; exact h23
          · exact h
        · intro fuel inner hf hin
          obtain ⟨f, rfl⟩ : ∃ f, fuel = f + 1 := ⟨fuel - 1, by omega⟩
          rw [move_selection_page_loop_continue inner f c dir _ _ _ (h25 inner hin)
            (Or.inl (by rw [hflip]; exact hg2.1)) (h35 inner hin) hp3]
          exact ht6 f inner (by omega) hin
      · refine ⟨i2, by omega, hi2, hg2, Or.inr h23, ?_, ?_⟩
        · intro j hj1 hj2 hj3 hgj
          have hj4 : i3 ≤ j := by
            by_contra hc
            rw [h34 j hj1 (by omega)] at hj3
            exact absurd hj3 (by simp)
          exact hp3 (good_step_mono c dir i3 j hs hpage hj4 hgj).2
        · intro fuel inner hf hin
          obtain ⟨f, rfl⟩ : ∃ f, fuel = f + 1 := ⟨fuel - 1, by omega⟩
          exact move_selection_page_loop_exit inner f c dir _ _ _ (h25 inner hin)
            (Or.inl (by rw [hflip]; exact hg2.1)) (h35 inner hin) hp3
    · -- the next selectable step is not good: the loop stops where it is
      have hp2 : page_of c (cursor_step c dir i2) = page_index c := by
        rcases hnext with ⟨j, hj1, hj2, hj3⟩ | h
        · have hj4 : j ≤ c.entries.length := by
            by_contra hc
            have := wrapped_mono c dir c.entries.length j (by omega) hj2.1
            rw [wrapped_full c dir hs] at this
            exact absurd this (by simp)
          exact absurd (good_step_mono c dir i2 j hs hpage (hlater j hj1 hj4 hj3) hj2) hg2
        · exact h i2 h21 h22 h23 h24
      have hw2 : wrapped c dir i2 = true := by
        by_contra hc
        exact hg2 ⟨by simpa using hc, hp2⟩
      refine ⟨i, Nat.le_refl _, hi, hgood, Or.inl rfl, ?_, ?_⟩
      · intro j hj1 hj2 hj3 hgj
        exact hg2 (good_step_mono c dir i2 j hs hpage (hlater j hj1 hj2 hj3) hgj)
      · intro fuel inner hf hin
        obtain ⟨f, rfl⟩ : ∃ f, fuel = f + 1 := ⟨fuel - 1, by omega⟩
        exact move_selection_page_loop_break inner f c dir _ _ (h25 inner hin)
          (by rw [hflip]; exact hw2) hp2

/-- A row beyond the row of an unwrapped step `t` is the row of a later
unwrapped step. -/
theorem beyond_step (c : inventory_column) (dir : scroll_direction) (t u : Nat)
    (hs : c.selected_index < c.entries.length) (hu : u < c.entries.length)
    (ht : wrapped c dir t = false) (hb : beyond dir (cursor_step c dir t) u = true) :
    ∃ j, t < j ∧ j ≤ c.entries.length ∧ wrapped c dir j = false ∧ cursor_step c dir j = u := by
  cases dir
  · have ht2 : c.selected_index + t < c.entries.length := by
      simp [wrapped] at ht; omega
    rw [cursor_step_forward c t hs (by omega), if_pos ht2] at hb
    simp only [beyond, decide_eq_true_eq] at hb
    refine ⟨u - c.selected_index, by omega, by omega, by simp [wrapped]; omega, ?_⟩
    rw [cursor_step_forward c _ hs (by omega), if_pos (by omega)]
    omega
  · have ht2 : t ≤ c.selected_index := by
      simp [wrapped] at ht; omega
    rw [cursor_step_backward c t hs (by omega), if_pos ht2] at hb
    simp only [beyond, decide_eq_true_eq] at hb
    refine ⟨c.selected_index - u, by omega, by omega, by simp [wrapped], ?_⟩
    rw [cursor_step_backward c _ hs (by omega), if_pos (by omega)]
    omega

/-- The row of an unwrapped step other than step 0 lies beyond the cursor. -/
theorem step_beyond (c : inventory_column) (dir : scroll_direction) (t : Nat)
    (hs : c.selected_index < c.entries.length) (ht1 : 1 ≤ t)
    (ht : wrapped c dir t = false) :
    beyond dir c.selected_index (cursor_step c dir t) = true := by
  cases dir
  · have ht2 : c.selected_index + t < c.entries.length := by
      simp [wrapped] at ht; omega
    rw [cursor_step_forward c t hs (by omega), if_pos ht2]
    simp only [beyond, decide_eq_true_eq]
    omega
  · have ht2 : t ≤ c.selected_index := by
      simp [wrapped] at ht; omega
    rw [cursor_step_backward c t hs (by omega), if_pos ht2]
    simp only [beyond, decide_eq_true_eq]
    omega

/-- The rows of the wrapped steps from a wrapped step on the current page on
are on the current page. -/
theorem wrapped_page (c : inventory_column) (dir : scroll_direction) (i j : Nat)
    (hs : c.selected_index < c.entries.length) (hij : i ≤ j) (hj : j ≤ c.entries.length)
    (hw : wrapped c dir i = true)
    (hp : page_of c (cursor_step c dir i) = page_of c c.selected_index) :
    page_of c (cursor_step c dir j) = page_of c c.selected_index := by
  unfold page_of at hp ⊢
  cases dir
  · have hi2 : ¬ c.selected_index + i < c.entries.length := by
      simp [wrapped] at hw; omega
    rw [cursor_step_forward c i hs (by omega), if_neg hi2] at hp
    rw [cursor_step_forward c j hs hj, if_neg (by omega)]
    have := page_between c.entries_per_page _ _
      (c.selected_index + j - c.entries.length) hp (by omega) (by omega)
    omega
  · have hi2 : ¬ i ≤ c.selected_index := by
      simp [wrapped] at hw; omega
    rw [cursor_step_backward c i hs (by omega), if_neg hi2] at hp
    rw [cursor_step_backward c j hs hj, if_neg (by omega)]
    exact page_between c.entries_per_page _ _
      (c.selected_index + c.entries.length - j) hp.symm (by omega) (by omega)

/-- The loop of `move_selection_page` when no selectable row of the current
page lies beyond the cursor: it stays on the cursor when every selectable row
is on the current page, and otherwise returns a selectable row of another
page. -/
theorem move_selection_page_loop_edge (c : inventory_column) (dir : scroll_direction)
    (hn : c.entries.length < 2 ^ 63) (hs : c.selected_index < c.entries.length)
    (hsel : (entry_at c.entries c.selected_index).is_selectable = true)
    (hpage : page_index c = page_of c c.selected_index)
    (hnone : ∀ j, 1 ≤ j → j ≤ c.entries.length →
      (entry_at c.entries (cursor_step c dir j)).is_selectable = true → ¬ good_step c dir j) :
    ∃ x, x < c.entries.length ∧ (entry_at c.entries x).is_selectable = true ∧
      (∀ fuel inner, 2 ≤ fuel → c.entries.length ≤ inner →
        move_selection_page_loop inner c dir fuel c.selected_index = some x) ∧
      ((x = c.selected_index ∧
          ∀ u, u < c.entries.length → (entry_at c.entries u).is_selectable = true →
            page_of c u = page_of c c.selected_index) ∨
        page_of c x ≠ page_of c c.selected_index) := by
  obtain ⟨i1, h11, h12, h13, h14, h15⟩ := next_selectable_step c dir hn hs hsel 0 (by omega)
  rw [cursor_step_zero c dir hs] at h15
  have hflip := flipped_cursor_step c dir i1 hs (by omega) h12
  have hng1 := hnone i1 (by omega) h12 h13
  by_cases hp1 : page_of c (cursor_step c dir i1) = page_index c
  · have hw1 : wrapped c dir i1 = true := by
      by_contra hc
      exact hng1 ⟨by simpa using hc, hp1⟩
    refine ⟨c.selected_index, hs, hsel, ?_, Or.inl ⟨rfl, ?_⟩⟩
    · intro fuel inner hf hin
      obtain ⟨f, rfl⟩ : ∃ f, fuel = f + 1 := ⟨fuel - 1, by omega⟩
      exact move_selection_page_loop_break inner f c dir _ _ (h15 inner hin)
        (by rw [hflip]; exact hw1) hp1
    · intro u hu husel
      obtain ⟨j, hj1, hj2, hj3⟩ := cyclic_pos_surj c.entries.length c.selected_index u dir hs hu
      have hj4 : i1 ≤ j := by
        by_contra hc
        have := h14 j (by omega) (by omega)
        unfold cursor_step at this
        rw [hj3, husel] at this
        exact absurd this (by simp)
      have := wrapped_page c dir i1 j hs hj4 hj2 hw1 (by rw [hp1, hpage])
      unfold cursor_step at this
      rw [hj3] at this
      exact this
  · have hi1 : i1 < c.entries.length := by
      by_contra hc
      have e : i1 = c.entries.length := by omega
      rw [e, cursor_step_full c dir hs] at hp1
      exact hp1 hpage.symm
    obtain ⟨i2, h21, h22, h23, h24, h25⟩ := next_selectable_step c dir hn hs hsel i1 hi1
    refine ⟨cursor_step c dir i1, cursor_step_lt c dir i1 hs, h13, ?_,
      Or.inr (by rw [← hpage]; exact hp1)⟩
    intro fuel inner hf hin
    obtain ⟨f, rfl⟩ : ∃ f, fuel = f + 1 := ⟨fuel - 1, by omega⟩
    by_cases hp2 : page_of c (cursor_step c dir i2) = page_index c
    · rw [move_selection_page_loop_continue inner f c dir _ _ _ (h15 inner hin)
        (Or.inr hp1) (h25 inner hin) hp2]
      obtain ⟨g, rfl⟩ : ∃ g, f = g + 1 := ⟨f - 1, by omega⟩
      have hw2 : wrapped c dir i2 = true := by
        by_contra hc
        exact hnone i2 (by omega) h22 h23 ⟨by simpa using hc, hp2⟩
      exact move_selection_page_loop_break inner g c dir _ _ (h25 inner hin)
        (by rw [flipped_cursor_step c dir i2 hs (by omega) h22]; exact hw2) hp2
    · exact move_selection_page_loop_exit inner f c dir _ _ _ (h15 inner hin)
        (Or.inr hp1) (h25 inner hin) hp2

/-- The row on which `move_selection_page` puts the cursor, for a column whose
cursor is on a selectable row of the current page. -/
theorem move_selection_page_cursor (c : inventory_column) (dir : scroll_direction)
    (hn : c.entries.length < 2 ^ 63) (hs : c.selected_index < c.entries.length)
    (hsel : (entry_at c.entries c.selected_index).is_selectable = true)
    (hpage : page_index c = page_of c c.selected_index) :
    ∃ x, x < c.entries.length ∧ (entry_at c.entries x).is_selectable = true ∧
      (∀ fuel, c.entries.length + 1 ≤ fuel →
        move_selection_page fuel c dir
          = some { c with selected_index := x,
                          page_offset := x - x % c.entries_per_page }) ∧
      ((∃ u, u < c.entries.length ∧ (entry_at c.entries u).is_selectable = true ∧
          page_of c u = page_of c c.selected_index ∧ beyond dir c.selected_index u = true) →
        page_of c x = page_of c c.selected_index ∧ beyond dir c.selected_index x = true ∧
        ∀ u, u < c.entries.length → (entry_at c.entries u).is_selectable = true →
          page_of c u = page_of c c.selected_index → beyond dir x u = false) ∧
      ((¬ ∃ u, u < c.entries.length ∧ (entry_at c.entries u).is_selectable = true ∧
          page_of c u = page_of c c.selected_index ∧ beyond dir c.selected_index u = true) →
        ((∃ u, u < c.entries.length ∧ (entry_at c.entries u).is_selectable = true ∧
            page_of c u ≠ page_of c c.selected_index) →
          page_of c x ≠ page_of c c.selected_index) ∧
        ((∀ u, u < c.entries.length → (entry_at c.entries u).is_selectable = true →
            page_of c u = page_of c c.selected_index) → x = c.selected_index)) := by
  have hg0 : good_step c dir 0 :=
    ⟨wrapped_zero c dir hs, by rw [cursor_step_zero c dir hs, hpage]⟩
  have hw0 := wrapped_zero c dir hs
  by_cases hA : ∃ u, u < c.entries.length ∧ (entry_at c.entries u).is_selectable = true ∧
      page_of c u = page_of c c.selected_index ∧ beyond dir c.selected_index u = true
  · obtain ⟨u, hu1, hu2, hu3, hu4⟩ := hA
    have hu5 := hu4
    rw [← cursor_step_zero c dir hs] at hu5
    obtain ⟨j, hj1, hj2, hj3, hj4⟩ := beyond_step c dir 0 u hs hu1 hw0 hu5
    have hgj : good_step c dir j := ⟨hj3, by rw [hj4, hu3, hpage]⟩
    obtain ⟨t, _, ht2, ht3, ht4, ht5, ht6⟩ := move_selection_page_loop_good c dir hn hs hsel
      hpage c.entries.length 0 (by omega) (by omega) hg0
      (Or.inl ⟨j, hj1, hgj, by rw [hj4]; exact hu2⟩)
    rw [cursor_step_zero c dir hs] at ht6
    have htj : j ≤ t := by
      by_contra hc
      exact ht5 j (by omega) hj2 (by rw [hj4]; exact hu2) hgj
    have htsel : (entry_at c.entries (cursor_step c dir t)).is_selectable = true := by
      rcases ht4 with h | h
      · omega
      · exact h
    refine ⟨cursor_step c dir t, cursor_step_lt c dir t hs, htsel, ?_, ?_, ?_⟩
    · intro fuel hf
      unfold move_selection_page
      rw [ht6 fuel fuel (by omega) (by omega)]
      exact select_selectable fuel c _ dir (cursor_step_lt c dir t hs) htsel
    · intro _
      refine ⟨by rw [ht3.2, hpage], step_beyond c dir t hs (by omega) ht3.1, ?_⟩
      intro v hv1 hv2 hv3
      by_contra hc
      have hb : beyond dir (cursor_step c dir t) v = true := by simpa using hc
      obtain ⟨k, hk1, hk2, hk3, hk4⟩ := beyond_step c dir t v hs hv1 ht3.1 hb
      exact ht5 k hk1 hk2 (by rw [hk4]; exact hv2) ⟨hk3, by rw [hk4, hv3, hpage]⟩
    · intro h
      exact absurd ⟨u, hu1, hu2, hu3, hu4⟩ h
  · have hnone : ∀ j, 1 ≤ j → j ≤ c.entries.length →
        (entry_at c.entries (cursor_step c dir j)).is_selectable = true →
        ¬ good_step c dir j := by
      intro j hj1 hj2 hj3 hgj
      exact hA ⟨cursor_step c dir j, cursor_step_lt c dir j hs, hj3, by rw [hgj.2, hpage],
        step_beyond c dir j hs hj1 hgj.1⟩
    obtain ⟨x, hx1, hx2, hx3, hx4⟩ := move_selection_page_loop_edge c dir hn hs hsel hpage hnone
    refine ⟨x, hx1, hx2, ?_, fun h => absurd h hA, fun _ => ⟨?_, ?_⟩⟩
    · intro fuel hf
      unfold move_selection_page
      rw [hx3 fuel fuel (by omega) (by omega)]
      exact select_selectable fuel c _ dir hx1 hx2
    · rintro ⟨u, hu1, hu2, hu3⟩
      rcases hx4 with ⟨_, h⟩ | h
      · exact absurd (h u hu1 hu2) hu3
      · exact h
    · intro hall
      rcases hx4 with ⟨h, _⟩ | h
      · exact h
      · exact absurd (hall x hx1 hx2) h

/-- Without a selectable row `move_selection_page` returns and leaves the cursor
where it is. -/
theorem move_selection_page_idle (c : inventory_column) (dir : scroll_direction)
    (hn : c.entries.length < 2 ^ 63)
    (hs : c.entries ≠ [] → c.selected_index < c.entries.length)
    (hpage : page_index c = page_of c c.selected_index)
    (hno : ∀ e ∈ c.entries, e.is_selectable = false) :
    ∃ r, (∀ fuel, c.entries.length + 1 ≤ fuel → move_selection_page fuel c dir = some r) ∧
      r.entries = c.entries ∧ r.selected_index = c.selected_index := by
  have hflip : flipped c dir c.selected_index = true := by simp [flipped]
  by_cases hnil : c.entries = []
  · refine ⟨c, ?_, rfl, rfl⟩
    intro fuel hf
    obtain ⟨f, rfl⟩ : ∃ f, fuel = f + 1 := ⟨fuel - 1, by omega⟩
    unfold move_selection_page
    rw [move_selection_page_loop_break (f + 1) f c dir _ c.selected_index
      (by rw [hnil]; exact next_selectable_index_nil _ _ _) hflip hpage.symm]
    exact select_outside _ c _ dir (by rw [hnil]; simp)
  · have hs2 := hs hnil
    refine ⟨{ c with selected_index := c.selected_index,
                     page_offset := c.selected_index - c.selected_index % c.entries_per_page },
      ?_, rfl, rfl⟩
    intro fuel hf
    obtain ⟨f, rfl⟩ : ∃ f, fuel = f + 1 := ⟨fuel - 1, by omega⟩
    have hnsi := next_selectable_index_none c.entries c.selected_index dir hn hs2 hno (f + 1)
      (by omega)
    unfold move_selection_page
    rw [move_selection_page_loop_break (f + 1) f c dir _ c.selected_index hnsi hflip
      hpage.symm]
    exact select_not_selectable (f + 1) c _ _ dir hs2
      (hno _ (entry_at_mem _ _ hs2)) hnsi

/-- C11: for every column whose current page is the page of the cursor and
whose cursor is on a selectable row whenever there is one (as after
`prepare_paging`), `move_selection_page( dir )` returns for every fuel above the
number of rows and keeps the rows.  If a selectable row of the cursor's page
lies beyond the cursor in direction `dir`, the new cursor is the last such row:
on the same page, beyond the old cursor, with no selectable row of that page
beyond it.  Otherwise the new cursor is on a different page when another page
holds a selectable row, and is the old cursor when none does. -/
theorem move_selection_page_spec (c : inventory_column) (dir : scroll_direction)
    (hn : c.entries.length < 2 ^ 63)
    (hs : c.entries ≠ [] → c.selected_index < c.entries.length)
    (hsel : (∃ e ∈ c.entries, e.is_selectable = true) →
      (entry_at c.entries c.selected_index).is_selectable = true)
    (hpage : page_index c = page_of c c.selected_index) :
    ∃ r, (∀ fuel, c.entries.length + 1 ≤ fuel → move_selection_page fuel c dir = some r) ∧
      r.entries = c.entries ∧
      ((∃ e ∈ c.entries, e.is_selectable = true) →
        r.selected_index < c.entries.length ∧
        (entry_at c.entries r.selected_index).is_selectable = true) ∧
      ((∃ u, u < c.entries.length ∧ (entry_at c.entries u).is_selectable = true ∧
          page_of c u = page_of c c.selected_index ∧ beyond dir c.selected_index u = true) →
        page_of c r.selected_index = page_of c c.selected_index ∧
        beyond dir c.selected_index r.selected_index = true ∧
        ∀ u, u < c.entries.length → (entry_at c.entries u).is_selectable = true →
          page_of c u = page_of c c.selected_index → beyond dir r.selected_index u = false) ∧
      ((¬ ∃ u, u < c.entries.length ∧ (entry_at c.entries u).is_selectable = true ∧
          page_of c u = page_of c c.selected_index ∧ beyond dir c.selected_index u = true) →
        ((∃ u, u < c.entries.length ∧ (entry_at c.entries u).is_selectable = true ∧
            page_of c u ≠ page_of c c.selected_index) →
          page_of c r.selected_index ≠ page_of c c.selected_index) ∧
        ((∀ u, u < c.entries.length → (entry_at c.entries u).is_selectable = true →
            page_of c u = page_of c c.selected_index) →
          r.selected_index = c.selected_index)) := by
  by_cases hex : ∃ e ∈ c.entries, e.is_selectable = true
  · have hne : c.entries ≠ [] := by
      obtain ⟨e, he, _⟩ := hex
      intro h
      rw [h] at he
      simp at he
    obtain ⟨x, hx1, hx2, hx3, hx4, hx5⟩ :=
      move_selection_page_cursor c dir hn (hs hne) (hsel hex) hpage
    exact ⟨_, hx3, rfl, fun _ => ⟨hx1, hx2⟩, hx4, hx5⟩
  · have hno : ∀ e ∈ c.entries, e.is_selectable = false := by
      intro e he
      by_contra hc
      exact hex ⟨e, he, by simpa using hc⟩
    obtain ⟨r, hr1, hr2, hr3⟩ := move_selection_page_idle c dir hn hs hpage hno
    refine ⟨r, hr1, hr2, fun h => absurd h hex, ?_, fun _ => ⟨?_, fun _ => hr3⟩⟩
    · rintro ⟨u, hu1, hu2, _⟩
      rw [hno _ (entry_at_mem _ _ hu1)] at hu2
      exact absurd hu2 (by simp)
    · rintro ⟨u, hu1, hu2, _⟩
      rw [hno _ (entry_at_mem _ _ hu1)] at hu2
      exact absurd hu2 (by simp)

/-- Witness for C11 on the paginated sample column (page size 3, cursor on row
1): forward, the cursor moves to row 2, the last selectable row of page 0; from
there it moves to row 4 on page 1. -/
theorem move_selection_page_spec_witness :
    sample_paged.entries.length < 2 ^ 63 ∧
    page_index sample_paged = page_of sample_paged sample_paged.selected_index ∧
    (move_selection_page 9 sample_paged scroll_direction.FORWARD).map
      (fun r => r.selected_index) = some 2 ∧
    (move_selection_page 9 { sample_paged with selected_index := 2 }
      scroll_direction.FORWARD).map (fun r => r.selected_index) = some 4 ∧
    ∃ r, (∀ fuel, sample_paged.entries.length + 1 ≤ fuel →
        move_selection_page fuel sample_paged scroll_direction.FORWARD = some r) ∧
      r.entries = sample_paged.entries ∧
      ((∃ e ∈ sample_paged.entries, e.is_selectable = true) →
        r.selected_index < sample_paged.entries.length ∧
        (entry_at sample_paged.entries r.selected_index).is_selectable = true) ∧
      ((∃ u, u < sample_paged.entries.length ∧
          (entry_at sample_paged.entries u).is_selectable = true ∧
          page_of sample_paged u = page_of sample_paged sample_paged.selected_index ∧
          beyond scroll_direction.FORWARD sample_paged.selected_index u = true) →
        page_of sample_paged r.selected_index
          = page_of sample_paged sample_paged.selected_index ∧
        beyond scroll_direction.FORWARD sample_paged.selected_index r.selected_index = true ∧
        ∀ u, u < sample_paged.entries.length →
          (entry_at sample_paged.entries u).is_selectable = true →
          page_of sample_paged u = page_of sample_paged sample_paged.selected_index →
          beyond scroll_direction.FORWARD r.selected_index u = false) ∧
      ((¬ ∃ u, u < sample_paged.entries.length ∧
          (entry_at sample_paged.entries u).is_selectable = true ∧
          page_of sample_paged u = page_of sample_paged sample_paged.selected_index ∧
          beyond scroll_direction.FORWARD sample_paged.selected_index u = true) →
        ((∃ u, u < sample_paged.entries.length ∧
            (entry_at sample_paged.entries u).is_selectable = true ∧
            page_of sample_paged u ≠ page_of sample_paged sample_paged.selected_index) →
          page_of sample_paged r.selected_index
            ≠ page_of sample_paged sample_paged.selected_index) ∧
        ((∀ u, u < sample_paged.entries.length →
            (entry_at sample_paged.entries u).is_selectable = true →
            page_of sample_paged u = page_of sample_paged sample_paged.selected_index) →
          r.selected_index = sample_paged.selected_index)) :=
  ⟨by decide, by decide, by decide, by decide,
    move_selection_page_spec sample_paged scroll_direction.FORWARD (by decide)
      (fun _ => by decide) (fun _ => by decide) (by decide)⟩

/-! ## The selection column: the cursor after `on_change` -/

/-- Selecting the last row backwards puts the cursor on the last selectable
row, if there is one. -/
theorem select_last (c : inventory_column) (hn : c.entries.length < 2 ^ 63)
    (hpos : 0 < c.entries.length) :
    ∃ k, (∀ fuel, c.entries.length ≤ fuel →
        select fuel c (c.entries.length - 1) scroll_direction.BACKWARD
          = some { c with selected_index := k, page_offset := k - k % c.entries_per_page }) ∧
      ((∃ e ∈ c.entries, e.is_selectable = true) →
        k < c.entries.length ∧ (entry_at c.entries k).is_selectable = true ∧
        ∀ j, k < j → j < c.entries.length → (entry_at c.entries j).is_selectable = false) := by
  have hlast : c.entries.length - 1 < c.entries.length := by omega
  by_cases h0 : (entry_at c.entries (c.entries.length - 1)).is_selectable = true
  · refine ⟨c.entries.length - 1, fun fuel _ => select_selectable fuel c _ _ hlast h0,
      fun _ => ⟨hlast, h0, fun j h1 h2 => by omega⟩⟩
  · have h0f : (entry_at c.entries (c.entries.length - 1)).is_selectable = false := by
      simpa using h0
    by_cases hsel : ∃ e ∈ c.entries, e.is_selectable = true
    · obtain ⟨k, hk1, hk2, hk3, hk4, hk5⟩ := next_selectable_index_first c.entries
        (c.entries.length - 1) scroll_direction.BACKWARD hn hlast hsel
      have hkn : k ≠ c.entries.length := by
        intro h
        rw [h, cyclic_pos_full _ _ _ hlast, h0f] at hk3
        exact absurd hk3 (by simp)
      have hpk : ∀ j, j < c.entries.length →
          cyclic_pos c.entries.length (c.entries.length - 1) scroll_direction.BACKWARD j
            = c.entries.length - 1 - j := by
        intro j hj
        rw [cyclic_pos_backward _ _ _ hlast (by omega), if_pos (by omega)]
      rw [hpk k (by omega)] at hk3
      refine ⟨c.entries.length - 1 - k, ?_, fun _ => ⟨by omega, hk3, ?_⟩⟩
      · intro fuel hf
        have := hk5 fuel hf
        rw [hpk k (by omega)] at this
        exact select_not_selectable fuel c _ _ _ hlast h0f this
      · intro j hj1 hj2
        by_cases hj : j = c.entries.length - 1
        · rw [hj]; exact h0f
        · have := hk4 (c.entries.length - 1 - j) (by omega) (by omega)
          rw [hpk _ (by omega)] at this
          have e : c.entries.length - 1 - (c.entries.length - 1 - j) = j := by omega
          rw [e] at this
          exact this
    · refine ⟨c.entries.length - 1, ?_, fun h => absurd h hsel⟩
      intro fuel hf
      exact select_not_selectable fuel c _ _ _ hlast h0f
        (next_selectable_index_none c.entries _ scroll_direction.BACKWARD hn hlast
          (by
            intro e he
            by_contra hc
            exact hsel ⟨e, he, by simpa using hc⟩) fuel hf)

/-- After `selection_column::prepare_paging` the list of rows is not empty. -/
theorem selection_prepare_paging_nonempty (X : externals) (P : inventory_selector_preset)
    (fuel : Nat) (sc r : selection_column)
    (h : selection_column.prepare_paging X P fuel sc = some r) : r.base.entries ≠ [] := by
  unfold selection_column.prepare_paging at h
  cases hb : InventoryUI.prepare_paging X P fuel sc.base with
  | none => rw [hb] at h; simp at h
  | some paged_base =>
    rw [hb] at h
    simp only at h
    by_cases hem : paged_base.entries.isEmpty = true
    · rw [if_pos hem] at h
      rw [← Option.some.inj h]
      simp only
      rw [expand_to_fit_entries]
      simp
    · rw [if_neg hem] at h
      rw [← Option.some.inj h]
      simpa using hem

/-- The rows of the column after the first part of `on_change`: rows of before,
the mirrored entry, or a row of before that equals the mirrored entry with its
chosen count replaced. -/
theorem mirror_members (X : externals) (P : inventory_selector_preset) (sc : selection_column)
    (my : inventory_entry) :
    ∀ y ∈ (selection_column.mirror X P sc my).entries,
      y ∈ sc.base.entries ∨ y = my ∨
      ∃ x ∈ sc.base.entries, x.equals my = true ∧
        y = { x with chosen_count := my.chosen_count } := by
  intro y hy
  unfold selection_column.mirror at hy
  simp only at hy
  split at hy
  · split at hy
    · rename_i hi
      rw [expand_to_fit_entries] at hy
      simp only at hy
      rcases List.mem_or_eq_of_mem_set hy with h | h
      · exact Or.inl h
      · refine Or.inr (Or.inr ⟨entry_at sc.base.entries
          (sc.base.entries.findIdx (fun e => e.equals my)), entry_at_mem _ _ hi, ?_, h⟩)
        rw [entry_at_of_lt _ _ hi]
        exact List.findIdx_getElem (w := hi)
    · unfold add_entry at hy
      split at hy
      · exact Or.inl hy
      · simp only at hy
        rw [expand_to_fit_entries] at hy
        simp only [insert_at, List.mem_append, List.mem_cons] at hy
        rcases hy with h | h | h
        · exact Or.inl (List.mem_of_mem_take h)
        · exact Or.inr (Or.inl h)
        · exact Or.inl (List.mem_of_mem_drop h)
  · unfold remove_entry at hy
    simp only at hy
    split at hy
    · simp only at hy
      exact Or.inl (List.mem_of_mem_eraseIdx hy)
    · exact Or.inl hy

/-- The parts of a returning `on_change`: the column after pagination, and the
selection made on it. -/
theorem on_change_parts (X : externals) (P : inventory_selector_preset) (fuel : Nat)
    (sc r : selection_column) (entry : inventory_entry)
    (h : selection_column.on_change X P fuel sc entry = some r) :
    ∃ repaged,
      selection_column.prepare_paging X P fuel
        (selection_column.mk (selection_column.mirror X P sc (mirror_entry sc entry))
          sc.selected_cat) = some repaged ∧
      r.base.entries = repaged.base.entries ∧
      ((repaged.base.entries.findIdx (fun e => e.equals (mirror_entry sc entry))
          < repaged.base.entries.length →
        select fuel repaged.base
          (repaged.base.entries.findIdx (fun e => e.equals (mirror_entry sc entry)))
          scroll_direction.FORWARD = some r.base) ∧
      (¬ repaged.base.entries.findIdx (fun e => e.equals (mirror_entry sc entry))
          < repaged.base.entries.length →
        select fuel repaged.base
          (if repaged.base.entries.isEmpty then 0 else repaged.base.entries.length - 1)
          scroll_direction.BACKWARD = some r.base)) := by
  unfold selection_column.on_change at h
  simp only at h
  cases hp : selection_column.prepare_paging X P fuel
      (selection_column.mk (selection_column.mirror X P sc (mirror_entry sc entry))
        sc.selected_cat) with
  | none => rw [hp] at h; simp at h
  | some repaged =>
    rw [hp] at h
    simp only at h
    refine ⟨repaged, rfl, ?_⟩
    split at h
    · rename_i hi
      cases hs : select fuel repaged.base
          (repaged.base.entries.findIdx (fun e => e.equals (mirror_entry sc entry)))
          scroll_direction.FORWARD with
      | none => rw [hs] at h; simp at h
      | some b =>
        rw [hs] at h
        simp only [Option.map_some', Option.some.injEq] at h
        rw [← h]
        exact ⟨select_entries _ _ _ _ _ hs, fun _ => rfl, fun hc => absurd hi hc⟩
    · rename_i hi
      cases hs : select fuel repaged.base
          (if repaged.base.entries.isEmpty then 0 else repaged.base.entries.length - 1)
          scroll_direction.BACKWARD with
      | none => rw [hs] at h; simp at h
      | some b =>
        rw [hs] at h
        simp only [Option.map_some', Option.some.injEq] at h
        rw [← h]
        exact ⟨select_entries _ _ _ _ _ hs, fun hc => absurd hc hi, fun _ => rfl⟩

/-- The cursor after `on_change( entry )`, whenever it returns. -/
theorem on_change_cursor (X : externals) (P : inventory_selector_preset)
    (sc : selection_column) (entry : inventory_entry)
    (hsort : std_sort_contract X.std_sort) (hv : sort_compare_valid P)
    (hsel : entry.is_selectable = true)
    (hepp : 1 ≤ sc.base.entries_per_page) (hsize : sc.base.entries.length + 1 < 2 ^ 61)
    (hone : (sc.base.entries.filter (fun y => y.equals (mirror_entry sc entry))).length ≤ 1)
    (henabled : ∀ y ∈ sc.base.entries, y.equals (mirror_entry sc entry) = true →
      y.enabled = true)
    (fuel : Nat) (r : selection_column)
    (h : selection_column.on_change X P fuel sc entry = some r) :
    (entry.chosen_count ≠ 0 →
      r.base.selected_index < r.base.entries.length ∧
      (entry_at r.base.entries r.base.selected_index).equals (mirror_entry sc entry) = true) ∧
    (entry.chosen_count = 0 → (∃ y ∈ r.base.entries, y.is_selectable = true) →
      r.base.selected_index < r.base.entries.length ∧
      (entry_at r.base.entries r.base.selected_index).is_selectable = true ∧
      ∀ j, r.base.selected_index < j → j < r.base.entries.length →
        (entry_at r.base.entries j).is_selectable = false) := by
  have hitem : entry.is_item = true := is_selectable_is_item entry hsel
  have hen : entry.enabled = true := by
    simp only [inventory_entry.is_selectable, Bool.and_eq_true] at hsel
    exact hsel.2
  have hmy : (mirror_entry sc entry).is_item = true := hitem
  obtain ⟨_, r1, r2, _⟩ := on_change_rows X P sc entry hsort hv hitem hepp hsize hone fuel r h
  obtain ⟨repaged, hp, hent, hfound, hmissing⟩ := on_change_parts X P fuel sc r entry h
  obtain ⟨_, _, _, hme, hml⟩ := mirror_rows X P sc (mirror_entry sc entry) hone
  obtain ⟨hperm, _, hlen⟩ := selection_prepare_paging_items X P _ repaged hsort hv
    (by simp only; omega) (by simp only; omega) fuel hp
  simp only at hperm hlen
  constructor
  · intro hc
    obtain ⟨x, hx1, _, _, _⟩ := r1 hc
    rw [hent] at hx1
    have hxmem : x ∈ repaged.base.entries.filter
        (fun y => y.equals (mirror_entry sc entry)) := by rw [hx1]; simp
    obtain ⟨hxin, hxeq⟩ := List.mem_filter.mp hxmem
    have hi : repaged.base.entries.findIdx (fun e => e.equals (mirror_entry sc entry))
        < repaged.base.entries.length := List.findIdx_lt_length_of_exists ⟨x, hxin, hxeq⟩
    have hrow : (entry_at repaged.base.entries
        (repaged.base.entries.findIdx (fun e => e.equals (mirror_entry sc entry)))).equals
        (mirror_entry sc entry) = true := by
      rw [entry_at_of_lt _ _ hi]
      exact List.findIdx_getElem (w := hi)
    have hrowmem := entry_at_mem repaged.base.entries _ hi
    have hrowitem := equals_is_item _ _ hmy hrow
    have hin2 : entry_at repaged.base.entries
        (repaged.base.entries.findIdx (fun e => e.equals (mirror_entry sc entry)))
        ∈ (selection_column.mirror X P sc (mirror_entry sc entry)).entries := by
      have h1 : entry_at repaged.base.entries
          (repaged.base.entries.findIdx (fun e => e.equals (mirror_entry sc entry)))
          ∈ repaged.base.entries.filter inventory_entry.is_item :=
        List.mem_filter.mpr ⟨hrowmem, hrowitem⟩
      exact (List.mem_filter.mp (hperm.subset h1)).1
    have hrowen : (entry_at repaged.base.entries
        (repaged.base.entries.findIdx (fun e => e.equals (mirror_entry sc entry)))).enabled
        = true := by
      rcases mirror_members X P sc (mirror_entry sc entry) _ hin2 with h1 | h1 | ⟨z, hz1, hz2, hz3⟩
      · exact henabled _ h1 hrow
      · rw [h1]; exact hen
      · rw [hz3]; exact henabled z hz1 hz2
    have hrowsel : (entry_at repaged.base.entries
        (repaged.base.entries.findIdx (fun e => e.equals (mirror_entry sc entry)))).is_selectable
        = true := by
      simp only [inventory_entry.is_selectable, Bool.and_eq_true]
      exact ⟨hrowitem, hrowen⟩
    have hs := hfound hi
    rw [select_selectable fuel repaged.base _ _ hi hrowsel] at hs
    have hb := Option.some.inj hs
    rw [← hb]
    simp only
    exact ⟨hi, hrow⟩
  · intro hc hex
    have hnone := r2 hc
    rw [hent] at hnone hex
    have hi : ¬ repaged.base.entries.findIdx (fun e => e.equals (mirror_entry sc entry))
        < repaged.base.entries.length := by
      intro hlt
      have hrow : (entry_at repaged.base.entries
          (repaged.base.entries.findIdx (fun e => e.equals (mirror_entry sc entry)))).equals
          (mirror_entry sc entry) = true := by
        rw [entry_at_of_lt _ _ hlt]
        exact List.findIdx_getElem (w := hlt)
      have : entry_at repaged.base.entries
          (repaged.base.entries.findIdx (fun e => e.equals (mirror_entry sc entry)))
          ∈ repaged.base.entries.filter (fun y => y.equals (mirror_entry sc entry)) :=
        List.mem_filter.mpr ⟨entry_at_mem _ _ hlt, hrow⟩
      rw [hnone] at this
      simp at this
    have hne := selection_prepare_paging_nonempty X P fuel _ repaged hp
    have hpos : 0 < repaged.base.entries.length := List.length_pos.mpr hne
    have hs := hmissing hi
    rw [if_neg (by simpa using hne)] at hs
    obtain ⟨k, hk1, hk2⟩ := select_last repaged.base (by omega) hpos
    have hs2 := select_mono fuel repaged.base.entries.length _ _ _ _ hs
    rw [hk1 _ (by omega)] at hs2
    have hb := Option.some.inj hs2
    rw [← hb]
    simp only
    exact hk2 hex

/-- C21: for every selection column in which at most one row mirrors the
selectable item entry `e`, and that row (if any) is enabled, whenever
`on_change( e )` returns: with `e.chosen_count > 0` the cursor is on the row
that mirrors `e`; with `e.chosen_count == 0` the cursor is on the last
selectable row of the column, if it has one.  The call returns for every fuel
of at least three times the number of rows plus four when the page size is at
least two. -/
theorem on_change_cursor_spec (X : externals) (P : inventory_selector_preset)
    (sc : selection_column) (entry : inventory_entry)
    (hsort : std_sort_contract X.std_sort) (hv : sort_compare_valid P)
    (hsel : entry.is_selectable = true)
    (hepp : 1 ≤ sc.base.entries_per_page) (hsize : sc.base.entries.length + 1 < 2 ^ 61)
    (hone : (sc.base.entries.filter (fun y => y.equals (mirror_entry sc entry))).length ≤ 1)
    (henabled : ∀ y ∈ sc.base.entries, y.equals (mirror_entry sc entry) = true →
      y.enabled = true) :
    (2 ≤ sc.base.entries_per_page →
      ∃ r, ∀ fuel, 3 * sc.base.entries.length + 4 ≤ fuel →
        selection_column.on_change X P fuel sc entry = some r) ∧
    ∀ fuel r, selection_column.on_change X P fuel sc entry = some r →
      (entry.chosen_count ≠ 0 →
        r.base.selected_index < r.base.entries.length ∧
        (entry_at r.base.entries r.base.selected_index).equals (mirror_entry sc entry)
          = true) ∧
      (entry.chosen_count = 0 → (∃ y ∈ r.base.entries, y.is_selectable = true) →
        r.base.selected_index < r.base.entries.length ∧
        (entry_at r.base.entries r.base.selected_index).is_selectable = true ∧
        ∀ j, r.base.selected_index < j → j < r.base.entries.length →
          (entry_at r.base.entries j).is_selectable = false) :=
  ⟨fun h2 => on_change_total X P sc entry hsort hv h2 hsize hone,
    fun fuel r h => on_change_cursor X P sc entry hsort hv hsel hepp hsize hone henabled
      fuel r h⟩

/-- Witness for C21 on the sample selection column, which mirrors item 1 with
count 2 and has its cursor on that row: a change of item 2 to count 3 puts the
cursor on the new row 2. -/
theorem on_change_cursor_spec_witness :
    (selection_column.on_change plain_externals default_preset 10 sample_selection
        { sample_item 2 "B" sample_cat1 with chosen_count := 3 }).map
      (fun r => (r.base.selected_index, entry_at r.base.entries r.base.selected_index))
      = some (2, sample_mirror 2 "B" 3) ∧
    ((2 ≤ sample_selection.base.entries_per_page →
      ∃ r, ∀ fuel, 3 * sample_selection.base.entries.length + 4 ≤ fuel →
        selection_column.on_change plain_externals default_preset fuel sample_selection
          { sample_item 2 "B" sample_cat1 with chosen_count := 3 } = some r) ∧
    ∀ fuel r, selection_column.on_change plain_externals default_preset fuel sample_selection
        { sample_item 2 "B" sample_cat1 with chosen_count := 3 } = some r →
      (({ sample_item 2 "B" sample_cat1 with chosen_count := 3 } : inventory_entry).chosen_count
          ≠ 0 →
        r.base.selected_index < r.base.entries.length ∧
        (entry_at r.base.entries r.base.selected_index).equals (mirror_entry sample_selection
          { sample_item 2 "B" sample_cat1 with chosen_count := 3 }) = true) ∧
      (({ sample_item 2 "B" sample_cat1 with chosen_count := 3 } : inventory_entry).chosen_count
          = 0 → (∃ y ∈ r.base.entries, y.is_selectable = true) →
        r.base.selected_index < r.base.entries.length ∧
        (entry_at r.base.entries r.base.selected_index).is_selectable = true ∧
        ∀ j, r.base.selected_index < j → j < r.base.entries.length →
          (entry_at r.base.entries j).is_selectable = false)) :=
  ⟨by decide,
    on_change_cursor_spec plain_externals default_preset sample_selection
      { sample_item 2 "B" sample_cat1 with chosen_count := 3 }
      insertion_sort_contract default_preset_valid (by decide) (by decide) (by decide)
      (by decide) (by decide)⟩

/-! ## The selector: `naturalize_category` -/

theorem find_cat_by_id_some (categories : List item_category) (id : String)
    (cat : item_category) (h : find_cat_by_id categories id = some cat) :
    cat ∈ categories ∧ cat.id = id := by
  unfold find_cat_by_id at h
  exact ⟨List.mem_of_find?_eq_some h, by simpa using List.find?_some h⟩

theorem find_cat_by_id_none (categories : List item_category) (id : String)
    (h : find_cat_by_id categories id = none) : ∀ cat ∈ categories, cat.id ≠ id := by
  unfold find_cat_by_id at h
  intro cat hc
  have := List.find?_eq_none.mp h cat hc
  simpa using this

/-- A category pushed to the back of a list without its id is the one found by
that id. -/
theorem find_cat_by_id_push (categories : List item_category) (cat : item_category)
    (h : find_cat_by_id categories cat.id = none) :
    find_cat_by_id (categories ++ [cat]) cat.id = some cat := by
  unfold find_cat_by_id at h ⊢
  rw [List.find?_append, h]
  simp

/-- The category that `naturalize_category` looks up and, if it is missing,
adds: the category of the derived id for a non-zero distance, the base category
for the distance zero. -/
theorem naturalize_category_cases (env : selector_env) (s : inventory_selector)
    (category : item_category) (pos : tripoint) :
    ∃ wanted : item_category,
      (env.rl_dist pos = 0 → wanted = category) ∧
      (env.rl_dist pos ≠ 0 →
        wanted = { id := format_id category.id (env.direction_suffix pos),
                   name := format_name category.name (env.direction_suffix pos),
                   sort_rank := category.sort_rank + env.rl_dist pos }) ∧
      ((∃ existing, find_cat_by_id s.categories wanted.id = some existing ∧
          naturalize_category env s category pos = (existing, s)) ∨
        (find_cat_by_id s.categories wanted.id = none ∧
          naturalize_category env s category pos
            = (wanted, { s with categories := s.categories ++ [wanted] }))) := by
  by_cases hd : env.rl_dist pos = 0
  · refine ⟨category, fun _ => rfl, fun h => absurd hd h, ?_⟩
    unfold naturalize_category
    simp only [hd, ne_eq, not_true_eq_false, if_false]
    cases hf : find_cat_by_id s.categories category.id with
    | some existing => exact Or.inl ⟨existing, rfl, rfl⟩
    | none => exact Or.inr ⟨rfl, rfl⟩
  · refine ⟨{ id := format_id category.id (env.direction_suffix pos),
              name := format_name category.name (env.direction_suffix pos),
              sort_rank := category.sort_rank + env.rl_dist pos },
      fun h => absurd h hd, fun _ => rfl, ?_⟩
    unfold naturalize_category
    simp only [ne_eq, hd, not_false_eq_true, if_true]
    cases hf : find_cat_by_id s.categories
        (format_id category.id (env.direction_suffix pos)) with
    | some existing => exact Or.inl ⟨existing, rfl, rfl⟩
    | none => exact Or.inr ⟨rfl, rfl⟩

/-- The memoization of `naturalize_category`. -/
theorem naturalize_category_memo (env : selector_env) (s : inventory_selector)
    (category : item_category) (pos : tripoint) :
    (((s.categories.map (fun cat => cat.id)).Nodup →
      ((naturalize_category env s category pos).2.categories.map (fun cat => cat.id)).Nodup) ∧
    (naturalize_category env s category pos).1
      ∈ (naturalize_category env s category pos).2.categories) ∧
    naturalize_category env (naturalize_category env s category pos).2 category pos
      = naturalize_category env s category pos ∧
    (env.rl_dist pos = 0 →
      (naturalize_category env s category pos).1.id = category.id ∧
      ((∀ cat ∈ s.categories, cat.id = category.id → cat = category) →
        (naturalize_category env s category pos).1 = category)) := by
  obtain ⟨wanted, hw0, hw1, hcase⟩ := naturalize_category_cases env s category pos
  rcases hcase with ⟨existing, hfind, hres⟩ | ⟨hfind, hres⟩
  · obtain ⟨hmem, hid⟩ := find_cat_by_id_some _ _ _ hfind
    rw [hres]
    refine ⟨⟨fun h => h, hmem⟩, hres, ?_⟩
    intro hd
    rw [hw0 hd] at hid
    exact ⟨hid, fun hall => hall existing hmem hid⟩
  · have hnot := find_cat_by_id_none _ _ hfind
    have hpush := find_cat_by_id_push _ _ hfind
    obtain ⟨wanted2, hv0, hv1, hcase2⟩ := naturalize_category_cases env
      { s with categories := s.categories ++ [wanted] } category pos
    have hsame : wanted2 = wanted := by
      by_cases hd : env.rl_dist pos = 0
      · rw [hv0 hd, hw0 hd]
      · rw [hv1 hd, hw1 hd]
    rw [hsame] at hcase2
    simp only at hcase2
    rw [hres]
    refine ⟨⟨?_, by simp⟩, ?_, ?_⟩
    · intro hnd
      simp only [List.map_append, List.map_cons, List.map_nil]
      rw [List.nodup_append]
      refine ⟨hnd, by simp, ?_⟩
      intro a ha hb
      simp only [List.mem_singleton] at hb
      obtain ⟨cat, hc1, hc2⟩ := List.mem_map.mp ha
      exact hnot cat hc1 (by rw [hc2, hb])
    · simp only
      rcases hcase2 with ⟨existing, hf2, hr2⟩ | ⟨hf2, _⟩
      · rw [hpush] at hf2
        rw [hr2, ← Option.some.inj hf2]
      · rw [hpush] at hf2
        exact absurd hf2 (by simp)
    · intro hd
      simp only
      rw [hw0 hd]
      exact ⟨rfl, fun _ => rfl⟩

/-- C22: `naturalize_category` is memoized by id.  A list of categories with
pairwise different ids keeps pairwise different ids, and the returned category
is in the list; a second call with the same base category and the same origin
returns the same category and the same selector, so it adds nothing; for an
origin at distance zero the returned category has the id of the base category,
and it is the base category when every category of that id in the list is the
base category (in particular when there is none). -/
theorem naturalize_category_spec (env : selector_env) (s : inventory_selector)
    (category : item_category) (pos : tripoint) :
    (((s.categories.map (fun cat => cat.id)).Nodup →
      ((naturalize_category env s category pos).2.categories.map (fun cat => cat.id)).Nodup) ∧
    (naturalize_category env s category pos).1
      ∈ (naturalize_category env s category pos).2.categories) ∧
    naturalize_category env (naturalize_category env s category pos).2 category pos
      = naturalize_category env s category pos ∧
    (env.rl_dist pos = 0 →
      (naturalize_category env s category pos).1.id = category.id ∧
      ((∀ cat ∈ s.categories, cat.id = category.id → cat = category) →
        (naturalize_category env s category pos).1 = category)) :=
  naturalize_category_memo env s category pos

/-- Witness for C22 on the sample selector: the first sample category at an
origin of distance 2 and at the origin of distance 0. -/
theorem naturalize_category_spec_witness :
    (naturalize_category sample_env sample_selector sample_cat1 { x := 0, y := 2, z := 0 }).1
      = { id := "cat1_N", name := "CAT 1 N", sort_rank := 2 } ∧
    (naturalize_category sample_env sample_selector sample_cat1
        { x := 0, y := 2, z := 0 }).2.categories
      = [{ id := "cat1_N", name := "CAT 1 N", sort_rank := 2 }] ∧
    (naturalize_category sample_env sample_selector sample_cat1 { x := 0, y := 0, z := 0 }).1
      = sample_cat1 ∧
    naturalize_category sample_env
        (naturalize_category sample_env sample_selector sample_cat1
          { x := 0, y := 2, z := 0 }).2 sample_cat1 { x := 0, y := 2, z := 0 }
      = naturalize_category sample_env sample_selector sample_cat1 { x := 0, y := 2, z := 0 } :=
  ⟨by decide, by decide,
    ((naturalize_category_spec sample_env sample_selector sample_cat1
      { x := 0, y := 0, z := 0 }).2.2 (by decide)).2 (by decide),
    (naturalize_category_spec sample_env sample_selector sample_cat1
      { x := 0, y := 2, z := 0 }).2.1⟩

/-! ## The selector: columns behind pointers -/

theorem get_col_set_col_same (s : inventory_selector) (a : column_id) (c : inventory_column) :
    get_col (set_col s a c) a = c := by
  cases a <;> rfl

theorem get_col_set_col_ne (s : inventory_selector) (a b : column_id) (c : inventory_column)
    (h : a ≠ b) : get_col (set_col s a c) b = get_col s b := by
  cases a <;> cases b <;> first | rfl | exact absurd rfl h

theorem set_col_columns (s : inventory_selector) (a : column_id) (c : inventory_column) :
    (set_col s a c).columns = s.columns := by
  cases a <;> rfl

theorem set_col_mode (s : inventory_selector) (a : column_id) (c : inventory_column) :
    (set_col s a c).mode = s.mode := by
  cases a <;> rfl

/-! ## The selector: navigation mode -/

theorem next_mode_next_mode (m : navigation_mode) : next_mode (next_mode m) = m := by
  cases m <;> rfl

theorem next_mode_ne (m : navigation_mode) : next_mode m ≠ m := by
  cases m <;> simp [next_mode]

/-- The loop that sets the mode of the columns behind a list of pointers. -/
theorem set_mode_loop (m : navigation_mode) (l : List column_id) :
    ∀ t : inventory_selector,
      (l.foldl (fun t elem => set_col t elem ((get_col t elem).set_mode m)) t).mode = t.mode ∧
      (l.foldl (fun t elem => set_col t elem ((get_col t elem).set_mode m)) t).columns
        = t.columns ∧
      ∀ id, get_col (l.foldl (fun t elem => set_col t elem ((get_col t elem).set_mode m)) t) id
        = if id ∈ l then (get_col t id).set_mode m else get_col t id := by
  induction l with
  | nil => intro t; simp
  | cons a rest ih =>
    intro t
    obtain ⟨h1, h2, h3⟩ := ih (set_col t a ((get_col t a).set_mode m))
    simp only [List.foldl_cons]
    refine ⟨by rw [h1, set_col_mode], by rw [h2, set_col_columns], ?_⟩
    intro id
    rw [h3 id]
    by_cases hid : a = id
    · rw [← hid, get_col_set_col_same]
      simp [inventory_column.set_mode]
    · rw [get_col_set_col_ne _ _ _ _ hid]
      have : (id ∈ a :: rest) ↔ id ∈ rest := by
        simp only [List.mem_cons]
        constructor
        · rintro (h | h)
          · exact absurd h.symm hid
          · exact h
        · exact Or.inr
      simp only [this]

/-- The state after `toggle_navigation_mode`: the mode is the other one, the
vector of columns is as before, and a column has the new mode when it is in the
vector and is as before when it is not. -/
theorem toggle_navigation_mode_state (s : inventory_selector) :
    (toggle_navigation_mode s).mode = next_mode s.mode ∧
    (toggle_navigation_mode s).columns = s.columns ∧
    ∀ id, get_col (toggle_navigation_mode s) id
      = if id ∈ s.columns then (get_col s id).set_mode (next_mode s.mode) else get_col s id := by
  obtain ⟨h1, h2, h3⟩ := set_mode_loop (next_mode s.mode) s.columns
    { s with mode := next_mode s.mode }
  unfold toggle_navigation_mode
  refine ⟨h1, h2, ?_⟩
  intro id
  rw [h3 id]
  cases id <;> rfl

/-- The state after `append_column`: the mode is as before, the column is at
the back of the vector with the mode of the selector, and the other columns are
as before. -/
theorem append_column_state (s : inventory_selector) (column : column_id) :
    (append_column s column).mode = s.mode ∧
    (append_column s column).columns = s.columns ++ [column] ∧
    (get_col (append_column s column) column).mode = s.mode ∧
    ∀ id, id ≠ column → get_col (append_column s column) id = get_col s id := by
  unfold append_column
  simp only
  rw [set_col_columns]
  by_cases he : s.columns.isEmpty = true
  · rw [if_pos he]
    refine ⟨?_, ?_, ?_, ?_⟩
    · cases column <;> rfl
    · cases column <;> rfl
    · cases column <;> rfl
    · intro id hid
      cases column <;> cases id <;> first | rfl | exact absurd rfl hid
  · rw [if_neg he]
    refine ⟨?_, ?_, ?_, ?_⟩
    · cases column <;> rfl
    · cases column <;> rfl
    · cases column <;> rfl
    · intro id hid
      cases column <;> cases id <;> first | rfl | exact absurd rfl hid

/-- C23: `toggle_navigation_mode` leads from either mode to the other one, and
applying it twice restores the mode of the selector; after a toggle every
column of the selector has the mode of the selector; after `append_column` the
mode of the selector is as before and, when every column of the selector had
the mode of the selector, every column of the selector, the new one included,
still has it. -/
theorem toggle_navigation_mode_spec (s : inventory_selector) (column : column_id) :
    (toggle_navigation_mode s).mode ≠ s.mode ∧
    (toggle_navigation_mode (toggle_navigation_mode s)).mode = s.mode ∧
    (∀ id ∈ (toggle_navigation_mode s).columns,
      (get_col (toggle_navigation_mode s) id).mode = (toggle_navigation_mode s).mode) ∧
    (append_column s column).mode = s.mode ∧
    ((∀ id ∈ s.columns, (get_col s id).mode = s.mode) →
      ∀ id ∈ (append_column s column).columns,
        (get_col (append_column s column) id).mode = (append_column s column).mode) := by
  obtain ⟨t1, t2, t3⟩ := toggle_navigation_mode_state s
  obtain ⟨u1, _, _⟩ := toggle_navigation_mode_state (toggle_navigation_mode s)
  obtain ⟨a1, a2, a3, a4⟩ := append_column_state s column
  refine ⟨by rw [t1]; exact next_mode_ne _, by rw [u1, t1, next_mode_next_mode], ?_, a1, ?_⟩
  · intro id hid
    rw [t2] at hid
    rw [t3 id, if_pos hid, t1]
    rfl
  · intro hall id hid
    rw [a2] at hid
    rw [a1]
    by_cases hc : id = column
    · rw [hc]; exact a3
    · rw [a4 id hc]
      rcases List.mem_append.mp hid with h | h
      · exact hall id h
      · simp only [List.mem_singleton] at h
        exact absurd h hc

/-- Witness for C23 on the sample selector: two toggles lead from ITEM to
CATEGORY and back, and after a toggle the four columns are in CATEGORY mode. -/
theorem toggle_navigation_mode_spec_witness :
    sample_selector.mode = navigation_mode.ITEM ∧
    (toggle_navigation_mode sample_selector).mode = navigation_mode.CATEGORY ∧
    (toggle_navigation_mode (toggle_navigation_mode sample_selector)).mode
      = navigation_mode.ITEM ∧
    ((toggle_navigation_mode sample_selector).columns.map
      (fun id => (get_col (toggle_navigation_mode sample_selector) id).mode))
      = [navigation_mode.CATEGORY, navigation_mode.CATEGORY, navigation_mode.CATEGORY,
          navigation_mode.CATEGORY] ∧
    ∀ id ∈ (toggle_navigation_mode sample_selector).columns,
      (get_col (toggle_navigation_mode sample_selector) id).mode
        = (toggle_navigation_mode sample_selector).mode :=
  ⟨by decide, by decide, by decide, by decide,
    (toggle_navigation_mode_spec sample_selector column_id.OWN_INV).2.2.1⟩

/-! ## Shortcut keys: `reassign_custom_invlets` -/

theorem reassign_custom_invlets_loop_length (has_item : item → Bool) (max_invlet : Int)
    (l : List inventory_entry) :
    ∀ cur, (reassign_custom_invlets_loop has_item max_invlet l cur).1.length = l.length := by
  induction l with
  | nil => intro cur; rfl
  | cons elem rest ih =>
    intro cur
    unfold reassign_custom_invlets_loop
    split
    · split <;> simp [ih]
    · simp [ih]

/-- The key returned by the loop of `reassign_custom_invlets`. -/
theorem reassign_custom_invlets_loop_result (has_item : item → Bool) (max_invlet : Int)
    (l : List inventory_entry) :
    ∀ cur, cur ≤ max_invlet + 1 →
      (reassign_custom_invlets_loop has_item max_invlet l cur).2
        = cur + min ((l.filter (eligible has_item)).length : Int) (max_invlet - cur + 1) := by
  induction l with
  | nil => intro cur h; simp [reassign_custom_invlets_loop]; omega
  | cons elem rest ih =>
    intro cur h
    unfold reassign_custom_invlets_loop
    by_cases he : eligible has_item elem = true
    · have he2 : (elem.is_selectable && !possessed has_item elem) = true := he
      rw [if_pos he2]
      simp only [List.filter_cons, he, if_true, List.length_cons]
      by_cases hc : cur ≤ max_invlet
      · rw [if_pos hc]
        simp only
        rw [ih (cur + 1) (by omega)]
        push_cast
        omega
      · rw [if_neg hc]
        simp only
        rw [ih cur h]
        push_cast
        omega
    · have he2 : ¬ (elem.is_selectable && !possessed has_item elem) = true := he
      rw [if_neg he2]
      simp only [List.filter_cons, he]
      rw [ih cur h]
      simp

theorem invlet_for_succ (cur max_invlet : Int) (j : Nat) :
    invlet_for (cur + 1) max_invlet j = invlet_for cur max_invlet (j + 1) := by
  unfold invlet_for
  push_cast
  split <;> split <;> omega

theorem invlet_for_exhausted (cur max_invlet : Int) (j : Nat) (h : ¬ cur ≤ max_invlet) :
    invlet_for cur max_invlet j = 0 := by
  unfold invlet_for
  rw [if_neg (by omega)]

/-- The rows after the loop of `reassign_custom_invlets`: an eligible row has
the key of its rank among the eligible rows, every other row is as before. -/
theorem reassign_custom_invlets_loop_rows (has_item : item → Bool) (max_invlet : Int)
    (l : List inventory_entry) :
    ∀ cur i, i < l.length →
      entry_at (reassign_custom_invlets_loop has_item max_invlet l cur).1 i
        = if eligible has_item (entry_at l i) then
            { entry_at l i with
              custom_invlet := some (invlet_for cur max_invlet (eligible_before has_item l i)) }
          else entry_at l i := by
  induction l with
  | nil => intro cur i hi; simp at hi
  | cons elem rest ih =>
    intro cur i hi
    unfold reassign_custom_invlets_loop
    by_cases he : eligible has_item elem = true
    · have he2 : (elem.is_selectable && !possessed has_item elem) = true := he
      rw [if_pos he2]
      by_cases hc : cur ≤ max_invlet
      · rw [if_pos hc]
        simp only
        cases i with
        | zero =>
          rw [entry_at_zero, entry_at_zero, if_pos he]
          simp [eligible_before, invlet_for, hc]
        | succ i =>
          rw [entry_at_succ, entry_at_succ, ih (cur + 1) i (by simpa using hi)]
          have e : eligible_before has_item (elem :: rest) (i + 1)
              = eligible_before has_item rest i + 1 := by
            simp [eligible_before, List.take_succ_cons, List.filter_cons, he]
          rw [e, invlet_for_succ cur max_invlet _]
      · rw [if_neg hc]
        simp only
        cases i with
        | zero =>
          rw [entry_at_zero, entry_at_zero, if_pos he, invlet_for_exhausted _ _ _ hc]
        | succ i =>
          rw [entry_at_succ, entry_at_succ, ih cur i (by simpa using hi)]
          rw [invlet_for_exhausted _ _ _ hc, invlet_for_exhausted _ _ _ hc]
    · have he2 : ¬ (elem.is_selectable && !possessed has_item elem) = true := he
      rw [if_neg he2]
      simp only
      cases i with
      | zero =>
        rw [entry_at_zero, entry_at_zero, if_neg he]
      | succ i =>
        rw [entry_at_succ, entry_at_succ, ih cur i (by simpa using hi)]
        have e : eligible_before has_item (elem :: rest) (i + 1)
            = eligible_before has_item rest i := by
          simp [eligible_before, List.take_succ_cons, List.filter_cons, he]
        rw [e]

/-- The number of eligible rows before an eligible row is less than the number
before every later row. -/
theorem eligible_before_lt (has_item : item → Bool) (l : List inventory_entry) (i j : Nat)
    (hij : i < j) (hj : j ≤ l.length) (he : eligible has_item (entry_at l i) = true) :
    eligible_before has_item l i < eligible_before has_item l j := by
  induction l generalizing i j with
  | nil => simp at hj; omega
  | cons elem rest ih =>
    cases j with
    | zero => omega
    | succ j =>
      cases i with
      | zero =>
        rw [entry_at_zero] at he
        simp [eligible_before, List.take_succ_cons, List.filter_cons, he]
      | succ i =>
        rw [entry_at_succ] at he
        have := ih i j (by omega) (by simpa using hj) he
        by_cases h0 : eligible has_item elem = true
        · simp only [eligible_before, List.take_succ_cons, List.filter_cons, h0, if_true,
            List.length_cons] at this ⊢
          omega
        · simp only [eligible_before, List.take_succ_cons, List.filter_cons, h0] at this ⊢
          exact this

theorem eligible_before_le (has_item : item → Bool) (l : List inventory_entry) (i : Nat) :
    eligible_before has_item l i ≤ (l.filter (eligible has_item)).length := by
  unfold eligible_before
  have h : ((l.take i).filter (eligible has_item)).Sublist (l.filter (eligible has_item)) :=
    (List.take_sublist i l).filter _
  exact h.length_le

theorem eligible_before_lt_count (has_item : item → Bool) (l : List inventory_entry) (i : Nat)
    (hi : i < l.length) (he : eligible has_item (entry_at l i) = true) :
    eligible_before has_item l i < (l.filter (eligible has_item)).length := by
  have h1 := eligible_before_lt has_item l i l.length hi (Nat.le_refl _) he
  have h2 := eligible_before_le has_item l l.length
  omega

theorem eligible_custom_invlet (has_item : item → Bool) (elem : inventory_entry)
    (k : Option Int) :
    eligible has_item { elem with custom_invlet := k } = eligible has_item elem := rfl

/-- The keys in a column after `reassign_custom_invlets` with a first key that
is positive and not above `max_invlet + 1`: the returned key is the first key
plus the number of keys handed out; the key of an eligible row is null or lies
between the first key and the returned key; and two different eligible rows
have the same key only when it is the null key. -/
theorem reassign_custom_invlets_keys (has_item : item → Bool) (c : inventory_column)
    (min_invlet max_invlet : Int) (hpos : 0 < min_invlet)
    (hmin : min_invlet ≤ max_invlet + 1) :
    (reassign_custom_invlets has_item c min_invlet max_invlet).2
      = min_invlet + min ((c.entries.filter (eligible has_item)).length : Int)
          (max_invlet - min_invlet + 1) ∧
    (reassign_custom_invlets has_item c min_invlet max_invlet).1.entries.length
      = c.entries.length ∧
    (∀ i, i < c.entries.length →
      eligible has_item
        (entry_at (reassign_custom_invlets has_item c min_invlet max_invlet).1.entries i) = true →
      (entry_at (reassign_custom_invlets has_item c min_invlet max_invlet).1.entries
          i).custom_invlet = some 0 ∨
        ∃ k, (entry_at (reassign_custom_invlets has_item c min_invlet max_invlet).1.entries
            i).custom_invlet = some k ∧ min_invlet ≤ k ∧
          k < (reassign_custom_invlets has_item c min_invlet max_invlet).2) ∧
    (∀ i j, i < c.entries.length → j < c.entries.length → i ≠ j →
      eligible has_item
        (entry_at (reassign_custom_invlets has_item c min_invlet max_invlet).1.entries i) = true →
      eligible has_item
        (entry_at (reassign_custom_invlets has_item c min_invlet max_invlet).1.entries j) = true →
      (entry_at (reassign_custom_invlets has_item c min_invlet max_invlet).1.entries
          i).custom_invlet
        = (entry_at (reassign_custom_invlets has_item c min_invlet max_invlet).1.entries
          j).custom_invlet →
      (entry_at (reassign_custom_invlets has_item c min_invlet max_invlet).1.entries
          i).custom_invlet = some 0) := by
  have hres := reassign_custom_invlets_loop_result has_item max_invlet c.entries min_invlet hmin
  have hrows := reassign_custom_invlets_loop_rows has_item max_invlet c.entries min_invlet
  have hkey : ∀ i, i < c.entries.length →
      eligible has_item
        (entry_at (reassign_custom_invlets has_item c min_invlet max_invlet).1.entries i) = true →
      eligible has_item (entry_at c.entries i) = true ∧
      (entry_at (reassign_custom_invlets has_item c min_invlet max_invlet).1.entries
          i).custom_invlet
        = some (invlet_for min_invlet max_invlet (eligible_before has_item c.entries i)) := by
    intro i hi he
    unfold reassign_custom_invlets at he ⊢
    simp only at he ⊢
    rw [hrows i hi] at he ⊢
    by_cases h0 : eligible has_item (entry_at c.entries i) = true
    · rw [if_pos h0]
      exact ⟨h0, rfl⟩
    · rw [if_neg h0] at he
      exact absurd he h0
  refine ⟨hres, reassign_custom_invlets_loop_length has_item max_invlet c.entries min_invlet,
    ?_, ?_⟩
  · intro i hi he
    obtain ⟨h0, hk⟩ := hkey i hi he
    have hlt := eligible_before_lt_count has_item c.entries i hi h0
    rw [hk]
    unfold invlet_for
    split
    · right
      refine ⟨_, rfl, by omega, ?_⟩
      unfold reassign_custom_invlets
      simp only
      rw [hres]
      omega
    · left; rfl
  · intro i j hi hj hij hei hej heq
    obtain ⟨h0i, hki⟩ := hkey i hi hei
    obtain ⟨h0j, hkj⟩ := hkey j hj hej
    rw [hki] at heq ⊢
    rw [hkj] at heq
    have hne : eligible_before has_item c.entries i ≠ eligible_before has_item c.entries j := by
      rcases Nat.lt_or_gt_of_ne hij with h | h
      · have := eligible_before_lt has_item c.entries i j h (by omega) h0i
        omega
      · have := eligible_before_lt has_item c.entries j i h (by omega) h0j
        omega
    have heq2 := Option.some.inj heq
    unfold invlet_for at heq2 ⊢
    split at heq2
    · split at heq2
      · omega
      · omega
    · rename_i h1
      rw [if_neg h1]

theorem column_prepare_paging_plain (env : selector_env) (fuel : Nat)
    (s : inventory_selector) (elem : column_id) (hne : elem ≠ column_id.SELECTION) :
    column_prepare_paging env fuel s elem
      = (prepare_paging env.X env.P fuel (get_col s elem)).map (fun c => set_col s elem c) := by
  cases elem <;> first | rfl | exact absurd rfl hne

/-- The call `elem->prepare_paging()` leaves the other columns as they are. -/
theorem column_prepare_paging_others (env : selector_env) (fuel : Nat)
    (s t : inventory_selector) (elem : column_id)
    (h : column_prepare_paging env fuel s elem = some t) :
    ∀ id, id ≠ elem → get_col t id = get_col s id := by
  intro id hid
  by_cases hsel : elem = column_id.SELECTION
  · rw [hsel] at h hid
    simp only [column_prepare_paging] at h
    cases hp : selection_column.prepare_paging env.SX env.SP fuel s.selection_col with
    | none => rw [hp] at h; simp at h
    | some sc =>
      rw [hp] at h
      simp only [Option.map_some', Option.some.injEq] at h
      rw [← h]
      cases id <;> first | rfl | exact absurd rfl hid
  · rw [column_prepare_paging_plain env fuel s elem hsel] at h
    cases hp : prepare_paging env.X env.P fuel (get_col s elem) with
    | none => rw [hp] at h; simp at h
    | some c =>
      rw [hp] at h
      simp only [Option.map_some', Option.some.injEq] at h
      rw [← h]
      exact get_col_set_col_ne _ _ _ _ (Ne.symm hid)

/-- The keys after the loop of lines 923-926 over columns that are pairwise
different, started with a positive key of at most 58: the key of an eligible
row of one of the columns is null or lies between the first key and 57, and two
different eligible rows of these columns have the same key only when it is the
null key. -/
theorem assign_custom_invlets_keys (env : selector_env) (fuel : Nat) :
    ∀ (cols : List column_id) (s r : inventory_selector) (cur : Int),
      cols.Nodup → 0 < cur → cur ≤ 58 →
      assign_custom_invlets env fuel cols s cur = some r →
      ∃ last, cur ≤ last ∧ last ≤ 58 ∧
        (∀ id, id ∉ cols → get_col r id = get_col s id) ∧
        (∀ id ∈ cols, ∀ i, i < (get_col r id).entries.length →
          eligible env.has_item (entry_at (get_col r id).entries i) = true →
          (entry_at (get_col r id).entries i).custom_invlet = some 0 ∨
          ∃ k, (entry_at (get_col r id).entries i).custom_invlet = some k ∧
            cur ≤ k ∧ k < last) ∧
        (∀ id1 ∈ cols, ∀ id2 ∈ cols, ∀ i1 i2,
          i1 < (get_col r id1).entries.length → i2 < (get_col r id2).entries.length →
          (id1 ≠ id2 ∨ i1 ≠ i2) →
          eligible env.has_item (entry_at (get_col r id1).entries i1) = true →
          eligible env.has_item (entry_at (get_col r id2).entries i2) = true →
          (entry_at (get_col r id1).entries i1).custom_invlet
            = (entry_at (get_col r id2).entries i2).custom_invlet →
          (entry_at (get_col r id1).entries i1).custom_invlet = some 0) := by
  intro cols
  induction cols with
  | nil =>
    intro s r cur _ _ hc h
    simp only [assign_custom_invlets, Option.some.injEq] at h
    rw [← h]
    exact ⟨cur, le_refl _, hc, fun _ _ => rfl, by simp, by simp⟩
  | cons a rest ih =>
    intro s r cur hnd hpos hc h
    have ha : a ∉ rest := (List.nodup_cons.mp hnd).1
    have hrest : rest.Nodup := (List.nodup_cons.mp hnd).2
    simp only [assign_custom_invlets] at h
    cases hp : column_prepare_paging env fuel s a with
    | none => rw [hp] at h; simp at h
    | some t =>
      rw [hp] at h
      simp only at h
      obtain ⟨k1, k2, k3, k4⟩ := reassign_custom_invlets_keys env.has_item (get_col t a) cur 57
        hpos (by omega)
      have hnext : cur ≤ (reassign_custom_invlets env.has_item (get_col t a) cur 57).2 ∧
          (reassign_custom_invlets env.has_item (get_col t a) cur 57).2 ≤ 58 := by
        rw [k1]; omega
      obtain ⟨last, l1, l2, l3, l4, l5⟩ := ih _ r _ hrest (by omega) hnext.2 h
      have hcola : get_col r a = (reassign_custom_invlets env.has_item (get_col t a) cur 57).1 := by
        rw [l3 a ha, get_col_set_col_same]
      have hkeya : ∀ i, i < (get_col r a).entries.length →
          eligible env.has_item (entry_at (get_col r a).entries i) = true →
          (entry_at (get_col r a).entries i).custom_invlet = some 0 ∨
          ∃ k, (entry_at (get_col r a).entries i).custom_invlet = some k ∧ cur ≤ k ∧
            k < (reassign_custom_invlets env.has_item (get_col t a) cur 57).2 := by
        intro i hi he
        rw [hcola] at hi he ⊢
        exact k3 i (by rw [← k2]; exact hi) he
      refine ⟨last, by omega, l2, ?_, ?_, ?_⟩
      · intro id hid
        have h1 : id ≠ a := fun e => hid (by rw [e]; simp)
        have h2 : id ∉ rest := fun e => hid (by simp [e])
        rw [l3 id h2, get_col_set_col_ne _ _ _ _ (Ne.symm h1)]
        exact column_prepare_paging_others env fuel s t a hp id h1
      · intro id hid i hi he
        rcases List.mem_cons.mp hid with h1 | h1
        · rw [h1] at hi he ⊢
          rcases hkeya i hi he with h2 | ⟨k, h2, h3, h4⟩
          · exact Or.inl h2
          · exact Or.inr ⟨k, h2, h3, by omega⟩
        · rcases l4 id h1 i hi he with h2 | ⟨k, h2, h3, h4⟩
          · exact Or.inl h2
          · exact Or.inr ⟨k, h2, by omega, h4⟩
      · intro id1 hid1 id2 hid2 i1 i2 hi1 hi2 hne he1 he2 heq
        rcases List.mem_cons.mp hid1 with h1 | h1
        · rcases List.mem_cons.mp hid2 with h2 | h2
          · -- both rows in the first column
            rw [h1] at hi1 he1 heq ⊢
            rw [h2] at hi2 he2 heq
            have hi : i1 ≠ i2 := by
              rcases hne with h | h
              · exact absurd (h1.trans h2.symm) h
              · exact h
            rw [hcola] at hi1 hi2 he1 he2 heq ⊢
            exact k4 i1 i2 (by rw [← k2]; exact hi1) (by rw [← k2]; exact hi2) hi he1 he2 heq
          · rw [h1] at hi1 he1 heq ⊢
            rcases hkeya i1 hi1 he1 with h3 | ⟨k, h3, h4, h5⟩
            · exact h3
            · rcases l4 id2 h2 i2 hi2 he2 with h6 | ⟨k', h6, h7, h8⟩
              · rw [← heq] at h6; exact h6
              · rw [h3, h6] at heq
                have := Option.some.inj heq
                omega
        · rcases List.mem_cons.mp hid2 with h2 | h2
          · rw [h2] at hi2 he2 heq
            rcases hkeya i2 hi2 he2 with h3 | ⟨k, h3, h4, h5⟩
            · rw [heq]; exact h3
            · rcases l4 id1 h1 i1 hi1 he1 with h6 | ⟨k', h6, h7, h8⟩
              · exact h6
              · rw [h3, h6] at heq
                have := Option.some.inj heq
                omega
          · exact l5 id1 h1 id2 h2 i1 i2 hi1 hi2 hne he1 he2 heq

/-- On a column whose paging is valid the call `elem->prepare_paging()` returns
and leaves the paging valid. -/
theorem column_prepare_paging_valid (env : selector_env) (fuel : Nat)
    (s : inventory_selector) (elem : column_id)
    (h : (get_col s elem).paging_is_valid = true) :
    ∃ t, column_prepare_paging env fuel s elem = some t ∧
      (get_col t elem).paging_is_valid = true := by
  by_cases hsel : elem = column_id.SELECTION
  · rw [hsel] at h ⊢
    have h2 : s.selection_col.base.paging_is_valid = true := h
    have hb : InventoryUI.prepare_paging env.SX env.SP fuel s.selection_col.base
        = some s.selection_col.base := by
      unfold InventoryUI.prepare_paging
      rw [if_pos h2]
    simp only [column_prepare_paging, selection_column.prepare_paging, hb]
    by_cases hem : s.selection_col.base.entries.isEmpty = true
    · rw [if_pos hem]
      refine ⟨_, rfl, ?_⟩
      simp only [get_col]
      rw [(expand_to_fit_frame env.SX env.SP _ _).2.2.2.1]
      exact h
    · rw [if_neg hem]
      exact ⟨_, rfl, h⟩
  · have hb : prepare_paging env.X env.P fuel (get_col s elem) = some (get_col s elem) := by
      unfold prepare_paging
      rw [if_pos h]
    rw [column_prepare_paging_plain env fuel s elem hsel, hb]
    exact ⟨_, rfl, by rw [get_col_set_col_same]; exact h⟩

/-- The loop of lines 923-926 returns when the paging of its columns is valid,
as it is after the first loop of `prepare_layout`. -/
theorem assign_custom_invlets_returns (env : selector_env) (fuel : Nat) :
    ∀ (cols : List column_id) (s : inventory_selector) (cur : Int),
      (∀ id ∈ cols, (get_col s id).paging_is_valid = true) →
      ∃ r, assign_custom_invlets env fuel cols s cur = some r := by
  intro cols
  induction cols with
  | nil => intro s cur _; exact ⟨s, rfl⟩
  | cons a rest ih =>
    intro s cur hv
    obtain ⟨t, ht, htv⟩ := column_prepare_paging_valid env fuel s a (hv a (by simp))
    simp only [assign_custom_invlets, ht]
    apply ih
    intro id hid
    by_cases hc : id = a
    · rw [hc, get_col_set_col_same]
      exact htv
    · rw [get_col_set_col_ne _ _ _ _ (Ne.symm hc),
        column_prepare_paging_others env fuel s t a ht id hc]
      exact hv id (by simp [hid])

/-- C24: for `min_invlet <= max_invlet + 1`, `reassign_custom_invlets` keeps the
number of rows, gives the `j`-th eligible row (selectable, not possessed by the
player; `j` from 0) the key `min_invlet + j` while that is at most `max_invlet`
and the null key afterwards, leaves every other row as it is, and returns
`min_invlet + min( k, max_invlet - min_invlet + 1 )` for `k` eligible rows.
When the returned key is chained through pairwise different columns as in
lines 922-926 of `prepare_layout`, two different eligible rows of these columns
have the same key only when it is the null key; the chain returns when the
paging of the columns is valid. -/
theorem reassign_custom_invlets_spec (env : selector_env) (c : inventory_column)
    (min_invlet max_invlet : Int) (hmin : min_invlet ≤ max_invlet + 1) :
    ((reassign_custom_invlets env.has_item c min_invlet max_invlet).1.entries.length
      = c.entries.length ∧
    (∀ i, i < c.entries.length →
      entry_at (reassign_custom_invlets env.has_item c min_invlet max_invlet).1.entries i
        = if eligible env.has_item (entry_at c.entries i) then
            { entry_at c.entries i with
              custom_invlet :=
                some (invlet_for min_invlet max_invlet
                  (eligible_before env.has_item c.entries i)) }
          else entry_at c.entries i) ∧
    (reassign_custom_invlets env.has_item c min_invlet max_invlet).2
      = min_invlet + min ((c.entries.filter (eligible env.has_item)).length : Int)
          (max_invlet - min_invlet + 1)) ∧
    ∀ (fuel : Nat) (s : inventory_selector), s.columns.Nodup →
      ((∀ id ∈ s.columns, (get_col s id).paging_is_valid = true) →
        ∃ r, assign_custom_invlets env fuel s.columns s 48 = some r) ∧
      ∀ r, assign_custom_invlets env fuel s.columns s 48 = some r →
        ∀ id1 ∈ s.columns, ∀ id2 ∈ s.columns, ∀ i1 i2,
          i1 < (get_col r id1).entries.length → i2 < (get_col r id2).entries.length →
          (id1 ≠ id2 ∨ i1 ≠ i2) →
          eligible env.has_item (entry_at (get_col r id1).entries i1) = true →
          eligible env.has_item (entry_at (get_col r id2).entries i2) = true →
          (entry_at (get_col r id1).entries i1).custom_invlet
            = (entry_at (get_col r id2).entries i2).custom_invlet →
          (entry_at (get_col r id1).entries i1).custom_invlet = some 0 := by
  refine ⟨⟨reassign_custom_invlets_loop_length env.has_item max_invlet c.entries min_invlet,
    reassign_custom_invlets_loop_rows env.has_item max_invlet c.entries min_invlet,
    reassign_custom_invlets_loop_result env.has_item max_invlet c.entries min_invlet hmin⟩, ?_⟩
  intro fuel s hnd
  refine ⟨assign_custom_invlets_returns env fuel s.columns s 48, ?_⟩
  intro r hr
  obtain ⟨_, _, _, _, _, h5⟩ := assign_custom_invlets_keys env fuel s.columns s r 48 hnd
    (by decide) (by decide) hr
  exact h5

/-- Witness for C24 on the paginated sample column, of whose items the player
possesses the first two: with the keys 48 and 49 the rows `C` and `D` get them,
the row `E` gets the null key, and 50 is returned. -/
theorem reassign_custom_invlets_spec_witness :
    ((reassign_custom_invlets sample_env.has_item sample_paged 48 49).1.entries.map
      (fun e => e.custom_invlet))
      = [none, none, none, none, some 48, some 49, none, some 0] ∧
    (reassign_custom_invlets sample_env.has_item sample_paged 48 49).2 = 50 ∧
    (reassign_custom_invlets sample_env.has_item sample_paged 48 49).2
      = 48 + min ((sample_paged.entries.filter (eligible sample_env.has_item)).length : Int)
          (49 - 48 + 1) :=
  ⟨by decide, by decide,
    (reassign_custom_invlets_spec sample_env sample_paged 48 49 (by decide)).1.2.2⟩

/-! ## The selector: the places of the columns in `draw_columns` -/

theorem bmod_small (x : Int) (h1 : -(2 ^ 31) ≤ x) (h2 : x < 2 ^ 31) :
    Int.bmod x (2 ^ 32) = x := by
  unfold Int.bmod
  simp only
  split <;> omega

theorem size_t_range_cast : (size_t_range : Int) = 18446744073709551616 := by
  unfold size_t_range
  norm_num

theorem columns_width_sum_cons (s : inventory_selector) (a : column_id) (l : List column_id) :
    columns_width_sum s (a :: l) = get_width (get_col s a) + columns_width_sum s l := by
  simp [columns_width_sum]

theorem columns_width_sum_nil (s : inventory_selector) : columns_width_sum s [] = 0 := rfl

/-- The accumulation of `get_columns_width` adds the widths when the sum stays
below 2^31. -/
theorem get_columns_width_loop (s : inventory_selector) (l : List column_id) :
    ∀ acc : Int, 0 ≤ acc → acc + (columns_width_sum s l : Int) < 2 ^ 31 →
      l.foldl
        (fun (lhs : Int) id =>
          Int.bmod ((lhs % (size_t_range : Int)) + (get_width (get_col s id) : Int)) (2 ^ 32))
        acc
        = acc + (columns_width_sum s l : Int) := by
  induction l with
  | nil => intro acc _ _; simp [columns_width_sum_nil]
  | cons a rest ih =>
    intro acc h0 h
    rw [columns_width_sum_cons] at h ⊢
    have h2 : acc + ((get_width (get_col s a) : Int) + (columns_width_sum s rest : Int))
        < 2 ^ 31 := by
      push_cast at h
      exact h
    have hm : acc % (size_t_range : Int) = acc := by
      rw [size_t_range_cast]
      omega
    simp only [List.foldl_cons]
    rw [hm, bmod_small _ (by omega) (by omega), ih _ (by omega) (by omega)]
    push_cast
    omega

/-- For widths that sum to less than 2^31, `get_columns_width` is their sum. -/
theorem get_columns_width_small (s : inventory_selector) (l : List column_id)
    (h : columns_width_sum s l < 2 ^ 31) :
    get_columns_width s l = columns_width_sum s l := by
  unfold get_columns_width
  rw [get_columns_width_loop s l 0 (le_refl _) (by omega), size_t_range_cast]
  omega

theorem size_t_add_small (x : Nat) (d : Int) (h0 : 0 ≤ (x : Int) + d)
    (h1 : (x : Int) + d < 2 ^ 64) : ((size_t_add x d : Nat) : Int) = (x : Int) + d := by
  unfold size_t_add
  rw [size_t_range_cast]
  omega

/-- The right edge of the last column in the loop of `draw_columns`, for gaps
that are not negative and places below 2^64: the first place plus the widths of
the columns, a gap between two columns, and the rounding error. -/
theorem draw_columns_loop_edge (s : inventory_selector) (gap gap_rounding_error : Int)
    (hg : 0 ≤ gap) (hr : 0 ≤ gap_rounding_error) (l : List column_id) :
    ∀ x : Nat, l ≠ [] →
      (x : Int) + (columns_width_sum s l : Int) + gap * ((l.length - 1 : Nat) : Int)
        + gap_rounding_error < 2 ^ 64 →
      (draw_columns_loop s gap gap_rounding_error l x).length = l.length ∧
      ∃ last elem, (draw_columns_loop s gap gap_rounding_error l x).getLast? = some last ∧
        l.getLast? = some elem ∧
        (last : Int) + (get_width (get_col s elem) : Int)
          = (x : Int) + (columns_width_sum s l : Int) + gap * ((l.length - 1 : Nat) : Int)
            + gap_rounding_error := by
  induction l with
  | nil => intro x h; exact absurd rfl h
  | cons a rest ih =>
    intro x _ hlt
    cases rest with
    | nil =>
      rw [columns_width_sum_cons, columns_width_sum_nil] at hlt ⊢
      simp only [List.length_singleton, Nat.sub_self, Nat.cast_zero, Int.mul_zero] at hlt ⊢
      push_cast at hlt ⊢
      refine ⟨rfl, size_t_add x gap_rounding_error, a, rfl, rfl, ?_⟩
      rw [size_t_add_small x gap_rounding_error (by omega) (by omega)]
      omega
    | cons b rest2 =>
      rw [columns_width_sum_cons] at hlt ⊢
      simp only [List.length_cons, Nat.add_sub_cancel] at hlt ih ⊢
      push_cast at hlt ⊢
      have hmul : gap * ((rest2.length : Int) + 1) = gap * (rest2.length : Int) + gap := by
        rw [Int.mul_add, Int.mul_one]
      have hgl : 0 ≤ gap * (rest2.length : Int) := Int.mul_nonneg hg (by omega)
      rw [hmul] at hlt ⊢
      have hwm : ((get_width (get_col s a) : Nat) : Int) % (size_t_range : Int)
          = (get_width (get_col s a) : Int) := by
        rw [size_t_range_cast]
        omega
      have hnext : ((size_t_add x
          ((get_width (get_col s a) : Int) % (size_t_range : Int) + gap) : Nat) : Int)
          = (x : Int) + (get_width (get_col s a) : Int) + gap := by
        rw [hwm, size_t_add_small x _ (by omega) (by omega)]
        omega
      obtain ⟨h1, last, elem, h2, h3, h4⟩ := ih
        (size_t_add x ((get_width (get_col s a) : Int) % (size_t_range : Int) + gap))
        (by simp) (by rw [hnext]; omega)
      refine ⟨by simp only [draw_columns_loop, List.length_cons, h1], last, elem, ?_, ?_, ?_⟩
      · simp only [draw_columns_loop]
        cases hl : draw_columns_loop s gap gap_rounding_error (b :: rest2)
            (size_t_add x ((get_width (get_col s a) : Int) % (size_t_range : Int) + gap)) with
        | nil => rw [hl] at h1; simp at h1
        | cons p ps =>
          rw [hl] at h2
          rw [List.getLast?_cons_cons]
          exact h2
      · rw [List.getLast?_cons_cons]
        exact h3
      · rw [h4, hnext]
        omega

/-- The free space, the gap and the rounding error of `draw_columns` for
centered columns whose widths fit the screen width. -/
theorem draw_columns_gaps (s : inventory_selector) (sw : Int)
    (hsw0 : 0 ≤ sw) (hsw : sw < 2 ^ 31)
    (hn : 2 ≤ (get_visible_columns s).length)
    (hn2 : (get_visible_columns s).length < 2 ^ 31)
    (hcent : are_columns_centered s (to_size_t sw) = true)
    (hfree : (columns_width_sum s (get_visible_columns s) : Int) ≤ sw) :
    draw_free_space s sw = sw - (columns_width_sum s (get_visible_columns s) : Int) ∧
    draw_gap s sw
      = (sw - (columns_width_sum s (get_visible_columns s) : Int))
          / (((get_visible_columns s).length - 1 : Nat) : Int) ∧
    draw_gap_rounding_error s sw
      = (sw - (columns_width_sum s (get_visible_columns s) : Int))
          % (((get_visible_columns s).length - 1 : Nat) : Int) := by
  have hw : get_columns_width s (get_visible_columns s)
      = columns_width_sum s (get_visible_columns s) :=
    get_columns_width_small s _ (by omega)
  have hf : draw_free_space s sw = sw - (columns_width_sum s (get_visible_columns s) : Int) := by
    unfold draw_free_space
    rw [hw, bmod_small _ (by omega) (by omega)]
  have hc : are_columns_centered s (sw % (size_t_range : Int)).toNat = true := hcent
  have hnb : Int.bmod ((get_visible_columns s).length : Int) (2 ^ 32) - 1
      = (((get_visible_columns s).length - 1 : Nat) : Int) := by
    rw [bmod_small _ (by omega) (by omega)]
    omega
  refine ⟨hf, ?_, ?_⟩
  · unfold draw_gap
    simp only [hc, if_true, hf]
    rw [if_pos (by omega), hnb, Int.tdiv_eq_ediv (by omega) (by omega)]
  · unfold draw_gap_rounding_error
    simp only [hc, hf, Bool.true_and]
    rw [if_pos (by simpa using (by omega : 1 < (get_visible_columns s).length))]
    have h1 : ((sw - (columns_width_sum s (get_visible_columns s) : Int))
        % (size_t_range : Int)).toNat
        = (sw - (columns_width_sum s (get_visible_columns s) : Int)).toNat := by
      rw [size_t_range_cast]
      omega
    rw [h1]
    have h2 : (((sw - (columns_width_sum s (get_visible_columns s) : Int)).toNat
        % ((get_visible_columns s).length - 1) : Nat) : Int)
        = (sw - (columns_width_sum s (get_visible_columns s) : Int))
          % (((get_visible_columns s).length - 1 : Nat) : Int) := by
      rw [Int.natCast_mod, Int.toNat_of_nonneg (by omega)]
    have h3 : 0 ≤ (sw - (columns_width_sum s (get_visible_columns s) : Int))
          % (((get_visible_columns s).length - 1 : Nat) : Int) :=
      Int.emod_nonneg _ (by omega)
    have h4 : (sw - (columns_width_sum s (get_visible_columns s) : Int))
          % (((get_visible_columns s).length - 1 : Nat) : Int)
          < (((get_visible_columns s).length - 1 : Nat) : Int) :=
      Int.emod_lt_of_pos _ (by omega)
    rw [h2, bmod_small _ (by omega) (by omega)]

/-- The widths, gaps and rounding error of `draw_columns` fill the screen width
and the last column ends at the right edge of the drawing area. -/
theorem draw_columns_fill (s : inventory_selector) (maxx : Int)
    (hb0 : 0 ≤ s.border) (hb : s.border < 2 ^ 31)
    (hsw0 : 0 ≤ maxx - 2 * (s.border + 1)) (hsw : maxx - 2 * (s.border + 1) < 2 ^ 31)
    (hn : 2 ≤ (get_visible_columns s).length)
    (hn2 : (get_visible_columns s).length < 2 ^ 31)
    (hcent : are_columns_centered s (to_size_t (maxx - 2 * (s.border + 1))) = true)
    (hfree : 0 ≤ maxx - 2 * (s.border + 1)
      - (columns_width_sum s (get_visible_columns s) : Int)) :
    (columns_width_sum s (get_visible_columns s) : Int)
        + (((get_visible_columns s).length - 1 : Nat) : Int)
          * draw_gap s (maxx - 2 * (s.border + 1))
        + draw_gap_rounding_error s (maxx - 2 * (s.border + 1))
      = maxx - 2 * (s.border + 1) ∧
    (draw_columns s maxx).length = (get_visible_columns s).length ∧
    ∃ last elem, (draw_columns s maxx).getLast? = some last ∧
      (get_visible_columns s).getLast? = some elem ∧
      (last : Int) + (get_width (get_col s elem) : Int)
        = (s.border + 1) + (maxx - 2 * (s.border + 1)) := by
  obtain ⟨_, hg, hr⟩ := draw_columns_gaps s _ hsw0 hsw hn hn2 hcent (by omega)
  have hpos : (0 : Int) < (((get_visible_columns s).length - 1 : Nat) : Int) := by omega
  have hg0 : 0 ≤ draw_gap s (maxx - 2 * (s.border + 1)) := by
    rw [hg]
    exact Int.ediv_nonneg hfree (by omega)
  have hr0 : 0 ≤ draw_gap_rounding_error s (maxx - 2 * (s.border + 1)) := by
    rw [hr]
    exact Int.emod_nonneg _ (by omega)
  have hsum : (((get_visible_columns s).length - 1 : Nat) : Int)
          * draw_gap s (maxx - 2 * (s.border + 1))
        + draw_gap_rounding_error s (maxx - 2 * (s.border + 1))
      = maxx - 2 * (s.border + 1) - (columns_width_sum s (get_visible_columns s) : Int) := by
    rw [hg, hr]
    exact Int.ediv_add_emod _ _
  have hcomm : draw_gap s (maxx - 2 * (s.border + 1))
        * (((get_visible_columns s).length - 1 : Nat) : Int)
      = (((get_visible_columns s).length - 1 : Nat) : Int)
        * draw_gap s (maxx - 2 * (s.border + 1)) := Int.mul_comm _ _
  have hx : ((((s.border + 1) % (size_t_range : Int)).toNat : Nat) : Int) = s.border + 1 := by
    rw [size_t_range_cast]
    omega
  have hne : get_visible_columns s ≠ [] := by
    intro h
    rw [h] at hn
    simp at hn
  have hscreen : Int.bmod (maxx - 2 * (s.border + 1)) (2 ^ 32) = maxx - 2 * (s.border + 1) :=
    bmod_small _ (by omega) (by omega)
  obtain ⟨h1, last, elem, h2, h3, h4⟩ :=
    draw_columns_loop_edge s _ _ hg0 hr0 (get_visible_columns s)
      (((s.border + 1) % (size_t_range : Int)).toNat) hne (by rw [hx, hcomm]; omega)
  refine ⟨by omega, ?_, last, elem, ?_, h3, ?_⟩
  · unfold draw_columns
    simp only [hscreen]
    exact h1
  · unfold draw_columns
    simp only [hscreen]
    exact h2
  · rw [h4, hx, hcomm]
    omega

/-- Claim C26: in `draw_columns`, for centered columns, at least two visible
columns and a free space (the screen width minus the sum of the column widths)
that is not negative, the widths of the columns plus a gap between each two
neighbours plus the rounding error equal the screen width, a place is drawn for
every visible column, and the place of the last column plus its width is the
right edge `border + 1 + screen_width` of the drawing area.  The border, the
screen width and the number of columns are in the range of `int`. -/
theorem draw_columns_spec (s : inventory_selector) (maxx : Int)
    (hb0 : 0 ≤ s.border) (hb : s.border < 2 ^ 31)
    (hsw0 : 0 ≤ maxx - 2 * (s.border + 1)) (hsw : maxx - 2 * (s.border + 1) < 2 ^ 31)
    (hn : 2 ≤ (get_visible_columns s).length)
    (hn2 : (get_visible_columns s).length < 2 ^ 31)
    (hcent : are_columns_centered s (to_size_t (maxx - 2 * (s.border + 1))) = true)
    (hfree : 0 ≤ maxx - 2 * (s.border + 1)
      - (columns_width_sum s (get_visible_columns s) : Int)) :
    (columns_width_sum s (get_visible_columns s) : Int)
        + (((get_visible_columns s).length - 1 : Nat) : Int)
          * draw_gap s (maxx - 2 * (s.border + 1))
        + draw_gap_rounding_error s (maxx - 2 * (s.border + 1))
      = maxx - 2 * (s.border + 1) ∧
    (draw_columns s maxx).length = (get_visible_columns s).length ∧
    ∃ last elem, (draw_columns s maxx).getLast? = some last ∧
      (get_visible_columns s).getLast? = some elem ∧
      (last : Int) + (get_width (get_col s elem) : Int)
        = (s.border + 1) + (maxx - 2 * (s.border + 1)) :=
  draw_columns_fill s maxx hb0 hb hsw0 hsw hn hn2 hcent hfree

/-- The sample selector with three visible columns of the widths 10, 4 and 8 in
a window of 31 cells: the screen width is 27, the gap 2 and the rounding error
1, the columns are drawn at 2, 14 and 21, and the last one ends at 29. -/
theorem draw_columns_spec_witness :
    get_visible_columns sample_drawn
      = [column_id.OWN_INV, column_id.MAP, column_id.SELECTION] ∧
    draw_columns sample_drawn 31 = [2, 14, 21] ∧
    draw_gap sample_drawn 27 = 2 ∧ draw_gap_rounding_error sample_drawn 27 = 1 ∧
    ((columns_width_sum sample_drawn (get_visible_columns sample_drawn) : Int)
        + (((get_visible_columns sample_drawn).length - 1 : Nat) : Int)
          * draw_gap sample_drawn (31 - 2 * (sample_drawn.border + 1))
        + draw_gap_rounding_error sample_drawn (31 - 2 * (sample_drawn.border + 1))
      = 31 - 2 * (sample_drawn.border + 1) ∧
    (draw_columns sample_drawn 31).length = (get_visible_columns sample_drawn).length ∧
    ∃ last elem, (draw_columns sample_drawn 31).getLast? = some last ∧
      (get_visible_columns sample_drawn).getLast? = some elem ∧
      (last : Int) + (get_width (get_col sample_drawn elem) : Int)
        = (sample_drawn.border + 1) + (31 - 2 * (sample_drawn.border + 1))) :=
  ⟨by decide, by decide, by decide, by decide,
    draw_columns_spec sample_drawn 31 (by decide) (by decide) (by decide) (by decide)
      (by decide) (by decide) (by decide) (by decide)⟩

/-! ## The selector: `rearrange_columns` -/

theorem rearrange_columns_steps (env : selector_env) (fuel : Nat) (s : inventory_selector)
    (w : Nat) :
    rearrange_columns env fuel s w
      = (move_own_gear env fuel s w).bind (fun s0 => move_map env fuel s0 w) := by
  unfold rearrange_columns move_own_gear
  simp only
  cases h : (if (!s.own_gear_column.empty && is_overflown s w) = true then
      Option.map (fun r => ({ s with own_gear_column := r.1, own_inv_column := r.2 } :
        inventory_selector))
        (move_entries_to env.X env.P fuel s.own_gear_column s.own_inv_column)
    else some s) with
  | none => rfl
  | some s0 => rfl

theorem add_entry_keeps (X : externals) (P : inventory_selector_preset)
    (c : inventory_column) (e : inventory_entry) :
    (add_entry X P c e).entries_per_page = c.entries_per_page ∧
    (∀ y ∈ c.entries, y ∈ (add_entry X P c e).entries) ∧
    (∃ y ∈ (add_entry X P c e).entries, y.equals e = true) ∧
    (add_entry X P c e).entries.length ≤ c.entries.length + 1 := by
  by_cases h : ∃ y ∈ c.entries, y.equals e = true
  · rw [add_entry_duplicate X P c e h]
    exact ⟨rfl, fun y hy => hy, h, by omega⟩
  · have hall : ∀ y ∈ c.entries, y.equals e = false := by
      intro y hy
      cases hq : y.equals e with
      | false => rfl
      | true => exact absurd ⟨y, hy, hq⟩ h
    obtain ⟨h1, _, _⟩ := add_entry_new X P c e hall
    refine ⟨?_, ?_, ?_, ?_⟩
    · unfold add_entry
      rw [if_neg (by rw [any_equals_false _ _ hall]; simp)]
      exact (expand_to_fit_frame X P _ e).2.2.2.2.2.2.2
    · intro y hy
      rw [h1]
      unfold insert_at
      rw [← List.take_append_drop (add_entry_index c.entries e) c.entries] at hy
      rcases List.mem_append.1 hy with hy | hy
      · exact List.mem_append.2 (Or.inl hy)
      · exact List.mem_append.2 (Or.inr (List.mem_cons_of_mem _ hy))
    · refine ⟨e, ?_, equals_self e⟩
      rw [h1]
      unfold insert_at
      exact List.mem_append.2 (Or.inr (List.mem_cons_self _ _))
    · rw [h1]
      unfold insert_at
      have := List.take_append_drop (add_entry_index c.entries e) c.entries
      have hl : (c.entries.take (add_entry_index c.entries e)).length
          + (c.entries.drop (add_entry_index c.entries e)).length = c.entries.length := by
        rw [← List.length_append, this]
      simp only [List.length_append, List.length_cons]
      omega

theorem add_entry_valid (X : externals) (P : inventory_selector_preset)
    (c : inventory_column) (e : inventory_entry) :
    add_entry X P c e = c ∨ (add_entry X P c e).paging_is_valid = false := by
  by_cases h : ∃ y ∈ c.entries, y.equals e = true
  · exact Or.inl (add_entry_duplicate X P c e h)
  · have hall : ∀ y ∈ c.entries, y.equals e = false := by
      intro y hy
      cases hq : y.equals e with
      | false => rfl
      | true => exact absurd ⟨y, hy, hq⟩ h
    exact Or.inr (add_entry_new X P c e hall).2.1

/-- The loop of `move_entries_to` keeps the page size and the rows of the
destination, leaves a row equal to every item row that it visits, and adds at
most one row for each. -/
theorem add_items_keeps (X : externals) (P : inventory_selector_preset)
    (l : List inventory_entry) :
    ∀ dest : inventory_column,
      (add_items X P l dest).entries_per_page = dest.entries_per_page ∧
      (∀ y ∈ dest.entries, y ∈ (add_items X P l dest).entries) ∧
      (∀ e ∈ l, e.is_item = true → ∃ y ∈ (add_items X P l dest).entries, y.equals e = true) ∧
      (add_items X P l dest).entries.length ≤ dest.entries.length + l.length ∧
      (add_items X P l dest = dest ∨ (add_items X P l dest).paging_is_valid = false) := by
  induction l with
  | nil =>
    intro dest
    exact ⟨rfl, fun y hy => hy, fun e he => absurd he (List.not_mem_nil e), by simp [add_items],
      Or.inl rfl⟩
  | cons a rest ih =>
    intro dest
    have hstep : add_items X P (a :: rest) dest
        = add_items X P rest (if a.is_item then add_entry X P dest a else dest) := rfl
    rw [hstep]
    by_cases ha : a.is_item = true
    · rw [if_pos ha]
      obtain ⟨h1, h2, h3, h4, h5⟩ := ih (add_entry X P dest a)
      obtain ⟨k1, k2, ⟨y0, hy0, hq0⟩, k4⟩ := add_entry_keeps X P dest a
      refine ⟨by rw [h1, k1], fun y hy => h2 y (k2 y hy), ?_, ?_, ?_⟩
      · intro e he hitem
        rcases List.mem_cons.1 he with he | he
        · rw [he]
          exact ⟨y0, h2 y0 hy0, hq0⟩
        · exact h3 e he hitem
      · simp only [List.length_cons]
        omega
      · rcases h5 with h5 | h5
        · rw [h5]
          exact add_entry_valid X P dest a
        · exact Or.inr h5
    · rw [if_neg ha]
      obtain ⟨h1, h2, h3, h4, h5⟩ := ih dest
      refine ⟨h1, h2, ?_, ?_, h5⟩
      · intro e he hitem
        rcases List.mem_cons.1 he with he | he
        · rw [he] at hitem
          exact absurd hitem ha
        · exact h3 e he hitem
      · simp only [List.length_cons]
        omega

/-- A paginated column holds the item rows of the column it was made from, and
at most three rows for each of them. -/
theorem paged_members (X : externals) (P : inventory_selector_preset)
    (c r : inventory_column) (hsort : std_sort_contract X.std_sort)
    (hv : sort_compare_valid P) (hp : paged X P c r) :
    (∀ y ∈ c.entries, y.is_item = true → y ∈ r.entries) ∧
    r.entries.length ≤ 3 * c.entries.length ∧
    (c.entries = [] → r.entries = []) := by
  have hitems := sorted_items X P hsort hv c.entries
  have hf := reflow_filter c.entries_per_page _ 0 none hitems
  rw [← hp.1] at hf
  have hperm := sort_categories_perm X P hsort hv _ (filter_items c.entries)
  refine ⟨?_, ?_, ?_⟩
  · intro y hy hitem
    have h1 : y ∈ c.entries.filter inventory_entry.is_item := List.mem_filter.2 ⟨hy, hitem⟩
    have h2 : y ∈ r.entries.filter inventory_entry.is_item := by
      rw [hf]
      exact hperm.symm.subset h1
    exact (List.mem_filter.1 h2).1
  · rw [hp.1]
    have h1 := reflow_length c.entries_per_page
      (sort_categories X P (c.entries.filter inventory_entry.is_item)) 0 none
    have h2 := hperm.length_eq
    have h3 := List.length_filter_le inventory_entry.is_item c.entries
    omega
  · intro hc
    rw [hp.1, hc]
    simp [sort_categories, reflow]

/-- Whenever `prepare_paging` returns, the result holds the item rows of the
column, has its page size, and at most three rows for each of its rows. -/
theorem prepare_paging_members (X : externals) (P : inventory_selector_preset)
    (c r : inventory_column) (hsort : std_sort_contract X.std_sort)
    (hv : sort_compare_valid P) (hepp : 1 ≤ c.entries_per_page)
    (hsize : c.entries.length < 2 ^ 61) (fuel : Nat)
    (h : prepare_paging X P fuel c = some r) :
    (∀ y ∈ c.entries, y.is_item = true → y ∈ r.entries) ∧
    r.entries_per_page = c.entries_per_page ∧
    r.entries.length ≤ 3 * c.entries.length ∧
    (c.entries = [] → r.entries = []) := by
  by_cases hval : c.paging_is_valid = true
  · unfold prepare_paging at h
    rw [if_pos hval] at h
    have e : r = c := (Option.some.inj h).symm
    rw [e]
    exact ⟨fun y hy _ => hy, rfl, by omega, fun hc => hc⟩
  · have hinv : c.paging_is_valid = false := by
      cases hq : c.paging_is_valid with
      | false => rfl
      | true => exact absurd hq hval
    have hp := prepare_paging_returns X P c r hsort hv hinv hepp hsize fuel h
    obtain ⟨h1, h2, h3⟩ := paged_members X P c r hsort hv hp
    exact ⟨h1, hp.2.2.1, h2, h3⟩

/-- With a page size of at least two and enough fuel `prepare_paging`
returns, whether or not the paging is valid. -/
theorem prepare_paging_always (X : externals) (P : inventory_selector_preset)
    (c : inventory_column) (hsort : std_sort_contract X.std_sort)
    (hv : sort_compare_valid P) (hepp : 2 ≤ c.entries_per_page)
    (hsize : c.entries.length < 2 ^ 61) (fuel : Nat) (hf : 3 * c.entries.length + 1 ≤ fuel) :
    ∃ r, prepare_paging X P fuel c = some r := by
  by_cases hval : c.paging_is_valid = true
  · refine ⟨c, ?_⟩
    unfold prepare_paging
    rw [if_pos hval]
  · have hinv : c.paging_is_valid = false := by
      cases hq : c.paging_is_valid with
      | false => rfl
      | true => exact absurd hq hval
    obtain ⟨r, hr, _⟩ := prepare_paging_total X P c hsort hv hinv hepp hsize fuel hf
    exact ⟨r, hr⟩

/-- Whenever `move_entries_to` returns, the source column is empty and keeps
its page size, and the destination keeps its page size and its item rows and
holds a row equal to every item row of the source. -/
theorem move_entries_to_result (X : externals) (P : inventory_selector_preset)
    (c dest c1 d1 : inventory_column) (hsort : std_sort_contract X.std_sort)
    (hv : sort_compare_valid P) (hc : 1 ≤ c.entries_per_page)
    (hd : 1 ≤ dest.entries_per_page)
    (hsize : dest.entries.length + c.entries.length < 2 ^ 61) (fuel : Nat)
    (h : move_entries_to X P fuel c dest = some (c1, d1)) :
    c1.entries = [] ∧ c1.entries_per_page = c.entries_per_page ∧
    d1.entries_per_page = dest.entries_per_page ∧
    (∀ y ∈ dest.entries, y.is_item = true → y ∈ d1.entries) ∧
    (∀ e ∈ c.entries, e.is_item = true →
      ∃ y ∈ d1.entries, y.is_item = true ∧ y.equals e = true) ∧
    d1.entries.length ≤ 3 * (dest.entries.length + c.entries.length) := by
  have hfold : move_entries_to X P fuel c dest
      = match prepare_paging X P fuel (add_items X P c.entries dest) with
        | none => none
        | some paged =>
          match clear X P fuel c with
          | none => none
          | some cleared => some (cleared, paged) := rfl
  rw [hfold] at h
  obtain ⟨a1, a2, a3, a4, _⟩ := add_items_keeps X P c.entries dest
  cases hp : prepare_paging X P fuel (add_items X P c.entries dest) with
  | none => rw [hp] at h; exact absurd h (by simp)
  | some paged =>
    rw [hp] at h
    simp only at h
    cases hcl : clear X P fuel c with
    | none => rw [hcl] at h; exact absurd h (by simp)
    | some cleared =>
      rw [hcl] at h
      simp only [Option.some.injEq, Prod.mk.injEq] at h
      obtain ⟨e1, e2⟩ := h
      subst e1
      subst e2
      obtain ⟨p1, p2, p3, _⟩ := prepare_paging_members X P _ _ hsort hv
        (by rw [a1]; exact hd) (by omega) fuel hp
      unfold clear at hcl
      obtain ⟨q1, q2, q3, q4⟩ := prepare_paging_members X P _ _ hsort hv
        (by exact hc) (by simp) fuel hcl
      refine ⟨q4 rfl, q2, by rw [p2, a1], fun y hy hitem => p1 y (a2 y hy) hitem, ?_, by omega⟩
      intro e he hitem
      obtain ⟨y, hy, hq⟩ := a3 e he hitem
      have hyi := equals_is_item y e hitem hq
      exact ⟨y, p1 y hy hyi, hyi, hq⟩

/-- With page sizes of at least two and enough fuel `move_entries_to`
returns. -/
theorem move_entries_to_total (X : externals) (P : inventory_selector_preset)
    (c dest : inventory_column) (hsort : std_sort_contract X.std_sort)
    (hv : sort_compare_valid P) (hc : 2 ≤ c.entries_per_page)
    (hd : 2 ≤ dest.entries_per_page)
    (hsize : dest.entries.length + c.entries.length < 2 ^ 61) (fuel : Nat)
    (hf : 3 * (dest.entries.length + c.entries.length) + 1 ≤ fuel) :
    ∃ r, move_entries_to X P fuel c dest = some r := by
  have hfold : move_entries_to X P fuel c dest
      = match prepare_paging X P fuel (add_items X P c.entries dest) with
        | none => none
        | some paged =>
          match clear X P fuel c with
          | none => none
          | some cleared => some (cleared, paged) := rfl
  rw [hfold]
  obtain ⟨a1, _, _, a4, _⟩ := add_items_keeps X P c.entries dest
  obtain ⟨paged, hp⟩ := prepare_paging_always X P (add_items X P c.entries dest) hsort hv
    (by rw [a1]; exact hd) (by omega) fuel (by omega)
  obtain ⟨cleared, hcl⟩ := prepare_paging_always X P
    { c with entries := [], paging_is_valid := false } hsort hv hc (by simp) fuel
    (by simp only [List.length_nil]; omega)
  have hcl2 : clear X P fuel c = some cleared := hcl
  rw [hp]
  simp only
  rw [hcl2]
  exact ⟨_, rfl⟩
theorem bool_not_true (b : Bool) (h : ¬ b = true) : b = false := by
  cases b with
  | false => rfl
  | true => exact absurd rfl h

theorem move_entries_to_mono (X : externals) (P : inventory_selector_preset)
    (fuel extra : Nat) (c dest : inventory_column) (r : inventory_column × inventory_column)
    (h : move_entries_to X P fuel c dest = some r) :
    move_entries_to X P (fuel + extra) c dest = some r := by
  have hfold : ∀ f, move_entries_to X P f c dest
      = match prepare_paging X P f (add_items X P c.entries dest) with
        | none => none
        | some paged =>
          match clear X P f c with
          | none => none
          | some cleared => some (cleared, paged) := fun _ => rfl
  rw [hfold] at h ⊢
  cases hp : prepare_paging X P fuel (add_items X P c.entries dest) with
  | none => rw [hp] at h; exact absurd h (by simp)
  | some paged =>
    rw [hp] at h
    simp only at h
    cases hcl : clear X P fuel c with
    | none => rw [hcl] at h; exact absurd h (by simp)
    | some cleared =>
      rw [hcl] at h
      have hcl2 : prepare_paging X P fuel { c with entries := [], paging_is_valid := false }
          = some cleared := hcl
      have hcl3 : clear X P (fuel + extra) c = some cleared :=
        prepare_paging_mono X P fuel extra _ _ hcl2
      rw [prepare_paging_mono X P fuel extra _ _ hp]
      simp only
      rw [hcl3]
      exact h

theorem move_own_gear_mono (env : selector_env) (fuel extra : Nat) (s s0 : inventory_selector)
    (w : Nat) (h : move_own_gear env fuel s w = some s0) :
    move_own_gear env (fuel + extra) s w = some s0 := by
  unfold move_own_gear at h ⊢
  by_cases ht : (!s.own_gear_column.empty && is_overflown s w) = true
  · rw [if_pos ht] at h ⊢
    cases hm : move_entries_to env.X env.P fuel s.own_gear_column s.own_inv_column with
    | none => rw [hm] at h; exact absurd h (by simp)
    | some r =>
      rw [hm] at h
      rw [move_entries_to_mono env.X env.P fuel extra _ _ r hm]
      exact h
  · rw [if_neg ht] at h ⊢
    exact h

theorem move_map_mono (env : selector_env) (fuel extra : Nat) (s s0 : inventory_selector)
    (w : Nat) (h : move_map env fuel s w = some s0) :
    move_map env (fuel + extra) s w = some s0 := by
  unfold move_map at h ⊢
  by_cases ht : (!s.map_column.empty && is_overflown s w) = true
  · rw [if_pos ht] at h ⊢
    cases hm : move_entries_to env.X env.P fuel s.map_column s.own_inv_column with
    | none => rw [hm] at h; exact absurd h (by simp)
    | some r =>
      rw [hm] at h
      rw [move_entries_to_mono env.X env.P fuel extra _ _ r hm]
      exact h
  · rw [if_neg ht] at h ⊢
    exact h

theorem rearrange_columns_mono (env : selector_env) (fuel extra : Nat)
    (s s1 : inventory_selector) (w : Nat) (h : rearrange_columns env fuel s w = some s1) :
    rearrange_columns env (fuel + extra) s w = some s1 := by
  rw [rearrange_columns_steps] at h ⊢
  cases hg : move_own_gear env fuel s w with
  | none => rw [hg] at h; exact absurd h (by simp)
  | some s0 =>
    rw [hg] at h
    rw [move_own_gear_mono env fuel extra s s0 w hg]
    exact move_map_mono env fuel extra s0 s1 w h

/-- The result of the first statement of `rearrange_columns`: the selector as
it was when the test fails, and otherwise the column of worn items without rows
and its item rows in the column of own items. -/
theorem move_own_gear_result (env : selector_env) (s s0 : inventory_selector) (w : Nat)
    (hsort : std_sort_contract env.X.std_sort) (hv : sort_compare_valid env.P)
    (hown : 1 ≤ s.own_inv_column.entries_per_page)
    (hgear : 1 ≤ s.own_gear_column.entries_per_page)
    (hsize : s.own_inv_column.entries.length + s.own_gear_column.entries.length < 2 ^ 61)
    (fuel : Nat) (h : move_own_gear env fuel s w = some s0) :
    ((!s.own_gear_column.empty && is_overflown s w) = false ∧ s0 = s) ∨
    ((!s.own_gear_column.empty && is_overflown s w) = true ∧
      s0.own_gear_column.entries = [] ∧
      s0.own_gear_column.entries_per_page = s.own_gear_column.entries_per_page ∧
      s0.own_inv_column.entries_per_page = s.own_inv_column.entries_per_page ∧
      s0.map_column = s.map_column ∧
      (∀ y ∈ s.own_inv_column.entries, y.is_item = true → y ∈ s0.own_inv_column.entries) ∧
      (∀ e ∈ s.own_gear_column.entries, e.is_item = true →
        ∃ y ∈ s0.own_inv_column.entries, y.is_item = true ∧ y.equals e = true) ∧
      s0.own_inv_column.entries.length
        ≤ 3 * (s.own_inv_column.entries.length + s.own_gear_column.entries.length)) := by
  unfold move_own_gear at h
  by_cases ht : (!s.own_gear_column.empty && is_overflown s w) = true
  · rw [if_pos ht] at h
    cases hm : move_entries_to env.X env.P fuel s.own_gear_column s.own_inv_column with
    | none => rw [hm] at h; exact absurd h (by simp)
    | some r =>
      rw [hm] at h
      obtain ⟨c1, d1⟩ := r
      have e : s0 = { s with own_gear_column := c1, own_inv_column := d1 } :=
        (Option.some.inj h).symm
      obtain ⟨m1, m2, m3, m4, m5, m6⟩ := move_entries_to_result env.X env.P _ _ c1 d1 hsort hv
        hgear hown hsize fuel hm
      rw [e]
      exact Or.inr ⟨ht, m1, m2, m3, rfl, m4, m5, m6⟩
  · rw [if_neg ht] at h
    exact Or.inl ⟨bool_not_true _ ht, (Option.some.inj h).symm⟩

/-- The result of the second statement of `rearrange_columns`. -/
theorem move_map_result (env : selector_env) (s s0 : inventory_selector) (w : Nat)
    (hsort : std_sort_contract env.X.std_sort) (hv : sort_compare_valid env.P)
    (hown : 1 ≤ s.own_inv_column.entries_per_page)
    (hmap : 1 ≤ s.map_column.entries_per_page)
    (hsize : s.own_inv_column.entries.length + s.map_column.entries.length < 2 ^ 61)
    (fuel : Nat) (h : move_map env fuel s w = some s0) :
    ((!s.map_column.empty && is_overflown s w) = false ∧ s0 = s) ∨
    ((!s.map_column.empty && is_overflown s w) = true ∧
      s0.map_column.entries = [] ∧
      s0.own_gear_column = s.own_gear_column ∧
      (∀ y ∈ s.own_inv_column.entries, y.is_item = true → y ∈ s0.own_inv_column.entries) ∧
      (∀ e ∈ s.map_column.entries, e.is_item = true →
        ∃ y ∈ s0.own_inv_column.entries, y.is_item = true ∧ y.equals e = true)) := by
  unfold move_map at h
  by_cases ht : (!s.map_column.empty && is_overflown s w) = true
  · rw [if_pos ht] at h
    cases hm : move_entries_to env.X env.P fuel s.map_column s.own_inv_column with
    | none => rw [hm] at h; exact absurd h (by simp)
    | some r =>
      rw [hm] at h
      obtain ⟨c1, d1⟩ := r
      have e : s0 = { s with map_column := c1, own_inv_column := d1 } :=
        (Option.some.inj h).symm
      obtain ⟨m1, _, _, m4, m5, _⟩ := move_entries_to_result env.X env.P _ _ c1 d1 hsort hv
        hmap hown hsize fuel hm
      rw [e]
      exact Or.inr ⟨ht, m1, rfl, m4, m5⟩
  · rw [if_neg ht] at h
    exact Or.inl ⟨bool_not_true _ ht, (Option.some.inj h).symm⟩

theorem move_own_gear_idle (env : selector_env) (fuel : Nat) (s : inventory_selector) (w : Nat)
    (h : (!s.own_gear_column.empty && is_overflown s w) = false) :
    move_own_gear env fuel s w = some s := by
  unfold move_own_gear
  rw [if_neg (by rw [h]; simp)]

theorem move_map_idle (env : selector_env) (fuel : Nat) (s : inventory_selector) (w : Nat)
    (h : (!s.map_column.empty && is_overflown s w) = false) :
    move_map env fuel s w = some s := by
  unfold move_map
  rw [if_neg (by rw [h]; simp)]

theorem empty_of_entries (c : inventory_column) (h : c.entries = []) : c.empty = true := by
  unfold inventory_column.empty
  rw [h]
  rfl

/-- Whenever `rearrange_columns` returns: a second run on the result returns
the result; a column whose test held is without rows and its item rows have
equal rows in the column of own items; a column whose test failed is as it
was. -/
theorem rearrange_columns_result (env : selector_env) (s s1 : inventory_selector) (w : Nat)
    (hsort : std_sort_contract env.X.std_sort) (hv : sort_compare_valid env.P)
    (hown : 1 ≤ s.own_inv_column.entries_per_page)
    (hgear : 1 ≤ s.own_gear_column.entries_per_page)
    (hmap : 1 ≤ s.map_column.entries_per_page)
    (hsize : s.own_inv_column.entries.length + s.own_gear_column.entries.length
      + s.map_column.entries.length < 2 ^ 59)
    (fuel : Nat) (h : rearrange_columns env fuel s w = some s1) :
    (∀ fuel2, rearrange_columns env fuel2 s1 w = some s1) ∧
    ∃ s0, move_own_gear env fuel s w = some s0 ∧ move_map env fuel s0 w = some s1 ∧
      ((!s.own_gear_column.empty && is_overflown s w) = true →
        s1.own_gear_column.entries = [] ∧
        ∀ e ∈ s.own_gear_column.entries, e.is_item = true →
          ∃ y ∈ s1.own_inv_column.entries, y.equals e = true) ∧
      ((!s.own_gear_column.empty && is_overflown s w) = false →
        s1.own_gear_column = s.own_gear_column) ∧
      ((!s0.map_column.empty && is_overflown s0 w) = true →
        s1.map_column.entries = [] ∧
        ∀ e ∈ s.map_column.entries, e.is_item = true →
          ∃ y ∈ s1.own_inv_column.entries, y.equals e = true) ∧
      ((!s0.map_column.empty && is_overflown s0 w) = false →
        s1.map_column = s.map_column) := by
  rw [rearrange_columns_steps] at h
  cases hg : move_own_gear env fuel s w with
  | none => rw [hg] at h; exact absurd h (by simp)
  | some s0 =>
    rw [hg] at h
    have hm : move_map env fuel s0 w = some s1 := h
    have g := move_own_gear_result env s s0 w hsort hv hown hgear (by omega) fuel hg
    have hmapcol : s0.map_column = s.map_column := by
      rcases g with ⟨_, g2⟩ | ⟨_, _, _, _, g5, _⟩
      · rw [g2]
      · exact g5
    have hown0 : 1 ≤ s0.own_inv_column.entries_per_page := by
      rcases g with ⟨_, g2⟩ | ⟨_, _, _, g4, _⟩
      · rw [g2]; exact hown
      · rw [g4]; exact hown
    have hlen0 : s0.own_inv_column.entries.length
        ≤ 3 * (s.own_inv_column.entries.length + s.own_gear_column.entries.length) := by
      rcases g with ⟨_, g2⟩ | ⟨_, _, _, _, _, _, _, g8⟩
      · rw [g2]; omega
      · exact g8
    have m := move_map_result env s0 s1 w hsort hv hown0 (by rw [hmapcol]; exact hmap)
      (by rw [hmapcol]; omega) fuel hm
    have hgearcol : s1.own_gear_column = s0.own_gear_column := by
      rcases m with ⟨_, m2⟩ | ⟨_, _, m3, _⟩
      · rw [m2]
      · exact m3
    have hkeep : ∀ y ∈ s0.own_inv_column.entries, y.is_item = true →
        y ∈ s1.own_inv_column.entries := by
      rcases m with ⟨_, m2⟩ | ⟨_, _, _, m4, _⟩
      · rw [m2]; exact fun y hy _ => hy
      · exact m4
    refine ⟨?_, s0, rfl, hm, ?_, ?_, ?_, ?_⟩
    · intro fuel2
      rw [rearrange_columns_steps]
      have h1 : move_own_gear env fuel2 s1 w = some s1 := by
        apply move_own_gear_idle
        rcases g with ⟨g1, g2⟩ | ⟨_, g2, _⟩
        · rcases m with ⟨_, m2⟩ | ⟨m1, _, _, _⟩
          · rw [m2, g2]; exact g1
          · rw [g2] at m1 hgearcol
            rw [hgearcol]
            simp only [Bool.and_eq_true] at m1
            rw [m1.2, Bool.and_true] at g1
            rw [g1]
            rfl
        · rw [hgearcol, empty_of_entries _ g2]
          rfl
      have h2 : move_map env fuel2 s1 w = some s1 := by
        apply move_map_idle
        rcases m with ⟨m1, m2⟩ | ⟨_, m2, _⟩
        · rw [m2]; exact m1
        · rw [empty_of_entries _ m2]
          rfl
      rw [h1]
      exact h2
    · intro ht
      rcases g with ⟨g1, _⟩ | ⟨_, g2, _, _, _, _, g7, _⟩
      · rw [g1] at ht; exact absurd ht (by simp)
      · refine ⟨by rw [hgearcol]; exact g2, ?_⟩
        intro e he hitem
        obtain ⟨y, hy, hyi, hq⟩ := g7 e he hitem
        exact ⟨y, hkeep y hy hyi, hq⟩
    · intro ht
      rcases g with ⟨_, g2⟩ | ⟨g1, _⟩
      · rw [hgearcol, g2]
      · rw [g1] at ht; exact absurd ht (by simp)
    · intro ht
      rcases m with ⟨m1, _⟩ | ⟨_, m2, _, _, m5⟩
      · rw [m1] at ht; exact absurd ht (by simp)
      · refine ⟨m2, ?_⟩
        intro e he hitem
        rw [← hmapcol] at he
        obtain ⟨y, hy, _, hq⟩ := m5 e he hitem
        exact ⟨y, hy, hq⟩
    · intro ht
      rcases m with ⟨_, m2⟩ | ⟨m1, _⟩
      · rw [m2, hmapcol]
      · rw [m1] at ht; exact absurd ht (by simp)

/-- With page sizes of at least two and enough fuel `rearrange_columns`
returns, the same selector for every such fuel. -/
theorem rearrange_columns_total (env : selector_env) (s : inventory_selector) (w : Nat)
    (hsort : std_sort_contract env.X.std_sort) (hv : sort_compare_valid env.P)
    (hown : 2 ≤ s.own_inv_column.entries_per_page)
    (hgear : 2 ≤ s.own_gear_column.entries_per_page)
    (hmap : 2 ≤ s.map_column.entries_per_page)
    (hsize : s.own_inv_column.entries.length + s.own_gear_column.entries.length
      + s.map_column.entries.length < 2 ^ 59) :
    ∃ s1, ∀ fuel,
      9 * (s.own_inv_column.entries.length + s.own_gear_column.entries.length
        + s.map_column.entries.length) + 1 ≤ fuel →
      rearrange_columns env fuel s w = some s1 := by
  have key : ∀ fuel,
      9 * (s.own_inv_column.entries.length + s.own_gear_column.entries.length
        + s.map_column.entries.length) + 1 ≤ fuel →
      ∃ s1, rearrange_columns env fuel s w = some s1 := by
    intro fuel hf
    rw [rearrange_columns_steps]
    have hg : ∃ s0, move_own_gear env fuel s w = some s0 := by
      unfold move_own_gear
      by_cases ht : (!s.own_gear_column.empty && is_overflown s w) = true
      · rw [if_pos ht]
        obtain ⟨r, hr⟩ := move_entries_to_total env.X env.P s.own_gear_column s.own_inv_column
          hsort hv hgear hown (by omega) fuel (by omega)
        rw [hr]
        exact ⟨_, rfl⟩
      · rw [if_neg ht]
        exact ⟨_, rfl⟩
    obtain ⟨s0, hs0⟩ := hg
    have g := move_own_gear_result env s s0 w hsort hv (by omega) (by omega) (by omega) fuel hs0
    have hmapcol : s0.map_column = s.map_column := by
      rcases g with ⟨_, g2⟩ | ⟨_, _, _, _, g5, _⟩
      · rw [g2]
      · exact g5
    have hown0 : 2 ≤ s0.own_inv_column.entries_per_page := by
      rcases g with ⟨_, g2⟩ | ⟨_, _, _, g4, _⟩
      · rw [g2]; exact hown
      · rw [g4]; exact hown
    have hlen0 : s0.own_inv_column.entries.length
        ≤ 3 * (s.own_inv_column.entries.length + s.own_gear_column.entries.length) := by
      rcases g with ⟨_, g2⟩ | ⟨_, _, _, _, _, _, _, g8⟩
      · rw [g2]; omega
      · exact g8
    rw [hs0]
    show ∃ s1, move_map env fuel s0 w = some s1
    unfold move_map
    by_cases ht : (!s0.map_column.empty && is_overflown s0 w) = true
    · rw [if_pos ht]
      obtain ⟨r, hr⟩ := move_entries_to_total env.X env.P s0.map_column s0.own_inv_column
        hsort hv (by rw [hmapcol]; exact hmap) hown0 (by rw [hmapcol]; omega) fuel
        (by rw [hmapcol]; omega)
      rw [hr]
      exact ⟨_, rfl⟩
    · rw [if_neg ht]
      exact ⟨_, rfl⟩
  obtain ⟨s1, hs1⟩ := key _ (le_refl _)
  refine ⟨s1, ?_⟩
  intro fuel hf
  have e : fuel = (9 * (s.own_inv_column.entries.length + s.own_gear_column.entries.length
        + s.map_column.entries.length) + 1)
      + (fuel - (9 * (s.own_inv_column.entries.length + s.own_gear_column.entries.length
        + s.map_column.entries.length) + 1)) := by omega
  rw [e]
  exact rearrange_columns_mono env _ _ s s1 w hs1

/-- Claim C25: `rearrange_columns` on columns with page sizes of at least two
returns for every large enough fuel, and whenever it returns, on columns with
a page size that is not zero: a second run with the same width on the result
returns the result, so it changes no column; a source column (the column of
worn items, tested on the selector, and the column of the items around, tested
on the selector `s0` after the first statement) whose test held, so that its
rows were moved, is without rows, and every item row that it held has an equal
row (the same category and the same item) in the column of own items; a source
column whose test failed is as it was. -/
theorem rearrange_columns_spec (env : selector_env) (s : inventory_selector) (w : Nat)
    (hsort : std_sort_contract env.X.std_sort) (hv : sort_compare_valid env.P)
    (hown : 1 ≤ s.own_inv_column.entries_per_page)
    (hgear : 1 ≤ s.own_gear_column.entries_per_page)
    (hmap : 1 ≤ s.map_column.entries_per_page)
    (hsize : s.own_inv_column.entries.length + s.own_gear_column.entries.length
      + s.map_column.entries.length < 2 ^ 59) :
    (2 ≤ s.own_inv_column.entries_per_page → 2 ≤ s.own_gear_column.entries_per_page →
      2 ≤ s.map_column.entries_per_page →
      ∃ s1, ∀ fuel,
        9 * (s.own_inv_column.entries.length + s.own_gear_column.entries.length
          + s.map_column.entries.length) + 1 ≤ fuel →
        rearrange_columns env fuel s w = some s1) ∧
    ∀ fuel s1, rearrange_columns env fuel s w = some s1 →
      (∀ fuel2, rearrange_columns env fuel2 s1 w = some s1) ∧
      ∃ s0, move_own_gear env fuel s w = some s0 ∧ move_map env fuel s0 w = some s1 ∧
        ((!s.own_gear_column.empty && is_overflown s w) = true →
          s1.own_gear_column.entries = [] ∧
          ∀ e ∈ s.own_gear_column.entries, e.is_item = true →
            ∃ y ∈ s1.own_inv_column.entries, y.equals e = true) ∧
        ((!s.own_gear_column.empty && is_overflown s w) = false →
          s1.own_gear_column = s.own_gear_column) ∧
        ((!s0.map_column.empty && is_overflown s0 w) = true →
          s1.map_column.entries = [] ∧
          ∀ e ∈ s.map_column.entries, e.is_item = true →
            ∃ y ∈ s1.own_inv_column.entries, y.equals e = true) ∧
        ((!s0.map_column.empty && is_overflown s0 w) = false →
          s1.map_column = s.map_column) :=
  ⟨fun h1 h2 h3 => rearrange_columns_total env s w hsort hv h1 h2 h3 hsize,
    fun fuel s1 h => rearrange_columns_result env s s1 w hsort hv hown hgear hmap hsize fuel h⟩

/-- The crowded sample selector at the width 20: the layout overflows, the
rows of the worn items and of the items around are moved, and a second run
changes nothing. -/
theorem rearrange_columns_spec_witness :
    (!sample_crowded.own_gear_column.empty && is_overflown sample_crowded 20) = true ∧
    (rearrange_columns sample_env 109 sample_crowded 20).map
        (fun s1 => (s1.own_gear_column.entries.length, s1.map_column.entries.length,
          s1.own_inv_column.entries.map (fun e => e.location.map (fun it => it.id))))
      = some (0, 0, [none, some 1, some 2, none, some 7, none, none, some 3, some 4, none,
          some 5]) ∧
    ((2 ≤ sample_crowded.own_inv_column.entries_per_page →
      2 ≤ sample_crowded.own_gear_column.entries_per_page →
      2 ≤ sample_crowded.map_column.entries_per_page →
      ∃ s1, ∀ fuel,
        9 * (sample_crowded.own_inv_column.entries.length
          + sample_crowded.own_gear_column.entries.length
          + sample_crowded.map_column.entries.length) + 1 ≤ fuel →
        rearrange_columns sample_env fuel sample_crowded 20 = some s1) ∧
    ∀ fuel s1, rearrange_columns sample_env fuel sample_crowded 20 = some s1 →
      (∀ fuel2, rearrange_columns sample_env fuel2 s1 20 = some s1) ∧
      ∃ s0, move_own_gear sample_env fuel sample_crowded 20 = some s0 ∧
        move_map sample_env fuel s0 20 = some s1 ∧
        ((!sample_crowded.own_gear_column.empty && is_overflown sample_crowded 20) = true →
          s1.own_gear_column.entries = [] ∧
          ∀ e ∈ sample_crowded.own_gear_column.entries, e.is_item = true →
            ∃ y ∈ s1.own_inv_column.entries, y.equals e = true) ∧
        ((!sample_crowded.own_gear_column.empty && is_overflown sample_crowded 20) = false →
          s1.own_gear_column = sample_crowded.own_gear_column) ∧
        ((!s0.map_column.empty && is_overflown s0 20) = true →
          s1.map_column.entries = [] ∧
          ∀ e ∈ sample_crowded.map_column.entries, e.is_item = true →
            ∃ y ∈ s1.own_inv_column.entries, y.equals e = true) ∧
        ((!s0.map_column.empty && is_overflown s0 20) = false →
          s1.map_column = sample_crowded.map_column)) :=
  ⟨by decide,
    by decide,
    rearrange_columns_spec sample_env sample_crowded 20 insertion_sort_contract
      default_preset_valid (by decide) (by decide) (by decide) (by decide)⟩

/-! ## The selector: change notification -/

theorem same_rows_refl (s : inventory_selector) : same_rows s s :=
  ⟨rfl, rfl, rfl, fun _ => ⟨rfl, rfl⟩⟩

theorem same_rows_trans (s t u : inventory_selector) (h1 : same_rows s t)
    (h2 : same_rows t u) : same_rows s u := by
  obtain ⟨a1, a2, a3, a4⟩ := h1
  obtain ⟨b1, b2, b3, b4⟩ := h2
  refine ⟨by rw [b1, a1], by rw [b2, a2], by rw [b3, a3], fun id => ?_⟩
  rw [(b4 id).1, (b4 id).2, (a4 id).1, (a4 id).2]
  exact ⟨rfl, rfl⟩

theorem set_col_same_rows (s : inventory_selector) (id : column_id) (c : inventory_column)
    (h1 : c.entries = (get_col s id).entries)
    (h2 : c.entries_per_page = (get_col s id).entries_per_page) :
    same_rows s (set_col s id c) := by
  refine ⟨set_col_columns s id c, by cases id <;> rfl, by cases id <;> rfl, fun id2 => ?_⟩
  by_cases h : id = id2
  · rw [← h, get_col_set_col_same]
    exact ⟨h1, h2⟩
  · rw [get_col_set_col_ne s id id2 c h]
    exact ⟨rfl, rfl⟩

theorem set_column_same_rows (s : inventory_selector) (index : Nat) (c : inventory_column)
    (h1 : c.entries = (get_column s index).entries)
    (h2 : c.entries_per_page = (get_column s index).entries_per_page) :
    same_rows s (set_column s index c) ∧
    (set_column s index c).active_column_index = s.active_column_index := by
  unfold set_column
  unfold get_column at h1 h2
  cases hg : s.columns.get? index with
  | none =>
    exact ⟨⟨rfl, rfl, rfl, fun id => by cases id <;> exact ⟨rfl, rfl⟩⟩, rfl⟩
  | some id =>
    rw [hg] at h1 h2
    simp only at h1 h2 ⊢
    exact ⟨set_col_same_rows s id c h1 h2, by cases id <;> rfl⟩

theorem set_active_column_same_rows (env : selector_env) (s : inventory_selector)
    (index : Nat) (h : s.active_column_index < s.columns.length) :
    same_rows s (set_active_column env s index) ∧
    (set_active_column env s index).active_column_index
      < (set_active_column env s index).columns.length := by
  unfold set_active_column
  split
  · rename_i hc
    simp only [Bool.and_eq_true, decide_eq_true_eq] at hc
    obtain ⟨a1, a2⟩ := set_column_same_rows s s.active_column_index
      (get_active_column s).on_deactivate rfl rfl
    have b := same_rows_refl (set_column s s.active_column_index
      (get_active_column s).on_deactivate)
    have b1 : same_rows (set_column s s.active_column_index (get_active_column s).on_deactivate)
        { set_column s s.active_column_index (get_active_column s).on_deactivate with
          active_column_index := index } :=
      ⟨rfl, rfl, rfl, fun id => by cases id <;> exact ⟨rfl, rfl⟩⟩
    obtain ⟨c1, c2⟩ := set_column_same_rows
      { set_column s s.active_column_index (get_active_column s).on_deactivate with
          active_column_index := index } index
      (get_active_column { set_column s s.active_column_index
        (get_active_column s).on_deactivate with active_column_index := index }).on_activate
      rfl rfl
    have hall := same_rows_trans _ _ _ (same_rows_trans _ _ _ a1 b1) c1
    refine ⟨hall, ?_⟩
    rw [c2, hall.1]
    exact hc.1.1
  · exact ⟨same_rows_refl s, h⟩

/-- The loop of `toggle_active_column` going forward from an index inside
`columns` returns when it has fuel for the steps back to the active column. -/
theorem toggle_active_column_loop_returns (env : selector_env) (s : inventory_selector)
    (ha : s.active_column_index < s.columns.length) :
    ∀ (fuel index : Nat), index < s.columns.length →
      (if index < s.active_column_index then s.active_column_index - index
        else s.active_column_index + s.columns.length - index) ≤ fuel →
      ∃ r, toggle_active_column_loop env s scroll_direction.FORWARD fuel index = some r := by
  intro fuel
  induction fuel with
  | zero =>
    intro index hi hd
    split at hd <;> omega
  | succ fuel ih =>
    intro index hi hd
    rw [toggle_active_column_loop]
    split
    · rename_i hc
      simp only [Bool.and_eq_true, bne_iff_ne, ne_eq] at hc
      have hne := hc.1
      have hstep : toggle_active_column_step s scroll_direction.FORWARD index
          = if index + 1 < s.columns.length then index + 1 else 0 := rfl
      rw [hstep] at hne ⊢
      by_cases h1 : index + 1 < s.columns.length
      · rw [if_pos h1] at hne ⊢
        apply ih _ h1
        split at hd <;> split <;> omega
      · rw [if_neg h1] at hne ⊢
        apply ih _ (by omega)
        split at hd <;> split <;> omega
    · exact ⟨_, rfl⟩

theorem toggle_active_column_returns (env : selector_env) (s : inventory_selector)
    (ha : s.active_column_index < s.columns.length) (fuel : Nat)
    (hf : s.columns.length ≤ fuel) :
    ∃ t, toggle_active_column env fuel s scroll_direction.FORWARD = some t := by
  unfold toggle_active_column
  split
  · exact ⟨_, rfl⟩
  · obtain ⟨r, hr⟩ := toggle_active_column_loop_returns env s ha fuel s.active_column_index ha
      (by rw [if_neg (by omega)]; omega)
    rw [hr]
    exact ⟨_, rfl⟩

theorem toggle_active_column_same_rows (env : selector_env) (s t : inventory_selector)
    (dir : scroll_direction) (ha : s.active_column_index < s.columns.length) (fuel : Nat)
    (h : toggle_active_column env fuel s dir = some t) :
    same_rows s t ∧ t.active_column_index < t.columns.length := by
  unfold toggle_active_column at h
  split at h
  · rw [← Option.some.inj h]
    exact ⟨same_rows_refl s, ha⟩
  · cases hl : toggle_active_column_loop env s dir fuel s.active_column_index with
    | none => rw [hl] at h; exact absurd h (by simp)
    | some index =>
      rw [hl] at h
      rw [← Option.some.inj h]
      exact set_active_column_same_rows env s index ha

theorem refresh_active_column_returns (env : selector_env) (s : inventory_selector)
    (ha : s.active_column_index < s.columns.length) (fuel : Nat)
    (hf : s.columns.length ≤ fuel) :
    ∃ t, refresh_active_column env fuel s = some t := by
  unfold refresh_active_column
  split
  · exact toggle_active_column_returns env s ha fuel hf
  · exact ⟨_, rfl⟩

theorem refresh_active_column_same_rows (env : selector_env) (s t : inventory_selector)
    (ha : s.active_column_index < s.columns.length) (fuel : Nat)
    (h : refresh_active_column env fuel s = some t) :
    same_rows s t ∧ t.active_column_index < t.columns.length := by
  unfold refresh_active_column at h
  split at h
  · exact toggle_active_column_same_rows env s t _ ha fuel h
  · rw [← Option.some.inj h]
    exact ⟨same_rows_refl s, ha⟩

/-- The loop of `on_change` over pointers to distinct columns: the selection
column reacts when it is among them, the other columns do not. -/
theorem for_each_on_change (env : selector_env) (fuel : Nat) (entry : inventory_entry)
    (l : List column_id) :
    ∀ s : inventory_selector, l.Nodup →
      for_each_column (fun t elem => column_on_change env fuel t entry elem) l s
        = if column_id.SELECTION ∈ l then
            (selection_column.on_change env.SX env.SP fuel s.selection_col entry).map
              (fun sc => { s with selection_col := sc })
          else some s := by
  induction l with
  | nil => intro s _; rfl
  | cons a rest ih =>
    intro s hn
    have hn2 := (List.nodup_cons.1 hn)
    rw [for_each_column]
    by_cases ha : a = column_id.SELECTION
    · subst ha
      rw [if_pos (List.mem_cons_self _ _)]
      show (match (selection_column.on_change env.SX env.SP fuel s.selection_col entry).map
          (fun sc => ({ s with selection_col := sc } : inventory_selector)) with
        | none => none
        | some t => for_each_column (fun t elem => column_on_change env fuel t entry elem) rest t)
        = _
      cases hc : selection_column.on_change env.SX env.SP fuel s.selection_col entry with
      | none => rfl
      | some sc =>
        simp only [Option.map_some']
        rw [ih _ hn2.2, if_neg hn2.1]
    · have hstep : column_on_change env fuel s entry a = some s := by
        cases a <;> first | rfl | exact absurd rfl ha
      rw [hstep]
      simp only
      rw [ih s hn2.2]
      by_cases hr : column_id.SELECTION ∈ rest
      · rw [if_pos hr, if_pos (List.mem_cons_of_mem _ hr)]
      · rw [if_neg hr, if_neg (by
          intro hm
          rcases List.mem_cons.1 hm with h | h
          · exact ha h.symm
          · exact hr h)]
theorem select_epp (fuel : Nat) (c r : inventory_column) (i : Nat) (dir : scroll_direction)
    (h : select fuel c i dir = some r) : r.entries_per_page = c.entries_per_page := by
  unfold select at h
  split at h
  · simp only at h
    split at h
    · cases hn : next_selectable_index fuel c.entries i dir with
      | none => rw [hn] at h; simp at h
      | some k => rw [hn] at h; simp at h; rw [← h]
    · simp at h; rw [← h]
  · rw [← Option.some.inj h]

theorem selection_prepare_paging_epp (X : externals) (P : inventory_selector_preset)
    (sc r : selection_column) (hsort : std_sort_contract X.std_sort)
    (hv : sort_compare_valid P) (hepp : 1 ≤ sc.base.entries_per_page)
    (hsize : sc.base.entries.length < 2 ^ 61) (fuel : Nat)
    (h : selection_column.prepare_paging X P fuel sc = some r) :
    r.base.entries_per_page = sc.base.entries_per_page := by
  unfold selection_column.prepare_paging at h
  cases hb : InventoryUI.prepare_paging X P fuel sc.base with
  | none => rw [hb] at h; simp at h
  | some paged_base =>
    rw [hb] at h
    simp only at h
    obtain ⟨_, p2, _, _⟩ := prepare_paging_members X P sc.base paged_base hsort hv hepp hsize
      fuel hb
    split at h
    · rw [← Option.some.inj h]
      simp only
      rw [(expand_to_fit_frame X P _ _).2.2.2.2.2.2.2]
      exact p2
    · rw [← Option.some.inj h]
      exact p2

theorem equals_congr (y a b : inventory_entry)
    (h1 : a.get_category_ptr = b.get_category_ptr) (h2 : a.location = b.location) :
    y.equals a = y.equals b := by
  unfold inventory_entry.equals
  rw [h1, h2]

theorem equals_right (y a b : inventory_entry) (h : a.equals b = true) :
    y.equals a = y.equals b := by
  simp only [inventory_entry.equals, Bool.and_eq_true, decide_eq_true_eq] at h
  exact equals_congr y a b h.1 h.2

theorem equals_join (y a b : inventory_entry) (h1 : y.equals a = true)
    (h2 : y.equals b = true) : a.equals b = true := by
  simp only [inventory_entry.equals, Bool.and_eq_true, decide_eq_true_eq] at h1 h2 ⊢
  exact ⟨by rw [← h1.1, h2.1], by rw [← h1.2, h2.2]⟩

/-- The rows that equal an item entry `a` which does not equal `m` are among
the item rows that do not equal `m`. -/
theorem filter_equals_other (l : List inventory_entry) (a m : inventory_entry)
    (ha : a.is_item = true) (hne : a.equals m = false) :
    l.filter (fun y => y.equals a)
      = (l.filter (fun y => y.is_item && !y.equals m)).filter (fun y => y.equals a) := by
  rw [List.filter_filter]
  apply List.filter_congr
  intro y _
  by_cases h : y.equals a = true
  · have h1 : y.is_item = true := equals_is_item y a ha h
    have h2 : y.equals m = false := by
      cases hq : y.equals m with
      | false => rfl
      | true =>
        rw [equals_join y a m h hq] at hne
        exact absurd hne (by simp)
    rw [h, h1, h2]
    rfl
  · rw [bool_not_true _ h]
    rfl

/-- Whenever `on_change` of the selection column returns, the page size and the
pseudo-category are kept, the number of rows is bounded, and no two rows are
equal when none were before. -/
theorem on_change_frame (X : externals) (P : inventory_selector_preset)
    (sc : selection_column) (entry : inventory_entry)
    (hsort : std_sort_contract X.std_sort) (hv : sort_compare_valid P)
    (hitem : entry.is_item = true)
    (hepp : 1 ≤ sc.base.entries_per_page) (hsize : sc.base.entries.length + 1 < 2 ^ 61)
    (huniq : unique_rows sc) (fuel : Nat) (r : selection_column)
    (h : selection_column.on_change X P fuel sc entry = some r) :
    r.base.entries_per_page = sc.base.entries_per_page ∧
    r.base.entries.length ≤ 3 * (sc.base.entries.length + 1) + 1 ∧
    r.selected_cat = sc.selected_cat ∧ unique_rows r := by
  have hmy : (mirror_entry sc entry).is_item = true := hitem
  have hone := huniq (mirror_entry sc entry) hmy
  obtain ⟨rc, r1, r2, r3⟩ := on_change_rows X P sc entry hsort hv hitem hepp hsize hone fuel r h
  obtain ⟨repaged, hp, hent, hfound, hmissing⟩ := on_change_parts X P fuel sc r entry h
  obtain ⟨_, _, _, hme, hml⟩ := mirror_rows X P sc (mirror_entry sc entry) hone
  obtain ⟨_, _, hlen⟩ := selection_prepare_paging_items X P _ repaged hsort hv
    (by simp only; omega) (by simp only; omega) fuel hp
  have hpe := selection_prepare_paging_epp X P _ repaged hsort hv
    (by simp only; omega) (by simp only; omega) fuel hp
  simp only at hlen hpe
  refine ⟨?_, ?_, rc, ?_⟩
  · by_cases hi : repaged.base.entries.findIdx (fun e => e.equals (mirror_entry sc entry))
        < repaged.base.entries.length
    · rw [select_epp _ _ _ _ _ (hfound hi), hpe, hme]
    · rw [select_epp _ _ _ _ _ (hmissing hi), hpe, hme]
  · rw [hent]
    omega
  · intro a ha
    by_cases hq : a.equals (mirror_entry sc entry) = true
    · have e : r.base.entries.filter (fun y => y.equals a)
          = r.base.entries.filter (fun y => y.equals (mirror_entry sc entry)) := by
        apply List.filter_congr
        intro y _
        exact equals_right y a _ hq
      rw [e]
      by_cases hc : entry.chosen_count = 0
      · rw [r2 hc]
        exact Nat.zero_le _
      · obtain ⟨x, hx, _⟩ := r1 hc
        rw [hx]
        exact Nat.le_refl _
    · have hq2 := bool_not_true _ hq
      rw [filter_equals_other _ a _ ha hq2, (r3.filter _).length_eq,
        ← filter_equals_other _ a _ ha hq2]
      exact huniq a ha

theorem unique_rows_of_entries (sc r : selection_column)
    (h : r.base.entries = sc.base.entries) (hu : unique_rows sc) : unique_rows r := by
  intro a ha
  rw [h]
  exact hu a ha

/-- The call `on_change( entry )` of the selector for an item entry returns
with enough fuel; it keeps the pointers, their order and the layout flag, the
rows of every column but the selection column, and the page size and the
pseudo-category of the selection column, in which no two rows are equal. -/
theorem selector_on_change_result (env : selector_env) (s : inventory_selector)
    (entry : inventory_entry) (fuel : Nat)
    (hsort : std_sort_contract env.SX.std_sort) (hv : sort_compare_valid env.SP)
    (hnodup : s.columns.Nodup) (ha : s.active_column_index < s.columns.length)
    (hitem : entry.is_item = true)
    (hepp : 2 ≤ s.selection_col.base.entries_per_page)
    (hsize : s.selection_col.base.entries.length + 1 < 2 ^ 61)
    (huniq : unique_rows s.selection_col)
    (hf : 3 * s.selection_col.base.entries.length + 4 + s.columns.length ≤ fuel) :
    ∃ t, on_change env fuel s entry = some t ∧ t.columns = s.columns ∧
      t.layout_is_valid = s.layout_is_valid ∧
      t.active_column_index < t.columns.length ∧
      (∀ id, id ≠ column_id.SELECTION → (get_col t id).entries = (get_col s id).entries) ∧
      t.selection_col.base.entries_per_page = s.selection_col.base.entries_per_page ∧
      t.selection_col.base.entries.length
        ≤ 3 * (s.selection_col.base.entries.length + 1) + 1 ∧
      unique_rows t.selection_col := by
  unfold on_change
  rw [for_each_on_change env fuel entry s.columns s hnodup]
  by_cases hsel : column_id.SELECTION ∈ s.columns
  · rw [if_pos hsel]
    obtain ⟨r, hr⟩ := on_change_total env.SX env.SP s.selection_col entry hsort hv hepp hsize
      (huniq _ hitem)
    have hr2 := hr fuel (by omega)
    obtain ⟨f1, f2, _, f4⟩ := on_change_frame env.SX env.SP s.selection_col entry hsort hv hitem
      (by omega) hsize huniq fuel r hr2
    rw [hr2]
    simp only [Option.map_some']
    obtain ⟨t, ht⟩ := refresh_active_column_returns env { s with selection_col := r } ha fuel
      (by show s.columns.length ≤ fuel; omega)
    obtain ⟨⟨g1, g2, _, g4⟩, g5⟩ := refresh_active_column_same_rows env
      { s with selection_col := r } t ha fuel ht
    rw [ht]
    refine ⟨t, rfl, g1, g2, g5, ?_, ?_, ?_, ?_⟩
    · intro id hid
      exact (g4 id).1.trans (by cases id <;> first | rfl | exact absurd rfl hid)
    · have := (g4 column_id.SELECTION).2
      exact this.trans f1
    · have := (g4 column_id.SELECTION).1
      have e : t.selection_col.base.entries = r.base.entries := this
      rw [e]
      exact f2
    · exact unique_rows_of_entries r t.selection_col (g4 column_id.SELECTION).1 f4
  · rw [if_neg hsel]
    simp only
    obtain ⟨t, ht⟩ := refresh_active_column_returns env s ha fuel (by omega)
    obtain ⟨⟨g1, g2, _, g4⟩, g5⟩ := refresh_active_column_same_rows env _ t ha fuel ht
    rw [ht]
    refine ⟨t, rfl, g1, g2, g5, fun id _ => (g4 id).1, (g4 column_id.SELECTION).2, ?_, ?_⟩
    · have e : t.selection_col.base.entries = s.selection_col.base.entries :=
        (g4 column_id.SELECTION).1
      rw [e]
      omega
    · exact unique_rows_of_entries s.selection_col t.selection_col
        (g4 column_id.SELECTION).1 huniq
theorem entry_at_set_same (l : List inventory_entry) (i : Nat) (e : inventory_entry)
    (h : i < l.length) : entry_at (l.set i e) i = e := by
  simp [entry_at, List.getD_eq_getElem?_getD, List.getElem?_set, h]

theorem entry_at_set_ne (l : List inventory_entry) (i j : Nat) (e : inventory_entry)
    (h : i ≠ j) : entry_at (l.set i e) j = entry_at l j := by
  simp [entry_at, List.getD_eq_getElem?_getD, List.getElem?_set, h]

/-- The selector after an assignment to a row outside the selection column:
only the rows of the column of the pointer change. -/
theorem set_entry_state (s : inventory_selector) (p : entry_ptr) (e : inventory_entry)
    (hp : p.column ≠ column_id.SELECTION) :
    (set_entry s p e).columns = s.columns ∧
    (set_entry s p e).layout_is_valid = s.layout_is_valid ∧
    (set_entry s p e).active_column_index = s.active_column_index ∧
    (set_entry s p e).selection_col = s.selection_col ∧
    (∀ id, (get_col (set_entry s p e) id).entries
      = if id = p.column then (get_col s id).entries.set p.index e
        else (get_col s id).entries) := by
  unfold set_entry
  refine ⟨set_col_columns _ _ _, ?_, ?_, ?_, ?_⟩
  · cases hc : p.column <;> rfl
  · cases hc : p.column <;> rfl
  · cases hc : p.column <;> first | rfl | exact absurd hc hp
  · intro id
    by_cases h : id = p.column
    · rw [if_pos h, h, get_col_set_col_same]
    · rw [if_neg h, get_col_set_col_ne _ _ _ _ (fun h2 => h h2.symm)]

theorem entry_ptr_ne (p q : entry_ptr) (h : q ≠ p) (hc : q.column = p.column) :
    p.index ≠ q.index := by
  intro hi
  apply h
  cases p
  cases q
  simp only at hc hi
  rw [hc, hi]

/-- The call `on_change( *entry )` after an assignment of the item entry `e` to
the row behind a pointer outside the selection column returns with enough
fuel; the row behind the pointer is `e`, and the other rows outside the
selection column are as before the assignment. -/
theorem set_entry_on_change (env : selector_env) (s : inventory_selector)
    (p : entry_ptr) (e : inventory_entry) (fuel : Nat)
    (hsort : std_sort_contract env.SX.std_sort) (hv : sort_compare_valid env.SP)
    (hnodup : s.columns.Nodup)
    (ha : s.active_column_index < s.columns.length)
    (hepp : 2 ≤ s.selection_col.base.entries_per_page)
    (hsize : s.selection_col.base.entries.length + 1 < 2 ^ 61)
    (huniq : unique_rows s.selection_col)
    (hp : p.column ≠ column_id.SELECTION)
    (hrange : p.index < (get_col s p.column).entries.length)
    (hitem : e.is_item = true)
    (hf : 3 * s.selection_col.base.entries.length + 4 + s.columns.length ≤ fuel) :
    ∃ t, on_change env fuel (set_entry s p e) (entry_of (set_entry s p e) p) = some t ∧
      entry_of t p = e ∧
      (∀ q, q.column ≠ column_id.SELECTION → q ≠ p → entry_of t q = entry_of s q) ∧
      (∀ id, id ≠ column_id.SELECTION →
        (get_col t id).entries.length = (get_col s id).entries.length) ∧
      t.columns = s.columns ∧
      t.layout_is_valid = s.layout_is_valid ∧
      t.active_column_index < t.columns.length ∧
      t.selection_col.base.entries_per_page = s.selection_col.base.entries_per_page ∧
      t.selection_col.base.entries.length
        ≤ 3 * (s.selection_col.base.entries.length + 1) + 1 ∧
      unique_rows t.selection_col := by
  obtain ⟨s1, s2, s3, s4, s5⟩ := set_entry_state s p e hp
  have hent : entry_of (set_entry s p e) p = e := by
    unfold entry_of
    rw [s5 p.column, if_pos rfl]
    exact entry_at_set_same _ _ _ hrange
  obtain ⟨t, t0, t1, t2, t3, t4, t5, t6, t7⟩ := selector_on_change_result env
    (set_entry s p e) e fuel
    hsort hv (by rw [s1]; exact hnodup) (by rw [s1, s3]; exact ha) hitem
    (by rw [s4]; exact hepp) (by rw [s4]; exact hsize) (by rw [s4]; exact huniq)
    (by rw [s1, s4]; exact hf)
  rw [s4] at t5 t6
  refine ⟨t, by rw [hent]; exact t0, ?_, ?_, ?_, by rw [t1, s1], by rw [t2, s2], t3, t5, t6, t7⟩
  · show entry_at (get_col t p.column).entries p.index = _
    rw [t4 p.column hp]
    exact hent
  · intro q hq hne
    show entry_at (get_col t q.column).entries q.index
      = entry_at (get_col s q.column).entries q.index
    rw [t4 q.column hq, s5 q.column]
    by_cases hc : q.column = p.column
    · rw [if_pos hc]
      exact entry_at_set_ne _ _ _ _ (entry_ptr_ne p q hne hc)
    · rw [if_neg hc]
  · intro id hid
    rw [t4 id hid, s5 id]
    split
    · exact List.length_set _ _ _
    · rfl

/-- The call `toggle_entry( entry )` for a pointer to an item row outside the
selection column returns with enough fuel: the chosen count of the row becomes
0 when the pointer was in `compared` and 1 when it was not, the pointer is
erased from or appended to `compared`, and the other rows outside the selection
column are as before. -/
theorem toggle_entry_result (env : selector_env) (cs : inventory_compare_selector)
    (p : entry_ptr) (fuel : Nat)
    (hsort : std_sort_contract env.SX.std_sort) (hv : sort_compare_valid env.SP)
    (hnodup : cs.base.columns.Nodup)
    (ha : cs.base.active_column_index < cs.base.columns.length)
    (hepp : 2 ≤ cs.base.selection_col.base.entries_per_page)
    (hsize : cs.base.selection_col.base.entries.length + 1 < 2 ^ 61)
    (huniq : unique_rows cs.base.selection_col)
    (hp : p.column ≠ column_id.SELECTION)
    (hrange : p.index < (get_col cs.base p.column).entries.length)
    (hitem : (entry_of cs.base p).is_item = true)
    (hf : 3 * cs.base.selection_col.base.entries.length + 4 + cs.base.columns.length ≤ fuel) :
    ∃ cs1, toggle_entry env fuel cs p = some cs1 ∧
      cs1.compared = (if p ∈ cs.compared then cs.compared.erase p else cs.compared ++ [p]) ∧
      entry_of cs1.base p
        = { entry_of cs.base p with chosen_count := if p ∈ cs.compared then 0 else 1 } ∧
      (∀ q, q.column ≠ column_id.SELECTION → q ≠ p →
        entry_of cs1.base q = entry_of cs.base q) ∧
      (∀ id, id ≠ column_id.SELECTION →
        (get_col cs1.base id).entries.length = (get_col cs.base id).entries.length) ∧
      cs1.base.columns = cs.base.columns ∧
      cs1.base.layout_is_valid = cs.base.layout_is_valid ∧
      cs1.base.active_column_index < cs1.base.columns.length ∧
      cs1.base.selection_col.base.entries_per_page
        = cs.base.selection_col.base.entries_per_page ∧
      cs1.base.selection_col.base.entries.length
        ≤ 3 * (cs.base.selection_col.base.entries.length + 1) + 1 ∧
      unique_rows cs1.base.selection_col := by
  obtain ⟨t, t0, t1, t2, t3, t4, t5, t6, t7, t8, t9⟩ := set_entry_on_change env cs.base p
    { entry_of cs.base p with chosen_count := if p ∈ cs.compared then 0 else 1 } fuel
    hsort hv hnodup ha hepp hsize huniq hp hrange hitem hf
  refine ⟨{ base := t, compared :=
      if p ∈ cs.compared then cs.compared.erase p else cs.compared ++ [p] }, ?_, rfl,
    t1, t2, t3, t4, t5, t6, t7, t8, t9⟩
  have hfold : toggle_entry env fuel cs p
      = (on_change env fuel
          (set_entry cs.base p
            { entry_of cs.base p with chosen_count := if p ∈ cs.compared then 0 else 1 })
          (entry_of (set_entry cs.base p
            { entry_of cs.base p with chosen_count := if p ∈ cs.compared then 0 else 1 }) p)).map
          (fun t => ({ base := t, compared :=
            if (if p ∈ cs.compared then 0 else 1) ≠ 0 then cs.compared ++ [p]
            else cs.compared.erase p } : inventory_compare_selector)) := rfl
  rw [hfold, t0]
  by_cases hm : p ∈ cs.compared
  · simp [hm]
  · simp [hm]
theorem unique_rows_of_items (sc : selection_column)
    (h : (sc.base.entries.filter inventory_entry.is_item).length ≤ 1) : unique_rows sc := by
  intro a ha
  rw [filter_of_items (fun y => y.equals a) sc.base.entries
    (fun y hy => equals_is_item y a ha hy)]
  exact Nat.le_trans (List.length_filter_le _ _) h

theorem with_chosen_count_self (e : inventory_entry) (n : Nat) (h : e.chosen_count = n) :
    { e with chosen_count := n } = e := by
  cases e
  simp only at h
  rw [h]

theorem with_chosen_count_twice (e : inventory_entry) (n m : Nat) :
    ({ ({ e with chosen_count := n } : inventory_entry) with chosen_count := m }
      : inventory_entry) = { e with chosen_count := m } := rfl

/-- Two calls of `toggle_entry` for the same pointer, one after the other. -/
theorem toggle_entry_twice (env : selector_env) (cs : inventory_compare_selector)
    (p : entry_ptr)
    (hsort : std_sort_contract env.SX.std_sort) (hv : sort_compare_valid env.SP)
    (hnodup : cs.base.columns.Nodup)
    (ha : cs.base.active_column_index < cs.base.columns.length)
    (hepp : 2 ≤ cs.base.selection_col.base.entries_per_page)
    (hsize : cs.base.selection_col.base.entries.length < 2 ^ 58)
    (huniq : unique_rows cs.base.selection_col)
    (hcomp : cs.compared.Nodup)
    (hp : p.column ≠ column_id.SELECTION)
    (hrange : p.index < (get_col cs.base p.column).entries.length)
    (hitem : (entry_of cs.base p).is_item = true) (fuel : Nat)
    (hf : 9 * cs.base.selection_col.base.entries.length + 16 + cs.base.columns.length
      ≤ fuel) :
    ∃ cs1 cs2, toggle_entry env fuel cs p = some cs1 ∧
      toggle_entry env fuel cs1 p = some cs2 ∧
      cs2.compared.Perm cs.compared ∧
      (entry_of cs2.base p).chosen_count = (if p ∈ cs.compared then 1 else 0) ∧
      ((entry_of cs.base p).chosen_count = (if p ∈ cs.compared then 1 else 0) →
        entry_of cs2.base p = entry_of cs.base p) ∧
      ((entry_of cs1.base p).chosen_count = 1 ↔ p ∈ cs1.compared) ∧
      (∀ q, q.column ≠ column_id.SELECTION → q ≠ p →
        entry_of cs1.base q = entry_of cs.base q ∧
        (q ∈ cs1.compared ↔ q ∈ cs.compared)) := by
  obtain ⟨cs1, a0, a1, a2, a3, a4, a5, _, a7, a8, a9, a10⟩ := toggle_entry_result env cs p fuel
    hsort hv hnodup ha hepp (by omega) huniq hp hrange hitem (by omega)
  have hitem1 : (entry_of cs1.base p).is_item = true := by
    rw [a2]
    exact hitem
  obtain ⟨cs2, b0, b1, b2, _⟩ := toggle_entry_result env cs1 p fuel
    hsort hv (by rw [a5]; exact hnodup) a7 (by rw [a8]; exact hepp) (by omega) a10 hp
    (by rw [a4 p.column hp]; exact hrange) hitem1 (by rw [a5]; omega)
  have hmem : p ∈ cs1.compared ↔ p ∉ cs.compared := by
    rw [a1]
    by_cases hm : p ∈ cs.compared
    · rw [if_pos hm]
      simp [hcomp.mem_erase_iff, hm]
    · rw [if_neg hm]
      simp [hm]
  refine ⟨cs1, cs2, a0, b0, ?_, ?_, ?_, ?_, ?_⟩
  · rw [b1, a1]
    by_cases hm : p ∈ cs.compared
    · have h1 : p ∉ cs.compared.erase p := by simp [hcomp.mem_erase_iff]
      rw [if_pos hm, if_neg h1]
      exact (List.perm_append_comm.trans (List.perm_cons_erase hm).symm)
    · have h1 : p ∈ cs.compared ++ [p] := by simp
      rw [if_neg hm, if_pos h1, List.erase_append_right _ hm]
      simp
  · rw [b2, a2]
    by_cases hm : p ∈ cs.compared
    · rw [if_neg (hmem.not.2 (by simpa using hm))]
      simp [hm]
    · rw [if_pos (hmem.2 hm)]
      simp [hm]
  · intro h0
    rw [b2, a2, with_chosen_count_twice]
    apply with_chosen_count_self
    rw [h0]
    by_cases hm : p ∈ cs.compared
    · rw [if_neg (hmem.not.2 (by simpa using hm)), if_pos hm]
    · rw [if_pos (hmem.2 hm), if_neg hm]
  · rw [a2, hmem]
    by_cases hm : p ∈ cs.compared
    · simp [hm]
    · simp [hm]
  · intro q hq hne
    refine ⟨a3 q hq hne, ?_⟩
    rw [a1]
    by_cases hm : p ∈ cs.compared
    · rw [if_pos hm]
      simp [List.mem_erase_of_ne hne]
    · rw [if_neg hm]
      simp [hne]

/-- Claim C27: `toggle_entry` of the compare selector, called twice in a row
for the same pointer to an item row outside the selection column (whose rows
`on_change` replaces), returns both times with enough fuel.  After the second
call `compared` holds the pointers of before, the chosen count of the row is 1
when its pointer was in `compared` and 0 when it was not, so that a row whose
chosen count agreed with `compared` is as it was.  After the first call the
chosen count of the row is 1 exactly when its pointer is in `compared`, and
the other rows outside the selection column and their membership in `compared`
are as before. -/
theorem toggle_entry_spec (env : selector_env) (cs : inventory_compare_selector)
    (p : entry_ptr)
    (hsort : std_sort_contract env.SX.std_sort) (hv : sort_compare_valid env.SP)
    (hnodup : cs.base.columns.Nodup)
    (ha : cs.base.active_column_index < cs.base.columns.length)
    (hepp : 2 ≤ cs.base.selection_col.base.entries_per_page)
    (hsize : cs.base.selection_col.base.entries.length < 2 ^ 58)
    (huniq : unique_rows cs.base.selection_col)
    (hcomp : cs.compared.Nodup)
    (hp : p.column ≠ column_id.SELECTION)
    (hrange : p.index < (get_col cs.base p.column).entries.length)
    (hitem : (entry_of cs.base p).is_item = true) (fuel : Nat)
    (hf : 9 * cs.base.selection_col.base.entries.length + 16 + cs.base.columns.length
      ≤ fuel) :
    ∃ cs1 cs2, toggle_entry env fuel cs p = some cs1 ∧
      toggle_entry env fuel cs1 p = some cs2 ∧
      cs2.compared.Perm cs.compared ∧
      (entry_of cs2.base p).chosen_count = (if p ∈ cs.compared then 1 else 0) ∧
      ((entry_of cs.base p).chosen_count = (if p ∈ cs.compared then 1 else 0) →
        entry_of cs2.base p = entry_of cs.base p) ∧
      ((entry_of cs1.base p).chosen_count = 1 ↔ p ∈ cs1.compared) ∧
      (∀ q, q.column ≠ column_id.SELECTION → q ≠ p →
        entry_of cs1.base q = entry_of cs.base q ∧
        (q ∈ cs1.compared ↔ q ∈ cs.compared)) :=
  toggle_entry_twice env cs p hsort hv hnodup ha hepp hsize huniq hcomp hp hrange hitem fuel hf

/-- The sample compare selector with nothing marked and the pointer to the row
of item 1: the first call marks the row, the second unmarks it. -/
theorem toggle_entry_spec_witness :
    (toggle_entry sample_env 29 sample_compare sample_ptr_a).map
        (fun cs1 => (cs1.compared, (entry_of cs1.base sample_ptr_a).chosen_count))
      = some ([sample_ptr_a], 1) ∧
    ((toggle_entry sample_env 29 sample_compare sample_ptr_a).bind
        (fun cs1 => toggle_entry sample_env 29 cs1 sample_ptr_a)).map
        (fun cs2 => (cs2.compared, (entry_of cs2.base sample_ptr_a).chosen_count))
      = some ([], 0) ∧
    ∃ cs1 cs2, toggle_entry sample_env 29 sample_compare sample_ptr_a = some cs1 ∧
      toggle_entry sample_env 29 cs1 sample_ptr_a = some cs2 ∧
      cs2.compared.Perm sample_compare.compared ∧
      (entry_of cs2.base sample_ptr_a).chosen_count
        = (if sample_ptr_a ∈ sample_compare.compared then 1 else 0) ∧
      ((entry_of sample_compare.base sample_ptr_a).chosen_count
          = (if sample_ptr_a ∈ sample_compare.compared then 1 else 0) →
        entry_of cs2.base sample_ptr_a = entry_of sample_compare.base sample_ptr_a) ∧
      ((entry_of cs1.base sample_ptr_a).chosen_count = 1 ↔ sample_ptr_a ∈ cs1.compared) ∧
      (∀ q, q.column ≠ column_id.SELECTION → q ≠ sample_ptr_a →
        entry_of cs1.base q = entry_of sample_compare.base q ∧
        (q ∈ cs1.compared ↔ q ∈ sample_compare.compared)) :=
  ⟨by decide, by decide,
    toggle_entry_spec sample_env sample_compare sample_ptr_a insertion_sort_contract
      default_preset_valid (by decide) (by decide) (by decide) (by decide)
      (unique_rows_of_items _ (by decide)) (by decide) (by decide) (by decide) (by decide)
      29 (by decide)⟩

/-! ## The compare selector: the driver -/

theorem update_valid (env : selector_env) (fuel : Nat) (s : inventory_selector)
    (h : s.layout_is_valid = true) : update env fuel s = some s := by
  unfold update
  rw [if_pos h]

/-- One pass of the loop of the compare driver for an input that designates a
row, when the layout is valid. -/
theorem compare_execute_step (env : selector_env) (fuel : Nat)
    (cs cs1 : inventory_compare_selector) (raw : raw_input) (rest : List raw_input)
    (p : entry_ptr) (hvalid : cs.base.layout_is_valid = true)
    (hin : (get_input cs.base raw).entry = some p)
    (ht : toggle_entry env fuel cs p = some cs1) :
    compare_execute env fuel cs (raw :: rest)
      = match cs1.compared with
        | [front, back] =>
          (toggle_entry env fuel cs1 back).map
            (fun cs2 => (cs2, some ((entry_of cs1.base back).location,
              (entry_of cs1.base front).location)))
        | _ => compare_execute env fuel cs1 rest := by
  have hr : compare_react env fuel cs (get_input cs.base raw) = some (cs1, none) := by
    unfold compare_react
    rw [hin]
    simp only
    rw [ht]
    rfl
  rw [compare_execute, update_valid env fuel cs.base hvalid]
  simp only
  have e : ({ cs with base := cs.base } : inventory_compare_selector) = cs := rfl
  rw [e, hr]
  try rfl

/-- The compare driver with nothing marked and two inputs that designate the
item rows `x` and `y` outside the selection column, one after the other: it
returns after the second input with the locations of `y` and of `x`; only the
pointer to `x` is left in `compared`, the chosen count of `x` is 1 and that of
`y` is 0. -/
theorem compare_execute_pair (env : selector_env) (cs : inventory_compare_selector)
    (x y : entry_ptr) (raw1 raw2 : raw_input) (rest : List raw_input) (fuel : Nat)
    (hsort : std_sort_contract env.SX.std_sort) (hv : sort_compare_valid env.SP)
    (hnodup : cs.base.columns.Nodup)
    (ha : cs.base.active_column_index < cs.base.columns.length)
    (hepp : 2 ≤ cs.base.selection_col.base.entries_per_page)
    (hsize : cs.base.selection_col.base.entries.length < 2 ^ 55)
    (huniq : unique_rows cs.base.selection_col)
    (hvalid : cs.base.layout_is_valid = true)
    (hempty : cs.compared = [])
    (hxy : x ≠ y)
    (hx : x.column ≠ column_id.SELECTION)
    (hxr : x.index < (get_col cs.base x.column).entries.length)
    (hxi : (entry_of cs.base x).is_item = true)
    (hy : y.column ≠ column_id.SELECTION)
    (hyr : y.index < (get_col cs.base y.column).entries.length)
    (hyi : (entry_of cs.base y).is_item = true)
    (h1 : (get_input cs.base raw1).entry = some x)
    (h2 : ∀ cs1 ∈ toggle_entry env fuel cs x, (get_input cs1.base raw2).entry = some y)
    (hf : 27 * cs.base.selection_col.base.entries.length + 52 + cs.base.columns.length
      ≤ fuel) :
    ∃ cs3, compare_execute env fuel cs (raw1 :: raw2 :: rest)
        = some (cs3, some ((entry_of cs.base y).location, (entry_of cs.base x).location)) ∧
      cs3.compared = [x] ∧ (entry_of cs3.base x).chosen_count = 1 ∧
      (entry_of cs3.base y).chosen_count = 0 := by
  obtain ⟨cs1, a0, a1, a2, a3, a4, a5, a6, a7, a8, a9, a10⟩ := toggle_entry_result env cs x fuel
    hsort hv hnodup ha hepp (by omega) huniq hx hxr hxi (by omega)
  rw [hempty] at a1 a2
  simp only [List.not_mem_nil, if_false, List.nil_append] at a1 a2
  have b3y := a3 y hy (fun h => hxy h.symm)
  obtain ⟨cs2, b0, b1, b2, b3, b4, b5, b6, b7, b8, b9, b10⟩ := toggle_entry_result env cs1 y
    fuel hsort hv (by rw [a5]; exact hnodup) a7 (by rw [a8]; exact hepp) (by omega) a10 hy
    (by rw [a4 y.column hy]; exact hyr) (by rw [b3y]; exact hyi) (by rw [a5]; omega)
  have hny : y ∉ cs1.compared := by
    rw [a1]
    simp only [List.mem_singleton]
    exact fun h => hxy h.symm
  rw [a1, if_neg (by rw [← a1]; exact hny)] at b1
  rw [if_neg hny, b3y] at b2
  have b3x := b3 x hx hxy
  rw [a2] at b3x
  have hyi2 : (entry_of cs2.base y).is_item = true := by
    rw [b2]
    exact hyi
  obtain ⟨cs3, c0, c1, c2, c3, _⟩ := toggle_entry_result env cs2 y
    fuel hsort hv (by rw [b5, a5]; exact hnodup) b7 (by rw [b8, a8]; exact hepp) (by omega)
    b10 hy (by rw [b4 y.column hy, a4 y.column hy]; exact hyr) hyi2
    (by rw [b5, a5]; omega)
  have hmy : y ∈ cs2.compared := by
    rw [b1]
    simp
  rw [if_pos hmy, b1] at c1
  rw [if_pos hmy, b2] at c2
  have c3x := c3 x hx hxy
  rw [b3x] at c3x
  refine ⟨cs3, ?_, ?_, ?_, ?_⟩
  · rw [compare_execute_step env fuel cs cs1 raw1 (raw2 :: rest) x hvalid h1 a0, a1]
    simp only
    rw [compare_execute_step env fuel cs1 cs2 raw2 rest y (by rw [a6]; exact hvalid)
      (h2 cs1 a0) b0, b1]
    simp only [List.singleton_append]
    rw [c0, b2, b3x]
    rfl
  · rw [c1]
    simp only [List.singleton_append]
    rw [List.erase_cons_tail (by simpa using hxy), List.erase_cons_head]
  · rw [c3x]
  · rw [c2]

/-- Claim C28: the compare driver with nothing marked and a valid layout, on
an input that designates the item row `x` followed by an input that designates
a different item row `y` (both outside the selection column), returns with
enough fuel at the second input, whatever inputs follow, with the pair of the
location of `y`, the row marked last, and the location of `x`, the row marked
first. -/
theorem compare_execute_spec (env : selector_env) (cs : inventory_compare_selector)
    (x y : entry_ptr) (raw1 raw2 : raw_input) (rest : List raw_input) (fuel : Nat)
    (hsort : std_sort_contract env.SX.std_sort) (hv : sort_compare_valid env.SP)
    (hnodup : cs.base.columns.Nodup)
    (ha : cs.base.active_column_index < cs.base.columns.length)
    (hepp : 2 ≤ cs.base.selection_col.base.entries_per_page)
    (hsize : cs.base.selection_col.base.entries.length < 2 ^ 55)
    (huniq : unique_rows cs.base.selection_col)
    (hvalid : cs.base.layout_is_valid = true)
    (hempty : cs.compared = [])
    (hxy : x ≠ y)
    (hx : x.column ≠ column_id.SELECTION)
    (hxr : x.index < (get_col cs.base x.column).entries.length)
    (hxi : (entry_of cs.base x).is_item = true)
    (hy : y.column ≠ column_id.SELECTION)
    (hyr : y.index < (get_col cs.base y.column).entries.length)
    (hyi : (entry_of cs.base y).is_item = true)
    (h1 : (get_input cs.base raw1).entry = some x)
    (h2 : ∀ cs1 ∈ toggle_entry env fuel cs x, (get_input cs1.base raw2).entry = some y)
    (hf : 27 * cs.base.selection_col.base.entries.length + 52 + cs.base.columns.length
      ≤ fuel) :
    ∃ cs3, compare_execute env fuel cs (raw1 :: raw2 :: rest)
      = some (cs3, some ((entry_of cs.base y).location, (entry_of cs.base x).location)) := by
  obtain ⟨cs3, h, _⟩ := compare_execute_pair env cs x y raw1 raw2 rest fuel hsort hv hnodup ha
    hepp hsize huniq hvalid hempty hxy hx hxr hxi hy hyr hyi h1 h2 hf
  exact ⟨cs3, h⟩

/-- The sample compare selector with the rows `X`, `Y` and `Z` of the items 1,
2 and 3: the keys of `X` and of `Y` make the driver return the pair of item 2
and item 1, also when the key of `Z` follows. -/
theorem compare_execute_spec_witness :
    (compare_execute sample_env 83 sample_keyed_compare
        [{ action := "ANY_INPUT", ch := 97 }, { action := "ANY_INPUT", ch := 98 },
          { action := "ANY_INPUT", ch := 99 }]).map
        (fun r => r.2.map (fun res => (res.1.map (fun it => it.id),
          res.2.map (fun it => it.id))))
      = some (some (some 2, some 1)) ∧
    ∃ cs3, compare_execute sample_env 83 sample_keyed_compare
        ({ action := "ANY_INPUT", ch := 97 } :: { action := "ANY_INPUT", ch := 98 }
          :: [{ action := "ANY_INPUT", ch := 99 }])
      = some (cs3, some ((entry_of sample_keyed_compare.base sample_ptr_b).location,
          (entry_of sample_keyed_compare.base sample_ptr_a).location)) :=
  ⟨by decide,
    compare_execute_spec sample_env sample_keyed_compare sample_ptr_a sample_ptr_b
      { action := "ANY_INPUT", ch := 97 } { action := "ANY_INPUT", ch := 98 }
      [{ action := "ANY_INPUT", ch := 99 }] 83 insertion_sort_contract default_preset_valid
      (by decide) (by decide) (by decide) (by decide) (unique_rows_of_items _ (by decide))
      (by decide) (by decide) (by decide) (by decide) (by decide) (by decide) (by decide)
      (by decide) (by decide) (by decide) (by decide) (by decide)⟩

/-- Counterexample to claim C29: on the sample compare selector the driver
returns the pair after the keys of `X` and `Y`, and then the pointer to `X` is
still in `compared` and the chosen count of `X` is still 1; only `Y` was
cleared. -/
theorem compare_execute_clears_counterexample :
    (compare_execute sample_env 83 sample_keyed_compare
        [{ action := "ANY_INPUT", ch := 97 }, { action := "ANY_INPUT", ch := 98 }]).map
        (fun r => (r.2.isSome, r.1.compared, (entry_of r.1.base sample_ptr_a).chosen_count,
          (entry_of r.1.base sample_ptr_b).chosen_count))
      = some (true, [sample_ptr_a], 1, 0) ∧
    (compare_execute sample_env 83 sample_keyed_compare
        [{ action := "ANY_INPUT", ch := 97 }, { action := "ANY_INPUT", ch := 98 }]).map
        (fun r => (r.2.isSome, r.1.compared, (entry_of r.1.base sample_ptr_a).chosen_count,
          (entry_of r.1.base sample_ptr_b).chosen_count))
      ≠ some (true, [], 0, 0) := by
  decide

/-- Claim C29, amended: when the compare driver returns the pair after the
inputs that designate `x` and then `y`, only the row marked last is cleared:
the pointer to `x` alone is left in `compared`, the chosen count of `y` is 0
and the chosen count of `x` is still 1. -/
theorem compare_execute_clears_last (env : selector_env) (cs : inventory_compare_selector)
    (x y : entry_ptr) (raw1 raw2 : raw_input) (rest : List raw_input) (fuel : Nat)
    (hsort : std_sort_contract env.SX.std_sort) (hv : sort_compare_valid env.SP)
    (hnodup : cs.base.columns.Nodup)
    (ha : cs.base.active_column_index < cs.base.columns.length)
    (hepp : 2 ≤ cs.base.selection_col.base.entries_per_page)
    (hsize : cs.base.selection_col.base.entries.length < 2 ^ 55)
    (huniq : unique_rows cs.base.selection_col)
    (hvalid : cs.base.layout_is_valid = true)
    (hempty : cs.compared = [])
    (hxy : x ≠ y)
    (hx : x.column ≠ column_id.SELECTION)
    (hxr : x.index < (get_col cs.base x.column).entries.length)
    (hxi : (entry_of cs.base x).is_item = true)
    (hy : y.column ≠ column_id.SELECTION)
    (hyr : y.index < (get_col cs.base y.column).entries.length)
    (hyi : (entry_of cs.base y).is_item = true)
    (h1 : (get_input cs.base raw1).entry = some x)
    (h2 : ∀ cs1 ∈ toggle_entry env fuel cs x, (get_input cs1.base raw2).entry = some y)
    (hf : 27 * cs.base.selection_col.base.entries.length + 52 + cs.base.columns.length
      ≤ fuel) :
    ∃ cs3 res, compare_execute env fuel cs (raw1 :: raw2 :: rest) = some (cs3, some res) ∧
      cs3.compared = [x] ∧ (entry_of cs3.base y).chosen_count = 0 ∧
      (entry_of cs3.base x).chosen_count = 1 := by
  obtain ⟨cs3, h, k1, k2, k3⟩ := compare_execute_pair env cs x y raw1 raw2 rest fuel hsort hv
    hnodup ha hepp hsize huniq hvalid hempty hxy hx hxr hxi hy hyr hyi h1 h2 hf
  exact ⟨cs3, _, h, k1, k3, k2⟩

/-- The sample compare selector after the keys of `X` and `Y`: the pointer to
`X` is left in `compared`. -/
theorem compare_execute_clears_last_witness :
    ∃ cs3 res, compare_execute sample_env 83 sample_keyed_compare
        ({ action := "ANY_INPUT", ch := 97 } :: { action := "ANY_INPUT", ch := 98 } :: [])
        = some (cs3, some res) ∧
      cs3.compared = [sample_ptr_a] ∧ (entry_of cs3.base sample_ptr_b).chosen_count = 0 ∧
      (entry_of cs3.base sample_ptr_a).chosen_count = 1 :=
  compare_execute_clears_last sample_env sample_keyed_compare sample_ptr_a sample_ptr_b
    { action := "ANY_INPUT", ch := 97 } { action := "ANY_INPUT", ch := 98 } [] 83
    insertion_sort_contract default_preset_valid
    (by decide) (by decide) (by decide) (by decide) (unique_rows_of_items _ (by decide))
    (by decide) (by decide) (by decide) (by decide) (by decide) (by decide) (by decide)
    (by decide) (by decide) (by decide) (by decide) (by decide)

/-! ## The drop selector: `set_drop_count` -/

theorem dropping_find_assign (dropping : List (item_location × Int)) (it : item_location)
    (count : Int) : dropping_find (dropping_assign dropping it count) it = some count := by
  unfold dropping_assign
  split
  · rename_i h
    unfold dropping_find
    induction dropping with
    | nil => simp at h
    | cons d rest ih =>
      by_cases hd : d.1 = it
      · simp [List.find?, hd]
      · have hr : (rest.any fun d => decide (d.1 = it)) = true := by
          simpa [hd] using h
        simp only [List.map_cons, if_neg hd, List.find?_cons, decide_eq_false hd]
        exact ih hr
  · rename_i h
    unfold dropping_find
    have hnone : ∀ d ∈ dropping, ¬ d.1 = it := by
      intro d hd he
      apply h
      rw [List.any_eq_true]
      exact ⟨d, hd, by simpa using he⟩
    rw [List.find?_append]
    have : dropping.find? (fun d => decide (d.1 = it)) = none := by
      rw [List.find?_eq_none]
      intro d hd
      simpa using hnone d hd
    rw [this]
    simp

theorem find_replaced_other (it other : item_location) (count : Int) (h : other ≠ it)
    (l : List (item_location × Int)) :
    ((l.map (fun d => if d.1 = it then (it, count) else d)).find?
        (fun d => decide (d.1 = other))).map (fun d => d.2)
      = (l.find? (fun d => decide (d.1 = other))).map (fun d => d.2) := by
  induction l with
  | nil => rfl
  | cons d rest ih =>
    by_cases hd : d.1 = it
    · have hne : ¬ d.1 = other := by rw [hd]; exact fun e => h e.symm
      have hne2 : ¬ it = other := fun e => h e.symm
      simp only [List.map_cons, if_pos hd, List.find?_cons, decide_eq_false hne,
        decide_eq_false hne2]
      exact ih
    · by_cases ho : d.1 = other
      · simp only [List.map_cons, if_neg hd, List.find?_cons, decide_eq_true ho]
      · simp only [List.map_cons, if_neg hd, List.find?_cons, decide_eq_false ho]
        exact ih

theorem dropping_find_assign_other (dropping : List (item_location × Int))
    (it other : item_location) (count : Int) (h : other ≠ it) :
    dropping_find (dropping_assign dropping it count) other = dropping_find dropping other := by
  unfold dropping_assign
  split
  · exact find_replaced_other it other count h dropping
  · unfold dropping_find
    rw [List.find?_append]
    have hne2 : ¬ it = other := fun e => h e.symm
    simp [List.find?, hne2]

theorem to_int_small (n : Nat) (h : n < 2 ^ 31) : to_int n = (n : Int) := by
  unfold to_int
  exact bmod_small _ (by omega) (by omega)

/-- The call `set_drop_count( entry, count )` with a count that is not zero,
for a pointer to an item row outside the selection column. -/
theorem set_drop_count_result (env : selector_env) (ds : inventory_drop_selector)
    (p : entry_ptr) (count : Nat) (fuel : Nat)
    (hsort : std_sort_contract env.SX.std_sort) (hv : sort_compare_valid env.SP)
    (hnodup : ds.base.columns.Nodup)
    (ha : ds.base.active_column_index < ds.base.columns.length)
    (hepp : 2 ≤ ds.base.selection_col.base.entries_per_page)
    (hsize : ds.base.selection_col.base.entries.length + 1 < 2 ^ 61)
    (huniq : unique_rows ds.base.selection_col)
    (hp : p.column ≠ column_id.SELECTION)
    (hrange : p.index < (get_col ds.base p.column).entries.length)
    (hitem : (entry_of ds.base p).is_item = true)
    (hcount : 1 ≤ count)
    (hf : 3 * ds.base.selection_col.base.entries.length + 4 + ds.base.columns.length ≤ fuel) :
    ∃ ds1, set_drop_count env fuel ds p count = some ds1 ∧
      entry_of ds1.base p
        = { entry_of ds.base p with
            chosen_count := min count (entry_of ds.base p).get_available_count } ∧
      ds1.dropping = dropping_assign ds.dropping (entry_of ds.base p).location
        (to_int (min count (entry_of ds.base p).get_available_count)) ∧
      (∀ q, q.column ≠ column_id.SELECTION → q ≠ p →
        entry_of ds1.base q = entry_of ds.base q) := by
  obtain ⟨t, t0, t1, t2, _⟩ := set_entry_on_change env ds.base p
    { entry_of ds.base p with
      chosen_count := min count (entry_of ds.base p).get_available_count } fuel
    hsort hv hnodup ha hepp hsize huniq hp hrange hitem hf
  refine ⟨inventory_drop_selector.mk t
    (dropping_assign ds.dropping (entry_of ds.base p).location
      (to_int (min count (entry_of ds.base p).get_available_count))), ?_, t1, rfl, t2⟩
  have hc0 : ¬ count = 0 := by omega
  unfold set_drop_count
  simp only [hc0, false_and, if_false]
  rw [t0]
  rfl

/-- Claim C30: `set_drop_count` with a pending count `c` of at least 1, for a
pointer to an item row outside the selection column, returns with enough fuel;
it sets the chosen count of the row to the smaller of `c` and the available
count, records that quantity, converted to `int`, for the item in `dropping`
(the quantity itself when it is below 2^31), and leaves the quantities of the
other items and the other rows outside the selection column as they were.  A
count above the available count gives the available count. -/
theorem set_drop_count_spec (env : selector_env) (ds : inventory_drop_selector)
    (p : entry_ptr) (c : Nat) (fuel : Nat)
    (hsort : std_sort_contract env.SX.std_sort) (hv : sort_compare_valid env.SP)
    (hnodup : ds.base.columns.Nodup)
    (ha : ds.base.active_column_index < ds.base.columns.length)
    (hepp : 2 ≤ ds.base.selection_col.base.entries_per_page)
    (hsize : ds.base.selection_col.base.entries.length + 1 < 2 ^ 61)
    (huniq : unique_rows ds.base.selection_col)
    (hp : p.column ≠ column_id.SELECTION)
    (hrange : p.index < (get_col ds.base p.column).entries.length)
    (hitem : (entry_of ds.base p).is_item = true)
    (hcount : 1 ≤ c)
    (hf : 3 * ds.base.selection_col.base.entries.length + 4 + ds.base.columns.length ≤ fuel) :
    ∃ ds1, set_drop_count env fuel ds p c = some ds1 ∧
      (entry_of ds1.base p).chosen_count = min c (entry_of ds.base p).get_available_count ∧
      dropping_find ds1.dropping (entry_of ds.base p).location
        = some (to_int (min c (entry_of ds.base p).get_available_count)) ∧
      (min c (entry_of ds.base p).get_available_count < 2 ^ 31 →
        dropping_find ds1.dropping (entry_of ds.base p).location
          = some ((min c (entry_of ds.base p).get_available_count : Nat) : Int)) ∧
      ((entry_of ds.base p).get_available_count < c →
        (entry_of ds1.base p).chosen_count = (entry_of ds.base p).get_available_count) ∧
      (∀ other, other ≠ (entry_of ds.base p).location →
        dropping_find ds1.dropping other = dropping_find ds.dropping other) ∧
      (∀ q, q.column ≠ column_id.SELECTION → q ≠ p →
        entry_of ds1.base q = entry_of ds.base q) := by
  obtain ⟨ds1, h0, h1, h2, h3⟩ := set_drop_count_result env ds p c fuel hsort hv hnodup ha
    hepp hsize huniq hp hrange hitem hcount hf
  refine ⟨ds1, h0, by rw [h1], ?_, ?_, ?_, ?_, h3⟩
  · rw [h2]
    exact dropping_find_assign _ _ _
  · intro hlt
    rw [h2, dropping_find_assign, to_int_small _ hlt]
  · intro hlt
    rw [h1]
    exact Nat.min_eq_right (Nat.le_of_lt hlt)
  · intro other hne
    rw [h2]
    exact dropping_find_assign_other _ _ _ _ hne

/-- The sample drop selector, in which five of item 1 are available: the count
3 gives the chosen count 3 and the recorded quantity 3, the count 9 gives 5
and 5. -/
theorem set_drop_count_spec_witness :
    (entry_of sample_drop.base sample_ptr_a).get_available_count = 5 ∧
    (set_drop_count sample_env 11 sample_drop sample_ptr_a 3).map
        (fun ds1 => ((entry_of ds1.base sample_ptr_a).chosen_count,
          dropping_find ds1.dropping (entry_of sample_drop.base sample_ptr_a).location))
      = some (3, some 3) ∧
    (set_drop_count sample_env 11 sample_drop sample_ptr_a 9).map
        (fun ds1 => ((entry_of ds1.base sample_ptr_a).chosen_count,
          dropping_find ds1.dropping (entry_of sample_drop.base sample_ptr_a).location))
      = some (5, some 5) ∧
    ∃ ds1, set_drop_count sample_env 11 sample_drop sample_ptr_a 9 = some ds1 ∧
      (entry_of ds1.base sample_ptr_a).chosen_count
        = min 9 (entry_of sample_drop.base sample_ptr_a).get_available_count ∧
      dropping_find ds1.dropping (entry_of sample_drop.base sample_ptr_a).location
        = some (to_int (min 9 (entry_of sample_drop.base sample_ptr_a).get_available_count)) ∧
      (min 9 (entry_of sample_drop.base sample_ptr_a).get_available_count < 2 ^ 31 →
        dropping_find ds1.dropping (entry_of sample_drop.base sample_ptr_a).location
          = some ((min 9 (entry_of sample_drop.base sample_ptr_a).get_available_count : Nat)
              : Int)) ∧
      ((entry_of sample_drop.base sample_ptr_a).get_available_count < 9 →
        (entry_of ds1.base sample_ptr_a).chosen_count
          = (entry_of sample_drop.base sample_ptr_a).get_available_count) ∧
      (∀ other, other ≠ (entry_of sample_drop.base sample_ptr_a).location →
        dropping_find ds1.dropping other = dropping_find sample_drop.dropping other) ∧
      (∀ q, q.column ≠ column_id.SELECTION → q ≠ sample_ptr_a →
        entry_of ds1.base q = entry_of sample_drop.base q) :=
  ⟨by decide, by decide, by decide,
    set_drop_count_spec sample_env sample_drop sample_ptr_a 9 11 insertion_sort_contract
      default_preset_valid (by decide) (by decide) (by decide) (by decide)
      (unique_rows_of_items _ (by decide)) (by decide) (by decide) (by decide) (by decide)
      (by decide)⟩

/-! ## Entries: `get_available_count` -/

theorem get_available_count_cases (e : inventory_entry) (it : item)
    (h : e.location = some it) :
    e.get_available_count
      = if e.stack_size = 1 ∧ it.count_by_charges = true then to_size_t it.charges
        else e.stack_size := by
  unfold inventory_entry.get_available_count
  rw [h]
  simp only
  by_cases h1 : e.stack_size = 1
  · rw [if_pos h1]
    by_cases h2 : it.count_by_charges = true
    · rw [if_pos h2, if_pos ⟨h1, h2⟩]
      rfl
    · rw [if_neg h2, if_neg (fun h3 => h2 h3.2), h1]
  · rw [if_neg h1, if_neg (fun h3 => h1 h3.1)]

/-- Counterexample to claim C33: a stack of two of an item that is counted by
charges and has 50 charges; the available count is the stack size 2, not the
charge count 50. -/
theorem get_available_count_counterexample :
    sample_charged_stack.is_item = true ∧
    (sample_charged_stack.location.map (fun it => (it.count_by_charges, it.charges)))
      = some (true, 50) ∧
    sample_charged_stack.get_available_count = 2 ∧
    sample_charged_stack.get_available_count ≠ 50 := by
  decide

/-- Claim C33, amended: for an entry of the item `it`, `get_available_count()`
is the charge count of the item, converted to `size_t`, when the stack size is
1 and the item is counted by charges, and the stack size otherwise. -/
theorem get_available_count_spec (e : inventory_entry) (it : item)
    (h : e.location = some it) :
    e.get_available_count
      = if e.stack_size = 1 ∧ it.count_by_charges = true then to_size_t it.charges
        else e.stack_size :=
  get_available_count_cases e it h

/-- A single item with 50 charges has the available count 50, a stack of two of
them the available count 2. -/
theorem get_available_count_spec_witness :
    ({ sample_charged_stack with stack_size := 1 } : inventory_entry).get_available_count = 50 ∧
    sample_charged_stack.get_available_count
      = if sample_charged_stack.stack_size = 1 ∧ sample_charged_item.count_by_charges = true
        then to_size_t sample_charged_item.charges
        else sample_charged_stack.stack_size :=
  ⟨by decide, get_available_count_spec sample_charged_stack sample_charged_item rfl⟩

/-! ## The window of the selector: `snap` -/

theorem snap_cases (cur_dim max_dim : Nat) (h : cur_dim + 8 < 2 ^ 64) :
    (max_dim ≤ cur_dim + 8 → snap cur_dim max_dim = max_dim) ∧
    (cur_dim + 8 < max_dim → snap cur_dim max_dim = cur_dim) ∧
    (snap cur_dim max_dim = max_dim ↔ max_dim ≤ cur_dim + 8) ∧
    snap cur_dim max_dim ≤ max_dim := by
  have hm : (cur_dim + 2 * max_win_snap_distance) % size_t_range = cur_dim + 8 := by
    unfold max_win_snap_distance size_t_range
    exact Nat.mod_eq_of_lt h
  unfold snap
  rw [hm]
  by_cases hc : max_dim ≤ cur_dim + 8
  · rw [if_pos hc]
    exact ⟨fun _ => rfl, fun h2 => by omega, ⟨fun _ => hc, fun _ => rfl⟩, Nat.le_refl _⟩
  · rw [if_neg hc]
    exact ⟨fun h2 => absurd h2 hc, fun _ => rfl, ⟨fun h2 => by omega, fun h2 => absurd h2 hc⟩,
      by omega⟩

/-- Claim C34: the local `snap` of `update()`, for a dimension `cur_dim` with
`cur_dim + 8` in the range of `size_t`, returns `max_dim` when
`cur_dim + 8 >= max_dim` and `cur_dim` otherwise; it returns `max_dim` exactly
when `cur_dim + 8 >= max_dim`, and its result never exceeds `max_dim`. -/
theorem snap_spec (cur_dim max_dim : Nat) (h : cur_dim + 8 < 2 ^ 64) :
    (max_dim ≤ cur_dim + 8 → snap cur_dim max_dim = max_dim) ∧
    (cur_dim + 8 < max_dim → snap cur_dim max_dim = cur_dim) ∧
    (snap cur_dim max_dim = max_dim ↔ max_dim ≤ cur_dim + 8) ∧
    snap cur_dim max_dim ≤ max_dim :=
  snap_cases cur_dim max_dim h

/-- A width of 73 on a terminal of 80 columns snaps to 80, a width of 71 stays,
and a width of 90 is cut to 80. -/
theorem snap_spec_witness :
    snap 73 80 = 80 ∧ snap 71 80 = 71 ∧ snap 90 80 = 80 ∧
    ((80 ≤ 73 + 8 → snap 73 80 = 80) ∧
    (73 + 8 < 80 → snap 73 80 = 73) ∧
    (snap 73 80 = 80 ↔ 80 ≤ 73 + 8) ∧
    snap 73 80 ≤ 80) :=
  ⟨by decide, by decide, by decide, snap_spec 73 80 (by decide)⟩

/-! ## The drop selector: `set_drop_count` with the count zero -/

theorem dropping_find_erase (dropping : List (item_location × Int)) (it : item_location) :
    dropping_find (dropping_erase dropping it) it = none := by
  unfold dropping_find dropping_erase
  have h : (dropping.filter (fun d => !decide (d.1 = it))).find? (fun d => decide (d.1 = it))
      = none := by
    rw [List.find?_eq_none]
    intro d hd
    have := (List.mem_filter.1 hd).2
    simpa using this
  rw [h]
  rfl

theorem dropping_find_erase_other (dropping : List (item_location × Int))
    (it other : item_location) (h : other ≠ it) :
    dropping_find (dropping_erase dropping it) other = dropping_find dropping other := by
  unfold dropping_find dropping_erase
  induction dropping with
  | nil => rfl
  | cons d rest ih =>
    by_cases hd : d.1 = it
    · have hne : ¬ d.1 = other := by rw [hd]; exact fun e => h e.symm
      have hp : ¬ (!decide (d.1 = it)) = true := by simp [hd]
      rw [List.filter_cons, if_neg hp, List.find?_cons, decide_eq_false hne]
      exact ih
    · have hp : (!decide (d.1 = it)) = true := by simp [hd]
      rw [List.filter_cons, if_pos hp, List.find?_cons, List.find?_cons]
      by_cases ho : d.1 = other
      · rw [decide_eq_true ho]
      · rw [decide_eq_false ho]
        exact ih

/-- The call `set_drop_count( entry, 0 )` for a pointer to an item row outside
the selection column: a row whose item has a quantity in `dropping` gets the
chosen count 0 and the quantity is erased; a row whose item has none gets its
available count as chosen count and that count is recorded. -/
theorem set_drop_count_zero (env : selector_env) (ds : inventory_drop_selector)
    (p : entry_ptr) (fuel : Nat)
    (hsort : std_sort_contract env.SX.std_sort) (hv : sort_compare_valid env.SP)
    (hnodup : ds.base.columns.Nodup)
    (ha : ds.base.active_column_index < ds.base.columns.length)
    (hepp : 2 ≤ ds.base.selection_col.base.entries_per_page)
    (hsize : ds.base.selection_col.base.entries.length + 1 < 2 ^ 61)
    (huniq : unique_rows ds.base.selection_col)
    (hp : p.column ≠ column_id.SELECTION)
    (hrange : p.index < (get_col ds.base p.column).entries.length)
    (hitem : (entry_of ds.base p).is_item = true)
    (hf : 3 * ds.base.selection_col.base.entries.length + 4 + ds.base.columns.length ≤ fuel) :
    ∃ ds1, set_drop_count env fuel ds p 0 = some ds1 ∧
      (∀ q, q.column ≠ column_id.SELECTION → q ≠ p →
        entry_of ds1.base q = entry_of ds.base q) ∧
      ((dropping_find ds.dropping (entry_of ds.base p).location).isSome = true →
        entry_of ds1.base p = { entry_of ds.base p with chosen_count := 0 } ∧
        ds1.dropping = dropping_erase ds.dropping (entry_of ds.base p).location) ∧
      ((dropping_find ds.dropping (entry_of ds.base p).location).isSome = false →
        entry_of ds1.base p
          = { entry_of ds.base p with
              chosen_count := (entry_of ds.base p).get_available_count } ∧
        ds1.dropping = dropping_assign ds.dropping (entry_of ds.base p).location
          (to_int (entry_of ds.base p).get_available_count)) := by
  by_cases hfound : (dropping_find ds.dropping (entry_of ds.base p).location).isSome = true
  · obtain ⟨t, t0, t1, t2, _⟩ := set_entry_on_change env ds.base p
      { entry_of ds.base p with chosen_count := 0 } fuel
      hsort hv hnodup ha hepp hsize huniq hp hrange hitem hf
    refine ⟨inventory_drop_selector.mk t
      (dropping_erase ds.dropping (entry_of ds.base p).location), ?_, t2,
      fun _ => ⟨t1, rfl⟩, fun h => ?_⟩
    · unfold set_drop_count
      simp only [hfound, true_and, if_true]
      rw [t0]
      rfl
    · rw [hfound] at h
      exact absurd h (by simp)
  · have hnot := bool_not_true _ hfound
    obtain ⟨t, t0, t1, t2, _⟩ := set_entry_on_change env ds.base p
      { entry_of ds.base p with chosen_count := (entry_of ds.base p).get_available_count } fuel
      hsort hv hnodup ha hepp hsize huniq hp hrange hitem hf
    refine ⟨inventory_drop_selector.mk t
      (dropping_assign ds.dropping (entry_of ds.base p).location
        (to_int (entry_of ds.base p).get_available_count)), ?_, t2,
      fun h => ?_, fun _ => ⟨t1, rfl⟩⟩
    · unfold set_drop_count
      simp only [hnot, Bool.false_eq_true, and_false, if_false, if_true]
      rw [t0]
      rfl
    · rw [hnot] at h
      exact absurd h (by simp)

/-- Counterexample to claim C31: on the sample drop selector with nothing to
drop, `set_drop_count` with the count 0 for the row of item 1, of which five
are available, sets the chosen count to 5 and records the quantity 5 for the
item. -/
theorem set_drop_count_zero_counterexample :
    dropping_find sample_drop.dropping (entry_of sample_drop.base sample_ptr_a).location
      = none ∧
    (set_drop_count sample_env 11 sample_drop sample_ptr_a 0).map
        (fun ds1 => ((entry_of ds1.base sample_ptr_a).chosen_count,
          dropping_find ds1.dropping (entry_of sample_drop.base sample_ptr_a).location))
      = some (5, some 5) ∧
    (set_drop_count sample_env 11 sample_drop sample_ptr_a 0).map
        (fun ds1 => ((entry_of ds1.base sample_ptr_a).chosen_count,
          dropping_find ds1.dropping (entry_of sample_drop.base sample_ptr_a).location))
      ≠ some (0, none) := by
  decide

/-- Claim C31, amended: `set_drop_count` with the count 0, for a pointer to an
item row outside the selection column, returns with enough fuel.  When
`dropping` holds a quantity for the item of the row, the chosen count of the
row becomes 0 and `dropping` holds no quantity for the item afterwards; when it
holds none, the chosen count becomes the available count and that count,
converted to `int`, is recorded for the item.  The quantities of the other
items and the other rows outside the selection column are as before. -/
theorem set_drop_count_zero_spec (env : selector_env) (ds : inventory_drop_selector)
    (p : entry_ptr) (fuel : Nat)
    (hsort : std_sort_contract env.SX.std_sort) (hv : sort_compare_valid env.SP)
    (hnodup : ds.base.columns.Nodup)
    (ha : ds.base.active_column_index < ds.base.columns.length)
    (hepp : 2 ≤ ds.base.selection_col.base.entries_per_page)
    (hsize : ds.base.selection_col.base.entries.length + 1 < 2 ^ 61)
    (huniq : unique_rows ds.base.selection_col)
    (hp : p.column ≠ column_id.SELECTION)
    (hrange : p.index < (get_col ds.base p.column).entries.length)
    (hitem : (entry_of ds.base p).is_item = true)
    (hf : 3 * ds.base.selection_col.base.entries.length + 4 + ds.base.columns.length ≤ fuel) :
    ∃ ds1, set_drop_count env fuel ds p 0 = some ds1 ∧
      ((dropping_find ds.dropping (entry_of ds.base p).location).isSome = true →
        (entry_of ds1.base p).chosen_count = 0 ∧
        dropping_find ds1.dropping (entry_of ds.base p).location = none) ∧
      ((dropping_find ds.dropping (entry_of ds.base p).location).isSome = false →
        (entry_of ds1.base p).chosen_count = (entry_of ds.base p).get_available_count ∧
        dropping_find ds1.dropping (entry_of ds.base p).location
          = some (to_int (entry_of ds.base p).get_available_count)) ∧
      (∀ other, other ≠ (entry_of ds.base p).location →
        dropping_find ds1.dropping other = dropping_find ds.dropping other) ∧
      (∀ q, q.column ≠ column_id.SELECTION → q ≠ p →
        entry_of ds1.base q = entry_of ds.base q) := by
  obtain ⟨ds1, h0, h1, h2, h3⟩ := set_drop_count_zero env ds p fuel hsort hv hnodup ha hepp
    hsize huniq hp hrange hitem hf
  refine ⟨ds1, h0, ?_, ?_, ?_, h1⟩
  · intro hfound
    obtain ⟨k1, k2⟩ := h2 hfound
    rw [k1, k2]
    exact ⟨rfl, dropping_find_erase _ _⟩
  · intro hnot
    obtain ⟨k1, k2⟩ := h3 hnot
    rw [k1, k2]
    exact ⟨rfl, dropping_find_assign _ _ _⟩
  · intro other hne
    by_cases hfound : (dropping_find ds.dropping (entry_of ds.base p).location).isSome = true
    · rw [(h2 hfound).2]
      exact dropping_find_erase_other _ _ _ hne
    · rw [(h3 (bool_not_true _ hfound)).2]
      exact dropping_find_assign_other _ _ _ _ hne

/-- The sample drop selector after three of item 1 were chosen (the state that
`set_drop_count` with the count 3 leaves): the count 0 for the row of item 1
clears the row and erases the quantity. -/
theorem set_drop_count_zero_spec_witness :
    (set_drop_count sample_env 11 sample_drop sample_ptr_a 3).map
        (fun ds1 => (ds1.dropping, ds1.base.own_inv_column.entries,
          ds1.base.selection_col.base))
      = some (sample_drop_marked.dropping, sample_drop_marked.base.own_inv_column.entries,
          sample_drop_marked.base.selection_col.base) ∧
    (set_drop_count sample_env 14 sample_drop_marked sample_ptr_a 0).map
        (fun ds1 => ((entry_of ds1.base sample_ptr_a).chosen_count, ds1.dropping))
      = some (0, []) ∧
    ∃ ds1, set_drop_count sample_env 14 sample_drop_marked sample_ptr_a 0 = some ds1 ∧
      ((dropping_find sample_drop_marked.dropping
          (entry_of sample_drop_marked.base sample_ptr_a).location).isSome = true →
        (entry_of ds1.base sample_ptr_a).chosen_count = 0 ∧
        dropping_find ds1.dropping (entry_of sample_drop_marked.base sample_ptr_a).location
          = none) ∧
      ((dropping_find sample_drop_marked.dropping
          (entry_of sample_drop_marked.base sample_ptr_a).location).isSome = false →
        (entry_of ds1.base sample_ptr_a).chosen_count
          = (entry_of sample_drop_marked.base sample_ptr_a).get_available_count ∧
        dropping_find ds1.dropping (entry_of sample_drop_marked.base sample_ptr_a).location
          = some (to_int (entry_of sample_drop_marked.base sample_ptr_a).get_available_count)) ∧
      (∀ other, other ≠ (entry_of sample_drop_marked.base sample_ptr_a).location →
        dropping_find ds1.dropping other = dropping_find sample_drop_marked.dropping other) ∧
      (∀ q, q.column ≠ column_id.SELECTION → q ≠ sample_ptr_a →
        entry_of ds1.base q = entry_of sample_drop_marked.base q) :=
  ⟨by decide, by decide,
    set_drop_count_zero_spec sample_env sample_drop_marked sample_ptr_a 14
      insertion_sort_contract default_preset_valid (by decide) (by decide) (by decide)
      (by decide) (unique_rows_of_items _ (by decide)) (by decide) (by decide) (by decide)
      (by decide)⟩

/-! ## The drop driver: the pending count -/

/-- One digit key: the arithmetic of `int` does not overflow, and the count
stays in the range of `int`. -/
theorem drop_count_digit_exact (count ch : Int) (h0 : 0 ≤ count)
    (hc0 : 48 ≤ ch) (hc1 : ch ≤ 57) :
    drop_count_digit count ch = min count (INT_MAX / 10 - 10) * 10 + (ch - 48) ∧
    0 ≤ drop_count_digit count ch ∧ drop_count_digit count ch ≤ INT_MAX := by
  have hk : Int.tdiv INT_MAX 10 - 10 = 214748354 := by decide
  have hk2 : INT_MAX / 10 - 10 = 214748354 := by decide
  unfold drop_count_digit
  simp only [hk, hk2]
  unfold INT_MAX
  have hm0 : 0 ≤ min count 214748354 := le_min h0 (by decide)
  have hm1 : min count 214748354 ≤ 214748354 := min_le_right _ _
  rw [bmod_small (min count 214748354 * 10) (by omega) (by omega),
    bmod_small _ (by omega) (by omega)]
  refine ⟨rfl, by omega, by omega⟩

theorem pending_count_range (keys : List raw_input) :
    ∀ count : Int, 0 ≤ count → count ≤ INT_MAX →
      (∀ raw ∈ keys, 48 ≤ raw.ch ∧ raw.ch ≤ 57) →
      0 ≤ pending_count count keys ∧ pending_count count keys ≤ INT_MAX := by
  induction keys with
  | nil => intro count h0 h1 _; exact ⟨h0, h1⟩
  | cons raw rest ih =>
    intro count h0 _ hk
    obtain ⟨e, r0, r1⟩ := drop_count_digit_exact count raw.ch h0
      (hk raw (List.mem_cons_self _ _)).1 (hk raw (List.mem_cons_self _ _)).2
    rw [e] at r0 r1
    exact ih _ r0 r1 (fun x hx => hk x (List.mem_cons_of_mem _ hx))

/-- The drop driver on digit keys, with a valid layout: only the pending count
changes, by the formula over the integers. -/
theorem drop_loop_digits (env : selector_env) (fuel : Nat) (ds : inventory_drop_selector)
    (hvalid : ds.base.layout_is_valid = true) (keys : List raw_input) :
    ∀ count : Int, 0 ≤ count →
      (∀ raw ∈ keys, 48 ≤ raw.ch ∧ raw.ch ≤ 57) →
      drop_loop env fuel ds count keys = some (ds, pending_count count keys, none) := by
  induction keys with
  | nil =>
    intro count _ _
    rw [drop_loop, update_valid env fuel ds.base hvalid]
    rfl
  | cons raw rest ih =>
    intro count h0 hk
    have hd := hk raw (List.mem_cons_self _ _)
    obtain ⟨e, r0, _⟩ := drop_count_digit_exact count raw.ch h0 hd.1 hd.2
    have hr : drop_react env fuel (inventory_drop_selector.mk ds.base ds.dropping) count
        (get_input ds.base raw)
        = some (ds, drop_count_digit count raw.ch, drop_outcome.CONTINUE) := by
      unfold drop_react
      have hch : (get_input ds.base raw).ch = raw.ch := rfl
      rw [hch, if_pos hd]
    rw [drop_loop, update_valid env fuel ds.base hvalid]
    simp only
    rw [hr]
    simp only
    rw [ih _ r0 (fun x hx => hk x (List.mem_cons_of_mem _ hx)), e]
    rfl

/-- Claim C32: a digit key (`'0'` to `'9'`, 48 to 57) at a pending count in the
range 0 to `INT_MAX` gives the count
`min( count, INT_MAX / 10 - 10 ) * 10 + digit` without overflow of the `int`
arithmetic, and that count is again in the range 0 to `INT_MAX`; so the drop
driver with a valid layout, run on any sequence of digit keys, changes only
its pending count, which after the keys is given by that formula key after key
and lies in the range 0 to `INT_MAX`. -/
theorem drop_count_spec (env : selector_env) (fuel : Nat) (ds : inventory_drop_selector)
    (keys : List raw_input) (hvalid : ds.base.layout_is_valid = true)
    (hkeys : ∀ raw ∈ keys, 48 ≤ raw.ch ∧ raw.ch ≤ 57) :
    (∀ count ch : Int, 0 ≤ count → count ≤ INT_MAX → 48 ≤ ch → ch ≤ 57 →
      drop_count_digit count ch = min count (INT_MAX / 10 - 10) * 10 + (ch - 48) ∧
      0 ≤ drop_count_digit count ch ∧ drop_count_digit count ch ≤ INT_MAX) ∧
    drop_execute env fuel ds keys = some (ds, pending_count 0 keys, none) ∧
    0 ≤ pending_count 0 keys ∧ pending_count 0 keys ≤ INT_MAX :=
  ⟨fun count ch h0 _ hc0 hc1 => drop_count_digit_exact count ch h0 hc0 hc1,
    drop_loop_digits env fuel ds hvalid keys 0 (by decide) hkeys,
    pending_count_range keys 0 (by decide) (by decide) hkeys⟩

/-- The sample drop selector and eleven keys `9`: the pending count ends at
2147483549, which is `214748354 * 10 + 9`, below `INT_MAX`. -/
theorem drop_count_spec_witness :
    pending_count 0 (List.replicate 11 { action := "ANY_INPUT", ch := 57 }) = 2147483549 ∧
    ((∀ count ch : Int, 0 ≤ count → count ≤ INT_MAX → 48 ≤ ch → ch ≤ 57 →
      drop_count_digit count ch = min count (INT_MAX / 10 - 10) * 10 + (ch - 48) ∧
      0 ≤ drop_count_digit count ch ∧ drop_count_digit count ch ≤ INT_MAX) ∧
    drop_execute sample_env 0 sample_drop
        (List.replicate 11 { action := "ANY_INPUT", ch := 57 })
      = some (sample_drop,
          pending_count 0 (List.replicate 11 { action := "ANY_INPUT", ch := 57 }), none) ∧
    0 ≤ pending_count 0 (List.replicate 11 { action := "ANY_INPUT", ch := 57 }) ∧
    pending_count 0 (List.replicate 11 { action := "ANY_INPUT", ch := 57 }) ≤ INT_MAX) :=
  ⟨by decide,
    drop_count_spec sample_env 0 sample_drop
      (List.replicate 11 { action := "ANY_INPUT", ch := 57 }) (by decide) (by decide)⟩

/-! ## Pagination: termination of the loop that recovers the categories -/

/-- The loop of lines 512-523 on a column with rows and a page size that is
not zero returns for some fuel exactly when the page size is at least two;
whenever it returns, there are at most three rows for each row of before. -/
theorem recover_categories_terminates (X : externals) (P : inventory_selector_preset)
    (c : inventory_column) (hne : c.entries ≠ []) (hepp : 1 ≤ c.entries_per_page) :
    ((∃ fuel r, recover_categories X P fuel c none 0 = some r) ↔ 2 ≤ c.entries_per_page) ∧
    (2 ≤ c.entries_per_page →
      ∃ r, ∀ fuel, 3 * c.entries.length + 1 ≤ fuel →
        recover_categories X P fuel c none 0 = some r) ∧
    (∀ fuel r, recover_categories X P fuel c none 0 = some r →
      r.entries.length ≤ 3 * c.entries.length) ∧
    (c.entries_per_page = 1 → ∀ fuel, recover_categories X P fuel c none 0 = none) := by
  have hpos : 0 < c.entries.length := List.length_pos.2 hne
  have hdiv : c.entries_per_page = 1 → ∀ fuel, recover_categories X P fuel c none 0 = none :=
    fun h1 fuel => recover_categories_diverges X P fuel c none 0 h1 hpos
  have htwo : ∀ fuel r, recover_categories X P fuel c none 0 = some r →
      2 ≤ c.entries_per_page := by
    intro fuel r h
    by_cases h1 : c.entries_per_page = 1
    · rw [hdiv h1 fuel] at h
      exact absurd h (by simp)
    · omega
  have hret : 2 ≤ c.entries_per_page →
      ∃ r, (∀ fuel, 3 * c.entries.length + 1 ≤ fuel →
        recover_categories X P fuel c none 0 = some r) ∧
        r.entries = reflow c.entries_per_page 0 none c.entries := by
    intro h2
    obtain ⟨r, hr, he, _⟩ := recover_categories_reflow X P c.entries [] c none 0
      (3 * c.entries.length + 1) rfl rfl h2 (Nat.le_refl _)
    refine ⟨r, ?_, by rw [he]; rfl⟩
    intro fuel hf
    have e : fuel = (3 * c.entries.length + 1) + (fuel - (3 * c.entries.length + 1)) := by
      omega
    rw [e]
    exact recover_categories_mono X P _ c none 0 _ r hr
  refine ⟨⟨fun ⟨fuel, r, h⟩ => htwo fuel r h, fun h2 => ?_⟩, fun h2 => ?_, ?_, hdiv⟩
  · obtain ⟨r, hr, _⟩ := hret h2
    exact ⟨_, r, hr _ (Nat.le_refl _)⟩
  · obtain ⟨r, hr, _⟩ := hret h2
    exact ⟨r, hr⟩
  · intro fuel r h
    obtain ⟨r0, hr0, he⟩ := hret (htwo fuel r h)
    have e1 := recover_categories_mono X P fuel c none 0 (3 * c.entries.length + 1) r h
    have e2 := hr0 (fuel + (3 * c.entries.length + 1)) (by omega)
    rw [e1] at e2
    rw [Option.some.inj e2, he]
    exact reflow_length _ _ _ _

/-- Claim C35: for every page size of at least 1 and every column with at least
one row, the loop of lines 512-523 that recovers the category rows returns for
some fuel exactly when the page size is at least 2 (then for every fuel of at
least three times the number of rows plus one; with page size 1 for no fuel),
and whenever it returns the list has at most three rows for each row of
before. -/
theorem recover_categories_spec (X : externals) (P : inventory_selector_preset)
    (c : inventory_column) (hne : c.entries ≠ []) (hepp : 1 ≤ c.entries_per_page) :
    ((∃ fuel r, recover_categories X P fuel c none 0 = some r) ↔ 2 ≤ c.entries_per_page) ∧
    (2 ≤ c.entries_per_page →
      ∃ r, ∀ fuel, 3 * c.entries.length + 1 ≤ fuel →
        recover_categories X P fuel c none 0 = some r) ∧
    (∀ fuel r, recover_categories X P fuel c none 0 = some r →
      r.entries.length ≤ 3 * c.entries.length) ∧
    (c.entries_per_page = 1 → ∀ fuel, recover_categories X P fuel c none 0 = none) :=
  recover_categories_terminates X P c hne hepp

/-- The sample column of five item rows with page size 3: the loop returns
eight rows with the fuel 16; with page size 1 it does not return. -/
theorem recover_categories_spec_witness :
    (recover_categories plain_externals default_preset 16 sample_column none 0).map
        (fun r => r.entries.length) = some 8 ∧
    recover_categories plain_externals default_preset 16
        { sample_column with entries_per_page := 1 } none 0 = none ∧
    (((∃ fuel r, recover_categories plain_externals default_preset fuel sample_column none 0
        = some r) ↔ 2 ≤ sample_column.entries_per_page) ∧
    (2 ≤ sample_column.entries_per_page →
      ∃ r, ∀ fuel, 3 * sample_column.entries.length + 1 ≤ fuel →
        recover_categories plain_externals default_preset fuel sample_column none 0 = some r) ∧
    (∀ fuel r, recover_categories plain_externals default_preset fuel sample_column none 0
        = some r →
      r.entries.length ≤ 3 * sample_column.entries.length) ∧
    (sample_column.entries_per_page = 1 →
      ∀ fuel, recover_categories plain_externals default_preset fuel sample_column none 0
        = none)) :=
  ⟨by decide, by decide,
    recover_categories_spec plain_externals default_preset sample_column (by decide)
      (by decide)⟩

/-! ## Pagination: every item row has its header on its page -/

theorem div_succ_of_mod (i n : Nat) (h : (i + 1) % n ≠ 0) : (i + 1) / n = i / n := by
  rw [Nat.succ_div, if_neg (fun hd => h (Nat.mod_eq_zero_of_dvd hd))]
  rfl

/-- The rows that `reflow` produces from item rows, with the first of them at
index `i`: an item row is either governed by a header among them, or it and
all rows before it are items of the category `cur` on the page of the row
before index `i`. -/
theorem reflow_governed (epp : Nat) (hepp : 2 ≤ epp) (rest : List inventory_entry) :
    ∀ (i : Nat) (cur : Option item_category), (∀ e ∈ rest, e.is_item = true) →
      ∀ k, k < (reflow epp i cur rest).length →
        (entry_at (reflow epp i cur rest) k).is_item = true →
        (∃ h, h < k ∧ (i + h) / epp = (i + k) / epp ∧
          entry_at (reflow epp i cur rest) h
            = category_entry (entry_at (reflow epp i cur rest) k).get_category_ptr ∧
          ∀ j, h < j → j ≤ k →
            (entry_at (reflow epp i cur rest) j).is_item = true ∧
            (entry_at (reflow epp i cur rest) j).get_category_ptr
              = (entry_at (reflow epp i cur rest) k).get_category_ptr) ∨
        ((entry_at (reflow epp i cur rest) k).get_category_ptr = cur ∧
          (i + k) / epp = i / epp ∧ i % epp ≠ 0 ∧
          ∀ j, j ≤ k →
            (entry_at (reflow epp i cur rest) j).is_item = true ∧
            (entry_at (reflow epp i cur rest) j).get_category_ptr = cur) := by
  induction rest with
  | nil => intro i cur _ k hk; simp [reflow] at hk
  | cons e rest ih =>
    intro i cur hitems k hk hitem
    have he : e.is_item = true := hitems e (by simp)
    have hrest : ∀ x ∈ rest, x.is_item = true := fun x hx => hitems x (by simp [hx])
    rw [reflow] at hk hitem ⊢
    by_cases hc : e.get_category_ptr = cur ∧ i % epp ≠ 0
    · rw [if_pos hc] at hk hitem ⊢
      cases k with
      | zero =>
        right
        refine ⟨hc.1, rfl, hc.2, ?_⟩
        intro j hj
        have hj0 : j = 0 := by omega
        rw [hj0]
        exact ⟨he, hc.1⟩
      | succ k =>
        have hk2 : k < (reflow epp (i + 1) cur rest).length := by
          simp only [List.length_cons] at hk
          omega
        rcases ih (i + 1) cur hrest k hk2 hitem with
          ⟨h, hh, hpage, hhead, hbetween⟩ | ⟨hcat, hpage, hmod, hall⟩
        · left
          refine ⟨h + 1, by omega, ?_, hhead, ?_⟩
          · have e1 : i + (h + 1) = i + 1 + h := by omega
            have e2 : i + (k + 1) = i + 1 + k := by omega
            rw [e1, e2]
            exact hpage
          · intro j hj1 hj2
            obtain ⟨j2, rfl⟩ : ∃ j2, j = j2 + 1 := ⟨j - 1, by omega⟩
            exact hbetween j2 (by omega) (by omega)
        · right
          refine ⟨hcat, ?_, hc.2, ?_⟩
          · have e2 : i + (k + 1) = i + 1 + k := by omega
            rw [e2, hpage]
            exact div_succ_of_mod i epp hmod
          · intro j hj
            cases j with
            | zero => exact ⟨he, hc.1⟩
            | succ j2 => exact hall j2 (by omega)
    · rw [if_neg hc] at hk hitem ⊢
      by_cases hlast : i % epp = epp - 1
      · rw [if_pos hlast] at hk hitem ⊢
        have hm1 : (i + 1) % epp = 0 := mod_succ_of_last i epp hepp hlast
        have hm2 : (i + 1 + 1) % epp ≠ 0 := by
          rw [mod_succ_of_not_last (i + 1) epp hepp (by omega), hm1]
          omega
        have hd2 : (i + 1 + 1) / epp = (i + 1) / epp := div_succ_of_mod (i + 1) epp hm2
        rcases k with _ | _ | _ | k
        · rw [entry_at_zero, null_entry_is_item] at hitem
          exact absurd hitem (by simp)
        · rw [entry_at_succ, entry_at_zero, category_entry_is_item] at hitem
          exact absurd hitem (by simp)
        · left
          refine ⟨1, by omega, hd2.symm, rfl, ?_⟩
          intro j hj1 hj2
          have hj : j = 2 := by omega
          rw [hj]
          exact ⟨he, rfl⟩
        · have hk2 : k < (reflow epp (i + 3) e.get_category_ptr rest).length := by
            simp only [List.length_cons] at hk
            omega
          rcases ih (i + 3) e.get_category_ptr hrest k hk2 hitem with
            ⟨h, hh, hpage, hhead, hbetween⟩ | ⟨hcat, hpage, hmod, hall⟩
          · left
            refine ⟨h + 3, by omega, ?_, hhead, ?_⟩
            · have e1 : i + (h + 3) = i + 3 + h := by omega
              have e2 : i + (k + 1 + 1 + 1) = i + 3 + k := by omega
              rw [e1, e2]
              exact hpage
            · intro j hj1 hj2
              obtain ⟨j2, rfl⟩ : ∃ j2, j = j2 + 3 := ⟨j - 3, by omega⟩
              exact hbetween j2 (by omega) (by omega)
          · left
            have hd3 : (i + 1 + 1 + 1) / epp = (i + 1 + 1) / epp :=
              div_succ_of_mod (i + 1 + 1) epp hmod
            refine ⟨1, by omega, ?_, ?_, ?_⟩
            · have e2 : i + (k + 1 + 1 + 1) = i + 3 + k := by omega
              have e3 : i + 3 = i + 1 + 1 + 1 := rfl
              rw [e2, hpage, e3, hd3, hd2]
            · exact congrArg category_entry hcat.symm
            · intro j hj1 hj2
              rcases j with _ | _ | _ | j2
              · omega
              · omega
              · exact ⟨he, hcat.symm⟩
              · have := hall j2 (by omega)
                exact ⟨this.1, this.2.trans hcat.symm⟩
      · rw [if_neg hlast] at hk hitem ⊢
        have hm1 : (i + 1) % epp ≠ 0 := by
          rw [mod_succ_of_not_last i epp hepp hlast]
          omega
        have hd1 : (i + 1) / epp = i / epp := div_succ_of_mod i epp hm1
        rcases k with _ | _ | k
        · rw [entry_at_zero, category_entry_is_item] at hitem
          exact absurd hitem (by simp)
        · left
          refine ⟨0, by omega, hd1.symm, rfl, ?_⟩
          intro j hj1 hj2
          have hj : j = 1 := by omega
          rw [hj]
          exact ⟨he, rfl⟩
        · have hk2 : k < (reflow epp (i + 2) e.get_category_ptr rest).length := by
            simp only [List.length_cons] at hk
            omega
          rcases ih (i + 2) e.get_category_ptr hrest k hk2 hitem with
            ⟨h, hh, hpage, hhead, hbetween⟩ | ⟨hcat, hpage, hmod, hall⟩
          · left
            refine ⟨h + 2, by omega, ?_, hhead, ?_⟩
            · have e1 : i + (h + 2) = i + 2 + h := by omega
              have e2 : i + (k + 1 + 1) = i + 2 + k := by omega
              rw [e1, e2]
              exact hpage
            · intro j hj1 hj2
              obtain ⟨j2, rfl⟩ : ∃ j2, j = j2 + 2 := ⟨j - 2, by omega⟩
              exact hbetween j2 (by omega) (by omega)
          · left
            have hd2 : (i + 1 + 1) / epp = (i + 1) / epp := div_succ_of_mod (i + 1) epp hmod
            refine ⟨0, by omega, ?_, ?_, ?_⟩
            · have e2 : i + (k + 1 + 1) = i + 2 + k := by omega
              have e3 : i + 2 = i + 1 + 1 := rfl
              rw [e2, hpage, e3, hd2, hd1]
              rfl
            · exact congrArg category_entry hcat.symm
            · intro j hj1 hj2
              rcases j with _ | _ | j2
              · omega
              · exact ⟨he, hcat.symm⟩
              · have := hall j2 (by omega)
                exact ⟨this.1, this.2.trans hcat.symm⟩

/-- After `prepare_paging` with a page size of at least two every item row is
governed by a header of its category on its page. -/
theorem prepare_paging_headers (X : externals) (P : inventory_selector_preset)
    (c : inventory_column) (hsort : std_sort_contract X.std_sort)
    (hv : sort_compare_valid P) (hinv : c.paging_is_valid = false)
    (hepp : 2 ≤ c.entries_per_page) (hsize : c.entries.length < 2 ^ 61) :
    ∃ r, (∀ fuel, 3 * c.entries.length + 1 ≤ fuel → prepare_paging X P fuel c = some r) ∧
      r.entries_per_page = c.entries_per_page ∧
      ∀ k, k < r.entries.length → (entry_at r.entries k).is_item = true →
        governed r.entries_per_page r.entries k := by
  obtain ⟨r, hr, hp⟩ := prepare_paging_result X P c hsort hv hinv hepp hsize
  have hitems := sorted_items X P hsort hv c.entries
  refine ⟨r, hr, hp.2.2.1, ?_⟩
  intro k hk hitem
  rw [hp.2.2.1]
  rw [hp.1] at hk hitem ⊢
  obtain ⟨cat, hcat⟩ := item_category_some _ hitem
  rcases reflow_governed c.entries_per_page hepp _ 0 none hitems k hk hitem with
    ⟨h, hh, hpage, hhead, hbetween⟩ | ⟨_, _, hmod, _⟩
  · refine ⟨h, hh, ?_, ?_, ?_, hbetween⟩
    · rw [Nat.zero_add, Nat.zero_add] at hpage
      exact hpage
    · rw [hhead, hcat]
      exact category_entry_is_category cat
    · rw [hhead]
      exact category_entry_category _
  · exact absurd (Nat.zero_mod _) hmod

/-- Claim C36: for every page size of at least two and every column with
invalid paging, `prepare_paging` returns, and in the result every item row is
governed by a header of its own category on its own page: there is a category
row before it on the same page that has the category of the item, and all rows
after that header up to the item are item rows of that category. -/
theorem prepare_paging_governed (X : externals) (P : inventory_selector_preset)
    (c : inventory_column) (hsort : std_sort_contract X.std_sort)
    (hv : sort_compare_valid P) (hinv : c.paging_is_valid = false)
    (hepp : 2 ≤ c.entries_per_page) (hsize : c.entries.length < 2 ^ 61) :
    ∃ r, (∀ fuel, 3 * c.entries.length + 1 ≤ fuel → prepare_paging X P fuel c = some r) ∧
      r.entries_per_page = c.entries_per_page ∧
      ∀ k, k < r.entries.length → (entry_at r.entries k).is_item = true →
        governed r.entries_per_page r.entries k :=
  prepare_paging_headers X P c hsort hv hinv hepp hsize

/-- The sample column with page size 3: the row `E`, alone on the third page, is
at index 7 and is governed by the header of its category at index 6. -/
theorem prepare_paging_governed_witness :
    prepare_paging plain_externals default_preset 16 sample_column = some sample_paged ∧
    entry_at sample_paged.entries 7 = sample_item 5 "E" sample_cat2 ∧
    entry_at sample_paged.entries 6 = category_entry (some sample_cat2) ∧
    ∃ r, (∀ fuel, 3 * sample_column.entries.length + 1 ≤ fuel →
        prepare_paging plain_externals default_preset fuel sample_column = some r) ∧
      r.entries_per_page = sample_column.entries_per_page ∧
      ∀ k, k < r.entries.length → (entry_at r.entries k).is_item = true →
        governed r.entries_per_page r.entries k :=
  ⟨by decide, by decide, by decide,
    prepare_paging_governed plain_externals default_preset sample_column
      insertion_sort_contract default_preset_valid (by decide) (by decide) (by decide)⟩

/-! ## Adding rows: the order of the categories -/

/-- The rows of a list up to the last one that satisfies `p`, and the rows
after it, none of which satisfies `p`. -/
theorem last_match_split (p : inventory_entry → Bool) (l : List inventory_entry) :
    ∃ pre post, l = pre ++ post ∧ pre.length = l.length - l.reverse.findIdx p ∧
      (∀ y ∈ post, p y = false) ∧
      (pre = [] ∨ ∃ pre2 m, pre = pre2 ++ [m] ∧ p m = true) := by
  rcases findIdx_split p l.reverse with ⟨habs, hidx⟩ | ⟨pre_r, x, post_r, hsplit, hx, hpre, hidx⟩
  · refine ⟨[], l, rfl, ?_, ?_, Or.inl rfl⟩
    · rw [hidx, List.length_reverse]
      simp
    · intro y hy
      exact habs y (List.mem_reverse.2 hy)
  · have hl : l = post_r.reverse ++ [x] ++ pre_r.reverse := by
      have := congrArg List.reverse hsplit
      rw [List.reverse_reverse] at this
      rw [this]
      simp
    refine ⟨post_r.reverse ++ [x], pre_r.reverse, hl, ?_, ?_, Or.inr ⟨post_r.reverse, x, rfl, hx⟩⟩
    · rw [hidx]
      have hlen := congrArg List.length hl
      simp only [List.length_append, List.length_reverse, List.length_singleton] at hlen ⊢
      omega
    · intro y hy
      exact hpre y (List.mem_reverse.1 hy)

theorem entry_rank_of_category (a b : inventory_entry)
    (h : a.get_category_ptr = b.get_category_ptr) : entry_rank a = entry_rank b := by
  unfold entry_rank
  rw [h]

/-- A row that satisfies the predicate of `add_entry` has at most the rank of
the new entry. -/
theorem add_entry_matches_rank (entry cur : inventory_entry)
    (h : add_entry_matches entry cur = true) : entry_rank cur ≤ entry_rank entry := by
  unfold add_entry_matches at h
  simp only [Bool.or_eq_true, decide_eq_true_eq] at h
  rcases h with h | h
  · rw [entry_rank_of_category cur entry h]
  · unfold entry_rank
    cases hc : cur.get_category_ptr with
    | none => rw [hc] at h; simp at h
    | some cc =>
      cases hn : entry.get_category_ptr with
      | none => rw [hc, hn] at h; simp at h
      | some nc =>
        rw [hc, hn] at h
        simpa using h

/-- An item row that does not satisfy the predicate of `add_entry` for an item
entry has another category and a greater rank. -/
theorem add_entry_matches_false (entry cur : inventory_entry)
    (hcur : cur.is_item = true) (hentry : entry.is_item = true)
    (h : add_entry_matches entry cur = false) :
    cur.get_category_ptr ≠ entry.get_category_ptr ∧ entry_rank entry < entry_rank cur := by
  obtain ⟨cc, hc⟩ := item_category_some cur hcur
  obtain ⟨nc, hn⟩ := item_category_some entry hentry
  unfold add_entry_matches at h
  rw [hc, hn] at h
  simp only [Bool.or_eq_false_iff, decide_eq_false_iff_not] at h
  refine ⟨by rw [hc, hn]; exact h.1, ?_⟩
  unfold entry_rank
  rw [hc, hn]
  simp only
  omega

/-- In a list ordered by rank in which rows of equal rank have the same
category, the rows of one category are contiguous. -/
theorem contiguous_of_ranked (l : List inventory_entry)
    (hs : l.Pairwise (fun a b => entry_rank a ≤ entry_rank b))
    (hinj : ∀ a ∈ l, ∀ b ∈ l, entry_rank a = entry_rank b →
      a.get_category_ptr = b.get_category_ptr) :
    contiguous l := by
  intro A x M y B hl hxy z hz
  rw [hl] at hs hinj
  have h1 := (List.pairwise_append.1 hs).2.1
  have h2 := List.pairwise_cons.1 h1
  have hxz : entry_rank x ≤ entry_rank z := h2.1 z (List.mem_append.2 (Or.inl hz))
  have h3 := (List.pairwise_append.1 h2.2).2.2
  have hzy : entry_rank z ≤ entry_rank y := h3 z hz y (List.mem_cons_self _ _)
  have hxy2 : entry_rank x = entry_rank y := entry_rank_of_category x y hxy
  have hzx : entry_rank z = entry_rank x := by omega
  exact hinj z (by simp [hz]) x (by simp) hzx

/-- The place of a new item entry in a list of item rows ordered by rank. -/
theorem add_entry_order (X : externals) (P : inventory_selector_preset)
    (c : inventory_column) (entry : inventory_entry)
    (hitems : ∀ e ∈ c.entries, e.is_item = true) (hentry : entry.is_item = true)
    (hnew : ∀ e ∈ c.entries, e.equals entry = false)
    (hs : c.entries.Pairwise (fun a b => entry_rank a ≤ entry_rank b)) :
    ∃ pre post, c.entries = pre ++ post ∧
      (add_entry X P c entry).entries = pre ++ entry :: post ∧
      (add_entry X P c entry).entries.Pairwise (fun a b => entry_rank a ≤ entry_rank b) ∧
      (∀ y ∈ post, y.get_category_ptr ≠ entry.get_category_ptr) ∧
      ((∀ a ∈ entry :: c.entries, ∀ b ∈ entry :: c.entries, entry_rank a = entry_rank b →
          a.get_category_ptr = b.get_category_ptr) →
        contiguous c.entries ∧ contiguous (add_entry X P c entry).entries) := by
  obtain ⟨pre, post, hsplit, hlen, hpost, hpre⟩ :=
    last_match_split (add_entry_matches entry) c.entries
  have hidx : add_entry_index c.entries entry = pre.length := hlen.symm
  obtain ⟨h1, _, _⟩ := add_entry_new X P c entry hnew
  have hent : (add_entry X P c entry).entries = pre ++ entry :: post := by
    rw [h1, hidx, hsplit]
    exact insert_at_append _ _ _
  have hs2 := hs
  rw [hsplit] at hs2
  obtain ⟨s1, s2, s3⟩ := List.pairwise_append.1 hs2
  have hafter : ∀ y ∈ post, y.get_category_ptr ≠ entry.get_category_ptr ∧
      entry_rank entry < entry_rank y := by
    intro y hy
    exact add_entry_matches_false entry y
      (hitems y (by rw [hsplit]; exact List.mem_append.2 (Or.inr hy))) hentry (hpost y hy)
  have hbefore : ∀ a ∈ pre, entry_rank a ≤ entry_rank entry := by
    intro a ha
    rcases hpre with hnil | ⟨pre2, m, hm, hpm⟩
    · rw [hnil] at ha
      exact absurd ha (List.not_mem_nil a)
    · have hmr := add_entry_matches_rank entry m hpm
      rw [hm] at ha s1
      rcases List.mem_append.1 ha with ha | ha
      · have := (List.pairwise_append.1 s1).2.2 a ha m (List.mem_singleton.2 rfl)
        omega
      · rw [List.mem_singleton.1 ha]
        exact hmr
  have hranked : (pre ++ entry :: post).Pairwise (fun a b => entry_rank a ≤ entry_rank b) := by
    rw [List.pairwise_append]
    refine ⟨s1, ?_, ?_⟩
    · rw [List.pairwise_cons]
      exact ⟨fun y hy => Int.le_of_lt (hafter y hy).2, s2⟩
    · intro a ha b hb
      rcases List.mem_cons.1 hb with hb | hb
      · rw [hb]
        exact hbefore a ha
      · exact s3 a ha b hb
  refine ⟨pre, post, hsplit, hent, by rw [hent]; exact hranked,
    fun y hy => (hafter y hy).1, ?_⟩
  intro hinj
  refine ⟨contiguous_of_ranked _ hs
    (fun a ha b hb => hinj a (List.mem_cons_of_mem _ ha) b (List.mem_cons_of_mem _ hb)), ?_⟩
  rw [hent]
  apply contiguous_of_ranked _ hranked
  have hmem : ∀ a ∈ pre ++ entry :: post, a ∈ entry :: c.entries := by
    intro a ha
    rw [hsplit]
    rcases List.mem_append.1 ha with h | h
    · exact List.mem_cons_of_mem _ (List.mem_append.2 (Or.inl h))
    · rcases List.mem_cons.1 h with h | h
      · rw [h]
        exact List.mem_cons_self _ _
      · exact List.mem_cons_of_mem _ (List.mem_append.2 (Or.inr h))
  exact fun a ha b hb => hinj a (hmem a ha) b (hmem b hb)

/-- Claim C37: for every list of item rows ordered by the sort rank of their
categories (never decreasing) and every new item entry (one that no row
equals), `add_entry` inserts the entry so that the list is still ordered by
rank and no row after the new entry has its category; when, in addition, rows
of equal rank (the new entry included) have the same category, the rows of
each category are contiguous before and after the call. -/
theorem add_entry_order_spec (X : externals) (P : inventory_selector_preset)
    (c : inventory_column) (entry : inventory_entry)
    (hitems : ∀ e ∈ c.entries, e.is_item = true) (hentry : entry.is_item = true)
    (hnew : ∀ e ∈ c.entries, e.equals entry = false)
    (hs : c.entries.Pairwise (fun a b => entry_rank a ≤ entry_rank b)) :
    ∃ pre post, c.entries = pre ++ post ∧
      (add_entry X P c entry).entries = pre ++ entry :: post ∧
      (add_entry X P c entry).entries.Pairwise (fun a b => entry_rank a ≤ entry_rank b) ∧
      (∀ y ∈ post, y.get_category_ptr ≠ entry.get_category_ptr) ∧
      ((∀ a ∈ entry :: c.entries, ∀ b ∈ entry :: c.entries, entry_rank a = entry_rank b →
          a.get_category_ptr = b.get_category_ptr) →
        contiguous c.entries ∧ contiguous (add_entry X P c entry).entries) :=
  add_entry_order X P c entry hitems hentry hnew hs

/-- The sample column `A(cat1), B(cat1), C(cat2), D(cat2), E(cat2)` and a new
item `Z` of the first category: it is inserted after `B`. -/
theorem add_entry_order_spec_witness :
    (add_entry plain_externals default_preset sample_column
      (sample_item 9 "Z" sample_cat1)).entries
      = [sample_item 1 "A" sample_cat1, sample_item 2 "B" sample_cat1,
          sample_item 9 "Z" sample_cat1, sample_item 3 "C" sample_cat2,
          sample_item 4 "D" sample_cat2, sample_item 5 "E" sample_cat2] ∧
    ∃ pre post, sample_column.entries = pre ++ post ∧
      (add_entry plain_externals default_preset sample_column
        (sample_item 9 "Z" sample_cat1)).entries = pre ++ sample_item 9 "Z" sample_cat1 :: post ∧
      (add_entry plain_externals default_preset sample_column
        (sample_item 9 "Z" sample_cat1)).entries.Pairwise
          (fun a b => entry_rank a ≤ entry_rank b) ∧
      (∀ y ∈ post, y.get_category_ptr ≠ (sample_item 9 "Z" sample_cat1).get_category_ptr) ∧
      ((∀ a ∈ sample_item 9 "Z" sample_cat1 :: sample_column.entries,
          ∀ b ∈ sample_item 9 "Z" sample_cat1 :: sample_column.entries,
          entry_rank a = entry_rank b → a.get_category_ptr = b.get_category_ptr) →
        contiguous sample_column.entries ∧
        contiguous (add_entry plain_externals default_preset sample_column
          (sample_item 9 "Z" sample_cat1)).entries) :=
  ⟨by decide,
    add_entry_order_spec plain_externals default_preset sample_column
      (sample_item 9 "Z" sample_cat1) (by decide) (by decide) (by decide) (by decide)⟩

/-! ## Cell widths: the cells after `reset_width` -/

/-- A cell that the loop of `expand_to_fit` visits gets the greater required
width and still fits. -/
theorem expand_cells_touched (X : externals) (P : inventory_selector_preset)
    (d : inventory_column) (e : inventory_entry) (num k : Nat) (hk : k < d.cells.length)
    (hnum : k < num) :
    ((expand_cells X P d e num 0 d.cells).getD k {}).real_width
      = max (d.cells.getD k {}).real_width (get_entry_cell_width X P d e k) ∧
    (cell_fits k (d.cells.getD k {}) →
      cell_fits k ((expand_cells X P d e num 0 d.cells).getD k {})) := by
  have h := (expand_cells_getD X P d e num d.cells 0 k hk).2 (by omega)
  simp only [Nat.zero_add] at h
  obtain ⟨h1, h2, h3⟩ := h
  refine ⟨h1, ?_⟩
  intro hfit
  unfold cell_fits at hfit ⊢
  by_cases hv : ((d.cells.getD k {}).visible = true ∨
      (e.is_item = true ∧ is_stub_cell X P e k = false))
  · rw [h2 hv, h1]
    rcases hfit with hfit | hfit
    · right
      rw [hfit]
      exact Nat.max_eq_right (Nat.zero_le _)
    · right
      rw [hfit]
      apply Nat.max_eq_right
      exact Nat.add_le_add_left (Nat.le_max_left _ _) _
  · rw [h3 hv]
    left
    have hnv : ¬ (d.cells.getD k {}).visible = true := fun hq => hv (Or.inl hq)
    rw [visible_iff] at hnv
    omega

/-- A cell that the loop of `expand_to_fit` does not visit is as before. -/
theorem expand_cells_untouched (X : externals) (P : inventory_selector_preset)
    (d : inventory_column) (e : inventory_entry) (num k : Nat) (hk : k < d.cells.length)
    (hnum : num ≤ k) :
    (expand_cells X P d e num 0 d.cells).getD k {} = d.cells.getD k {} :=
  (expand_cells_getD X P d e num d.cells 0 k hk).1 (by omega)

/-- One call of `expand_to_fit`, seen from the cell at index `k`. -/
theorem expand_to_fit_cell (X : externals) (P : inventory_selector_preset)
    (d : inventory_column) (e : inventory_entry) (k : Nat) (hk : k < d.cells.length) :
    ((expand_to_fit X P d e).cells.getD k {}).real_width
      = (if counts_for P e k = true then
          max (d.cells.getD k {}).real_width (get_entry_cell_width X P d e k)
        else (d.cells.getD k {}).real_width) ∧
    (cell_fits k (d.cells.getD k {}) →
      cell_fits k ((expand_to_fit X P d e).cells.getD k {})) := by
  by_cases hnull : e.is_null = true
  · rw [expand_to_fit_null X P d e hnull]
    have hc : counts_for P e k = false := by simp [counts_for, hnull]
    rw [hc]
    exact ⟨by simp, fun h => h⟩
  · have hnull2 : e.is_null = false := bool_not_true _ hnull
    by_cases hden : get_entry_denial P e = ""
    · rw [expand_to_fit_no_denial X P d e hnull2 hden]
      have hc : counts_for P e k = true := by simp [counts_for, hnull2, hden]
      rw [hc, if_pos rfl]
      exact expand_cells_touched X P d e d.cells.length k hk hk
    · rw [expand_to_fit_denial X P d e hnull2 hden]
      simp only
      by_cases h0 : k = 0
      · have hc : counts_for P e k = true := by simp [counts_for, hnull2, h0]
        rw [hc, if_pos rfl]
        exact expand_cells_touched X P d e 1 k hk (by omega)
      · have hc : counts_for P e k = false := by simp [counts_for, hden, h0]
        rw [hc, expand_cells_untouched X P d e 1 k hk (by omega)]
        exact ⟨by simp, fun h => h⟩

/-- The width of an entry for a cell is the same on two columns with the same
rows and flags, when `allows_selecting` is. -/
theorem get_entry_cell_width_frame (X : externals) (P : inventory_selector_preset)
    (c d : inventory_column) (hf : same_frame c d)
    (hsel : X.allows_selecting d = X.allows_selecting c) (e : inventory_entry) (k : Nat) :
    get_entry_cell_width X P d e k = get_entry_cell_width X P c e k := by
  unfold get_entry_cell_width get_entry_indent
  rw [hsel, hf.2.2.1]

/-- One more call of `expand_to_fit` keeps the cells as `widths_hold`
describes them. -/
theorem widths_hold_step (X : externals) (P : inventory_selector_preset)
    (c d : inventory_column) (seen : List inventory_entry) (e : inventory_entry)
    (hsel : ∀ d2, same_frame c d2 → d2.entries = c.entries →
      X.allows_selecting d2 = X.allows_selecting c)
    (h : widths_hold X P c d seen) :
    widths_hold X P c (expand_to_fit X P d e) (seen ++ [e]) := by
  obtain ⟨hf, hent, hlen, hcells⟩ := h
  have hw : ∀ k, get_entry_cell_width X P d e k = get_entry_cell_width X P c e k :=
    get_entry_cell_width_frame X P c d hf (hsel d hf hent) e
  refine ⟨same_frame_trans c d _ hf (expand_to_fit_frame X P d e),
    by rw [expand_to_fit_entries, hent], by rw [(expand_to_fit_mono X P d e).1, hlen], ?_⟩
  intro k hk
  obtain ⟨c1, c2, c3⟩ := hcells k hk
  obtain ⟨s1, s2⟩ := expand_to_fit_cell X P d e k (by rw [hlen]; exact hk)
  rw [hw k] at s1
  refine ⟨s2 c1, ?_, ?_⟩
  · intro x hx hcx
    rcases List.mem_append.1 hx with hx | hx
    · have := c2 x hx hcx
      rw [s1]
      split
      · exact Nat.le_trans this (Nat.le_max_left _ _)
      · exact this
    · rw [List.mem_singleton.1 hx] at hcx ⊢
      rw [s1, if_pos hcx]
      exact Nat.le_max_right _ _
  · rw [s1]
    by_cases hce : counts_for P e k = true
    · rw [if_pos hce]
      rcases Nat.le_total (d.cells.getD k {}).real_width (get_entry_cell_width X P c e k)
        with hle | hle
      · right
        exact ⟨e, by simp, hce, Nat.max_eq_right hle⟩
      · rw [Nat.max_eq_left hle]
        rcases c3 with c3 | ⟨x, hx, hcx, hxe⟩
        · exact Or.inl c3
        · exact Or.inr ⟨x, List.mem_append.2 (Or.inl hx), hcx, hxe⟩
    · rw [if_neg hce]
      rcases c3 with c3 | ⟨x, hx, hcx, hxe⟩
      · exact Or.inl c3
      · exact Or.inr ⟨x, List.mem_append.2 (Or.inl hx), hcx, hxe⟩

theorem widths_hold_fold (X : externals) (P : inventory_selector_preset)
    (c : inventory_column)
    (hsel : ∀ d2, same_frame c d2 → d2.entries = c.entries →
      X.allows_selecting d2 = X.allows_selecting c)
    (es : List inventory_entry) :
    ∀ (d : inventory_column) (seen : List inventory_entry), widths_hold X P c d seen →
      widths_hold X P c (es.foldl (fun acc elem => expand_to_fit X P acc elem) d)
        (seen ++ es) := by
  induction es with
  | nil => intro d seen h; simpa using h
  | cons e rest ih =>
    intro d seen h
    have := ih (expand_to_fit X P d e) (seen ++ [e]) (widths_hold_step X P c d seen e hsel h)
    simpa using this

theorem widths_hold_cleared (X : externals) (P : inventory_selector_preset)
    (c : inventory_column) :
    widths_hold X P c
      { c with cells := c.cells.map (fun _ => ({} : cell_t)), reserved_width := 0 } [] := by
  refine ⟨by simp [same_frame], rfl, by simp, ?_⟩
  intro k hk
  have hcell : (c.cells.map (fun _ => ({} : cell_t))).getD k {} = {} := by
    rw [List.getD_eq_getElem?_getD, List.getElem?_map]
    cases c.cells[k]? <;> rfl
  simp only
  rw [hcell]
  exact ⟨Or.inl rfl, fun e he => absurd he (List.not_mem_nil e), Or.inl rfl⟩

/-- The cells after `reset_width` and further calls of `expand_to_fit` for the
entries `extra`. -/
theorem reset_width_cells (X : externals) (P : inventory_selector_preset)
    (c : inventory_column) (extra : List inventory_entry)
    (hsel : ∀ d, same_frame c d → d.entries = c.entries →
      X.allows_selecting d = X.allows_selecting c) :
    widths_hold X P c
      (extra.foldl (fun acc elem => expand_to_fit X P acc elem) (reset_width X P c))
      (c.entries ++ extra) := by
  have h1 := widths_hold_fold X P c hsel c.entries _ [] (widths_hold_cleared X P c)
  rw [List.nil_append] at h1
  exact widths_hold_fold X P c hsel extra _ c.entries h1

/-- Claim C38: after `reset_width`, and after further calls of `expand_to_fit`
for the entries `extra` with no `set_width` in between, on a column whose
`allows_selecting` does not depend on the cells and the reserved width: every
cell has `current_width` 0, or `current_width` equal to its `real_width` plus
the gap (0 for cell 0, 4 for later cells); and the `real_width` of a cell is
the greatest width for that cell of an entry that is not blank and has no
denial (for cell 0: of any entry that is not blank): no such entry is wider,
and the `real_width` is the width of one of them, or 0. -/
theorem reset_width_spec (X : externals) (P : inventory_selector_preset)
    (c : inventory_column) (extra : List inventory_entry)
    (hsel : ∀ d, same_frame c d → d.entries = c.entries →
      X.allows_selecting d = X.allows_selecting c) :
    (extra.foldl (fun acc elem => expand_to_fit X P acc elem) (reset_width X P c)).cells.length
      = c.cells.length ∧
    ∀ k, k < c.cells.length →
      cell_fits k
        ((extra.foldl (fun acc elem => expand_to_fit X P acc elem)
          (reset_width X P c)).cells.getD k {}) ∧
      (∀ e ∈ c.entries ++ extra, counts_for P e k = true →
        get_entry_cell_width X P c e k
          ≤ ((extra.foldl (fun acc elem => expand_to_fit X P acc elem)
              (reset_width X P c)).cells.getD k {}).real_width) ∧
      (((extra.foldl (fun acc elem => expand_to_fit X P acc elem)
          (reset_width X P c)).cells.getD k {}).real_width = 0 ∨
        ∃ e ∈ c.entries ++ extra, counts_for P e k = true ∧
          ((extra.foldl (fun acc elem => expand_to_fit X P acc elem)
            (reset_width X P c)).cells.getD k {}).real_width
            = get_entry_cell_width X P c e k) := by
  obtain ⟨_, _, h3, h4⟩ := reset_width_cells X P c extra hsel
  exact ⟨h3, h4⟩

/-- The sample column with two cells, in which item 2 has a denial: after
`reset_width` the first cell has the widths 3 and 3, the second 3 and 7. -/
theorem reset_width_spec_witness :
    (reset_width plain_externals sample_two_cell_preset sample_two_cell_column).cells
      = [{ real_width := 3, current_width := 3 }, { real_width := 3, current_width := 7 }] ∧
    (([] : List inventory_entry).foldl
        (fun acc elem => expand_to_fit plain_externals sample_two_cell_preset acc elem)
        (reset_width plain_externals sample_two_cell_preset sample_two_cell_column)).cells.length
      = sample_two_cell_column.cells.length ∧
    ∀ k, k < sample_two_cell_column.cells.length →
      cell_fits k
        ((([] : List inventory_entry).foldl
          (fun acc elem => expand_to_fit plain_externals sample_two_cell_preset acc elem)
          (reset_width plain_externals sample_two_cell_preset
            sample_two_cell_column)).cells.getD k {}) ∧
      (∀ e ∈ sample_two_cell_column.entries ++ [],
        counts_for sample_two_cell_preset e k = true →
        get_entry_cell_width plain_externals sample_two_cell_preset sample_two_cell_column e k
          ≤ ((([] : List inventory_entry).foldl
              (fun acc elem => expand_to_fit plain_externals sample_two_cell_preset acc elem)
              (reset_width plain_externals sample_two_cell_preset
                sample_two_cell_column)).cells.getD k {}).real_width) ∧
      ((((([] : List inventory_entry).foldl
          (fun acc elem => expand_to_fit plain_externals sample_two_cell_preset acc elem)
          (reset_width plain_externals sample_two_cell_preset
            sample_two_cell_column)).cells.getD k {}).real_width = 0) ∨
        ∃ e ∈ sample_two_cell_column.entries ++ [],
          counts_for sample_two_cell_preset e k = true ∧
          ((([] : List inventory_entry).foldl
            (fun acc elem => expand_to_fit plain_externals sample_two_cell_preset acc elem)
            (reset_width plain_externals sample_two_cell_preset
              sample_two_cell_column)).cells.getD k {}).real_width
            = get_entry_cell_width plain_externals sample_two_cell_preset
                sample_two_cell_column e k) :=
  ⟨by decide,
    reset_width_spec plain_externals sample_two_cell_preset sample_two_cell_column []
      (fun d _ he => by
        show activatable d = activatable sample_two_cell_column
        unfold activatable
        rw [he])⟩

/-! ## Vitamins: `vitamin_mod`, `vitamin_get` and `vitamin_set` -/

theorem levels_find_assign (levels : List (String × Int)) (vit : String) (level : Int)
    (h : (levels_find levels vit).isSome = true) :
    levels_find (levels_assign levels vit level) vit = some level := by
  unfold levels_find levels_assign at *
  induction levels with
  | nil => simp at h
  | cons l rest ih =>
    by_cases hl : l.1 = vit
    · simp only [List.map_cons, if_pos hl, List.find?_cons, decide_True, Option.map_some']
    · simp only [List.find?_cons, decide_eq_false hl] at h
      simp only [List.map_cons, if_neg hl, List.find?_cons, decide_eq_false hl]
      exact ih h

theorem levels_find_assign_other (levels : List (String × Int)) (vit other : String)
    (level : Int) (h : other ≠ vit) :
    levels_find (levels_assign levels vit level) other = levels_find levels other := by
  unfold levels_find levels_assign
  induction levels with
  | nil => rfl
  | cons l rest ih =>
    by_cases hl : l.1 = vit
    · have hne : ¬ l.1 = other := by rw [hl]; exact fun e => h e.symm
      have hne2 : ¬ vit = other := fun e => h e.symm
      simp only [List.map_cons, if_pos hl, List.find?_cons, decide_eq_false hne,
        decide_eq_false hne2]
      exact ih
    · by_cases ho : l.1 = other
      · simp only [List.map_cons, if_neg hl, List.find?_cons, decide_eq_true ho]
      · simp only [List.map_cons, if_neg hl, List.find?_cons, decide_eq_false ho]
        exact ih

/-- The level that `vitamin_mod` returns for a tracked vitamin, and the map of
the levels afterwards. -/
theorem vitamin_mod_tracked (env : vitamin_env) (p : player) (vit : String) (qty : Int)
    (capped : Bool) (level : Int) (h : levels_find p.vitamin_levels vit = some level) :
    (vitamin_mod env p vit qty capped).2
      = vitamin_mod_level (vitamin_obj env.vitamins_all vit) level qty capped ∧
    (vitamin_mod env p vit qty capped).1.vitamin_levels
      = levels_assign p.vitamin_levels vit
          (vitamin_mod_level (vitamin_obj env.vitamins_all vit) level qty capped) := by
  unfold vitamin_mod
  rw [h]
  simp only
  split <;> exact ⟨rfl, rfl⟩

theorem vitamin_mod_untracked (env : vitamin_env) (p : player) (vit : String) (qty : Int)
    (capped : Bool) (h : levels_find p.vitamin_levels vit = none) :
    vitamin_mod env p vit qty capped = (p, 0) := by
  unfold vitamin_mod
  rw [h]

/-- After `vitamin_mod` for a tracked vitamin `vitamin_get` gives the returned
level, and the levels of the other vitamins are as before. -/
theorem vitamin_get_mod (env : vitamin_env) (p : player) (vit : String) (qty : Int)
    (capped : Bool) (level : Int) (h : levels_find p.vitamin_levels vit = some level) :
    vitamin_get (vitamin_mod env p vit qty capped).1 vit
      = (vitamin_mod env p vit qty capped).2 ∧
    ∀ other, other ≠ vit →
      vitamin_get (vitamin_mod env p vit qty capped).1 other = vitamin_get p other := by
  obtain ⟨h1, h2⟩ := vitamin_mod_tracked env p vit qty capped level h
  unfold vitamin_get
  rw [h2, h1]
  refine ⟨?_, ?_⟩
  · rw [levels_find_assign _ _ _ (by rw [h]; rfl)]
  · intro other hne
    rw [levels_find_assign_other _ _ _ _ hne]

theorem vitamin_mod_level_positive (v : vitamin) (level qty : Int) (capped : Bool)
    (hq : 0 < qty) (hl : -(2 ^ 31) ≤ level) (hr : level + qty < 2 ^ 31) :
    vitamin_mod_level v level qty capped = min (level + qty) (if capped then 0 else v.max) := by
  unfold vitamin_mod_level
  rw [if_pos hq, bmod_small _ (by omega) hr]

/-- The level after `vitamin_set` for a tracked vitamin whose level is between
the least and the greatest level, when the difference does not overflow. -/
theorem vitamin_set_level (v : vitamin) (level q : Int)
    (hmin : v.min ≤ level) (hmax : level ≤ v.max)
    (hq0 : -(2 ^ 31) ≤ q) (hq1 : q < 2 ^ 31)
    (hd0 : -(2 ^ 31) ≤ q - level) (hd1 : q - level < 2 ^ 31) :
    vitamin_mod_level v level (Int.bmod (q - level) (2 ^ 32)) false = max v.min (min q v.max) := by
  rw [bmod_small _ hd0 hd1]
  unfold vitamin_mod_level
  have e : level + (q - level) = q := by omega
  rw [e, bmod_small _ hq0 hq1]
  by_cases h1 : 0 < q - level
  · rw [if_pos h1]
    simp only [Bool.false_eq_true, if_false]
    omega
  · rw [if_neg h1]
    by_cases h2 : q - level < 0
    · rw [if_pos h2]
      omega
    · rw [if_neg h2]
      omega

/-- Claim C39: for a vitamin that the player tracks, with a level between the
least and the greatest level of its definition, and a quantity `q` whose
difference to the level is in the range of `int`, `vitamin_set` returns true
and afterwards `vitamin_get` gives `q` clamped to the least and the greatest
level, so `q` itself when it lies between them; the levels of the other
vitamins are as before.  For a vitamin that the player does not track,
`vitamin_set` returns false, `vitamin_mod` returns 0, `vitamin_get` returns 0
and the player is as before. -/
theorem vitamin_set_spec (env : vitamin_env) (p : player) (vit : String) (q : Int) :
    (∀ level, levels_find p.vitamin_levels vit = some level →
      (vitamin_obj env.vitamins_all vit).min ≤ level →
      level ≤ (vitamin_obj env.vitamins_all vit).max →
      -(2 ^ 31) ≤ q → q < 2 ^ 31 → -(2 ^ 31) ≤ q - level → q - level < 2 ^ 31 →
      (vitamin_set env p vit q).2 = true ∧
      vitamin_get (vitamin_set env p vit q).1 vit
        = max (vitamin_obj env.vitamins_all vit).min
            (min q (vitamin_obj env.vitamins_all vit).max) ∧
      ((vitamin_obj env.vitamins_all vit).min ≤ q →
        q ≤ (vitamin_obj env.vitamins_all vit).max →
        vitamin_get (vitamin_set env p vit q).1 vit = q) ∧
      ∀ other, other ≠ vit →
        vitamin_get (vitamin_set env p vit q).1 other = vitamin_get p other) ∧
    (levels_find p.vitamin_levels vit = none →
      vitamin_set env p vit q = (p, false) ∧
      (∀ qty capped, vitamin_mod env p vit qty capped = (p, 0)) ∧
      vitamin_get p vit = 0) := by
  constructor
  · intro level h hmin hmax hq0 hq1 hd0 hd1
    have hset : vitamin_set env p vit q
        = ((vitamin_mod env p vit (Int.bmod (q - level) (2 ^ 32)) false).1, true) := by
      unfold vitamin_set
      rw [h]
    obtain ⟨g1, g2⟩ := vitamin_get_mod env p vit (Int.bmod (q - level) (2 ^ 32)) false level h
    obtain ⟨m1, _⟩ := vitamin_mod_tracked env p vit (Int.bmod (q - level) (2 ^ 32)) false
      level h
    have hl := vitamin_set_level (vitamin_obj env.vitamins_all vit) level q hmin hmax hq0 hq1
      hd0 hd1
    rw [hset]
    simp only
    rw [g1, m1, hl]
    refine ⟨trivial, rfl, ?_, g2⟩
    intro h1 h2
    omega
  · intro h
    refine ⟨?_, fun qty capped => vitamin_mod_untracked env p vit qty capped h, ?_⟩
    · unfold vitamin_set
      rw [h]
    · unfold vitamin_get
      rw [h]

/-- The sample player, who tracks the sample vitamin (levels from -100 to 50) at
the level 5: setting 70 gives 50, setting 20 gives 20, and a vitamin that is
not tracked is refused. -/
theorem vitamin_set_spec_witness :
    vitamin_get (vitamin_set sample_vitamin_env sample_player "vitC" 70).1 "vitC" = 50 ∧
    vitamin_get (vitamin_set sample_vitamin_env sample_player "vitC" 20).1 "vitC" = 20 ∧
    vitamin_set sample_vitamin_env sample_player "vitB" 70 = (sample_player, false) ∧
    ((∀ level, levels_find sample_player.vitamin_levels "vitC" = some level →
      (vitamin_obj sample_vitamin_env.vitamins_all "vitC").min ≤ level →
      level ≤ (vitamin_obj sample_vitamin_env.vitamins_all "vitC").max →
      -(2 ^ 31) ≤ (70 : Int) → (70 : Int) < 2 ^ 31 → -(2 ^ 31) ≤ 70 - level →
      70 - level < 2 ^ 31 →
      (vitamin_set sample_vitamin_env sample_player "vitC" 70).2 = true ∧
      vitamin_get (vitamin_set sample_vitamin_env sample_player "vitC" 70).1 "vitC"
        = max (vitamin_obj sample_vitamin_env.vitamins_all "vitC").min
            (min 70 (vitamin_obj sample_vitamin_env.vitamins_all "vitC").max) ∧
      ((vitamin_obj sample_vitamin_env.vitamins_all "vitC").min ≤ 70 →
        70 ≤ (vitamin_obj sample_vitamin_env.vitamins_all "vitC").max →
        vitamin_get (vitamin_set sample_vitamin_env sample_player "vitC" 70).1 "vitC" = 70) ∧
      ∀ other, other ≠ "vitC" →
        vitamin_get (vitamin_set sample_vitamin_env sample_player "vitC" 70).1 other
          = vitamin_get sample_player other) ∧
    (levels_find sample_player.vitamin_levels "vitC" = none →
      vitamin_set sample_vitamin_env sample_player "vitC" 70 = (sample_player, false) ∧
      (∀ qty capped, vitamin_mod sample_vitamin_env sample_player "vitC" qty capped
        = (sample_player, 0)) ∧
      vitamin_get sample_player "vitC" = 0)) :=
  ⟨by decide, by decide, by decide,
    vitamin_set_spec sample_vitamin_env sample_player "vitC" 70⟩

/-- Counterexample to claim C40: the sample player tracks the sample vitamin at
the level 5; `vitamin_mod` with the quantity 1 and `capped` returns the level
0, which is lower. -/
theorem vitamin_mod_positive_counterexample :
    levels_find sample_player.vitamin_levels "vitC" = some 5 ∧
    (vitamin_mod sample_vitamin_env sample_player "vitC" 1 true).2 = 0 ∧
    vitamin_get (vitamin_mod sample_vitamin_env sample_player "vitC" 1 true).1 "vitC" = 0 ∧
    ¬ (5 ≤ (vitamin_mod sample_vitamin_env sample_player "vitC" 1 true).2) := by
  decide

/-- Claim C40, amended: for a tracked vitamin at the level `level` and a
quantity `qty > 0` whose sum with the level is in the range of `int`,
`vitamin_mod` returns, and leaves as the level, the smaller of `level + qty`
and the cap, which is 0 when `capped` and the greatest level of the vitamin
otherwise.  The level is not lowered when it was at most the cap, and it is
lowered to the cap when it was above it; with `capped` the result never
exceeds 0. -/
theorem vitamin_mod_positive (env : vitamin_env) (p : player) (vit : String) (qty : Int)
    (capped : Bool) (level : Int) (h : levels_find p.vitamin_levels vit = some level)
    (hq : 0 < qty) (hl : -(2 ^ 31) ≤ level) (hr : level + qty < 2 ^ 31) :
    (vitamin_mod env p vit qty capped).2
      = min (level + qty) (if capped then 0 else (vitamin_obj env.vitamins_all vit).max) ∧
    vitamin_get (vitamin_mod env p vit qty capped).1 vit
      = (vitamin_mod env p vit qty capped).2 ∧
    (capped = true → (vitamin_mod env p vit qty capped).2 ≤ 0) ∧
    (level ≤ (if capped then 0 else (vitamin_obj env.vitamins_all vit).max) →
      level ≤ (vitamin_mod env p vit qty capped).2) ∧
    ((if capped then 0 else (vitamin_obj env.vitamins_all vit).max) < level →
      (vitamin_mod env p vit qty capped).2
        = (if capped then 0 else (vitamin_obj env.vitamins_all vit).max)) := by
  obtain ⟨m1, _⟩ := vitamin_mod_tracked env p vit qty capped level h
  obtain ⟨g1, _⟩ := vitamin_get_mod env p vit qty capped level h
  have hlev := vitamin_mod_level_positive (vitamin_obj env.vitamins_all vit) level qty capped
    hq hl hr
  rw [g1, m1, hlev]
  refine ⟨rfl, rfl, ?_, ?_, ?_⟩
  · intro hc
    rw [hc]
    simp only [if_true]
    omega
  · intro hle
    omega
  · intro hlt
    omega

/-- The sample player at the level 5: the quantity 10 without the cap gives 15,
with the cap it gives 0. -/
theorem vitamin_mod_positive_witness :
    (vitamin_mod sample_vitamin_env sample_player "vitC" 10 false).2 = 15 ∧
    ((vitamin_mod sample_vitamin_env sample_player "vitC" 10 true).2
      = min (5 + 10)
          (if true = true then 0 else (vitamin_obj sample_vitamin_env.vitamins_all "vitC").max) ∧
    vitamin_get (vitamin_mod sample_vitamin_env sample_player "vitC" 10 true).1 "vitC"
      = (vitamin_mod sample_vitamin_env sample_player "vitC" 10 true).2 ∧
    (true = true → (vitamin_mod sample_vitamin_env sample_player "vitC" 10 true).2 ≤ 0) ∧
    (5 ≤ (if true = true then 0 else (vitamin_obj sample_vitamin_env.vitamins_all "vitC").max) →
      5 ≤ (vitamin_mod sample_vitamin_env sample_player "vitC" 10 true).2) ∧
    ((if true = true then 0 else (vitamin_obj sample_vitamin_env.vitamins_all "vitC").max) < 5 →
      (vitamin_mod sample_vitamin_env sample_player "vitC" 10 true).2
        = (if true = true then 0
            else (vitamin_obj sample_vitamin_env.vitamins_all "vitC").max))) :=
  ⟨by decide,
    vitamin_mod_positive sample_vitamin_env sample_player "vitC" 10 true 5 (by decide)
      (by decide) (by decide) (by decide)⟩

end InventoryUI
